import Mathlib

/-!
# Out-of-order pipeline simulator (procsim.cpp)

A shallow embedding of `src/lab3-src/procsim.cpp`: the global simulator state
becomes the record `Sim`, each pipeline stage becomes a function `Sim → Sim`,
and the `while` loop of `run_proc` becomes a stage-by-stage transition system
(`Reach`, over `stage_fn`) together with a fuel-bounded loop (`run_proc`).

Modelling conventions.
* Instruction records are shared between `all_instrs`, `dispatching_queue`
  and `scheduling_queue` through `shared_ptr`s.  The embedding keeps the
  records in a heap `Nat → proc_inst_t`; a pointer is the allocation number
  of the record, and the three containers hold pointers.
* `unordered_map`s are total functions: a key that was never written holds
  the value-initialised entry (`operator[]` creates it on first access).
  Register numbers and opcode classes are `int32_t`; their conversion to the
  `uint32_t` key is injective, so the maps are keyed by the number itself.
* Counters that only count up from their initial value (`cycle_count`,
  `read_cnt`, ids, `retired_instruction`, the local `sched_size`) are natural
  numbers or unbounded integers; no run wraps a 32/64-bit counter.
* The configuration `r, k0, k1, k2, f` arrives as `uint64_t` and is narrowed
  where the code stores it in a narrower type: `scheduling_queue_limit` is an
  `int` (`to_int`, 32-bit two's complement), the values of `fu_cnt` are
  `uint32_t` (reduction modulo 2^32), and `find_free_cdb` bounds its loop by
  `int size = cdb.size()`.  The loops of `free_cdb` and
  `update_instruction_from_cdb` carry the same bound and act on busy buses
  only; a bus beyond the bound is never claimed, so they are written as loops
  over all buses.  A unit counter never exceeds its narrowed initial value,
  so its increment is written without reduction; the local `available_size`
  is narrowed where it is initialised and is an unbounded integer in the
  loop that decrements it.
* The maps `fu0`, `fu1`, `fu2` are initialised by `setup_proc` and never
  read; they are left out.
* The header `procsim.hpp` and the trace reader are not part of the sources.
  Records are value-initialised (`new proc_inst_t()`), the settings
  constructor starts with `read_cnt = 0` and both flags false, and
  `read_instruction` yields the next line of the trace or fails on exhaustion.
-/

namespace Procsim

/-- One line of the instruction trace, as delivered by `read_instruction`. -/
structure trace_line where
  op_code : Int
  src_reg0 : Int
  src_reg1 : Int
  dest_reg : Int
  deriving DecidableEq, Repr

/-- Instruction record `proc_inst_t` (`src_reg[0..1]`, `src_ready[0..1]`,
`src_tag[0..1]` are spelled out as two fields each). -/
structure proc_inst_t where
  op_code : Int
  src_reg0 : Int
  src_reg1 : Int
  dest_reg : Int
  id : Nat
  reserved : Bool
  fire : Bool
  fired : Bool
  executed : Bool
  src_ready0 : Bool
  src_ready1 : Bool
  src_tag0 : Nat
  src_tag1 : Nat
  cycle_fetch_decode : Nat
  cycle_dispatch : Nat
  cycle_schedule : Nat
  cycle_execute : Nat
  cycle_status_update : Nat
  deriving DecidableEq, Repr

/-- Register file entry `register_info_t`. -/
structure register_info_t where
  ready : Bool
  tag : Nat
  deriving DecidableEq, Repr

/-- Result bus `proc_cdb_t`. -/
structure proc_cdb_t where
  free : Bool
  reg : Int
  tag : Nat
  deriving DecidableEq, Repr

/-- Run settings `proc_settings_t` (the dump range only drives printing). -/
structure proc_settings_t where
  f : Nat
  begin_dump : Nat
  end_dump : Nat
  read_cnt : Nat
  read_finished : Bool
  finished : Bool
  deriving DecidableEq, Repr

/-- Statistics `proc_stats_t` (integer part). -/
structure proc_stats_t where
  retired_instruction : Nat
  cycle_count : Nat
  max_disp_size : Nat
  sum_disp_size : Nat
  deriving DecidableEq, Repr

/-- The global state of the simulator. -/
structure Sim where
  cpu : proc_settings_t
  stats : proc_stats_t
  heap : Nat → proc_inst_t
  all_instrs : List Nat
  dispatching_queue : List Nat
  scheduling_queue : List Nat
  scheduling_queue_limit : Int
  register_file : Int → register_info_t
  cdb : List proc_cdb_t
  fu_cnt : Int → Nat
  trace : List trace_line

/-- A value-initialised record, `new proc_inst_t()`. -/
def blank_inst : proc_inst_t :=
  { op_code := 0, src_reg0 := 0, src_reg1 := 0, dest_reg := 0, id := 0,
    reserved := false, fire := false, fired := false, executed := false,
    src_ready0 := false, src_ready1 := false, src_tag0 := 0, src_tag1 := 0,
    cycle_fetch_decode := 0, cycle_dispatch := 0, cycle_schedule := 0,
    cycle_execute := 0, cycle_status_update := 0 }

/-- Write through a pointer: `*p = i`. -/
def Sim.setInst (s : Sim) (p : Nat) (i : proc_inst_t) : Sim :=
  { s with heap := fun q => if q = p then i else s.heap q }

/-- Assignment `m[k] = v` on a map. -/
def mapSet {β : Type} (m : Int → β) (k : Int) (v : β) : Int → β :=
  fun x => if x = k then v else m x

/-- Conversion of an unsigned value (`uint64_t`, `size_t`) to `int` (32 bits,
two's complement): the value is reduced modulo `4294967296 = 2^32`, and a
residue from `2147483648 = 2^31` on stands for the negative number `2^32`
below it. -/
def to_int (n : Nat) : Int :=
  if n % 4294967296 < 2147483648 then ((n % 4294967296 : Nat) : Int)
  else ((n % 4294967296 : Nat) : Int) - 4294967296

/-- The register file after the initialisation loop of `setup_proc`: the
entries 0..63 are ready, any other key holds the value-initialised entry. -/
def reg_init : Int → register_info_t :=
  fun i => if 0 ≤ i ∧ i < 64 then { ready := true, tag := 0 } else { ready := false, tag := 0 }

/-- The unit counts written by `setup_proc`: `fu_cnt[0] = k0`, `fu_cnt[1] = k1`,
`fu_cnt[2] = k2`, each `uint64_t` count stored in a `uint32_t` (modulo
`4294967296 = 2^32`); any other key holds the value-initialised count 0. -/
def fu_init (k0 k1 k2 : Nat) : Int → Nat :=
  fun c => if c = 0 then k0 % 4294967296 else if c = 1 then k1 % 4294967296
    else if c = 2 then k2 % 4294967296 else 0

/-- The routine `setup_proc`: 64 ready registers, `r` free buses, the unit
counts, and the window limit: `2 * (k0 + k1 + k2)` is computed in `uint64_t`
(modulo `18446744073709551616 = 2^64`) and stored in the `int`
`scheduling_queue_limit`. -/
def setup_proc (r k0 k1 k2 f : Nat) (trace : List trace_line) : Sim :=
  { cpu := { f := f, begin_dump := 0, end_dump := 0, read_cnt := 0,
             read_finished := false, finished := false }
    stats := { retired_instruction := 0, cycle_count := 1,
               max_disp_size := 0, sum_disp_size := 0 }
    heap := fun _ => blank_inst
    all_instrs := []
    dispatching_queue := []
    scheduling_queue := []
    scheduling_queue_limit := to_int (2 * (k0 + k1 + k2) % 18446744073709551616)
    register_file := reg_init
    cdb := List.replicate r { free := true, reg := 0, tag := 0 }
    fu_cnt := fu_init k0 k1 k2
    trace := trace }

/-! ## State update -/

/-- Body of the first-half loop of `state_update`. -/
def state_update_first_body (s : Sim) (p : Nat) : Sim :=
  if (s.heap p).executed = true ∧ (s.heap p).cycle_status_update = 0 then
    s.setInst p { s.heap p with cycle_status_update := s.stats.cycle_count }
  else s

/-- First half of `state_update`. -/
def state_update_first (s : Sim) : Sim :=
  s.scheduling_queue.foldl state_update_first_body s

/-- The erase loop of the second half of `state_update`: walks the window,
drops every record carrying a retirement timestamp and counts it. -/
def sweep (heap : Nat → proc_inst_t) : List Nat → Nat → List Nat × Nat
  | [], retired => ([], retired)
  | p :: rest, retired =>
    if (heap p).cycle_status_update ≠ 0 then sweep heap rest (retired + 1)
    else ((sweep heap rest retired).1.cons p, (sweep heap rest retired).2)

/-- Second half of `state_update`. -/
def state_update_second (s : Sim) : Sim :=
  let r := sweep s.heap s.scheduling_queue s.stats.retired_instruction
  let s1 : Sim := { s with scheduling_queue := r.1,
                           stats := { s.stats with retired_instruction := r.2 } }
  if s1.cpu.read_finished = true ∧ s1.stats.retired_instruction = s1.cpu.read_cnt then
    { s1 with cpu := { s1.cpu with finished := true } }
  else s1

/-! ## Execute -/

/-- The loop `for (i = 0; i < size; i++)` of `find_free_cdb` from bus `i` on:
the list holds the buses `cdb[i]`, `cdb[i + 1]`, ..., the last argument counts
the remaining iterations `size - i`; the first free bus among them is claimed
for `instr`, and `none` is the return value 0. -/
def find_free_cdb_loop (instr : proc_inst_t) :
    List proc_cdb_t → Nat → Option (List proc_cdb_t)
  | [], _ => none
  | c :: rest, n =>
    if n = 0 then none
    else if c.free = true then
      some ({ free := false, reg := instr.dest_reg, tag := instr.id } :: rest)
    else (find_free_cdb_loop instr rest (n - 1)).map (fun l => c :: l)

/-- The routine `find_free_cdb`: the loop runs over the buses below
`int size = cdb.size()`, so it has no iteration when the narrowed size is
not positive. -/
def find_free_cdb (instr : proc_inst_t) (cdb : List proc_cdb_t) : Option (List proc_cdb_t) :=
  find_free_cdb_loop instr cdb (to_int cdb.length).toNat

/-- The routine `free_cdb`. -/
def free_cdb (cdb : List proc_cdb_t) : List proc_cdb_t :=
  cdb.map (fun c => if c.free = false then { free := true, reg := 0, tag := 0 } else c)

/-- Inner body of `update_instruction_from_cdb` for one bus tag and one record. -/
def wake (tag : Nat) (i : proc_inst_t) : proc_inst_t :=
  let i1 := if i.src_ready0 = false ∧ i.src_tag0 = tag then
      { i with src_tag0 := 0, src_ready0 := true } else i
  if i1.src_ready1 = false ∧ i1.src_tag1 = tag then
    { i1 with src_tag1 := 0, src_ready1 := true } else i1

/-- Inner loop body of `update_instruction_from_cdb`: the record behind `p`
is woken by the bus tag. -/
def wake_body (tag : Nat) (s : Sim) (p : Nat) : Sim :=
  s.setInst p (wake tag (s.heap p))

/-- Outer loop body of `update_instruction_from_cdb`: a busy bus wakes every
windowed record on a tag match. -/
def broadcast (s : Sim) (c : proc_cdb_t) : Sim :=
  if c.free = false then s.scheduling_queue.foldl (wake_body c.tag) s else s

/-- The routine `update_instruction_from_cdb`. -/
def update_instruction_from_cdb (s : Sim) : Sim :=
  s.cdb.foldl broadcast s

/-- Body of the first-half loop of `execute`. -/
def execute_first_body (s : Sim) (p : Nat) : Sim :=
  if (s.heap p).fired = true ∧ (s.heap p).cycle_execute = 0 then
    match find_free_cdb (s.heap p) s.cdb with
    | none => s
    | some cdb1 =>
      { s with
        cdb := cdb1
        register_file := mapSet s.register_file (s.heap p).dest_reg { ready := true, tag := 0 }
        fu_cnt := mapSet s.fu_cnt (s.heap p).op_code (s.fu_cnt (s.heap p).op_code + 1)
        heap := fun q => if q = p then
          { s.heap p with cycle_execute := s.stats.cycle_count, executed := true }
          else s.heap q }
  else s

/-- First half of `execute`. -/
def execute_first (s : Sim) : Sim :=
  s.scheduling_queue.foldl execute_first_body s

/-- Second half of `execute`: broadcast, then free every bus. -/
def execute_second (s : Sim) : Sim :=
  let s1 := update_instruction_from_cdb s
  { s1 with cdb := free_cdb s1.cdb }

/-! ## Schedule -/

/-- The routine `instr_src_available`. -/
def instr_src_available (i : proc_inst_t) : Bool :=
  i.src_ready0 && i.src_ready1

/-- Body of the first-half loop of `schedule`, on one record. -/
def schedule_first_inst (cycle_count : Nat) (i : proc_inst_t) : proc_inst_t :=
  if i.fire = true then i
  else
    let i1 := if i.cycle_schedule = 0 then { i with cycle_schedule := cycle_count } else i
    if instr_src_available i1 = false then i1 else { i1 with fire := true }

/-- Body of the first-half loop of `schedule`. -/
def schedule_first_body (s : Sim) (p : Nat) : Sim :=
  s.setInst p (schedule_first_inst s.stats.cycle_count (s.heap p))

/-- First half of `schedule`. -/
def schedule_first (s : Sim) : Sim :=
  s.scheduling_queue.foldl schedule_first_body s

/-- Body of the second-half loop of `schedule`. -/
def schedule_second_body (s : Sim) (p : Nat) : Sim :=
  if (s.heap p).fire = true ∧ (s.heap p).fired = false then
    if s.fu_cnt (s.heap p).op_code = 0 then s
    else
      { s with
        fu_cnt := mapSet s.fu_cnt (s.heap p).op_code (s.fu_cnt (s.heap p).op_code - 1)
        heap := fun q => if q = p then { s.heap p with fired := true } else s.heap q }
  else s

/-- Second half of `schedule`. -/
def schedule_second (s : Sim) : Sim :=
  s.scheduling_queue.foldl schedule_second_body s

/-! ## Dispatch -/

/-- The routine `update_instr`: operand readiness read from the register file. -/
def update_instr (rf : Int → register_info_t) (i : proc_inst_t) : proc_inst_t :=
  let i1 :=
    if i.src_reg0 ≠ -1 then
      if (rf i.src_reg0).ready = false then
        { i with src_tag0 := (rf i.src_reg0).tag, src_ready0 := false }
      else { i with src_ready0 := true, src_tag0 := 0 }
    else { i with src_ready0 := true, src_tag0 := 0 }
  if i1.src_reg1 ≠ -1 then
    if (rf i1.src_reg1).ready = false then
      { i1 with src_tag1 := (rf i1.src_reg1).tag, src_ready1 := false }
    else { i1 with src_ready1 := true, src_tag1 := 0 }
  else { i1 with src_ready1 := true, src_tag1 := 0 }

/-- The reservation loop of the first half of `dispatch`; the second
component is the local `available_size`. -/
def reserve_body (acc : Sim × Int) (p : Nat) : Sim × Int :=
  if acc.2 ≠ 0 then
    (acc.1.setInst p { acc.1.heap p with reserved := true }, acc.2 - 1)
  else acc

/-- First half of `dispatch`; the difference of the `int` limit and the
`size_t` window size is computed in `size_t` (modulo
`18446744073709551616 = 2^64`) and stored in the `int` `available_size`. -/
def dispatch_first (s : Sim) : Sim :=
  let available_size : Int :=
    to_int ((s.scheduling_queue_limit - (s.scheduling_queue.length : Int)) %
      18446744073709551616).toNat
  let n := s.dispatching_queue.length
  let st : proc_stats_t :=
    { s.stats with
      max_disp_size := if s.stats.max_disp_size < n then n else s.stats.max_disp_size
      sum_disp_size := s.stats.sum_disp_size + n }
  (s.dispatching_queue.foldl reserve_body ({ s with stats := st }, available_size)).1

/-- Body of the drain loop of the second half of `dispatch` for a reserved
front record: operand lookup, claim of the destination register, move into
the window. -/
def dispatch_one (s : Sim) (p : Nat) : Sim :=
  let i := update_instr s.register_file (s.heap p)
  { s with
    heap := fun q => if q = p then i else s.heap q
    register_file :=
      if i.dest_reg ≠ -1 then mapSet s.register_file i.dest_reg { ready := false, tag := i.id }
      else s.register_file
    scheduling_queue := s.scheduling_queue ++ [p] }

/-- The drain loop of the second half of `dispatch`, on the queue content. -/
def drain (s : Sim) : List Nat → Sim
  | [] => { s with dispatching_queue := [] }
  | p :: rest =>
    if (s.heap p).reserved = false then { s with dispatching_queue := p :: rest }
    else drain (dispatch_one s p) rest

/-- Second half of `dispatch`. -/
def dispatch_second (s : Sim) : Sim :=
  drain s s.dispatching_queue

/-! ## Fetch and decode -/

/-- The record set up by `instr_fetch_and_decode` for the trace line `t`,
with id `id`, fetched in cycle `cc`. -/
def new_inst (t : trace_line) (id cc : Nat) : proc_inst_t :=
  { blank_inst with
    op_code := t.op_code, src_reg0 := t.src_reg0, src_reg1 := t.src_reg1,
    dest_reg := t.dest_reg,
    id := id,
    fire := false, fired := false, executed := false,
    cycle_fetch_decode := cc,
    cycle_dispatch := cc + 1,
    cycle_schedule := 0, cycle_execute := 0, cycle_status_update := 0 }

/-- Body of the read loop of `instr_fetch_and_decode` after a successful
read of the line `t`: the new record is initialised, logged in `all_instrs`
and appended to the dispatch queue. -/
def fetch_one (s : Sim) (t : trace_line) (rest : List trace_line) : Sim :=
  let p := s.all_instrs.length
  { s with
    heap := fun q =>
      if q = p then new_inst t (s.cpu.read_cnt + 1) s.stats.cycle_count else s.heap q
    all_instrs := s.all_instrs ++ [p]
    dispatching_queue := s.dispatching_queue ++ [p]
    cpu := { s.cpu with read_cnt := s.cpu.read_cnt + 1 }
    trace := rest }

/-- The read loop of `instr_fetch_and_decode`; the first argument counts the
remaining iterations of `for (i = 0; i < cpu.f; i++)`. -/
def fetch_loop : Nat → Sim → Sim
  | 0, s => s
  | n + 1, s =>
    match s.trace with
    | [] => { s with cpu := { s.cpu with read_finished := true } }
    | t :: rest => fetch_loop n (fetch_one s t rest)

/-- The routine `instr_fetch_and_decode` (second half). -/
def instr_fetch_and_decode (s : Sim) : Sim :=
  if s.cpu.read_finished = false then fetch_loop s.cpu.f s else s

/-- The statement `p_stats->cycle_count++`. -/
def inc_cycle (s : Sim) : Sim :=
  { s with stats := { s.stats with cycle_count := s.stats.cycle_count + 1 } }

/-! ## The run loop -/

/-- Program points of the loop of `run_proc`: the stage that runs next.
`su1 .. di1` are the first-half calls, `su2 .. fd` the second-half calls,
`inc` the cycle increment and `halt` the exit of the loop. -/
inductive Stage where
  | su1 | ex1 | sc1 | di1 | su2 | ex2 | sc2 | di2 | fd | inc | halt
  deriving DecidableEq, Repr

/-- The effect of the statement at a program point. -/
def stage_fn : Stage → Sim → Sim
  | .su1, s => if s.cpu.finished = true then s else state_update_first s
  | .ex1, s => execute_first s
  | .sc1, s => schedule_first s
  | .di1, s => dispatch_first s
  | .su2, s => state_update_second s
  | .ex2, s => execute_second s
  | .sc2, s => schedule_second s
  | .di2, s => dispatch_second s
  | .fd, s => instr_fetch_and_decode s
  | .inc, s => inc_cycle s
  | .halt, s => s

/-- The program point after the statement at `pc`, given the state `s` in
which the statement started: the loop head (`su1`) and the test after the
second-half `state_update` leave the loop once `finished` is set. -/
def next_stage : Stage → Sim → Stage
  | .su1, s => if s.cpu.finished = true then .halt else .ex1
  | .ex1, _ => .sc1
  | .sc1, _ => .di1
  | .di1, _ => .su2
  | .su2, s => if (state_update_second s).cpu.finished = true then .halt else .ex2
  | .ex2, _ => .sc2
  | .sc2, _ => .di2
  | .di2, _ => .fd
  | .fd, _ => .inc
  | .inc, _ => .su1
  | .halt, _ => .halt

/-- States reachable from `s0` by the stage sequence of `run_proc`,
together with the program point they are observed at. -/
inductive Reach (s0 : Sim) : Stage → Sim → Prop
  | init : Reach s0 .su1 s0
  | step {pc : Stage} {s : Sim} : Reach s0 pc s → Reach s0 (next_stage pc s) (stage_fn pc s)

/-- One iteration of the body of the `while` loop of `run_proc`. -/
def cycle (s : Sim) : Sim :=
  let s1 := state_update_second (dispatch_first (schedule_first (execute_first (state_update_first s))))
  if s1.cpu.finished = true then s1
  else inc_cycle (instr_fetch_and_decode (dispatch_second (schedule_second (execute_second s1))))

/-- The loop of `run_proc` with a bound on the number of iterations:
`some s` is the state in which the loop exits, `none` means the bound was
reached first. -/
def run_proc : Nat → Sim → Option Sim
  | 0, s => if s.cpu.finished = true then some s else none
  | n + 1, s => if s.cpu.finished = true then some s else run_proc n (cycle s)

/-! ## Auxiliary definitions for the statements -/

/-- Iterating the stage transition `n` times from a program point. -/
def run_stages : Nat → Stage × Sim → Stage × Sim
  | 0, c => c
  | n + 1, c => run_stages n (next_stage c.1 c.2, stage_fn c.1 c.2)

/-- Layout of the containers: `all_instrs` holds the pointers `0 .. read_cnt - 1`
in fetch order, the dispatch queue holds the pointers `a .. read_cnt - 1`, and
the window holds pointers below `a` in increasing order. -/
def Layout (s : Sim) (a : Nat) : Prop :=
  a ≤ s.cpu.read_cnt ∧
  s.all_instrs = List.range s.cpu.read_cnt ∧
  s.dispatching_queue = List.range' a (s.cpu.read_cnt - a) ∧
  (∀ p ∈ s.scheduling_queue, p < a) ∧
  s.scheduling_queue.Pairwise (fun x y => x < y)

/-- Order on the states of one record: `j` is a later state of `i`.  The fields
read from the trace, the id and the fetch/dispatch stamps are fixed, a stage
stamp is written once, and the progress flags are only ever raised. -/
structure InstLe (i j : proc_inst_t) : Prop where
  op_code : j.op_code = i.op_code
  src_reg0 : j.src_reg0 = i.src_reg0
  src_reg1 : j.src_reg1 = i.src_reg1
  dest_reg : j.dest_reg = i.dest_reg
  id : j.id = i.id
  cycle_fetch_decode : j.cycle_fetch_decode = i.cycle_fetch_decode
  cycle_dispatch : j.cycle_dispatch = i.cycle_dispatch
  cycle_schedule : i.cycle_schedule ≠ 0 → j.cycle_schedule = i.cycle_schedule
  cycle_execute : i.cycle_execute ≠ 0 → j.cycle_execute = i.cycle_execute
  cycle_status_update : i.cycle_status_update ≠ 0 → j.cycle_status_update = i.cycle_status_update
  reserved : i.reserved = true → j.reserved = true
  fire : i.fire = true → j.fire = true
  fired : i.fired = true → j.fired = true
  executed : i.executed = true → j.executed = true

/-- Source flags are only ever raised from `i` to `j`. -/
def ReadyLe (i j : proc_inst_t) : Prop :=
  (i.src_ready0 = true → j.src_ready0 = true) ∧ (i.src_ready1 = true → j.src_ready1 = true)

/-- The writes that the window loops perform on one record in cycle `cc`,
by stage: the retirement stamp (`su1`), the execute stamp (`ex1`), the
first-half schedule step (`sc1`), a wake-up by a bus tag (`ex2`) and the fire
step (`sc2`). -/
inductive WinOp (cc : Nat) : Stage → proc_inst_t → proc_inst_t → Prop
  | retire (i : proc_inst_t) : i.executed = true → i.cycle_status_update = 0 →
      WinOp cc .su1 i { i with cycle_status_update := cc }
  | exec (i : proc_inst_t) : i.fired = true → i.cycle_execute = 0 →
      WinOp cc .ex1 i { i with cycle_execute := cc, executed := true }
  | sched (i : proc_inst_t) : WinOp cc .sc1 i (schedule_first_inst cc i)
  | fire (i : proc_inst_t) : i.fire = true → i.fired = false →
      WinOp cc .sc2 i { i with fired := true }
  | wake (t : Nat) (i : proc_inst_t) : WinOp cc .ex2 i (wake t i)

/-- The five stages whose loops run over the window. -/
def Stage.isWindow : Stage → Bool
  | .su1 | .ex1 | .sc1 | .ex2 | .sc2 => true
  | _ => false

/-- A record is consistent with the firing rule: it was fired only after it
was marked eligible, and it was marked eligible only with both sources ready. -/
def FireOk (i : proc_inst_t) : Prop :=
  (i.fired = true → i.fire = true) ∧
  (i.fire = true → i.src_ready0 = true ∧ i.src_ready1 = true)

/-- Three independent instructions, one per opcode class. -/
def trace3 : List trace_line :=
  [⟨0, 1, 2, 3⟩, ⟨1, 4, 5, 6⟩, ⟨2, -1, 7, 8⟩]

/-- The run on `trace3` with one bus, one unit per class and fetch width 1,
observed after `n` stage transitions. -/
def demo (n : Nat) : Stage × Sim :=
  run_stages n (.su1, setup_proc 1 1 1 1 1 trace3)

/-- Number of fetched instructions whose execute timestamp is `c`. -/
def exec_count (s : Sim) (c : Nat) : Nat :=
  s.all_instrs.countP (fun p => decide ((s.heap p).cycle_execute = c))

/-- Number of busy result buses. -/
def busy (cdb : List proc_cdb_t) : Nat :=
  cdb.countP (fun c => decide (c.free = false))

/-- Program points at which every bus is free: from the second-half `execute`
of one cycle up to the first-half `execute` of the next. -/
def Stage.busFree : Stage → Bool
  | .su1 | .ex1 | .sc2 | .di2 | .fd | .inc => true
  | _ => false

/-- Program points before the first-half `execute` of the current cycle. -/
def Stage.beforeExec : Stage → Bool
  | .su1 | .ex1 => true
  | _ => false

/-- Invariant behind the bus bound, for `r` buses. -/
structure BusInv (r : Nat) (pc : Stage) (s : Sim) : Prop where
  len : s.cdb.length = r
  bound : ∀ c, 1 ≤ c → exec_count s c ≤ r
  stamp_le : ∀ p ∈ s.all_instrs, (s.heap p).cycle_execute ≤ s.stats.cycle_count
  fresh : pc.beforeExec = true →
    ∀ p ∈ s.all_instrs, (s.heap p).cycle_execute < s.stats.cycle_count
  free : pc.busFree = true → busy s.cdb = 0

/-- Program points between the reservation (first-half `dispatch`) and the
drain (second-half `dispatch`) of one cycle. -/
def Stage.holdsReserved : Stage → Bool
  | .su2 | .ex2 | .sc2 | .di2 => true
  | _ => false

/-- Invariant behind the window bound, for a limit `L` that fits an `int`:
the reserved records of the dispatch queue are its first `m` entries, and the
window has room for them. -/
def WindowInv (L : Nat) (pc : Stage) (s : Sim) (a m : Nat) : Prop :=
  Layout s a ∧
  (s.scheduling_queue_limit = (L : Int) ∧ L < 2147483648 ∧
    s.scheduling_queue.length + m ≤ L) ∧
  (∀ q, a ≤ q → q < s.cpu.read_cnt → ((s.heap q).reserved = true ↔ q < a + m)) ∧
  (pc.holdsReserved = false → pc ≠ .halt → m = 0)

/-- Timestamp discipline of one record in cycle `cc`, with `d` the bound on
its provisional dispatch stamp. -/
structure TsOk (cc d : Nat) (i : proc_inst_t) : Prop where
  fetch_pos : 1 ≤ i.cycle_fetch_decode
  dispatch_eq : i.cycle_dispatch = i.cycle_fetch_decode + 1
  dispatch_le : i.cycle_dispatch ≤ d
  schedule_le : i.cycle_schedule ≤ cc
  execute_le : i.cycle_execute ≤ cc
  fire_sched : i.fire = true → i.cycle_schedule ≠ 0
  fired_fire : i.fired = true → i.fire = true
  executed_stamp : i.executed = true → i.cycle_execute ≠ 0
  sched_ge : i.cycle_schedule ≠ 0 → i.cycle_dispatch ≤ i.cycle_schedule
  exec_ge : i.cycle_execute ≠ 0 → i.cycle_schedule ≠ 0 ∧ i.cycle_schedule ≤ i.cycle_execute
  retire_ge : i.cycle_status_update ≠ 0 →
    i.cycle_execute ≠ 0 ∧ i.cycle_execute ≤ i.cycle_status_update

/-- Bound on the dispatch stamp at a program point: the records fetched in
this cycle carry the next cycle number until the cycle counter is advanced. -/
def dispatch_bound (pc : Stage) (cc : Nat) : Nat :=
  if pc = .inc then cc + 1 else cc

/-- Two class-0 instructions that both write register 5. -/
def trace_waw : List trace_line :=
  [⟨0, -1, -1, 5⟩, ⟨0, -1, -1, 5⟩]

/-- The trace line a record was read from. -/
def raw (i : proc_inst_t) : trace_line :=
  ⟨i.op_code, i.src_reg0, i.src_reg1, i.dest_reg⟩

/-- Progress flags of a record are raised in pipeline order. -/
def FlagsOk (i : proc_inst_t) : Prop :=
  (i.cycle_status_update ≠ 0 → i.executed = true) ∧ (i.executed = true → i.fired = true)

/-- Conservation of instructions for the run on `trace0`: every dispatched
record is either in the window or retired (it then carries a retirement
stamp), the records read so far are the lines of `trace0` in order, and the
source is marked exhausted only when no line is left. -/
structure Conserve (trace0 : List trace_line) (s : Sim) (a : Nat) : Prop where
  layout : Layout s a
  count : s.stats.retired_instruction + s.scheduling_queue.length = a
  gone : ∀ q, q < a → q ∉ s.scheduling_queue → (s.heap q).cycle_status_update ≠ 0
  lines : trace0 = (List.range s.cpu.read_cnt).map (fun q => raw (s.heap q)) ++ s.trace
  ids : ∀ q, q < s.cpu.read_cnt → (s.heap q).id = q + 1
  exhausted : s.cpu.read_finished = true → s.trace = []

/-- Class `c` has no functional unit and none of its instructions was fired. -/
def FuZero (c : Int) (s : Sim) : Prop :=
  s.fu_cnt c = 0 ∧ ∀ q, (s.heap q).op_code = c → (s.heap q).fired = false

/-- A class-0 instruction followed by a class-1 instruction. -/
def trace_two_classes : List trace_line :=
  [⟨0, -1, -1, 1⟩, ⟨1, -1, -1, 2⟩]

/-- Source-ready flag of slot `j` (`false` is `src_ready[0]`, `true` is
`src_ready[1]`). -/
def slot_ready (j : Bool) (i : proc_inst_t) : Bool :=
  cond j i.src_ready1 i.src_ready0

/-- Pending tag of slot `j`. -/
def slot_tag (j : Bool) (i : proc_inst_t) : Nat :=
  cond j i.src_tag1 i.src_tag0

/-- Source register of slot `j`. -/
def slot_reg (j : Bool) (i : proc_inst_t) : Int :=
  cond j i.src_reg1 i.src_reg0

/-- Source register of slot `j` of a trace line. -/
def line_reg (j : Bool) (t : trace_line) : Int :=
  cond j t.src_reg1 t.src_reg0

/-- Invariant for a trace whose first instruction (record 0, id 1) writes
register `R` and whose second instruction (record 1) reads `R` in slot `j`;
`a` is the number of dispatched records and `held` tells whether buses may be
busy at the program point. -/
structure DepInv (R : Int) (j : Bool) (held : Bool) (s : Sim) (a : Nat) : Prop where
  unexec : a = 0 → (s.heap 0).cycle_execute = 0
  claimed : a = 1 → (s.heap 0).cycle_execute = 0 →
    s.register_file R = { ready := false, tag := 1 }
  released : a = 1 → (s.heap 0).cycle_execute ≠ 0 → (s.register_file R).ready = true
  waiting : 2 ≤ a → (s.heap 0).cycle_execute = 0 →
    slot_ready j (s.heap 1) = false ∧ slot_tag j (s.heap 1) = 1
  woken : 2 ≤ a → (s.heap 0).cycle_execute ≠ 0 →
    slot_ready j (s.heap 1) = true ∨
      (held = true ∧ slot_tag j (s.heap 1) = 1 ∧ ∃ b ∈ s.cdb, b.free = false ∧ b.tag = 1)
  no_bus : (s.heap 0).cycle_execute = 0 → ∀ b ∈ s.cdb, b.free = false → b.tag ≠ 1

/-- The records read so far agree with a trace that starts with a writer of
`R` followed by a reader of `R` in slot `j`. -/
structure DepStatic (R : Int) (j : Bool) (s : Sim) : Prop where
  ids : ∀ q, q < s.cpu.read_cnt → (s.heap q).id = q + 1
  writer : 0 < s.cpu.read_cnt → (s.heap 0).dest_reg = R
  reader : 1 < s.cpu.read_cnt → slot_reg j (s.heap 1) = R

/-- A writer of register 5 followed by a reader of register 5 (slot 0). -/
def trace_dep : List trace_line :=
  [⟨0, -1, -1, 5⟩, ⟨1, 5, -1, 6⟩]

/-- The run on `trace_dep` with one bus, one unit per class and fetch width 1,
observed after `n` stage transitions. -/
def demo_dep (n : Nat) : Stage × Sim :=
  run_stages n (.su1, setup_proc 1 1 1 1 1 trace_dep)

/-- The loop body of `run_proc` iterated `n` times. -/
def cycles : Nat → Sim → Sim
  | 0, s => s
  | n + 1, s => cycles n (cycle s)

/-- The hypotheses of the three-instruction scenario: opcode classes in
{0, 1, 2}, pairwise distinct destination registers, and no source register
that is the destination of another instruction. -/
def Independent3 (t1 t2 t3 : trace_line) : Prop :=
  (t1.op_code = 0 ∨ t1.op_code = 1 ∨ t1.op_code = 2) ∧
  (t2.op_code = 0 ∨ t2.op_code = 1 ∨ t2.op_code = 2) ∧
  (t3.op_code = 0 ∨ t3.op_code = 1 ∨ t3.op_code = 2) ∧
  t1.dest_reg ≠ t2.dest_reg ∧ t1.dest_reg ≠ t3.dest_reg ∧ t2.dest_reg ≠ t3.dest_reg ∧
  t1.src_reg0 ≠ t2.dest_reg ∧ t1.src_reg0 ≠ t3.dest_reg ∧
  t1.src_reg1 ≠ t2.dest_reg ∧ t1.src_reg1 ≠ t3.dest_reg ∧
  t2.src_reg0 ≠ t1.dest_reg ∧ t2.src_reg0 ≠ t3.dest_reg ∧
  t2.src_reg1 ≠ t1.dest_reg ∧ t2.src_reg1 ≠ t3.dest_reg ∧
  t3.src_reg0 ≠ t1.dest_reg ∧ t3.src_reg0 ≠ t2.dest_reg ∧
  t3.src_reg1 ≠ t1.dest_reg ∧ t3.src_reg1 ≠ t2.dest_reg

/-- A source operand that the register file of `setup_proc` covers: no
operand (-1) or one of the 64 initialised registers. -/
def SrcOk (x : Int) : Prop :=
  x = -1 ∨ (0 ≤ x ∧ x < 64)

/-- The five stage timestamps of a record. -/
def stamps (i : proc_inst_t) : Nat × Nat × Nat × Nat × Nat :=
  (i.cycle_fetch_decode, i.cycle_dispatch, i.cycle_schedule, i.cycle_execute,
    i.cycle_status_update)

/-- The outcome of the fully pipelined three-instruction run: three retired
instructions, and instruction `i` passes one stage per cycle from cycle `i` on. -/
def Pipelined3 (s : Sim) : Prop :=
  s.stats.retired_instruction = 3 ∧
  stamps (s.heap 0) = (1, 2, 3, 4, 5) ∧
  stamps (s.heap 1) = (2, 3, 4, 5, 6) ∧
  stamps (s.heap 2) = (3, 4, 5, 6, 7)

/-- Three instructions without shared registers, the first with the source
register 64 that `setup_proc` does not initialise. -/
def trace_src64 : List trace_line :=
  [⟨0, 64, -1, 1⟩, ⟨1, -1, -1, 2⟩, ⟨2, -1, -1, 3⟩]

/-- The record of the instruction read from line `t` with id `id`, `ph` cycles
after its fetch, in a run in which it never stalls: dispatched after one
cycle, scheduled and fired after two, executed after three, stamped for
retirement after four. -/
def staged (t : trace_line) (id : Nat) (ph : Nat) : proc_inst_t :=
  { op_code := t.op_code, src_reg0 := t.src_reg0, src_reg1 := t.src_reg1,
    dest_reg := t.dest_reg, id := id,
    reserved := decide (2 ≤ ph), fire := decide (3 ≤ ph), fired := decide (3 ≤ ph),
    executed := decide (4 ≤ ph),
    src_ready0 := decide (2 ≤ ph), src_ready1 := decide (2 ≤ ph),
    src_tag0 := 0, src_tag1 := 0,
    cycle_fetch_decode := id, cycle_dispatch := id + 1,
    cycle_schedule := if 3 ≤ ph then id + 2 else 0,
    cycle_execute := if 4 ≤ ph then id + 3 else 0,
    cycle_status_update := if 5 ≤ ph then id + 4 else 0 }

/-- The ready flag that `update_instr` computes for the source register `x`. -/
def look_ready (rf : Int → register_info_t) (x : Int) : Bool :=
  if x ≠ -1 then (rf x).ready else true

/-- The tag that `update_instr` computes for the source register `x`. -/
def look_tag (rf : Int → register_info_t) (x : Int) : Nat :=
  if x ≠ -1 ∧ (rf x).ready = false then (rf x).tag else 0

/-- The register file was written only at the registers in `D`. -/
def RegOk (s : Sim) (D : List Int) : Prop :=
  ∀ x, x ∉ D → s.register_file x = reg_init x

/-- Snapshot of the scalar state and the containers at the start of a cycle
of the run with one bus, one unit per class and fetch width 1. -/
structure Snap (s : Sim) (cc ret rc : Nat) (rfin : Bool) (all dq win : List Nat)
    (tr : List trace_line) (fu : Int → Nat) : Prop where
  cycle_count : s.stats.cycle_count = cc
  retired : s.stats.retired_instruction = ret
  cpu : s.cpu = { f := 1, begin_dump := 0, end_dump := 0, read_cnt := rc,
                  read_finished := rfin, finished := false }
  all_instrs : s.all_instrs = all
  dispatching_queue : s.dispatching_queue = dq
  scheduling_queue : s.scheduling_queue = win
  limit : s.scheduling_queue_limit = 6
  cdb : s.cdb = [{ free := true, reg := 0, tag := 0 }]
  trace : s.trace = tr
  fu_cnt : s.fu_cnt = fu

/-- A record with its two source slots blanked: two records agree on every
field other than the source-ready flags and the source tags iff their
blanked records are equal. -/
def clear_slots (i : proc_inst_t) : proc_inst_t :=
  { i with src_ready0 := false, src_ready1 := false, src_tag0 := 0, src_tag1 := 0 }

/-- Four independent class-0 instructions writing the registers 1 to 4. -/
def trace_four : List trace_line :=
  [⟨0, -1, -1, 1⟩, ⟨0, -1, -1, 2⟩, ⟨0, -1, -1, 3⟩, ⟨0, -1, -1, 4⟩]

/-- A class-0 instruction writing register 1, followed by a class-1
instruction without destination register. -/
def trace_nodest : List trace_line :=
  [⟨0, -1, -1, 1⟩, ⟨1, -1, -1, -1⟩]

/-- A record of class `c` occupies a functional unit: it is fired and not
yet executed. -/
def flight (c : Int) (i : proc_inst_t) : Bool :=
  decide (i.op_code = c) && i.fired && !i.executed

/-- Number of windowed records of class `c` that occupy a functional unit. -/
def in_flight (s : Sim) (c : Int) : Nat :=
  s.scheduling_queue.countP (fun p => flight c (s.heap p))

/-- The fields of a record that the pending-tag invariant reads, apart from
the execute and retirement stamps. -/
def tag_view (i : proc_inst_t) : Nat × Int × Bool × Bool × Bool × Nat × Nat × Int × Int :=
  (i.id, i.dest_reg, i.executed, i.src_ready0, i.src_ready1, i.src_tag0, i.src_tag1,
    i.src_reg0, i.src_reg1)

/-- No pending tag dangles.  A register 0..63 that is not ready carries the
id of a windowed, unexecuted record that writes it; a pending source slot
that reads a register 0..63 carries the id of a windowed record that is
unexecuted, or that executed in the current cycle and whose tag is still on a
busy bus. -/
structure TagInv (s : Sim) : Prop where
  reg : ∀ R : Int, 0 ≤ R → R < 64 → (s.register_file R).ready = false →
    ∃ q ∈ s.scheduling_queue, (s.heap q).id = (s.register_file R).tag ∧
      (s.heap q).dest_reg = R ∧ (s.heap q).executed = false
  slot : ∀ p ∈ s.scheduling_queue, ∀ j : Bool, slot_ready j (s.heap p) = false →
    0 ≤ slot_reg j (s.heap p) → slot_reg j (s.heap p) < 64 →
    ∃ q ∈ s.scheduling_queue, (s.heap q).id = slot_tag j (s.heap p) ∧
      ((s.heap q).executed = false ∨
        ((s.heap q).cycle_execute = s.stats.cycle_count ∧
          (s.heap q).cycle_status_update = 0 ∧
          ∃ b ∈ s.cdb, b.free = false ∧ b.tag = slot_tag j (s.heap p)))

/-- Two independent class-0 instructions writing the registers 1 and 2. -/
def trace_pair : List trace_line :=
  [⟨0, -1, -1, 1⟩, ⟨0, -1, -1, 2⟩]

/-! ## The backup variant `src/lab3-src.bk/procsim.cpp`

The backup variant shares the header (`proc_inst_t`, `proc_cdb_t`, ...) and
the run loop with the main variant.  Its window is created with
`scheduling_queue.resize(scheduling_queue_limit)`, that is with `limit` null
pointers in front; the loops over the window skip them.  A window entry is
therefore an optional pointer. -/

namespace Bk

/-- The global state of the backup variant. -/
structure Sim where
  cpu : proc_settings_t
  stats : proc_stats_t
  heap : Nat → proc_inst_t
  all_instrs : List Nat
  dispatching_queue : List Nat
  scheduling_queue : List (Option Nat)
  scheduling_queue_limit : Int
  register_file : Int → register_info_t
  cdb : List proc_cdb_t
  fu_cnt : Int → Nat
  trace : List trace_line

/-- Write through a pointer: `*p = i`. -/
def Sim.setInst (s : Sim) (p : Nat) (i : proc_inst_t) : Sim :=
  { s with heap := fun q => if q = p then i else s.heap q }

/-- The routine `setup_proc` of the backup variant: as in the main variant,
and the window is resized to `limit` null pointers, the `int` limit being
converted to the `size_t` argument of `resize` (modulo
`18446744073709551616 = 2^64`).  For a negative limit `resize` cannot
allocate and the program stops there; the model then carries the window of
the converted length. -/
def setup_proc (r k0 k1 k2 f : Nat) (trace : List trace_line) : Sim :=
  { cpu := { f := f, begin_dump := 0, end_dump := 0, read_cnt := 0,
             read_finished := false, finished := false }
    stats := { retired_instruction := 0, cycle_count := 1,
               max_disp_size := 0, sum_disp_size := 0 }
    heap := fun _ => blank_inst
    all_instrs := []
    dispatching_queue := []
    scheduling_queue :=
      List.replicate
        (to_int (2 * (k0 + k1 + k2) % 18446744073709551616) % 18446744073709551616).toNat none
    scheduling_queue_limit := to_int (2 * (k0 + k1 + k2) % 18446744073709551616)
    register_file := reg_init
    cdb := List.replicate r { free := true, reg := 0, tag := 0 }
    fu_cnt := fu_init k0 k1 k2
    trace := trace }

/-- Body of the first-half loop of `state_update`. -/
def state_update_first_body (s : Sim) : Option Nat → Sim
  | none => s
  | some p =>
    if (s.heap p).executed = true ∧ (s.heap p).cycle_status_update = 0 then
      s.setInst p { s.heap p with cycle_status_update := s.stats.cycle_count }
    else s

/-- First half of `state_update`. -/
def state_update_first (s : Sim) : Sim :=
  s.scheduling_queue.foldl state_update_first_body s

/-- The erase loop of the second half of `state_update`; null entries stay. -/
def sweep (heap : Nat → proc_inst_t) : List (Option Nat) → Nat → List (Option Nat) × Nat
  | [], retired => ([], retired)
  | none :: rest, retired =>
    ((sweep heap rest retired).1.cons none, (sweep heap rest retired).2)
  | some p :: rest, retired =>
    if (heap p).cycle_status_update ≠ 0 then sweep heap rest (retired + 1)
    else ((sweep heap rest retired).1.cons (some p), (sweep heap rest retired).2)

/-- Second half of `state_update`. -/
def state_update_second (s : Sim) : Sim :=
  let r := sweep s.heap s.scheduling_queue s.stats.retired_instruction
  let s1 : Sim := { s with scheduling_queue := r.1,
                           stats := { s.stats with retired_instruction := r.2 } }
  if s1.cpu.read_finished = true ∧ s1.stats.retired_instruction = s1.cpu.read_cnt then
    { s1 with cpu := { s1.cpu with finished := true } }
  else s1

/-- The routine `find_free_cdb` of the backup variant.  The loop variable of
`for (auto c : cdb)` is a copy of the bus, so the writes `c.free = false` and
`c.tag = instr->id` do not reach `cdb`; what remains is the return value:
1 iff some bus is free. -/
def find_free_cdb (instr : proc_inst_t) : List proc_cdb_t → Bool
  | [] => false
  | c :: rest => if c.free = true then true else find_free_cdb instr rest

/-- Body of the first-half loop of `execute`. -/
def execute_first_body (s : Sim) : Option Nat → Sim
  | none => s
  | some p =>
    if (s.heap p).fired = true ∧ (s.heap p).cycle_execute = 0 then
      if (s.heap p).dest_reg ≠ -1 ∧ find_free_cdb (s.heap p) s.cdb = false then s
      else s.setInst p { s.heap p with cycle_execute := s.stats.cycle_count, executed := true }
    else s

/-- First half of `execute`. -/
def execute_first (s : Sim) : Sim :=
  s.scheduling_queue.foldl execute_first_body s

/-- Second half of `execute`: the branch is empty. -/
def execute_second (s : Sim) : Sim := s

/-- The routine `check_data_dependency`: as `update_instr` of the main
variant, without the branches for an absent source. -/
def check_data_dependency (rf : Int → register_info_t) (i : proc_inst_t) : proc_inst_t :=
  let i1 :=
    if i.src_reg0 ≠ -1 then
      if (rf i.src_reg0).ready = false then
        { i with src_tag0 := (rf i.src_reg0).tag, src_ready0 := false }
      else { i with src_ready0 := true, src_tag0 := 0 }
    else i
  if i1.src_reg1 ≠ -1 then
    if (rf i1.src_reg1).ready = false then
      { i1 with src_tag1 := (rf i1.src_reg1).tag, src_ready1 := false }
    else { i1 with src_ready1 := true, src_tag1 := 0 }
  else i1

/-- Outer loop body of `update_register_from_cdb`: a busy bus marks ready
every register 0..63 that waits for its tag. -/
def update_register_from_cdb_bus (rf : Int → register_info_t) (c : proc_cdb_t) :
    Int → register_info_t :=
  if c.free = false then
    fun R => if 0 ≤ R ∧ R < 64 ∧ (rf R).ready = false ∧ (rf R).tag = c.tag then
      { ready := true, tag := 0 } else rf R
  else rf

/-- The routine `update_register_from_cdb`. -/
def update_register_from_cdb (s : Sim) : Sim :=
  { s with register_file := s.cdb.foldl update_register_from_cdb_bus s.register_file }

/-- The routine `update_data_from_cdb`: every busy bus wakes the record on a
tag match (the inner statements are those of `wake`). -/
def update_data_from_cdb (cdb : List proc_cdb_t) (i : proc_inst_t) : proc_inst_t :=
  cdb.foldl (fun i c => if c.free = false then wake c.tag i else i) i

/-- Body of the first-half loop of `schedule`. -/
def schedule_first_body (s : Sim) : Option Nat → Sim
  | none => s
  | some p =>
    if (s.heap p).fire = true then s
    else
      let i1 := check_data_dependency s.register_file (s.heap p)
      let i2 := if i1.cycle_schedule = 0 then
        { i1 with cycle_schedule := s.stats.cycle_count } else i1
      s.setInst p { i2 with fire := true }

/-- First half of `schedule`. -/
def schedule_first (s : Sim) : Sim :=
  (update_register_from_cdb s).scheduling_queue.foldl schedule_first_body
    (update_register_from_cdb s)

/-- Body of the second-half loop of `schedule`. -/
def schedule_second_body (s : Sim) : Option Nat → Sim
  | none => s
  | some p =>
    if (s.heap p).fire = true ∧ (s.heap p).fired = false then
      let i1 := update_data_from_cdb s.cdb (s.heap p)
      if instr_src_available i1 = false then s.setInst p i1
      else
        { s with
          heap := fun q => if q = p then { i1 with fired := true } else s.heap q
          register_file :=
            if i1.dest_reg ≠ -1 then
              mapSet s.register_file i1.dest_reg { ready := false, tag := i1.id }
            else s.register_file }
    else s

/-- Second half of `schedule`. -/
def schedule_second (s : Sim) : Sim :=
  s.scheduling_queue.foldl schedule_second_body s

/-- The routine `get_sched_size`: the windowed records that are reserved and
carry no retirement stamp. -/
def get_sched_size (s : Sim) : Nat :=
  s.scheduling_queue.countP (fun e =>
    match e with
    | none => false
    | some p => (s.heap p).reserved && decide ((s.heap p).cycle_status_update = 0))

/-- The reservation loop of the first half of `dispatch`; the second
component is the local `int` `sched_size`. -/
def reserve_body (limit : Int) (acc : Sim × Int) (p : Nat) : Sim × Int :=
  if acc.2 < limit then
    (acc.1.setInst p { acc.1.heap p with reserved := true }, acc.2 + 1)
  else acc

/-- First half of `dispatch`. -/
def dispatch_first (s : Sim) : Sim :=
  let n := s.dispatching_queue.length
  let st : proc_stats_t :=
    { s.stats with
      max_disp_size := if s.stats.max_disp_size < n then n else s.stats.max_disp_size
      sum_disp_size := s.stats.sum_disp_size + n }
  (s.dispatching_queue.foldl (reserve_body s.scheduling_queue_limit)
    ({ s with stats := st }, (get_sched_size s : Int))).1

/-- The drain loop of the second half of `dispatch`, on the queue content. -/
def drain (s : Sim) : List Nat → Sim
  | [] => { s with dispatching_queue := [] }
  | p :: rest =>
    if (s.heap p).reserved = false then { s with dispatching_queue := p :: rest }
    else drain { s with scheduling_queue := s.scheduling_queue ++ [some p] } rest

/-- Second half of `dispatch`. -/
def dispatch_second (s : Sim) : Sim :=
  drain s s.dispatching_queue

/-- The record set up by `instr_fetch_and_decode` of the backup variant: as
in the main variant, and both source flags are set. -/
def new_inst (t : trace_line) (id cc : Nat) : proc_inst_t :=
  { Procsim.new_inst t id cc with src_ready0 := true, src_ready1 := true }

/-- Body of the read loop of `instr_fetch_and_decode` after a successful read. -/
def fetch_one (s : Sim) (t : trace_line) (rest : List trace_line) : Sim :=
  let p := s.all_instrs.length
  { s with
    heap := fun q =>
      if q = p then new_inst t (s.cpu.read_cnt + 1) s.stats.cycle_count else s.heap q
    all_instrs := s.all_instrs ++ [p]
    dispatching_queue := s.dispatching_queue ++ [p]
    cpu := { s.cpu with read_cnt := s.cpu.read_cnt + 1 }
    trace := rest }

/-- The read loop of `instr_fetch_and_decode`. -/
def fetch_loop : Nat → Sim → Sim
  | 0, s => s
  | n + 1, s =>
    match s.trace with
    | [] => { s with cpu := { s.cpu with read_finished := true } }
    | t :: rest => fetch_loop n (fetch_one s t rest)

/-- The routine `instr_fetch_and_decode` (second half). -/
def instr_fetch_and_decode (s : Sim) : Sim :=
  if s.cpu.read_finished = false then fetch_loop s.cpu.f s else s

/-- The statement `p_stats->cycle_count++`. -/
def inc_cycle (s : Sim) : Sim :=
  { s with stats := { s.stats with cycle_count := s.stats.cycle_count + 1 } }

/-- One iteration of the body of the `while` loop of `run_proc`. -/
def cycle (s : Sim) : Sim :=
  let s1 := state_update_second (dispatch_first (schedule_first (execute_first (state_update_first s))))
  if s1.cpu.finished = true then s1
  else inc_cycle (instr_fetch_and_decode (dispatch_second (schedule_second (execute_second s1))))

/-- The loop of `run_proc` with a bound on the number of iterations. -/
def run_proc : Nat → Sim → Option Sim
  | 0, s => if s.cpu.finished = true then some s else none
  | n + 1, s => if s.cpu.finished = true then some s else run_proc n (cycle s)

/-- The loop body iterated `n` times. -/
def cycles : Nat → Sim → Sim
  | 0, s => s
  | n + 1, s => cycles n (cycle s)

end Bk


/-- Number of fetched records on which the flag `g` is set. -/
def flag_count (s : Sim) (g : proc_inst_t → Bool) : Nat :=
  s.all_instrs.countP (fun q => g (s.heap q))

/-- Progress measure of a run: every fetch, every move into the window, every
raised flag `fire`, `fired`, `executed`, every retirement and the detection
of the end of the trace add to it. -/
def progress (s : Sim) : Nat :=
  s.cpu.read_cnt + s.scheduling_queue.length + 2 * s.stats.retired_instruction +
    (if s.cpu.read_finished = true then 1 else 0) +
    flag_count s (fun i => i.fire) + flag_count s (fun i => i.fired) +
    flag_count s (fun i => i.executed)

/-- A trace line within the range of the simulator: opcode class 0, 1 or 2,
and every register either absent (-1) or one of 0..63. -/
def WellFormed (t : trace_line) : Prop :=
  (t.op_code = 0 ∨ t.op_code = 1 ∨ t.op_code = 2) ∧
  SrcOk t.src_reg0 ∧ SrcOk t.src_reg1 ∧ SrcOk t.dest_reg

/-- A pending source slot of a windowed record reads a register (its source
is not -1), and if that register is one of 0..63 it waits for an older
record: its tag is at most the pointer of its own record (ids are pointer
plus one). -/
def SlotOlder (s : Sim) : Prop :=
  ∀ p ∈ s.scheduling_queue, ∀ j : Bool, slot_ready j (s.heap p) = false →
    slot_reg j (s.heap p) ≠ -1 ∧
    (0 ≤ slot_reg j (s.heap p) → slot_reg j (s.heap p) < 64 → slot_tag j (s.heap p) ≤ p)

/-- The ids of the records behind a list of pointers. -/
def ids (s : Sim) (l : List Nat) : List Nat :=
  l.map (fun q => (s.heap q).id)

/-- The retired records: the fetched records that carry a retirement stamp and
were erased from the window by the second half of `state_update`. -/
def retired_records (s : Sim) : List Nat :=
  s.all_instrs.filter
    (fun q => decide ((s.heap q).cycle_status_update ≠ 0) && decide (q ∉ s.scheduling_queue))

/-- The windowed records that wait for a result bus, in window order: fired
and not yet executed. -/
def bus_waiting (s : Sim) : List Nat :=
  s.scheduling_queue.filter (fun p => (s.heap p).fired && !(s.heap p).executed)

/-- The state `s` with the result buses replaced by `c`. -/
def with_cdb (s : Sim) (c : List proc_cdb_t) : Sim :=
  { s with cdb := c }

/-! ## Loop and frame lemmas -/

theorem foldl_inv {α β : Type} (P : β → Prop) (f : β → α → β) (l : List α)
    (h : ∀ b a, a ∈ l → P b → P (f b a)) (b : β) (hb : P b) : P (l.foldl f b) := by
  induction l generalizing b with
  | nil => simpa using hb
  | cons a t ih =>
    simp only [List.foldl_cons]
    exact ih (fun b a ha hP => h b a (List.mem_cons_of_mem _ ha) hP) _
      (h b a (List.mem_cons_self _ _) hb)

theorem foldl_frame {α β γ : Type} (g : β → γ) (f : β → α → β) (l : List α)
    (h : ∀ b a, g (f b a) = g b) (b : β) : g (l.foldl f b) = g b :=
  foldl_inv (fun x => g x = g b) f l (fun x a _ hx => (h x a).trans hx) b rfl


@[simp] theorem state_update_first_cpu (s : Sim) : (state_update_first s).cpu = s.cpu :=
  by
  unfold state_update_first
  refine foldl_frame (fun x : Sim => x.cpu) _ _ ?_ s
  intro b a
  unfold state_update_first_body Sim.setInst
  split <;> rfl

@[simp] theorem state_update_first_stats (s : Sim) : (state_update_first s).stats = s.stats :=
  by
  unfold state_update_first
  refine foldl_frame (fun x : Sim => x.stats) _ _ ?_ s
  intro b a
  unfold state_update_first_body Sim.setInst
  split <;> rfl

@[simp] theorem state_update_first_all_instrs (s : Sim) : (state_update_first s).all_instrs = s.all_instrs :=
  by
  unfold state_update_first
  refine foldl_frame (fun x : Sim => x.all_instrs) _ _ ?_ s
  intro b a
  unfold state_update_first_body Sim.setInst
  split <;> rfl

@[simp] theorem state_update_first_dispatching_queue (s : Sim) : (state_update_first s).dispatching_queue = s.dispatching_queue :=
  by
  unfold state_update_first
  refine foldl_frame (fun x : Sim => x.dispatching_queue) _ _ ?_ s
  intro b a
  unfold state_update_first_body Sim.setInst
  split <;> rfl

@[simp] theorem state_update_first_scheduling_queue (s : Sim) : (state_update_first s).scheduling_queue = s.scheduling_queue :=
  by
  unfold state_update_first
  refine foldl_frame (fun x : Sim => x.scheduling_queue) _ _ ?_ s
  intro b a
  unfold state_update_first_body Sim.setInst
  split <;> rfl

@[simp] theorem state_update_first_scheduling_queue_limit (s : Sim) : (state_update_first s).scheduling_queue_limit = s.scheduling_queue_limit :=
  by
  unfold state_update_first
  refine foldl_frame (fun x : Sim => x.scheduling_queue_limit) _ _ ?_ s
  intro b a
  unfold state_update_first_body Sim.setInst
  split <;> rfl

@[simp] theorem state_update_first_register_file (s : Sim) : (state_update_first s).register_file = s.register_file :=
  by
  unfold state_update_first
  refine foldl_frame (fun x : Sim => x.register_file) _ _ ?_ s
  intro b a
  unfold state_update_first_body Sim.setInst
  split <;> rfl

@[simp] theorem state_update_first_cdb (s : Sim) : (state_update_first s).cdb = s.cdb :=
  by
  unfold state_update_first
  refine foldl_frame (fun x : Sim => x.cdb) _ _ ?_ s
  intro b a
  unfold state_update_first_body Sim.setInst
  split <;> rfl

@[simp] theorem state_update_first_fu_cnt (s : Sim) : (state_update_first s).fu_cnt = s.fu_cnt :=
  by
  unfold state_update_first
  refine foldl_frame (fun x : Sim => x.fu_cnt) _ _ ?_ s
  intro b a
  unfold state_update_first_body Sim.setInst
  split <;> rfl

@[simp] theorem state_update_first_trace (s : Sim) : (state_update_first s).trace = s.trace :=
  by
  unfold state_update_first
  refine foldl_frame (fun x : Sim => x.trace) _ _ ?_ s
  intro b a
  unfold state_update_first_body Sim.setInst
  split <;> rfl

@[simp] theorem execute_first_cpu (s : Sim) : (execute_first s).cpu = s.cpu :=
  by
  unfold execute_first
  refine foldl_frame (fun x : Sim => x.cpu) _ _ ?_ s
  intro b a
  unfold execute_first_body
  split
  · split <;> rfl
  · rfl

@[simp] theorem execute_first_stats (s : Sim) : (execute_first s).stats = s.stats :=
  by
  unfold execute_first
  refine foldl_frame (fun x : Sim => x.stats) _ _ ?_ s
  intro b a
  unfold execute_first_body
  split
  · split <;> rfl
  · rfl

@[simp] theorem execute_first_all_instrs (s : Sim) : (execute_first s).all_instrs = s.all_instrs :=
  by
  unfold execute_first
  refine foldl_frame (fun x : Sim => x.all_instrs) _ _ ?_ s
  intro b a
  unfold execute_first_body
  split
  · split <;> rfl
  · rfl

@[simp] theorem execute_first_dispatching_queue (s : Sim) : (execute_first s).dispatching_queue = s.dispatching_queue :=
  by
  unfold execute_first
  refine foldl_frame (fun x : Sim => x.dispatching_queue) _ _ ?_ s
  intro b a
  unfold execute_first_body
  split
  · split <;> rfl
  · rfl

@[simp] theorem execute_first_scheduling_queue (s : Sim) : (execute_first s).scheduling_queue = s.scheduling_queue :=
  by
  unfold execute_first
  refine foldl_frame (fun x : Sim => x.scheduling_queue) _ _ ?_ s
  intro b a
  unfold execute_first_body
  split
  · split <;> rfl
  · rfl

@[simp] theorem execute_first_scheduling_queue_limit (s : Sim) : (execute_first s).scheduling_queue_limit = s.scheduling_queue_limit :=
  by
  unfold execute_first
  refine foldl_frame (fun x : Sim => x.scheduling_queue_limit) _ _ ?_ s
  intro b a
  unfold execute_first_body
  split
  · split <;> rfl
  · rfl

@[simp] theorem execute_first_trace (s : Sim) : (execute_first s).trace = s.trace :=
  by
  unfold execute_first
  refine foldl_frame (fun x : Sim => x.trace) _ _ ?_ s
  intro b a
  unfold execute_first_body
  split
  · split <;> rfl
  · rfl

@[simp] theorem schedule_first_cpu (s : Sim) : (schedule_first s).cpu = s.cpu :=
  by
  unfold schedule_first
  refine foldl_frame (fun x : Sim => x.cpu) _ _ ?_ s
  intro b a
  rfl

@[simp] theorem schedule_first_stats (s : Sim) : (schedule_first s).stats = s.stats :=
  by
  unfold schedule_first
  refine foldl_frame (fun x : Sim => x.stats) _ _ ?_ s
  intro b a
  rfl

@[simp] theorem schedule_first_all_instrs (s : Sim) : (schedule_first s).all_instrs = s.all_instrs :=
  by
  unfold schedule_first
  refine foldl_frame (fun x : Sim => x.all_instrs) _ _ ?_ s
  intro b a
  rfl

@[simp] theorem schedule_first_dispatching_queue (s : Sim) : (schedule_first s).dispatching_queue = s.dispatching_queue :=
  by
  unfold schedule_first
  refine foldl_frame (fun x : Sim => x.dispatching_queue) _ _ ?_ s
  intro b a
  rfl

@[simp] theorem schedule_first_scheduling_queue (s : Sim) : (schedule_first s).scheduling_queue = s.scheduling_queue :=
  by
  unfold schedule_first
  refine foldl_frame (fun x : Sim => x.scheduling_queue) _ _ ?_ s
  intro b a
  rfl

@[simp] theorem schedule_first_scheduling_queue_limit (s : Sim) : (schedule_first s).scheduling_queue_limit = s.scheduling_queue_limit :=
  by
  unfold schedule_first
  refine foldl_frame (fun x : Sim => x.scheduling_queue_limit) _ _ ?_ s
  intro b a
  rfl

@[simp] theorem schedule_first_register_file (s : Sim) : (schedule_first s).register_file = s.register_file :=
  by
  unfold schedule_first
  refine foldl_frame (fun x : Sim => x.register_file) _ _ ?_ s
  intro b a
  rfl

@[simp] theorem schedule_first_cdb (s : Sim) : (schedule_first s).cdb = s.cdb :=
  by
  unfold schedule_first
  refine foldl_frame (fun x : Sim => x.cdb) _ _ ?_ s
  intro b a
  rfl

@[simp] theorem schedule_first_fu_cnt (s : Sim) : (schedule_first s).fu_cnt = s.fu_cnt :=
  by
  unfold schedule_first
  refine foldl_frame (fun x : Sim => x.fu_cnt) _ _ ?_ s
  intro b a
  rfl

@[simp] theorem schedule_first_trace (s : Sim) : (schedule_first s).trace = s.trace :=
  by
  unfold schedule_first
  refine foldl_frame (fun x : Sim => x.trace) _ _ ?_ s
  intro b a
  rfl

@[simp] theorem schedule_second_cpu (s : Sim) : (schedule_second s).cpu = s.cpu :=
  by
  unfold schedule_second
  refine foldl_frame (fun x : Sim => x.cpu) _ _ ?_ s
  intro b a
  unfold schedule_second_body
  split
  · split <;> rfl
  · rfl

@[simp] theorem schedule_second_stats (s : Sim) : (schedule_second s).stats = s.stats :=
  by
  unfold schedule_second
  refine foldl_frame (fun x : Sim => x.stats) _ _ ?_ s
  intro b a
  unfold schedule_second_body
  split
  · split <;> rfl
  · rfl

@[simp] theorem schedule_second_all_instrs (s : Sim) : (schedule_second s).all_instrs = s.all_instrs :=
  by
  unfold schedule_second
  refine foldl_frame (fun x : Sim => x.all_instrs) _ _ ?_ s
  intro b a
  unfold schedule_second_body
  split
  · split <;> rfl
  · rfl

@[simp] theorem schedule_second_dispatching_queue (s : Sim) : (schedule_second s).dispatching_queue = s.dispatching_queue :=
  by
  unfold schedule_second
  refine foldl_frame (fun x : Sim => x.dispatching_queue) _ _ ?_ s
  intro b a
  unfold schedule_second_body
  split
  · split <;> rfl
  · rfl

@[simp] theorem schedule_second_scheduling_queue (s : Sim) : (schedule_second s).scheduling_queue = s.scheduling_queue :=
  by
  unfold schedule_second
  refine foldl_frame (fun x : Sim => x.scheduling_queue) _ _ ?_ s
  intro b a
  unfold schedule_second_body
  split
  · split <;> rfl
  · rfl

@[simp] theorem schedule_second_scheduling_queue_limit (s : Sim) : (schedule_second s).scheduling_queue_limit = s.scheduling_queue_limit :=
  by
  unfold schedule_second
  refine foldl_frame (fun x : Sim => x.scheduling_queue_limit) _ _ ?_ s
  intro b a
  unfold schedule_second_body
  split
  · split <;> rfl
  · rfl

@[simp] theorem schedule_second_register_file (s : Sim) : (schedule_second s).register_file = s.register_file :=
  by
  unfold schedule_second
  refine foldl_frame (fun x : Sim => x.register_file) _ _ ?_ s
  intro b a
  unfold schedule_second_body
  split
  · split <;> rfl
  · rfl

@[simp] theorem schedule_second_cdb (s : Sim) : (schedule_second s).cdb = s.cdb :=
  by
  unfold schedule_second
  refine foldl_frame (fun x : Sim => x.cdb) _ _ ?_ s
  intro b a
  unfold schedule_second_body
  split
  · split <;> rfl
  · rfl

@[simp] theorem schedule_second_trace (s : Sim) : (schedule_second s).trace = s.trace :=
  by
  unfold schedule_second
  refine foldl_frame (fun x : Sim => x.trace) _ _ ?_ s
  intro b a
  unfold schedule_second_body
  split
  · split <;> rfl
  · rfl

@[simp] theorem inc_cycle_cpu (s : Sim) : (inc_cycle s).cpu = s.cpu :=
  rfl

@[simp] theorem inc_cycle_heap (s : Sim) : (inc_cycle s).heap = s.heap :=
  rfl

@[simp] theorem inc_cycle_all_instrs (s : Sim) : (inc_cycle s).all_instrs = s.all_instrs :=
  rfl

@[simp] theorem inc_cycle_dispatching_queue (s : Sim) : (inc_cycle s).dispatching_queue = s.dispatching_queue :=
  rfl

@[simp] theorem inc_cycle_scheduling_queue (s : Sim) : (inc_cycle s).scheduling_queue = s.scheduling_queue :=
  rfl

@[simp] theorem inc_cycle_scheduling_queue_limit (s : Sim) : (inc_cycle s).scheduling_queue_limit = s.scheduling_queue_limit :=
  rfl

@[simp] theorem inc_cycle_register_file (s : Sim) : (inc_cycle s).register_file = s.register_file :=
  rfl

@[simp] theorem inc_cycle_cdb (s : Sim) : (inc_cycle s).cdb = s.cdb :=
  rfl

@[simp] theorem inc_cycle_fu_cnt (s : Sim) : (inc_cycle s).fu_cnt = s.fu_cnt :=
  rfl

@[simp] theorem inc_cycle_trace (s : Sim) : (inc_cycle s).trace = s.trace :=
  rfl



@[simp] theorem dispatch_first_cpu (s : Sim) : (dispatch_first s).cpu = s.cpu := by
  unfold dispatch_first
  refine foldl_frame (fun x : Sim × Int => x.1.cpu) _ _ ?_ _
  intro b a
  unfold reserve_body Sim.setInst
  split <;> rfl

@[simp] theorem dispatch_first_all_instrs (s : Sim) : (dispatch_first s).all_instrs = s.all_instrs := by
  unfold dispatch_first
  refine foldl_frame (fun x : Sim × Int => x.1.all_instrs) _ _ ?_ _
  intro b a
  unfold reserve_body Sim.setInst
  split <;> rfl

@[simp] theorem dispatch_first_dispatching_queue (s : Sim) : (dispatch_first s).dispatching_queue = s.dispatching_queue := by
  unfold dispatch_first
  refine foldl_frame (fun x : Sim × Int => x.1.dispatching_queue) _ _ ?_ _
  intro b a
  unfold reserve_body Sim.setInst
  split <;> rfl

@[simp] theorem dispatch_first_scheduling_queue (s : Sim) : (dispatch_first s).scheduling_queue = s.scheduling_queue := by
  unfold dispatch_first
  refine foldl_frame (fun x : Sim × Int => x.1.scheduling_queue) _ _ ?_ _
  intro b a
  unfold reserve_body Sim.setInst
  split <;> rfl

@[simp] theorem dispatch_first_scheduling_queue_limit (s : Sim) : (dispatch_first s).scheduling_queue_limit = s.scheduling_queue_limit := by
  unfold dispatch_first
  refine foldl_frame (fun x : Sim × Int => x.1.scheduling_queue_limit) _ _ ?_ _
  intro b a
  unfold reserve_body Sim.setInst
  split <;> rfl

@[simp] theorem dispatch_first_register_file (s : Sim) : (dispatch_first s).register_file = s.register_file := by
  unfold dispatch_first
  refine foldl_frame (fun x : Sim × Int => x.1.register_file) _ _ ?_ _
  intro b a
  unfold reserve_body Sim.setInst
  split <;> rfl

@[simp] theorem dispatch_first_cdb (s : Sim) : (dispatch_first s).cdb = s.cdb := by
  unfold dispatch_first
  refine foldl_frame (fun x : Sim × Int => x.1.cdb) _ _ ?_ _
  intro b a
  unfold reserve_body Sim.setInst
  split <;> rfl

@[simp] theorem dispatch_first_fu_cnt (s : Sim) : (dispatch_first s).fu_cnt = s.fu_cnt := by
  unfold dispatch_first
  refine foldl_frame (fun x : Sim × Int => x.1.fu_cnt) _ _ ?_ _
  intro b a
  unfold reserve_body Sim.setInst
  split <;> rfl

@[simp] theorem dispatch_first_trace (s : Sim) : (dispatch_first s).trace = s.trace := by
  unfold dispatch_first
  refine foldl_frame (fun x : Sim × Int => x.1.trace) _ _ ?_ _
  intro b a
  unfold reserve_body Sim.setInst
  split <;> rfl

@[simp] theorem state_update_second_heap (s : Sim) : (state_update_second s).heap = s.heap := by
  unfold state_update_second
  simp only []
  split <;> rfl

@[simp] theorem state_update_second_all_instrs (s : Sim) : (state_update_second s).all_instrs = s.all_instrs := by
  unfold state_update_second
  simp only []
  split <;> rfl

@[simp] theorem state_update_second_dispatching_queue (s : Sim) : (state_update_second s).dispatching_queue = s.dispatching_queue := by
  unfold state_update_second
  simp only []
  split <;> rfl

@[simp] theorem state_update_second_scheduling_queue_limit (s : Sim) : (state_update_second s).scheduling_queue_limit = s.scheduling_queue_limit := by
  unfold state_update_second
  simp only []
  split <;> rfl

@[simp] theorem state_update_second_register_file (s : Sim) : (state_update_second s).register_file = s.register_file := by
  unfold state_update_second
  simp only []
  split <;> rfl

@[simp] theorem state_update_second_cdb (s : Sim) : (state_update_second s).cdb = s.cdb := by
  unfold state_update_second
  simp only []
  split <;> rfl

@[simp] theorem state_update_second_fu_cnt (s : Sim) : (state_update_second s).fu_cnt = s.fu_cnt := by
  unfold state_update_second
  simp only []
  split <;> rfl

@[simp] theorem state_update_second_trace (s : Sim) : (state_update_second s).trace = s.trace := by
  unfold state_update_second
  simp only []
  split <;> rfl

@[simp] theorem update_instruction_from_cdb_cpu (s : Sim) :
    (update_instruction_from_cdb s).cpu = s.cpu := by
  unfold update_instruction_from_cdb
  refine foldl_frame (fun x : Sim => x.cpu) _ _ ?_ s
  intro b c
  unfold broadcast
  split
  · exact foldl_frame (fun x : Sim => x.cpu) (wake_body c.tag) _ (fun _ _ => rfl) b
  · rfl

@[simp] theorem update_instruction_from_cdb_stats (s : Sim) :
    (update_instruction_from_cdb s).stats = s.stats := by
  unfold update_instruction_from_cdb
  refine foldl_frame (fun x : Sim => x.stats) _ _ ?_ s
  intro b c
  unfold broadcast
  split
  · exact foldl_frame (fun x : Sim => x.stats) (wake_body c.tag) _ (fun _ _ => rfl) b
  · rfl

@[simp] theorem update_instruction_from_cdb_all_instrs (s : Sim) :
    (update_instruction_from_cdb s).all_instrs = s.all_instrs := by
  unfold update_instruction_from_cdb
  refine foldl_frame (fun x : Sim => x.all_instrs) _ _ ?_ s
  intro b c
  unfold broadcast
  split
  · exact foldl_frame (fun x : Sim => x.all_instrs) (wake_body c.tag) _ (fun _ _ => rfl) b
  · rfl

@[simp] theorem update_instruction_from_cdb_dispatching_queue (s : Sim) :
    (update_instruction_from_cdb s).dispatching_queue = s.dispatching_queue := by
  unfold update_instruction_from_cdb
  refine foldl_frame (fun x : Sim => x.dispatching_queue) _ _ ?_ s
  intro b c
  unfold broadcast
  split
  · exact foldl_frame (fun x : Sim => x.dispatching_queue) (wake_body c.tag) _ (fun _ _ => rfl) b
  · rfl

@[simp] theorem update_instruction_from_cdb_scheduling_queue (s : Sim) :
    (update_instruction_from_cdb s).scheduling_queue = s.scheduling_queue := by
  unfold update_instruction_from_cdb
  refine foldl_frame (fun x : Sim => x.scheduling_queue) _ _ ?_ s
  intro b c
  unfold broadcast
  split
  · exact foldl_frame (fun x : Sim => x.scheduling_queue) (wake_body c.tag) _ (fun _ _ => rfl) b
  · rfl

@[simp] theorem update_instruction_from_cdb_scheduling_queue_limit (s : Sim) :
    (update_instruction_from_cdb s).scheduling_queue_limit = s.scheduling_queue_limit := by
  unfold update_instruction_from_cdb
  refine foldl_frame (fun x : Sim => x.scheduling_queue_limit) _ _ ?_ s
  intro b c
  unfold broadcast
  split
  · exact foldl_frame (fun x : Sim => x.scheduling_queue_limit) (wake_body c.tag) _ (fun _ _ => rfl) b
  · rfl

@[simp] theorem update_instruction_from_cdb_register_file (s : Sim) :
    (update_instruction_from_cdb s).register_file = s.register_file := by
  unfold update_instruction_from_cdb
  refine foldl_frame (fun x : Sim => x.register_file) _ _ ?_ s
  intro b c
  unfold broadcast
  split
  · exact foldl_frame (fun x : Sim => x.register_file) (wake_body c.tag) _ (fun _ _ => rfl) b
  · rfl

@[simp] theorem update_instruction_from_cdb_cdb (s : Sim) :
    (update_instruction_from_cdb s).cdb = s.cdb := by
  unfold update_instruction_from_cdb
  refine foldl_frame (fun x : Sim => x.cdb) _ _ ?_ s
  intro b c
  unfold broadcast
  split
  · exact foldl_frame (fun x : Sim => x.cdb) (wake_body c.tag) _ (fun _ _ => rfl) b
  · rfl

@[simp] theorem update_instruction_from_cdb_fu_cnt (s : Sim) :
    (update_instruction_from_cdb s).fu_cnt = s.fu_cnt := by
  unfold update_instruction_from_cdb
  refine foldl_frame (fun x : Sim => x.fu_cnt) _ _ ?_ s
  intro b c
  unfold broadcast
  split
  · exact foldl_frame (fun x : Sim => x.fu_cnt) (wake_body c.tag) _ (fun _ _ => rfl) b
  · rfl

@[simp] theorem update_instruction_from_cdb_trace (s : Sim) :
    (update_instruction_from_cdb s).trace = s.trace := by
  unfold update_instruction_from_cdb
  refine foldl_frame (fun x : Sim => x.trace) _ _ ?_ s
  intro b c
  unfold broadcast
  split
  · exact foldl_frame (fun x : Sim => x.trace) (wake_body c.tag) _ (fun _ _ => rfl) b
  · rfl

@[simp] theorem execute_second_cpu (s : Sim) : (execute_second s).cpu = s.cpu := by
  simp [execute_second]

@[simp] theorem execute_second_stats (s : Sim) : (execute_second s).stats = s.stats := by
  simp [execute_second]

@[simp] theorem execute_second_all_instrs (s : Sim) : (execute_second s).all_instrs = s.all_instrs := by
  simp [execute_second]

@[simp] theorem execute_second_dispatching_queue (s : Sim) : (execute_second s).dispatching_queue = s.dispatching_queue := by
  simp [execute_second]

@[simp] theorem execute_second_scheduling_queue (s : Sim) : (execute_second s).scheduling_queue = s.scheduling_queue := by
  simp [execute_second]

@[simp] theorem execute_second_scheduling_queue_limit (s : Sim) : (execute_second s).scheduling_queue_limit = s.scheduling_queue_limit := by
  simp [execute_second]

@[simp] theorem execute_second_register_file (s : Sim) : (execute_second s).register_file = s.register_file := by
  simp [execute_second]

@[simp] theorem execute_second_fu_cnt (s : Sim) : (execute_second s).fu_cnt = s.fu_cnt := by
  simp [execute_second]

@[simp] theorem execute_second_trace (s : Sim) : (execute_second s).trace = s.trace := by
  simp [execute_second]

theorem drain_cpu (l : List Nat) (s : Sim) : (drain s l).cpu = s.cpu := by
  induction l generalizing s with
  | nil => rfl
  | cons p rest ih =>
    unfold drain
    split
    · rfl
    · rw [ih]
      rfl

@[simp] theorem dispatch_second_cpu (s : Sim) : (dispatch_second s).cpu = s.cpu :=
  drain_cpu _ s

theorem drain_stats (l : List Nat) (s : Sim) : (drain s l).stats = s.stats := by
  induction l generalizing s with
  | nil => rfl
  | cons p rest ih =>
    unfold drain
    split
    · rfl
    · rw [ih]
      rfl

@[simp] theorem dispatch_second_stats (s : Sim) : (dispatch_second s).stats = s.stats :=
  drain_stats _ s

theorem drain_all_instrs (l : List Nat) (s : Sim) : (drain s l).all_instrs = s.all_instrs := by
  induction l generalizing s with
  | nil => rfl
  | cons p rest ih =>
    unfold drain
    split
    · rfl
    · rw [ih]
      rfl

@[simp] theorem dispatch_second_all_instrs (s : Sim) : (dispatch_second s).all_instrs = s.all_instrs :=
  drain_all_instrs _ s

theorem drain_scheduling_queue_limit (l : List Nat) (s : Sim) : (drain s l).scheduling_queue_limit = s.scheduling_queue_limit := by
  induction l generalizing s with
  | nil => rfl
  | cons p rest ih =>
    unfold drain
    split
    · rfl
    · rw [ih]
      rfl

@[simp] theorem dispatch_second_scheduling_queue_limit (s : Sim) : (dispatch_second s).scheduling_queue_limit = s.scheduling_queue_limit :=
  drain_scheduling_queue_limit _ s

theorem drain_cdb (l : List Nat) (s : Sim) : (drain s l).cdb = s.cdb := by
  induction l generalizing s with
  | nil => rfl
  | cons p rest ih =>
    unfold drain
    split
    · rfl
    · rw [ih]
      rfl

@[simp] theorem dispatch_second_cdb (s : Sim) : (dispatch_second s).cdb = s.cdb :=
  drain_cdb _ s

theorem drain_fu_cnt (l : List Nat) (s : Sim) : (drain s l).fu_cnt = s.fu_cnt := by
  induction l generalizing s with
  | nil => rfl
  | cons p rest ih =>
    unfold drain
    split
    · rfl
    · rw [ih]
      rfl

@[simp] theorem dispatch_second_fu_cnt (s : Sim) : (dispatch_second s).fu_cnt = s.fu_cnt :=
  drain_fu_cnt _ s

theorem drain_trace (l : List Nat) (s : Sim) : (drain s l).trace = s.trace := by
  induction l generalizing s with
  | nil => rfl
  | cons p rest ih =>
    unfold drain
    split
    · rfl
    · rw [ih]
      rfl

@[simp] theorem dispatch_second_trace (s : Sim) : (dispatch_second s).trace = s.trace :=
  drain_trace _ s

theorem fetch_loop_stats (n : Nat) (s : Sim) : (fetch_loop n s).stats = s.stats := by
  induction n generalizing s with
  | zero => rfl
  | succ n ih =>
    unfold fetch_loop
    split
    · rfl
    · rw [ih]
      rfl

@[simp] theorem instr_fetch_and_decode_stats (s : Sim) :
    (instr_fetch_and_decode s).stats = s.stats := by
  unfold instr_fetch_and_decode
  split
  · exact fetch_loop_stats _ s
  · rfl

theorem fetch_loop_scheduling_queue (n : Nat) (s : Sim) : (fetch_loop n s).scheduling_queue = s.scheduling_queue := by
  induction n generalizing s with
  | zero => rfl
  | succ n ih =>
    unfold fetch_loop
    split
    · rfl
    · rw [ih]
      rfl

@[simp] theorem instr_fetch_and_decode_scheduling_queue (s : Sim) :
    (instr_fetch_and_decode s).scheduling_queue = s.scheduling_queue := by
  unfold instr_fetch_and_decode
  split
  · exact fetch_loop_scheduling_queue _ s
  · rfl

theorem fetch_loop_scheduling_queue_limit (n : Nat) (s : Sim) : (fetch_loop n s).scheduling_queue_limit = s.scheduling_queue_limit := by
  induction n generalizing s with
  | zero => rfl
  | succ n ih =>
    unfold fetch_loop
    split
    · rfl
    · rw [ih]
      rfl

@[simp] theorem instr_fetch_and_decode_scheduling_queue_limit (s : Sim) :
    (instr_fetch_and_decode s).scheduling_queue_limit = s.scheduling_queue_limit := by
  unfold instr_fetch_and_decode
  split
  · exact fetch_loop_scheduling_queue_limit _ s
  · rfl

theorem fetch_loop_register_file (n : Nat) (s : Sim) : (fetch_loop n s).register_file = s.register_file := by
  induction n generalizing s with
  | zero => rfl
  | succ n ih =>
    unfold fetch_loop
    split
    · rfl
    · rw [ih]
      rfl

@[simp] theorem instr_fetch_and_decode_register_file (s : Sim) :
    (instr_fetch_and_decode s).register_file = s.register_file := by
  unfold instr_fetch_and_decode
  split
  · exact fetch_loop_register_file _ s
  · rfl

theorem fetch_loop_cdb (n : Nat) (s : Sim) : (fetch_loop n s).cdb = s.cdb := by
  induction n generalizing s with
  | zero => rfl
  | succ n ih =>
    unfold fetch_loop
    split
    · rfl
    · rw [ih]
      rfl

@[simp] theorem instr_fetch_and_decode_cdb (s : Sim) :
    (instr_fetch_and_decode s).cdb = s.cdb := by
  unfold instr_fetch_and_decode
  split
  · exact fetch_loop_cdb _ s
  · rfl

theorem fetch_loop_fu_cnt (n : Nat) (s : Sim) : (fetch_loop n s).fu_cnt = s.fu_cnt := by
  induction n generalizing s with
  | zero => rfl
  | succ n ih =>
    unfold fetch_loop
    split
    · rfl
    · rw [ih]
      rfl

@[simp] theorem instr_fetch_and_decode_fu_cnt (s : Sim) :
    (instr_fetch_and_decode s).fu_cnt = s.fu_cnt := by
  unfold instr_fetch_and_decode
  split
  · exact fetch_loop_fu_cnt _ s
  · rfl



/-! ## Reachability -/

theorem Reach.induct_inv {s0 : Sim} (I : Stage → Sim → Prop) (h0 : I .su1 s0)
    (hstep : ∀ pc s, Reach s0 pc s → I pc s → I (next_stage pc s) (stage_fn pc s))
    {pc : Stage} {s : Sim} (h : Reach s0 pc s) : I pc s := by
  induction h with
  | init => exact h0
  | step hr ih => exact hstep _ _ hr ih

theorem fetch_loop_finished (n : Nat) (s : Sim) :
    (fetch_loop n s).cpu.finished = s.cpu.finished := by
  induction n generalizing s with
  | zero => rfl
  | succ n ih =>
    unfold fetch_loop
    split
    · rfl
    · rw [ih]
      rfl

@[simp] theorem instr_fetch_and_decode_finished (s : Sim) :
    (instr_fetch_and_decode s).cpu.finished = s.cpu.finished := by
  unfold instr_fetch_and_decode
  split
  · exact fetch_loop_finished _ s
  · rfl

/-- Every stage but the second half of `state_update` leaves `finished` as it is. -/
theorem stage_fn_finished (pc : Stage) (s : Sim) (h : pc ≠ .su2) :
    (stage_fn pc s).cpu.finished = s.cpu.finished := by
  cases pc <;> simp [stage_fn] at h ⊢
  split <;> simp

theorem state_update_second_finished (s : Sim)
    (h : (state_update_second s).cpu.finished = true) :
    s.cpu.finished = true ∨
      ((state_update_second s).cpu.read_finished = true ∧
       (state_update_second s).stats.retired_instruction = (state_update_second s).cpu.read_cnt) := by
  unfold state_update_second at h ⊢
  simp only [] at h ⊢
  split
  · rename_i hc
    right
    exact hc
  · rename_i hc
    rw [if_neg hc] at h
    left
    exact h

/-- The loop is left exactly when `finished` is set, and then the counts agree. -/
theorem finished_inv (s0 : Sim) (h0 : s0.cpu.finished = false) {pc : Stage} {s : Sim}
    (h : Reach s0 pc s) :
    (pc ≠ .halt → s.cpu.finished = false) ∧
    (s.cpu.finished = true →
      s.cpu.read_finished = true ∧ s.stats.retired_instruction = s.cpu.read_cnt) := by
  refine Reach.induct_inv
    (fun pc s => (pc ≠ .halt → s.cpu.finished = false) ∧
      (s.cpu.finished = true →
        s.cpu.read_finished = true ∧ s.stats.retired_instruction = s.cpu.read_cnt))
    ⟨fun _ => h0, fun hf => by simp [h0] at hf⟩ ?_ h
  intro pc s _ ⟨h1, h2⟩
  by_cases hpc : pc = .su2
  · subst hpc
    have hf := h1 (by decide)
    constructor
    · intro hn
      by_contra hc
      have hc2 : (state_update_second s).cpu.finished = true := by
        simpa [stage_fn] using hc
      simp [next_stage, hc2] at hn
    · intro hfin
      rcases state_update_second_finished s hfin with h | h
      · simp [hf] at h
      · exact h
  · by_cases hh : pc = .halt
    · subst hh
      exact ⟨fun hn => absurd rfl hn, h2⟩
    · have hf := h1 hh
      have hf2 := stage_fn_finished pc s hpc
      constructor
      · intro _
        rw [hf2, hf]
      · intro hfin
        rw [hf2, hf] at hfin
        simp at hfin


theorem halt_finished {s0 : Sim} {pc : Stage} {s : Sim} (h : Reach s0 pc s) :
    pc = .halt → s.cpu.finished = true := by
  refine Reach.induct_inv (fun pc s => pc = .halt → s.cpu.finished = true)
    (fun hh => by cases hh) ?_ h
  intro pc s _ ih hn
  cases pc <;> simp [next_stage] at hn
  · simp [stage_fn, hn]
  · simpa [stage_fn] using hn
  · simpa [stage_fn] using ih rfl

theorem reach_run_stages {s0 : Sim} (n : Nat) {pc : Stage} {s : Sim} (h : Reach s0 pc s) :
    Reach s0 (run_stages n (pc, s)).1 (run_stages n (pc, s)).2 := by
  induction n generalizing pc s with
  | zero => exact h
  | succ n ih => exact ih (Reach.step h)

/-- One loop iteration is ten stage transitions (five when the run finishes). -/
theorem reach_cycle {s0 s : Sim} (h : Reach s0 .su1 s) (hf : s.cpu.finished = false) :
    Reach s0 (if (cycle s).cpu.finished = true then .halt else .su1) (cycle s) := by
  have h1 : Reach s0 .ex1 (state_update_first s) := by
    have := Reach.step h
    simpa [next_stage, stage_fn, hf] using this
  have h2 : Reach s0 .sc1 (execute_first (state_update_first s)) := Reach.step h1
  have h3 : Reach s0 .di1 (schedule_first (execute_first (state_update_first s))) :=
    Reach.step h2
  have h4 : Reach s0 .su2 (dispatch_first (schedule_first (execute_first
      (state_update_first s)))) := Reach.step h3
  have h5 := Reach.step h4
  simp only [next_stage, stage_fn] at h5
  unfold cycle
  simp only []
  generalize state_update_second (dispatch_first (schedule_first
      (execute_first (state_update_first s)))) = s1 at h5 ⊢
  by_cases hc : s1.cpu.finished = true
  · rw [if_pos hc] at h5
    rw [if_pos hc, if_pos hc]
    exact h5
  · rw [if_neg hc] at h5
    have h6 : Reach s0 .sc2 (execute_second s1) := Reach.step h5
    have h7 : Reach s0 .di2 (schedule_second (execute_second s1)) := Reach.step h6
    have h8 : Reach s0 .fd (dispatch_second (schedule_second (execute_second s1))) :=
      Reach.step h7
    have h9 : Reach s0 .inc (instr_fetch_and_decode (dispatch_second (schedule_second
      (execute_second s1)))) := Reach.step h8
    have h10 : Reach s0 .su1 (inc_cycle (instr_fetch_and_decode (dispatch_second
      (schedule_second (execute_second s1))))) := Reach.step h9
    have hc2 : ¬ (inc_cycle (instr_fetch_and_decode (dispatch_second (schedule_second
      (execute_second s1))))).cpu.finished = true := by
      simpa using hc
    rw [if_neg hc, if_neg hc2]
    exact h10

/-- The state in which `run_proc` leaves the loop is reachable at `halt`. -/
theorem reach_run_proc {s0 : Sim} (n : Nat) {s t : Sim} (h : Reach s0 .su1 s)
    (hr : run_proc n s = some t) : Reach s0 .halt t := by
  induction n generalizing s with
  | zero =>
    unfold run_proc at hr
    split at hr
    · rename_i hf
      have h1 := Reach.step h
      simp only [next_stage, stage_fn, hf, if_true] at h1
      cases hr
      exact h1
    · cases hr
  | succ n ih =>
    unfold run_proc at hr
    split at hr
    · rename_i hf
      have h1 := Reach.step h
      simp only [next_stage, stage_fn, hf, if_true] at h1
      cases hr
      exact h1
    · rename_i hf
      have hc := reach_cycle h (by simpa using hf)
      by_cases hfin : (cycle s).cpu.finished = true
      · simp only [hfin, if_true] at hc
        cases n with
        | zero => simp [run_proc, hfin] at hr; subst hr; exact hc
        | succ m => simp [run_proc, hfin] at hr; subst hr; exact hc
      · simp only [hfin, if_false] at hc
        exact ih hc hr


/-! ## Layout of the three containers -/

theorem sweep_fst (heap : Nat → proc_inst_t) (l : List Nat) (r : Nat) :
    (sweep heap l r).1 = l.filter (fun p => decide ((heap p).cycle_status_update = 0)) := by
  induction l generalizing r with
  | nil => rfl
  | cons p rest ih =>
    unfold sweep
    by_cases h : (heap p).cycle_status_update = 0
    · simp [h, ih]
    · simp [h, ih]

theorem sweep_snd (heap : Nat → proc_inst_t) (l : List Nat) (r : Nat) :
    (sweep heap l r).2 + (sweep heap l r).1.length = r + l.length := by
  induction l generalizing r with
  | nil => rfl
  | cons p rest ih =>
    unfold sweep
    by_cases h : (heap p).cycle_status_update = 0
    · simp [h]
      have := ih r
      omega
    · simp [h]
      have := ih (r + 1)
      omega

theorem state_update_second_queue (s : Sim) :
    (state_update_second s).scheduling_queue =
      s.scheduling_queue.filter (fun p => decide ((s.heap p).cycle_status_update = 0)) := by
  unfold state_update_second
  simp only []
  split <;> exact sweep_fst _ _ _

theorem state_update_second_retired (s : Sim) :
    (state_update_second s).stats.retired_instruction +
        (state_update_second s).scheduling_queue.length =
      s.stats.retired_instruction + s.scheduling_queue.length := by
  unfold state_update_second
  simp only []
  split <;> exact sweep_snd _ _ _

@[simp] theorem state_update_second_read_cnt (s : Sim) :
    (state_update_second s).cpu.read_cnt = s.cpu.read_cnt := by
  unfold state_update_second
  simp only []
  split <;> rfl

@[simp] theorem state_update_second_read_finished (s : Sim) :
    (state_update_second s).cpu.read_finished = s.cpu.read_finished := by
  unfold state_update_second
  simp only []
  split <;> rfl

@[simp] theorem state_update_second_f (s : Sim) :
    (state_update_second s).cpu.f = s.cpu.f := by
  unfold state_update_second
  simp only []
  split <;> rfl

@[simp] theorem state_update_second_cycle_count (s : Sim) :
    (state_update_second s).stats.cycle_count = s.stats.cycle_count := by
  unfold state_update_second
  simp only []
  split <;> rfl

/-- The drain loop moves a leading run of the queue to the back of the window. -/
theorem drain_queues (l : List Nat) (s : Sim) :
    ∃ k, k ≤ l.length ∧ (drain s l).dispatching_queue = l.drop k ∧
      (drain s l).scheduling_queue = s.scheduling_queue ++ l.take k := by
  induction l generalizing s with
  | nil => exact ⟨0, by simp [drain]⟩
  | cons p rest ih =>
    unfold drain
    split
    · exact ⟨0, by simp⟩
    · obtain ⟨k, hk, h1, h2⟩ := ih (dispatch_one s p)
      refine ⟨k + 1, by simpa using hk, ?_, ?_⟩
      · simpa [dispatch_one] using h1
      · simpa [dispatch_one] using h2

/-- The read loop appends consecutive pointers to `all_instrs` and to the queue. -/
theorem fetch_loop_queues (n : Nat) (s : Sim) :
    ∃ k, (fetch_loop n s).all_instrs = s.all_instrs ++ List.range' s.all_instrs.length k ∧
      (fetch_loop n s).dispatching_queue =
        s.dispatching_queue ++ List.range' s.all_instrs.length k ∧
      (fetch_loop n s).cpu.read_cnt = s.cpu.read_cnt + k := by
  induction n generalizing s with
  | zero => exact ⟨0, by simp [fetch_loop]⟩
  | succ n ih =>
    unfold fetch_loop
    split
    · exact ⟨0, by simp⟩
    · rename_i t rest _
      obtain ⟨k, h1, h2, h3⟩ := ih (fetch_one s t rest)
      refine ⟨k + 1, ?_, ?_, ?_⟩
      · rw [h1]
        simp [fetch_one, List.range'_succ]
      · rw [h2]
        simp [fetch_one, List.range'_succ]
      · rw [h3]
        simp [fetch_one]
        omega

theorem range_split (a m k : Nat) (hk : k ≤ m) :
    List.range' a m = List.range' a k ++ List.range' (a + k) (m - k) := by
  rw [List.range'_append_1]
  congr 1
  omega

theorem range_take (a m k : Nat) (hk : k ≤ m) :
    (List.range' a m).take k = List.range' a k := by
  rw [range_split a m k hk]
  exact List.take_left' (by simp)

theorem range_drop (a m k : Nat) (hk : k ≤ m) :
    (List.range' a m).drop k = List.range' (a + k) (m - k) := by
  rw [range_split a m k hk]
  exact List.drop_left' (by simp)

theorem layout_init (r k0 k1 k2 f : Nat) (trace : List trace_line) :
    Layout (setup_proc r k0 k1 k2 f trace) 0 := by
  simp [Layout, setup_proc]

theorem layout_same (s t : Sim) (a : Nat) (h1 : t.cpu.read_cnt = s.cpu.read_cnt)
    (h2 : t.all_instrs = s.all_instrs) (h3 : t.dispatching_queue = s.dispatching_queue)
    (h4 : t.scheduling_queue = s.scheduling_queue) (h : Layout s a) : Layout t a := by
  unfold Layout at h ⊢
  rw [h1, h2, h3, h4]
  exact h

theorem layout_su2 (s : Sim) (a : Nat) (h : Layout s a) :
    Layout (state_update_second s) a := by
  obtain ⟨ha, hall, hdq, hw, hp⟩ := h
  simp only [Layout, state_update_second_read_cnt, state_update_second_all_instrs,
    state_update_second_dispatching_queue, state_update_second_queue]
  refine ⟨ha, hall, hdq, ?_, ?_⟩
  · intro p hpm
    exact hw p (List.mem_of_mem_filter hpm)
  · exact hp.sublist (List.filter_sublist _)

theorem layout_drain (s : Sim) (a k : Nat) (h : Layout s a)
    (hk : k ≤ s.dispatching_queue.length)
    (h1 : (dispatch_second s).dispatching_queue = s.dispatching_queue.drop k)
    (h2 : (dispatch_second s).scheduling_queue =
      s.scheduling_queue ++ s.dispatching_queue.take k) :
    Layout (dispatch_second s) (a + k) := by
  obtain ⟨ha, hall, hdq, hw, hp⟩ := h
  simp only [Layout, dispatch_second_cpu, dispatch_second_all_instrs]
  rw [h1, h2]
  rw [hdq] at hk ⊢
  simp only [List.length_range'] at hk
  refine ⟨by omega, hall, ?_, ?_, ?_⟩
  · rw [range_drop _ _ _ hk]
    congr 1
    omega
  · intro p hpm
    rw [List.mem_append] at hpm
    rcases hpm with hpm | hpm
    · have := hw p hpm
      omega
    · rw [range_take _ _ _ hk, List.mem_range'_1] at hpm
      omega
  · rw [List.pairwise_append]
    refine ⟨hp, ?_, ?_⟩
    · rw [range_take _ _ _ hk]
      exact List.pairwise_lt_range' _ _
    · intro x hx y hy
      rw [range_take _ _ _ hk, List.mem_range'_1] at hy
      have := hw x hx
      omega

theorem layout_fetch (s : Sim) (a : Nat) (h : Layout s a) :
    Layout (instr_fetch_and_decode s) a := by
  obtain ⟨ha, hall, hdq, hw, hp⟩ := h
  unfold instr_fetch_and_decode
  split
  · obtain ⟨k, h1, h2, h3⟩ := fetch_loop_queues s.cpu.f s
    simp only [Layout, fetch_loop_scheduling_queue]
    rw [h1, h2, h3, hall, hdq]
    simp only [List.length_range]
    refine ⟨by omega, ?_, ?_, hw, hp⟩
    · rw [List.range_eq_range', List.range_eq_range']
      have := List.range'_append_1 0 s.cpu.read_cnt k
      rw [Nat.zero_add] at this
      rw [this, Nat.add_comm]
    · have e : s.cpu.read_cnt = a + (s.cpu.read_cnt - a) := by omega
      conv_lhs => rw [show List.range' s.cpu.read_cnt k = List.range' (a + (s.cpu.read_cnt - a)) k from by rw [← e]]
      rw [List.range'_append_1]
      congr 1
      omega
  · exact ⟨ha, hall, hdq, hw, hp⟩

theorem layout_step (pc : Stage) (s : Sim) (h : ∃ a, Layout s a) :
    ∃ a, Layout (stage_fn pc s) a := by
  obtain ⟨a, hl⟩ := h
  cases pc
  case su1 =>
    simp only [stage_fn]
    split
    · exact ⟨a, hl⟩
    · exact ⟨a, layout_same s _ a (by simp) (by simp) (by simp) (by simp) hl⟩
  case ex1 => exact ⟨a, layout_same s _ a (by simp [stage_fn]) (by simp [stage_fn])
    (by simp [stage_fn]) (by simp [stage_fn]) hl⟩
  case sc1 => exact ⟨a, layout_same s _ a (by simp [stage_fn]) (by simp [stage_fn])
    (by simp [stage_fn]) (by simp [stage_fn]) hl⟩
  case di1 => exact ⟨a, layout_same s _ a (by simp [stage_fn]) (by simp [stage_fn])
    (by simp [stage_fn]) (by simp [stage_fn]) hl⟩
  case ex2 => exact ⟨a, layout_same s _ a (by simp [stage_fn]) (by simp [stage_fn])
    (by simp [stage_fn]) (by simp [stage_fn]) hl⟩
  case sc2 => exact ⟨a, layout_same s _ a (by simp [stage_fn]) (by simp [stage_fn])
    (by simp [stage_fn]) (by simp [stage_fn]) hl⟩
  case inc => exact ⟨a, hl⟩
  case halt => exact ⟨a, hl⟩
  case su2 => exact ⟨a, layout_su2 s a hl⟩
  case di2 =>
    obtain ⟨k, hk, h1, h2⟩ := drain_queues s.dispatching_queue s
    exact ⟨a + k, layout_drain s a k hl hk h1 h2⟩
  case fd => exact ⟨a, layout_fetch s a hl⟩

theorem layout_reach {r k0 k1 k2 f : Nat} {trace : List trace_line} {pc : Stage} {s : Sim}
    (h : Reach (setup_proc r k0 k1 k2 f trace) pc s) : ∃ a, Layout s a :=
  Reach.induct_inv (fun _ s => ∃ a, Layout s a) ⟨0, layout_init r k0 k1 k2 f trace⟩
    (fun pc s _ ih => layout_step pc s ih) h


/-! ## Monotone evolution of a record -/

theorem instLe_refl (i : proc_inst_t) : InstLe i i :=
  ⟨Eq.refl _, rfl, rfl, rfl, rfl, rfl, rfl, fun _ => rfl, fun _ => rfl, fun _ => rfl,
    fun h => h, fun h => h, fun h => h, fun h => h⟩

theorem instLe_trans {i j k : proc_inst_t} (h1 : InstLe i j) (h2 : InstLe j k) : InstLe i k where
  op_code := h2.op_code.trans h1.op_code
  src_reg0 := h2.src_reg0.trans h1.src_reg0
  src_reg1 := h2.src_reg1.trans h1.src_reg1
  dest_reg := h2.dest_reg.trans h1.dest_reg
  id := h2.id.trans h1.id
  cycle_fetch_decode := h2.cycle_fetch_decode.trans h1.cycle_fetch_decode
  cycle_dispatch := h2.cycle_dispatch.trans h1.cycle_dispatch
  cycle_schedule := fun h => by
    have e := h1.cycle_schedule h
    rw [h2.cycle_schedule (by rw [e]; exact h), e]
  cycle_execute := fun h => by
    have e := h1.cycle_execute h
    rw [h2.cycle_execute (by rw [e]; exact h), e]
  cycle_status_update := fun h => by
    have e := h1.cycle_status_update h
    rw [h2.cycle_status_update (by rw [e]; exact h), e]
  reserved := fun h => h2.reserved (h1.reserved h)
  fire := fun h => h2.fire (h1.fire h)
  fired := fun h => h2.fired (h1.fired h)
  executed := fun h => h2.executed (h1.executed h)

theorem readyLe_refl (i : proc_inst_t) : ReadyLe i i := ⟨fun h => h, fun h => h⟩

theorem readyLe_trans {i j k : proc_inst_t} (h1 : ReadyLe i j) (h2 : ReadyLe j k) :
    ReadyLe i k :=
  ⟨fun h => h2.1 (h1.1 h), fun h => h2.2 (h1.2 h)⟩

theorem wake_instLe (t : Nat) (i : proc_inst_t) : InstLe i (wake t i) := by
  unfold wake
  simp only []
  split <;> split <;> exact ⟨rfl, rfl, rfl, rfl, rfl, rfl, rfl, fun _ => rfl, fun _ => rfl,
    fun _ => rfl, fun h => h, fun h => h, fun h => h, fun h => h⟩

theorem wake_readyLe (t : Nat) (i : proc_inst_t) : ReadyLe i (wake t i) := by
  unfold wake ReadyLe
  simp only []
  split <;> split <;> simp_all

theorem schedule_first_inst_instLe (c : Nat) (i : proc_inst_t) :
    InstLe i (schedule_first_inst c i) := by
  unfold schedule_first_inst
  simp only []
  split
  · exact instLe_refl i
  · split <;> split <;>
      refine ⟨rfl, rfl, rfl, rfl, rfl, rfl, rfl, ?_, fun _ => rfl,
        fun _ => rfl, fun h => h, ?_, fun h => h, fun h => h⟩ <;> simp_all

theorem schedule_first_inst_readyLe (c : Nat) (i : proc_inst_t) :
    ReadyLe i (schedule_first_inst c i) := by
  unfold schedule_first_inst ReadyLe
  simp only []
  split
  · exact ⟨fun h => h, fun h => h⟩
  · split <;> split <;> simp_all

theorem update_instr_instLe (rf : Int → register_info_t) (i : proc_inst_t) :
    InstLe i (update_instr rf i) := by
  unfold update_instr
  simp only []
  split <;> split <;> (try split) <;> (try split) <;>
    exact ⟨rfl, rfl, rfl, rfl, rfl, rfl, rfl, fun _ => rfl, fun _ => rfl,
      fun _ => rfl, fun h => h, fun h => h, fun h => h, fun h => h⟩



theorem foldl_heap_rel {α : Type} (R : proc_inst_t → proc_inst_t → Prop)
    (hrefl : ∀ i, R i i) (htrans : ∀ i j k, R i j → R j k → R i k)
    (body : α → Nat → α) (hp : α → Nat → proc_inst_t)
    (hbody : ∀ st p q, R (hp st q) (hp (body st p) q)) (l : List Nat) (s : α) (q : Nat) :
    R (hp s q) (hp (l.foldl body s) q) :=
  foldl_inv (fun st => R (hp s q) (hp st q)) body l
    (fun st p _ h => htrans _ _ _ h (hbody st p q)) s (hrefl _)

theorem foldl_heap_local {α : Type} (body : α → Nat → α) (hp : α → Nat → proc_inst_t)
    (hbody : ∀ st p q, q ≠ p → hp (body st p) q = hp st q) (l : List Nat) (s : α) (q : Nat)
    (hq : q ∉ l) : hp (l.foldl body s) q = hp s q :=
  foldl_inv (fun st => hp st q = hp s q) body l
    (fun st p hpl h => by
      show hp (body st p) q = hp s q
      rw [hbody st p q (fun e => hq (e ▸ hpl)), h]) s rfl

/-- Later state of a record, source flags included. -/
theorem state_update_first_body_le (s : Sim) (p q : Nat) :
    InstLe (s.heap q) ((state_update_first_body s p).heap q) ∧
    ReadyLe (s.heap q) ((state_update_first_body s p).heap q) := by
  unfold state_update_first_body Sim.setInst
  split
  · rename_i h
    by_cases e : q = p
    · subst e
      simp only [if_true]
      exact ⟨⟨rfl, rfl, rfl, rfl, rfl, rfl, rfl, fun _ => rfl, fun _ => rfl,
        fun h2 => absurd h.2 h2, fun h => h, fun h => h, fun h => h, fun h => h⟩,
        fun h => h, fun h => h⟩
    · simp only [if_neg e]
      exact ⟨instLe_refl _, readyLe_refl _⟩
  · exact ⟨instLe_refl _, readyLe_refl _⟩

theorem execute_first_body_le (s : Sim) (p q : Nat) :
    InstLe (s.heap q) ((execute_first_body s p).heap q) ∧
    ReadyLe (s.heap q) ((execute_first_body s p).heap q) := by
  unfold execute_first_body
  split
  · rename_i h
    split
    · exact ⟨instLe_refl _, readyLe_refl _⟩
    · by_cases e : q = p
      · subst e
        simp only [if_true]
        exact ⟨⟨rfl, rfl, rfl, rfl, rfl, rfl, rfl, fun _ => rfl, fun h2 => absurd h.2 h2,
          fun _ => rfl, fun h => h, fun h => h, fun h => h, fun _ => rfl⟩,
          fun h => h, fun h => h⟩
      · simp only [if_neg e]
        exact ⟨instLe_refl _, readyLe_refl _⟩
  · exact ⟨instLe_refl _, readyLe_refl _⟩

theorem schedule_first_body_le (s : Sim) (p q : Nat) :
    InstLe (s.heap q) ((schedule_first_body s p).heap q) ∧
    ReadyLe (s.heap q) ((schedule_first_body s p).heap q) := by
  unfold schedule_first_body Sim.setInst
  by_cases e : q = p
  · subst e
    simp only [if_true]
    exact ⟨schedule_first_inst_instLe _ _, schedule_first_inst_readyLe _ _⟩
  · simp only [if_neg e]
    exact ⟨instLe_refl _, readyLe_refl _⟩

theorem schedule_second_body_le (s : Sim) (p q : Nat) :
    InstLe (s.heap q) ((schedule_second_body s p).heap q) ∧
    ReadyLe (s.heap q) ((schedule_second_body s p).heap q) := by
  unfold schedule_second_body
  split
  · split
    · exact ⟨instLe_refl _, readyLe_refl _⟩
    · by_cases e : q = p
      · subst e
        simp only [if_true]
        exact ⟨⟨rfl, rfl, rfl, rfl, rfl, rfl, rfl, fun _ => rfl, fun _ => rfl,
          fun _ => rfl, fun h => h, fun h => h, fun _ => rfl, fun h => h⟩,
          fun h => h, fun h => h⟩
      · simp only [if_neg e]
        exact ⟨instLe_refl _, readyLe_refl _⟩
  · exact ⟨instLe_refl _, readyLe_refl _⟩

theorem wake_body_le (t : Nat) (s : Sim) (p q : Nat) :
    InstLe (s.heap q) ((wake_body t s p).heap q) ∧
    ReadyLe (s.heap q) ((wake_body t s p).heap q) := by
  unfold wake_body Sim.setInst
  by_cases e : q = p
  · subst e
    simp only [if_true]
    exact ⟨wake_instLe _ _, wake_readyLe _ _⟩
  · simp only [if_neg e]
    exact ⟨instLe_refl _, readyLe_refl _⟩

theorem reserve_body_le (acc : Sim × Int) (p q : Nat) :
    InstLe (acc.1.heap q) ((reserve_body acc p).1.heap q) ∧
    ReadyLe (acc.1.heap q) ((reserve_body acc p).1.heap q) := by
  unfold reserve_body Sim.setInst
  split
  · by_cases e : q = p
    · subst e
      simp only [if_true]
      exact ⟨⟨rfl, rfl, rfl, rfl, rfl, rfl, rfl, fun _ => rfl, fun _ => rfl,
        fun _ => rfl, fun _ => rfl, fun h => h, fun h => h, fun h => h⟩,
        fun h => h, fun h => h⟩
    · simp only [if_neg e]
      exact ⟨instLe_refl _, readyLe_refl _⟩
  · exact ⟨instLe_refl _, readyLe_refl _⟩

theorem le_refl_pair (i : proc_inst_t) : InstLe i i ∧ ReadyLe i i :=
  ⟨instLe_refl i, readyLe_refl i⟩

theorem le_trans_pair (i j k : proc_inst_t) (h1 : InstLe i j ∧ ReadyLe i j)
    (h2 : InstLe j k ∧ ReadyLe j k) : InstLe i k ∧ ReadyLe i k :=
  ⟨instLe_trans h1.1 h2.1, readyLe_trans h1.2 h2.2⟩

theorem state_update_first_le (s : Sim) (q : Nat) :
    InstLe (s.heap q) ((state_update_first s).heap q) ∧
    ReadyLe (s.heap q) ((state_update_first s).heap q) :=
  foldl_heap_rel (fun i j => InstLe i j ∧ ReadyLe i j) le_refl_pair le_trans_pair
    state_update_first_body (fun st => st.heap) state_update_first_body_le _ s q

theorem execute_first_le (s : Sim) (q : Nat) :
    InstLe (s.heap q) ((execute_first s).heap q) ∧
    ReadyLe (s.heap q) ((execute_first s).heap q) :=
  foldl_heap_rel (fun i j => InstLe i j ∧ ReadyLe i j) le_refl_pair le_trans_pair
    execute_first_body (fun st => st.heap) execute_first_body_le _ s q

theorem schedule_first_le (s : Sim) (q : Nat) :
    InstLe (s.heap q) ((schedule_first s).heap q) ∧
    ReadyLe (s.heap q) ((schedule_first s).heap q) :=
  foldl_heap_rel (fun i j => InstLe i j ∧ ReadyLe i j) le_refl_pair le_trans_pair
    schedule_first_body (fun st => st.heap) schedule_first_body_le _ s q

theorem schedule_second_le (s : Sim) (q : Nat) :
    InstLe (s.heap q) ((schedule_second s).heap q) ∧
    ReadyLe (s.heap q) ((schedule_second s).heap q) :=
  foldl_heap_rel (fun i j => InstLe i j ∧ ReadyLe i j) le_refl_pair le_trans_pair
    schedule_second_body (fun st => st.heap) schedule_second_body_le _ s q

theorem dispatch_first_le (s : Sim) (q : Nat) :
    InstLe (s.heap q) ((dispatch_first s).heap q) ∧
    ReadyLe (s.heap q) ((dispatch_first s).heap q) :=
  foldl_heap_rel (fun i j => InstLe i j ∧ ReadyLe i j) le_refl_pair le_trans_pair
    reserve_body (fun st => st.1.heap) reserve_body_le s.dispatching_queue
    ({ s with stats :=
        { s.stats with
          max_disp_size :=
            if s.stats.max_disp_size < s.dispatching_queue.length then s.dispatching_queue.length
            else s.stats.max_disp_size
          sum_disp_size := s.stats.sum_disp_size + s.dispatching_queue.length } },
      to_int ((s.scheduling_queue_limit - (s.scheduling_queue.length : Int)) %
        18446744073709551616).toNat) q

theorem broadcast_le (s : Sim) (c : proc_cdb_t) (q : Nat) :
    InstLe (s.heap q) ((broadcast s c).heap q) ∧
    ReadyLe (s.heap q) ((broadcast s c).heap q) := by
  unfold broadcast
  split
  · exact foldl_heap_rel (fun i j => InstLe i j ∧ ReadyLe i j) le_refl_pair le_trans_pair
      (wake_body c.tag) (fun st => st.heap) (wake_body_le c.tag) _ s q
  · exact le_refl_pair _

theorem update_instruction_from_cdb_le (s : Sim) (q : Nat) :
    InstLe (s.heap q) ((update_instruction_from_cdb s).heap q) ∧
    ReadyLe (s.heap q) ((update_instruction_from_cdb s).heap q) :=
  foldl_inv (fun st => InstLe (s.heap q) (st.heap q) ∧ ReadyLe (s.heap q) (st.heap q))
    broadcast s.cdb (fun st c _ h => le_trans_pair _ _ _ h (broadcast_le st c q)) s
    (le_refl_pair _)

theorem execute_second_le (s : Sim) (q : Nat) :
    InstLe (s.heap q) ((execute_second s).heap q) ∧
    ReadyLe (s.heap q) ((execute_second s).heap q) :=
  update_instruction_from_cdb_le s q

theorem drain_instLe (l : List Nat) (s : Sim) (q : Nat) :
    InstLe (s.heap q) ((drain s l).heap q) := by
  induction l generalizing s with
  | nil => exact instLe_refl _
  | cons p rest ih =>
    unfold drain
    split
    · exact instLe_refl _
    · refine instLe_trans ?_ (ih _)
      unfold dispatch_one
      by_cases e : q = p
      · subst e
        simp only [if_true]
        exact update_instr_instLe _ _
      · simp only [if_neg e]
        exact instLe_refl _

theorem drain_heap_local (l : List Nat) (s : Sim) (q : Nat) (hq : q ∉ l) :
    (drain s l).heap q = s.heap q := by
  induction l generalizing s with
  | nil => rfl
  | cons p rest ih =>
    unfold drain
    have hne : q ≠ p := fun e => hq (e ▸ List.mem_cons_self _ _)
    have hr : q ∉ rest := fun e => hq (List.mem_cons_of_mem _ e)
    split
    · rfl
    · rw [ih _ hr]
      simp only [dispatch_one, if_neg hne]

theorem fetch_loop_heap_local (n : Nat) (s : Sim) (q : Nat) (hq : q < s.all_instrs.length) :
    (fetch_loop n s).heap q = s.heap q := by
  induction n generalizing s with
  | zero => rfl
  | succ n ih =>
    unfold fetch_loop
    split
    · rfl
    · rw [ih _ (by simp [fetch_one]; omega)]
      simp only [fetch_one, if_neg (Nat.ne_of_lt hq)]

theorem instr_fetch_and_decode_heap_local (s : Sim) (q : Nat) (hq : q < s.all_instrs.length) :
    (instr_fetch_and_decode s).heap q = s.heap q := by
  unfold instr_fetch_and_decode
  split
  · exact fetch_loop_heap_local _ s q hq
  · rfl

/-- Every stage moves every allocated record to a later state. -/
theorem stage_fn_instLe (pc : Stage) (s : Sim) (q : Nat) (hq : q < s.all_instrs.length) :
    InstLe (s.heap q) ((stage_fn pc s).heap q) := by
  cases pc <;> simp only [stage_fn]
  case su1 =>
    split
    · exact instLe_refl _
    · exact (state_update_first_le s q).1
  case ex1 => exact (execute_first_le s q).1
  case sc1 => exact (schedule_first_le s q).1
  case di1 => exact (dispatch_first_le s q).1
  case su2 => rw [state_update_second_heap]; exact instLe_refl _
  case ex2 => exact (execute_second_le s q).1
  case sc2 => exact (schedule_second_le s q).1
  case di2 => exact drain_instLe _ s q
  case fd => rw [instr_fetch_and_decode_heap_local s q hq]; exact instLe_refl _
  case inc => exact instLe_refl _
  case halt => exact instLe_refl _

/-- No stage lowers a source flag of a record outside the dispatch queue. -/
theorem stage_fn_readyLe (pc : Stage) (s : Sim) (q : Nat) (hq : q < s.all_instrs.length)
    (hd : q ∉ s.dispatching_queue) : ReadyLe (s.heap q) ((stage_fn pc s).heap q) := by
  cases pc <;> simp only [stage_fn]
  case su1 =>
    split
    · exact readyLe_refl _
    · exact (state_update_first_le s q).2
  case ex1 => exact (execute_first_le s q).2
  case sc1 => exact (schedule_first_le s q).2
  case di1 => exact (dispatch_first_le s q).2
  case su2 => rw [state_update_second_heap]; exact readyLe_refl _
  case ex2 => exact (execute_second_le s q).2
  case sc2 => exact (schedule_second_le s q).2
  case di2 =>
    unfold dispatch_second
    rw [drain_heap_local _ s q hd]
    exact readyLe_refl _
  case fd => rw [instr_fetch_and_decode_heap_local s q hq]; exact readyLe_refl _
  case inc => exact readyLe_refl _
  case halt => exact readyLe_refl _


/-! ## The window loops as record operations -/

theorem state_update_first_body_op (s : Sim) (p q : Nat) :
    (state_update_first_body s p).heap q = s.heap q ∨
    WinOp s.stats.cycle_count .su1 (s.heap q) ((state_update_first_body s p).heap q) := by
  unfold state_update_first_body Sim.setInst
  split
  · rename_i h
    by_cases e : q = p
    · subst e
      simp only [if_true]
      exact Or.inr (WinOp.retire _ h.1 h.2)
    · simp only [if_neg e]
      exact Or.inl trivial
  · exact Or.inl rfl

theorem execute_first_body_op (s : Sim) (p q : Nat) :
    (execute_first_body s p).heap q = s.heap q ∨
    WinOp s.stats.cycle_count .ex1 (s.heap q) ((execute_first_body s p).heap q) := by
  unfold execute_first_body
  split
  · rename_i h
    split
    · exact Or.inl rfl
    · by_cases e : q = p
      · subst e
        simp only [if_true]
        exact Or.inr (WinOp.exec _ h.1 h.2)
      · simp only [if_neg e]
        exact Or.inl trivial
  · exact Or.inl rfl

theorem schedule_first_body_op (s : Sim) (p q : Nat) :
    (schedule_first_body s p).heap q = s.heap q ∨
    WinOp s.stats.cycle_count .sc1 (s.heap q) ((schedule_first_body s p).heap q) := by
  unfold schedule_first_body Sim.setInst
  by_cases e : q = p
  · subst e
    simp only [if_true]
    exact Or.inr (WinOp.sched _)
  · simp only [if_neg e]
    exact Or.inl trivial

theorem schedule_second_body_op (s : Sim) (p q : Nat) :
    (schedule_second_body s p).heap q = s.heap q ∨
    WinOp s.stats.cycle_count .sc2 (s.heap q) ((schedule_second_body s p).heap q) := by
  unfold schedule_second_body
  split
  · rename_i h
    split
    · exact Or.inl rfl
    · by_cases e : q = p
      · subst e
        simp only [if_true]
        exact Or.inr (WinOp.fire _ h.1 h.2)
      · simp only [if_neg e]
        exact Or.inl trivial
  · exact Or.inl rfl

theorem wake_body_op (t : Nat) (s : Sim) (p q : Nat) :
    (wake_body t s p).heap q = s.heap q ∨
    WinOp s.stats.cycle_count .ex2 (s.heap q) ((wake_body t s p).heap q) := by
  unfold wake_body Sim.setInst
  by_cases e : q = p
  · subst e
    simp only [if_true]
    exact Or.inr (WinOp.wake t _)
  · simp only [if_neg e]
    exact Or.inl trivial

/-- A loop whose body acts on records by the operations `W` of the current
cycle preserves every property of a record that these operations preserve. -/
theorem foldl_winop (P : proc_inst_t → Prop) (cc : Nat)
    (W : Nat → proc_inst_t → proc_inst_t → Prop)
    (hP : ∀ i j, W cc i j → P i → P j) (body : Sim → Nat → Sim)
    (hcc : ∀ st p, (body st p).stats.cycle_count = st.stats.cycle_count)
    (hop : ∀ st p q, (body st p).heap q = st.heap q ∨
      W st.stats.cycle_count (st.heap q) ((body st p).heap q))
    (l : List Nat) (s : Sim) (hs : s.stats.cycle_count = cc) (q : Nat) (hq : P (s.heap q)) :
    P ((l.foldl body s).heap q) ∧ (l.foldl body s).stats.cycle_count = cc :=
  foldl_inv (fun st => P (st.heap q) ∧ st.stats.cycle_count = cc) body l
    (fun st p _ h => by
      refine ⟨?_, (hcc st p).trans h.2⟩
      rcases hop st p q with e | e
      · rw [e]; exact h.1
      · rw [h.2] at e; exact hP _ _ e h.1) s ⟨hq, hs⟩

theorem state_update_first_body_cc (s : Sim) (p : Nat) :
    (state_update_first_body s p).stats.cycle_count = s.stats.cycle_count := by
  unfold state_update_first_body Sim.setInst
  split <;> rfl

theorem execute_first_body_cc (s : Sim) (p : Nat) :
    (execute_first_body s p).stats.cycle_count = s.stats.cycle_count := by
  unfold execute_first_body
  split
  · split <;> rfl
  · rfl

theorem schedule_second_body_cc (s : Sim) (p : Nat) :
    (schedule_second_body s p).stats.cycle_count = s.stats.cycle_count := by
  unfold schedule_second_body
  split
  · split <;> rfl
  · rfl

/-- The window stages preserve every record property closed under the window
operations of the current cycle. -/
theorem window_stage_inv (P : proc_inst_t → Prop) (pc : Stage) (hw : pc.isWindow = true)
    (s : Sim) (hP : ∀ i j, WinOp s.stats.cycle_count pc i j → P i → P j) (q : Nat)
    (hq : P (s.heap q)) : P ((stage_fn pc s).heap q) := by
  cases pc <;> simp only [Stage.isWindow] at hw <;> (try exact absurd hw (by decide)) <;>
    simp only [stage_fn]
  case su1 =>
    split
    · exact hq
    · exact (foldl_winop P _ (fun c => WinOp c .su1) hP state_update_first_body state_update_first_body_cc
        state_update_first_body_op _ s rfl q hq).1
  case ex1 =>
    exact (foldl_winop P _ (fun c => WinOp c .ex1) hP execute_first_body execute_first_body_cc
      execute_first_body_op _ s rfl q hq).1
  case sc1 =>
    exact (foldl_winop P _ (fun c => WinOp c .sc1) hP schedule_first_body (fun _ _ => rfl)
      schedule_first_body_op _ s rfl q hq).1
  case sc2 =>
    exact (foldl_winop P _ (fun c => WinOp c .sc2) hP schedule_second_body schedule_second_body_cc
      schedule_second_body_op _ s rfl q hq).1
  case ex2 =>
    show P ((update_instruction_from_cdb s).heap q)
    unfold update_instruction_from_cdb
    refine (foldl_inv (fun st => P (st.heap q) ∧ st.stats.cycle_count = s.stats.cycle_count)
      broadcast s.cdb ?_ s ⟨hq, rfl⟩).1
    intro st c _ h
    show P ((broadcast st c).heap q) ∧ (broadcast st c).stats.cycle_count = _
    unfold broadcast
    split
    · exact foldl_winop P _ (fun c => WinOp c .ex2) hP (wake_body c.tag) (fun _ _ => rfl) (wake_body_op c.tag)
        _ st h.2 q h.1
    · exact h

/-- The window stages write only to records of the window. -/
theorem window_stage_local (pc : Stage) (hw : pc.isWindow = true) (s : Sim) (q : Nat)
    (hq : q ∉ s.scheduling_queue) : (stage_fn pc s).heap q = s.heap q := by
  cases pc <;> simp only [Stage.isWindow] at hw <;> (try exact absurd hw (by decide)) <;>
    simp only [stage_fn]
  case su1 =>
    split
    · rfl
    · refine foldl_heap_local state_update_first_body (fun st => st.heap) ?_ _ s q hq
      intro st p q hne
      unfold state_update_first_body Sim.setInst
      split
      · simp only [if_neg hne]
      · rfl
  case ex1 =>
    refine foldl_heap_local execute_first_body (fun st => st.heap) ?_ _ s q hq
    intro st p q hne
    unfold execute_first_body
    split
    · split
      · rfl
      · simp only [if_neg hne]
    · rfl
  case sc1 =>
    refine foldl_heap_local schedule_first_body (fun st => st.heap) ?_ _ s q hq
    intro st p q hne
    unfold schedule_first_body Sim.setInst
    simp only [if_neg hne]
  case sc2 =>
    refine foldl_heap_local schedule_second_body (fun st => st.heap) ?_ _ s q hq
    intro st p q hne
    unfold schedule_second_body
    split
    · split
      · rfl
      · simp only [if_neg hne]
    · rfl
  case ex2 =>
    show (update_instruction_from_cdb s).heap q = s.heap q
    unfold update_instruction_from_cdb
    refine (foldl_inv (fun st => st.heap q = s.heap q ∧
      st.scheduling_queue = s.scheduling_queue) broadcast s.cdb ?_ s ⟨rfl, rfl⟩).1
    intro st c _ h
    show (broadcast st c).heap q = _ ∧ (broadcast st c).scheduling_queue = _
    unfold broadcast
    split
    · constructor
      · rw [← h.1]
        refine foldl_heap_local (wake_body c.tag) (fun st => st.heap) ?_ _ st q
          (by rw [h.2]; exact hq)
        intro st p q hne
        unfold wake_body Sim.setInst
        simp only [if_neg hne]
      · rw [← h.2]
        exact foldl_frame (fun x : Sim => x.scheduling_queue) (wake_body c.tag) _
          (fun _ _ => rfl) st
    · exact h


/-! ## Fields left alone by the operand lookup -/

@[simp] theorem update_instr_op_code (rf : Int → register_info_t) (i : proc_inst_t) :
    (update_instr rf i).op_code = i.op_code := by
  unfold update_instr
  simp only []
  split <;> split <;> (try split) <;> (try split) <;> rfl

@[simp] theorem update_instr_src_reg0 (rf : Int → register_info_t) (i : proc_inst_t) :
    (update_instr rf i).src_reg0 = i.src_reg0 := by
  unfold update_instr
  simp only []
  split <;> split <;> (try split) <;> (try split) <;> rfl

@[simp] theorem update_instr_src_reg1 (rf : Int → register_info_t) (i : proc_inst_t) :
    (update_instr rf i).src_reg1 = i.src_reg1 := by
  unfold update_instr
  simp only []
  split <;> split <;> (try split) <;> (try split) <;> rfl

@[simp] theorem update_instr_dest_reg (rf : Int → register_info_t) (i : proc_inst_t) :
    (update_instr rf i).dest_reg = i.dest_reg := by
  unfold update_instr
  simp only []
  split <;> split <;> (try split) <;> (try split) <;> rfl

@[simp] theorem update_instr_id (rf : Int → register_info_t) (i : proc_inst_t) :
    (update_instr rf i).id = i.id := by
  unfold update_instr
  simp only []
  split <;> split <;> (try split) <;> (try split) <;> rfl

@[simp] theorem update_instr_reserved (rf : Int → register_info_t) (i : proc_inst_t) :
    (update_instr rf i).reserved = i.reserved := by
  unfold update_instr
  simp only []
  split <;> split <;> (try split) <;> (try split) <;> rfl

@[simp] theorem update_instr_fire (rf : Int → register_info_t) (i : proc_inst_t) :
    (update_instr rf i).fire = i.fire := by
  unfold update_instr
  simp only []
  split <;> split <;> (try split) <;> (try split) <;> rfl

@[simp] theorem update_instr_fired (rf : Int → register_info_t) (i : proc_inst_t) :
    (update_instr rf i).fired = i.fired := by
  unfold update_instr
  simp only []
  split <;> split <;> (try split) <;> (try split) <;> rfl

@[simp] theorem update_instr_executed (rf : Int → register_info_t) (i : proc_inst_t) :
    (update_instr rf i).executed = i.executed := by
  unfold update_instr
  simp only []
  split <;> split <;> (try split) <;> (try split) <;> rfl

@[simp] theorem update_instr_cycle_fetch_decode (rf : Int → register_info_t) (i : proc_inst_t) :
    (update_instr rf i).cycle_fetch_decode = i.cycle_fetch_decode := by
  unfold update_instr
  simp only []
  split <;> split <;> (try split) <;> (try split) <;> rfl

@[simp] theorem update_instr_cycle_dispatch (rf : Int → register_info_t) (i : proc_inst_t) :
    (update_instr rf i).cycle_dispatch = i.cycle_dispatch := by
  unfold update_instr
  simp only []
  split <;> split <;> (try split) <;> (try split) <;> rfl

@[simp] theorem update_instr_cycle_schedule (rf : Int → register_info_t) (i : proc_inst_t) :
    (update_instr rf i).cycle_schedule = i.cycle_schedule := by
  unfold update_instr
  simp only []
  split <;> split <;> (try split) <;> (try split) <;> rfl

@[simp] theorem update_instr_cycle_execute (rf : Int → register_info_t) (i : proc_inst_t) :
    (update_instr rf i).cycle_execute = i.cycle_execute := by
  unfold update_instr
  simp only []
  split <;> split <;> (try split) <;> (try split) <;> rfl

@[simp] theorem update_instr_cycle_status_update (rf : Int → register_info_t) (i : proc_inst_t) :
    (update_instr rf i).cycle_status_update = i.cycle_status_update := by
  unfold update_instr
  simp only []
  split <;> split <;> (try split) <;> (try split) <;> rfl

theorem dispatch_first_heap (s : Sim) (q : Nat) :
    (dispatch_first s).heap q = s.heap q ∨
    (q ∈ s.dispatching_queue ∧
      (dispatch_first s).heap q = { s.heap q with reserved := true }) := by
  unfold dispatch_first
  simp only []
  generalize (to_int ((s.scheduling_queue_limit - (s.scheduling_queue.length : Int)) %
        18446744073709551616).toNat) = av
  refine foldl_inv (fun (st : Sim × Int) => st.1.heap q = s.heap q ∨
    (q ∈ s.dispatching_queue ∧ st.1.heap q = { s.heap q with reserved := true }))
    reserve_body s.dispatching_queue ?_ _ (Or.inl rfl)
  intro st p hp h
  show (reserve_body st p).1.heap q = _ ∨ _
  unfold reserve_body Sim.setInst
  split
  · by_cases e : q = p
    · subst e
      simp only [if_true]
      right
      refine ⟨hp, ?_⟩
      rcases h with h | h
      · rw [h]
      · rw [h.2]
    · simp only [if_neg e]
      exact h
  · exact h

/-! ## The firing rule -/

theorem fireOk_winop (cc : Nat) (pc : Stage) (i j : proc_inst_t) (h : WinOp cc pc i j)
    (hi : FireOk i) :
    FireOk j := by
  cases h with
  | retire _ _ _ => exact hi
  | exec _ _ _ => exact hi
  | sched =>
    unfold schedule_first_inst instr_src_available
    simp only []
    split
    · exact hi
    · rename_i hf
      split <;> split <;> simp_all [FireOk]
  | fire _ hf1 _ => exact ⟨fun _ => hf1, hi.2⟩
  | wake t =>
    unfold wake
    simp only []
    split <;> split <;> simp_all [FireOk]

theorem drain_fireOk (l : List Nat) (s : Sim) (h1 : ∀ q, FireOk (s.heap q))
    (h2 : ∀ q ∈ l, (s.heap q).fire = false) :
    (∀ q, FireOk ((drain s l).heap q)) ∧
    ∀ q ∈ (drain s l).dispatching_queue, ((drain s l).heap q).fire = false := by
  induction l generalizing s with
  | nil => exact ⟨h1, fun q hq => by simp [drain] at hq⟩
  | cons p rest ih =>
    unfold drain
    split
    · exact ⟨h1, h2⟩
    · have hp := h2 p (List.mem_cons_self _ _)
      apply ih
      · intro q
        unfold dispatch_one
        by_cases e : q = p
        · subst e
          simp only [if_true]
          have := h1 q
          constructor
          · intro hf
            rw [update_instr_fired] at hf
            rw [update_instr_fire]
            exact this.1 hf
          · intro hf
            rw [update_instr_fire, hp] at hf
            cases hf
        · simp only [if_neg e]
          exact h1 q
      · intro q hq
        unfold dispatch_one
        by_cases e : q = p
        · subst e
          simp only [if_true, update_instr_fire]
          exact hp
        · simp only [if_neg e]
          exact h2 q (List.mem_cons_of_mem _ hq)

theorem fetch_loop_fireOk (n : Nat) (s : Sim) (h1 : ∀ q, FireOk (s.heap q))
    (h2 : ∀ q ∈ s.dispatching_queue, (s.heap q).fire = false) :
    (∀ q, FireOk ((fetch_loop n s).heap q)) ∧
    ∀ q ∈ (fetch_loop n s).dispatching_queue, ((fetch_loop n s).heap q).fire = false := by
  induction n generalizing s with
  | zero => exact ⟨h1, h2⟩
  | succ n ih =>
    unfold fetch_loop
    split
    · exact ⟨h1, h2⟩
    · apply ih
      · intro q
        unfold fetch_one
        by_cases e : q = s.all_instrs.length
        · simp only [if_pos e]
          simp [FireOk, new_inst]
        · simp only [if_neg e]
          exact h1 q
      · intro q hq
        unfold fetch_one at hq ⊢
        by_cases e : q = s.all_instrs.length
        · simp only [if_pos e]
          rfl
        · simp only [if_neg e]
          simp only [List.mem_append, List.mem_singleton] at hq
          rcases hq with hq | hq
          · exact h2 q hq
          · exact absurd hq e

theorem layout_disjoint {s : Sim} {a : Nat} (h : Layout s a) {q : Nat}
    (hq : q ∈ s.dispatching_queue) : q ∉ s.scheduling_queue := by
  obtain ⟨_, _, hdq, hw, _⟩ := h
  intro hm
  rw [hdq, List.mem_range'_1] at hq
  have := hw q hm
  omega

theorem window_stage_dq (pc : Stage) (hw : pc.isWindow = true) (s : Sim) :
    (stage_fn pc s).dispatching_queue = s.dispatching_queue := by
  cases pc <;> simp only [Stage.isWindow] at hw <;> (try exact absurd hw (by decide)) <;>
    simp only [stage_fn]
  · split
    · rfl
    · simp
  all_goals simp

theorem fireOk_step (pc : Stage) (s : Sim) (hl : ∃ a, Layout s a)
    (h : (∀ q, FireOk (s.heap q)) ∧ ∀ q ∈ s.dispatching_queue, (s.heap q).fire = false) :
    (∀ q, FireOk ((stage_fn pc s).heap q)) ∧
    ∀ q ∈ (stage_fn pc s).dispatching_queue, ((stage_fn pc s).heap q).fire = false := by
  obtain ⟨a, hl⟩ := hl
  have win : ∀ pc : Stage, pc.isWindow = true →
      (∀ q, FireOk ((stage_fn pc s).heap q)) ∧
      ∀ q ∈ (stage_fn pc s).dispatching_queue, ((stage_fn pc s).heap q).fire = false := by
    intro pc hw
    constructor
    · intro q
      exact window_stage_inv FireOk pc hw s (fireOk_winop _ _) q (h.1 q)
    · intro q hq
      rw [window_stage_dq pc hw] at hq
      rw [window_stage_local pc hw s q (layout_disjoint hl hq)]
      exact h.2 q hq
  cases pc
  case su1 => exact win _ rfl
  case ex1 => exact win _ rfl
  case sc1 => exact win _ rfl
  case ex2 => exact win _ rfl
  case sc2 => exact win _ rfl
  case di1 =>
    simp only [stage_fn]
    constructor
    · intro q
      rcases dispatch_first_heap s q with e | ⟨_, e⟩
      · rw [e]; exact h.1 q
      · rw [e]; exact h.1 q
    · intro q hq
      rw [dispatch_first_dispatching_queue] at hq
      rcases dispatch_first_heap s q with e | ⟨_, e⟩
      · rw [e]; exact h.2 q hq
      · rw [e]; exact h.2 q hq
  case su2 =>
    simp only [stage_fn, state_update_second_heap, state_update_second_dispatching_queue]
    exact h
  case di2 => exact drain_fireOk _ s h.1 h.2
  case fd =>
    simp only [stage_fn]
    unfold instr_fetch_and_decode
    split
    · exact fetch_loop_fireOk _ s h.1 h.2
    · exact h
  case inc => exact h
  case halt => exact h

theorem fireOk_reach {r k0 k1 k2 f : Nat} {trace : List trace_line} {pc : Stage} {s : Sim}
    (h : Reach (setup_proc r k0 k1 k2 f trace) pc s) :
    (∀ q, FireOk (s.heap q)) ∧ ∀ q ∈ s.dispatching_queue, (s.heap q).fire = false :=
  Reach.induct_inv
    (fun _ s => (∀ q, FireOk (s.heap q)) ∧ ∀ q ∈ s.dispatching_queue, (s.heap q).fire = false)
    ⟨fun q => by simp [setup_proc, FireOk, blank_inst], fun q hq => by simp [setup_proc] at hq⟩
    (fun pc s hr ih => fireOk_step pc s (layout_reach hr) ih) h


/-! ## Record fields across a stage -/

theorem drain_field {γ : Type} (g : proc_inst_t → γ)
    (hg : ∀ rf i, g (update_instr rf i) = g i) (l : List Nat) (s : Sim) (q : Nat) :
    g ((drain s l).heap q) = g (s.heap q) := by
  induction l generalizing s with
  | nil => rfl
  | cons p rest ih =>
    unfold drain
    split
    · rfl
    · rw [ih]
      unfold dispatch_one
      by_cases e : q = p
      · subst e
        simp only [if_true]
        exact hg _ _
      · simp only [if_neg e]

/-- A function of a record that is blind to the reservation flag, to the
operand lookup and to the window operations of stage `pc` has the same value
on every allocated record before and after `pc`. -/
theorem stage_fn_field {γ : Type} (g : proc_inst_t → γ) (pc : Stage) (s : Sim)
    (hu : pc = .di2 → ∀ rf i, g (update_instr rf i) = g i)
    (hr : pc = .di1 → ∀ i : proc_inst_t, g { i with reserved := true } = g i)
    (hw : ∀ i j, WinOp s.stats.cycle_count pc i j → g j = g i)
    (q : Nat) (hq : pc = .fd → q < s.all_instrs.length) :
    g ((stage_fn pc s).heap q) = g (s.heap q) := by
  have win : ∀ pc2 : Stage, pc2 = pc → pc2.isWindow = true →
      g ((stage_fn pc2 s).heap q) = g (s.heap q) := by
    intro pc2 e hw2
    subst e
    exact window_stage_inv (fun i => g i = g (s.heap q)) pc2 hw2 s
      (fun i j hop hi => (hw i j hop).trans hi) q rfl
  cases pc
  case su1 => exact win _ rfl rfl
  case ex1 => exact win _ rfl rfl
  case sc1 => exact win _ rfl rfl
  case ex2 => exact win _ rfl rfl
  case sc2 => exact win _ rfl rfl
  case di1 =>
    simp only [stage_fn]
    rcases dispatch_first_heap s q with e | ⟨_, e⟩
    · rw [e]
    · rw [e]; exact hr rfl _
  case su2 => simp only [stage_fn, state_update_second_heap]
  case di2 => exact drain_field g (hu rfl) _ s q
  case fd => simp only [stage_fn]; rw [instr_fetch_and_decode_heap_local s q (hq rfl)]
  case inc => rfl
  case halt => rfl

theorem stage_fn_cycle_execute (pc : Stage) (hpc : pc ≠ .ex1) (s : Sim) (q : Nat)
    (hq : pc = .fd → q < s.all_instrs.length) :
    ((stage_fn pc s).heap q).cycle_execute = (s.heap q).cycle_execute := by
  refine stage_fn_field (fun i => i.cycle_execute) pc s (fun _ _ _ => by simp)
    (fun _ _ => rfl) ?_ q hq
  intro i j hop
  cases hop with
  | retire _ _ _ => rfl
  | exec _ _ _ => exact absurd rfl hpc
  | sched =>
    show (schedule_first_inst _ i).cycle_execute = _
    unfold schedule_first_inst
    simp only []
    split
    · rfl
    · split <;> split <;> rfl
  | fire _ _ _ => rfl
  | wake t =>
    show (wake t i).cycle_execute = _
    unfold wake
    simp only []
    split <;> split <;> rfl


/-! ## Result buses -/

/-- A size below 2^31 is not changed by the conversion to `int`. -/
theorem to_int_small (n : Nat) (h : n < 2147483648) : to_int n = (n : Int) := by
  unfold to_int
  split <;> omega

theorem find_free_cdb_loop_some (i : proc_inst_t) (cdb : List proc_cdb_t) (n : Nat)
    (cdb1 : List proc_cdb_t) (h : find_free_cdb_loop i cdb n = some cdb1) :
    cdb1.length = cdb.length ∧ busy cdb1 = busy cdb + 1 := by
  induction cdb generalizing n cdb1 with
  | nil => simp [find_free_cdb_loop] at h
  | cons c rest ih =>
    unfold find_free_cdb_loop at h
    split at h
    · cases h
    · split at h
      · rename_i hc
        cases h
        simp [busy, List.countP_cons, hc]
      · rename_i hc
        cases hr : find_free_cdb_loop i rest (n - 1) with
        | none => simp [hr] at h
        | some l =>
          simp only [hr, Option.map_some', Option.some.injEq] at h
          subst h
          have := ih (n - 1) l hr
          simp only [busy, List.countP_cons, List.length_cons] at this ⊢
          omega

theorem find_free_cdb_some (i : proc_inst_t) (cdb cdb1 : List proc_cdb_t)
    (h : find_free_cdb i cdb = some cdb1) :
    cdb1.length = cdb.length ∧ busy cdb1 = busy cdb + 1 :=
  find_free_cdb_loop_some i cdb _ cdb1 h

theorem busy_free_cdb (cdb : List proc_cdb_t) :
    busy (free_cdb cdb) = 0 ∧ (free_cdb cdb).length = cdb.length := by
  unfold busy free_cdb
  refine ⟨?_, by simp⟩
  rw [List.countP_eq_zero]
  intro c hc
  rw [List.mem_map] at hc
  obtain ⟨d, _, rfl⟩ := hc
  by_cases hd : d.free = false
  · simp [hd]
  · simp [hd]

theorem busy_le_length (cdb : List proc_cdb_t) : busy cdb ≤ cdb.length :=
  List.countP_le_length _

theorem countP_update_le (l : List Nat) (hnd : l.Nodup) (f g : Nat → Bool) (p : Nat)
    (h : ∀ q, q ≠ p → g q = f q) : l.countP g ≤ l.countP f + 1 := by
  induction l with
  | nil => simp
  | cons a t ih =>
    rw [List.nodup_cons] at hnd
    by_cases e : a = p
    · subst e
      have ht : t.countP g = t.countP f :=
        List.countP_congr (fun q hq => by
          have hne : q ≠ a := fun e => hnd.1 (e ▸ hq)
          rw [h q hne])
      simp only [List.countP_cons, ht]
      split <;> split <;> omega
    · have := ih hnd.2
      simp only [List.countP_cons, h a e]
      split <;> omega

theorem exec_count_congr (s t : Sim) (c : Nat) (hall : t.all_instrs = s.all_instrs)
    (h : ∀ q ∈ s.all_instrs, (t.heap q).cycle_execute = (s.heap q).cycle_execute) :
    exec_count t c = exec_count s c := by
  unfold exec_count
  rw [hall]
  exact List.countP_congr (fun q hq => by simp [h q hq])

theorem execute_first_body_bus (r cc : Nat) (s0 st : Sim) (p : Nat)
    (hnd : s0.all_instrs.Nodup)
    (h : st.all_instrs = s0.all_instrs ∧ st.stats.cycle_count = cc ∧ st.cdb.length = r ∧
      exec_count st cc ≤ busy st.cdb ∧
      (∀ c, 1 ≤ c → c ≠ cc → exec_count st c = exec_count s0 c) ∧
      (∀ q ∈ s0.all_instrs, (st.heap q).cycle_execute ≤ cc)) :
    (execute_first_body st p).all_instrs = s0.all_instrs ∧
    (execute_first_body st p).stats.cycle_count = cc ∧
    (execute_first_body st p).cdb.length = r ∧
    exec_count (execute_first_body st p) cc ≤ busy (execute_first_body st p).cdb ∧
    (∀ c, 1 ≤ c → c ≠ cc → exec_count (execute_first_body st p) c = exec_count s0 c) ∧
    (∀ q ∈ s0.all_instrs, ((execute_first_body st p).heap q).cycle_execute ≤ cc) := by
  obtain ⟨h1, h2, h3, h4, h5, h6⟩ := h
  unfold execute_first_body
  split
  · rename_i hc
    split
    · exact ⟨h1, h2, h3, h4, h5, h6⟩
    · rename_i cdb1 hf
      obtain ⟨hl, hb⟩ := find_free_cdb_some _ _ _ hf
      refine ⟨h1, h2, hl.trans h3, ?_, ?_, ?_⟩
      · simp only [hb]
        refine Nat.le_trans ?_ (Nat.add_le_add_right h4 1)
        unfold exec_count
        simp only []
        rw [h1]
        refine countP_update_le _ hnd _ _ p ?_
        intro q hq
        simp only [if_neg hq]
      · intro c hc1 hc2
        rw [← h5 c hc1 hc2]
        unfold exec_count
        simp only []
        refine List.countP_congr ?_
        intro q _
        by_cases e : q = p
        · subst e
          simp only [if_true, h2, hc.2]
          have e1 : ¬ cc = c := fun e => hc2 e.symm
          have e2 : ¬ 0 = c := by omega
          simp [e1, e2]
        · simp only [if_neg e]
      · intro q hq
        by_cases e : q = p
        · subst e
          simp only [if_true, h2]
          exact Nat.le_refl _
        · simp only [if_neg e]
          exact h6 q hq
  · exact ⟨h1, h2, h3, h4, h5, h6⟩

theorem execute_first_bus (r : Nat) (s : Sim) (hnd : s.all_instrs.Nodup)
    (hlen : s.cdb.length = r)
    (hfresh : ∀ p ∈ s.all_instrs, (s.heap p).cycle_execute < s.stats.cycle_count)
    (hb : ∀ c, 1 ≤ c → exec_count s c ≤ r) :
    (execute_first s).cdb.length = r ∧
    exec_count (execute_first s) s.stats.cycle_count ≤ busy (execute_first s).cdb ∧
    (∀ c, 1 ≤ c → exec_count (execute_first s) c ≤ r) ∧
    (∀ q ∈ s.all_instrs, ((execute_first s).heap q).cycle_execute ≤ s.stats.cycle_count) := by
  have h0 : exec_count s s.stats.cycle_count = 0 := by
    unfold exec_count
    rw [List.countP_eq_zero]
    intro p hp
    have := hfresh p hp
    simp
    omega
  have key := foldl_inv
    (fun st : Sim => st.all_instrs = s.all_instrs ∧ st.stats.cycle_count = s.stats.cycle_count ∧
      st.cdb.length = r ∧ exec_count st s.stats.cycle_count ≤ busy st.cdb ∧
      (∀ c, 1 ≤ c → c ≠ s.stats.cycle_count → exec_count st c = exec_count s c) ∧
      (∀ q ∈ s.all_instrs, (st.heap q).cycle_execute ≤ s.stats.cycle_count))
    execute_first_body s.scheduling_queue
    (fun st p _ h => execute_first_body_bus r s.stats.cycle_count s st p hnd h) s
    ⟨rfl, rfl, hlen, by rw [h0]; exact Nat.zero_le _, fun _ _ _ => rfl,
      fun q hq => Nat.le_of_lt (hfresh q hq)⟩
  obtain ⟨_, _, k3, k4, k5, k6⟩ := key
  refine ⟨k3, k4, ?_, k6⟩
  intro c hc
  by_cases e : c = s.stats.cycle_count
  · subst e
    exact Nat.le_trans k4 (k3 ▸ busy_le_length _)
  · rw [show exec_count (execute_first s) c = exec_count s c from k5 c hc e]
    exact hb c hc


theorem fetch_loop_new (n : Nat) (s : Sim) (q : Nat) (h1 : s.all_instrs.length ≤ q)
    (h2 : q < (fetch_loop n s).all_instrs.length) :
    ((fetch_loop n s).heap q).cycle_execute = 0 ∧
    ((fetch_loop n s).heap q).cycle_schedule = 0 ∧
    ((fetch_loop n s).heap q).cycle_status_update = 0 ∧
    ((fetch_loop n s).heap q).fire = false ∧
    ((fetch_loop n s).heap q).fired = false ∧
    ((fetch_loop n s).heap q).executed = false ∧
    ((fetch_loop n s).heap q).reserved = false := by
  induction n generalizing s with
  | zero => simp [fetch_loop] at h2; omega
  | succ n ih =>
    cases ht : s.trace with
    | nil =>
      have e1 : (fetch_loop (n + 1) s).all_instrs = s.all_instrs := by
        unfold fetch_loop
        rw [ht]
      rw [e1] at h2
      omega
    | cons t rest =>
      have e1 : fetch_loop (n + 1) s = fetch_loop n (fetch_one s t rest) := by
        conv_lhs => unfold fetch_loop
        rw [ht]
      rw [e1] at h2 ⊢
      by_cases e : q = s.all_instrs.length
      · rw [fetch_loop_heap_local n _ q (by simp [fetch_one, e])]
        simp [fetch_one, new_inst, e, blank_inst]
      · exact ih (fetch_one s t rest) (by simp [fetch_one]; omega) h2

theorem layout_mem_all {s : Sim} {a : Nat} (h : Layout s a) (q : Nat) :
    q ∈ s.all_instrs ↔ q < s.all_instrs.length := by
  obtain ⟨_, hall, _, _, _⟩ := h
  rw [hall]
  simp

theorem layout_nodup {s : Sim} {a : Nat} (h : Layout s a) : s.all_instrs.Nodup := by
  obtain ⟨_, hall, _, _, _⟩ := h
  rw [hall]
  exact List.nodup_range _

theorem exec_count_fetch (s : Sim) (a : Nat) (hl : Layout s a) (c : Nat) (hc : 1 ≤ c) :
    exec_count (instr_fetch_and_decode s) c = exec_count s c := by
  unfold instr_fetch_and_decode
  split
  · obtain ⟨k, h1, _, _⟩ := fetch_loop_queues s.cpu.f s
    unfold exec_count
    rw [h1, List.countP_append]
    have e1 : List.countP (fun p => decide (((fetch_loop s.cpu.f s).heap p).cycle_execute = c))
        s.all_instrs =
        List.countP (fun p => decide ((s.heap p).cycle_execute = c)) s.all_instrs :=
      List.countP_congr (fun q hq => by
        rw [fetch_loop_heap_local _ s q ((layout_mem_all hl q).mp hq)])
    have e2 : List.countP (fun p => decide (((fetch_loop s.cpu.f s).heap p).cycle_execute = c))
        (List.range' s.all_instrs.length k) = 0 := by
      rw [List.countP_eq_zero]
      intro q hq
      rw [List.mem_range'_1] at hq
      have := (fetch_loop_new s.cpu.f s q hq.1 (by rw [h1]; simp; omega)).1
      simp [this]
      omega
    rw [e1, e2]
    rfl
  · rfl

theorem busInv_same (r : Nat) (pc pc2 : Stage) (s t : Sim)
    (hall : t.all_instrs = s.all_instrs)
    (hce : ∀ q ∈ s.all_instrs, (t.heap q).cycle_execute = (s.heap q).cycle_execute)
    (hcdb : t.cdb = s.cdb) (hcc : t.stats.cycle_count = s.stats.cycle_count)
    (hpc1 : pc2.beforeExec = true → pc.beforeExec = true)
    (hpc2 : pc2.busFree = true → pc.busFree = true) (h : BusInv r pc s) : BusInv r pc2 t where
  len := by rw [hcdb]; exact h.len
  bound := fun c hc => by rw [exec_count_congr s t c hall hce]; exact h.bound c hc
  stamp_le := fun p hp => by
    rw [hall] at hp
    rw [hce p hp, hcc]
    exact h.stamp_le p hp
  fresh := fun hb p hp => by
    rw [hall] at hp
    rw [hce p hp, hcc]
    exact h.fresh (hpc1 hb) p hp
  free := fun hb => by rw [hcdb]; exact h.free (hpc2 hb)

theorem stage_fn_all_instrs (pc : Stage) (hpc : pc ≠ .fd) (s : Sim) :
    (stage_fn pc s).all_instrs = s.all_instrs := by
  cases pc <;> simp only [stage_fn] <;> (try simp) <;> (try exact absurd rfl hpc)
  split <;> simp

@[simp] theorem dispatch_first_cycle_count (s : Sim) :
    (dispatch_first s).stats.cycle_count = s.stats.cycle_count := by
  unfold dispatch_first
  refine foldl_frame (fun x : Sim × Int => x.1.stats.cycle_count) _ _ ?_ _
  intro b a
  unfold reserve_body Sim.setInst
  split <;> rfl

theorem stage_fn_cycle_count (pc : Stage) (hpc : pc ≠ .inc) (s : Sim) :
    (stage_fn pc s).stats.cycle_count = s.stats.cycle_count := by
  cases pc <;> simp only [stage_fn] <;> (try simp) <;> (try exact absurd rfl hpc)
  split <;> simp

theorem stage_fn_cdb (pc : Stage) (hpc : pc ≠ .ex1) (hpc2 : pc ≠ .ex2) (s : Sim) :
    (stage_fn pc s).cdb = s.cdb := by
  cases pc <;> simp only [stage_fn] <;> (try simp) <;> (try exact absurd rfl hpc) <;>
    (try exact absurd rfl hpc2)
  split <;> simp

theorem busInv_step (r : Nat) (pc : Stage) (s : Sim) (hl : ∃ a, Layout s a)
    (h : BusInv r pc s) : BusInv r (next_stage pc s) (stage_fn pc s) := by
  obtain ⟨a, hl⟩ := hl
  have same : ∀ pc2 : Stage, pc ≠ .ex1 → pc ≠ .ex2 → pc ≠ .fd → pc ≠ .inc →
      (pc2.beforeExec = true → pc.beforeExec = true) →
      (pc2.busFree = true → pc.busFree = true) → BusInv r pc2 (stage_fn pc s) := by
    intro pc2 n1 n2 n3 n4 b1 b2
    exact busInv_same r pc pc2 s _ (stage_fn_all_instrs pc n3 s)
      (fun q hq => stage_fn_cycle_execute pc n1 s q (fun _ => (layout_mem_all hl q).mp hq))
      (stage_fn_cdb pc n1 n2 s) (stage_fn_cycle_count pc n4 s) b1 b2 h
  cases pc
  case su1 =>
    by_cases hf : s.cpu.finished = true
    · rw [show next_stage .su1 s = .halt from by simp [next_stage, hf]]
      apply same <;> simp [Stage.beforeExec, Stage.busFree]
    · rw [show next_stage .su1 s = .ex1 from by simp [next_stage, hf]]
      apply same <;> simp [Stage.beforeExec, Stage.busFree]
  case sc1 => apply same <;> simp [next_stage, Stage.beforeExec, Stage.busFree]
  case di1 => apply same <;> simp [next_stage, Stage.beforeExec, Stage.busFree]
  case su2 =>
    by_cases hf : (state_update_second s).cpu.finished = true
    · rw [show next_stage .su2 s = .halt from by simp [next_stage, hf]]
      apply same <;> simp [Stage.beforeExec, Stage.busFree]
    · rw [show next_stage .su2 s = .ex2 from by simp [next_stage, hf]]
      apply same <;> simp [Stage.beforeExec, Stage.busFree]
  case sc2 => apply same <;> simp [next_stage, Stage.beforeExec, Stage.busFree]
  case di2 => apply same <;> simp [next_stage, Stage.beforeExec, Stage.busFree]
  case halt => apply same <;> simp [next_stage, Stage.beforeExec, Stage.busFree]
  case ex1 =>
    obtain ⟨k1, _, k3, k4⟩ := execute_first_bus r s (layout_nodup hl) h.len (h.fresh rfl) h.bound
    exact ⟨k1, k3, fun p hp => by
      simp only [stage_fn, execute_first_all_instrs, execute_first_stats] at hp ⊢
      exact k4 p hp, fun hb => by simp [next_stage, Stage.beforeExec] at hb,
      fun hb => by simp [next_stage, Stage.busFree] at hb⟩
  case ex2 =>
    have hce : ∀ q ∈ s.all_instrs,
        ((execute_second s).heap q).cycle_execute = (s.heap q).cycle_execute :=
      fun q hq => stage_fn_cycle_execute .ex2 (by decide) s q (fun _ => (layout_mem_all hl q).mp hq)
    refine ⟨?_, ?_, ?_, ?_, ?_⟩
    · simp only [stage_fn, execute_second, update_instruction_from_cdb_cdb]
      rw [(busy_free_cdb _).2]
      exact h.len
    · intro c hc
      rw [show exec_count (stage_fn .ex2 s) c = exec_count s c from
        exec_count_congr s _ c (by simp [stage_fn]) hce]
      exact h.bound c hc
    · intro p hp
      simp only [stage_fn, execute_second_all_instrs, execute_second_stats] at hp ⊢
      rw [hce p hp]
      exact h.stamp_le p hp
    · intro hb
      simp [next_stage, Stage.beforeExec] at hb
    · intro _
      simp only [stage_fn, execute_second]
      exact (busy_free_cdb _).1
  case fd =>
    refine ⟨?_, ?_, ?_, ?_, ?_⟩
    · simp only [stage_fn, instr_fetch_and_decode_cdb]
      exact h.len
    · intro c hc
      rw [show exec_count (stage_fn .fd s) c = exec_count s c from exec_count_fetch s a hl c hc]
      exact h.bound c hc
    · intro p hp
      simp only [stage_fn, instr_fetch_and_decode_stats] at hp ⊢
      by_cases e : p < s.all_instrs.length
      · rw [instr_fetch_and_decode_heap_local s p e]
        exact h.stamp_le p ((layout_mem_all hl p).mpr e)
      · unfold instr_fetch_and_decode at hp ⊢
        split at hp
        · rename_i hrf
          simp only [hrf, if_true]
          obtain ⟨k, h1, _, _⟩ := fetch_loop_queues s.cpu.f s
          have hlt : p < (fetch_loop s.cpu.f s).all_instrs.length := by
            rw [h1] at hp ⊢
            rw [List.mem_append, List.mem_range'_1] at hp
            rcases hp with hp | hp
            · exact absurd ((layout_mem_all hl p).mp hp) e
            · simp
              omega
          rw [(fetch_loop_new s.cpu.f s p (by omega) hlt).1]
          exact Nat.zero_le _
        · exact absurd ((layout_mem_all hl p).mp hp) e
    · intro hb
      simp [next_stage, Stage.beforeExec] at hb
    · intro _
      simp only [stage_fn, instr_fetch_and_decode_cdb]
      exact h.free rfl
  case inc =>
    refine ⟨h.len, ?_, ?_, ?_, ?_⟩
    · intro c hc
      rw [show exec_count (stage_fn .inc s) c = exec_count s c from
        exec_count_congr s _ c rfl (fun _ _ => rfl)]
      exact h.bound c hc
    · intro p hp
      exact Nat.le_succ_of_le (h.stamp_le p hp)
    · intro _ p hp
      exact Nat.lt_succ_of_le (h.stamp_le p hp)
    · intro _
      exact h.free rfl

theorem busInv_reach {r k0 k1 k2 f : Nat} {trace : List trace_line} {pc : Stage} {s : Sim}
    (h : Reach (setup_proc r k0 k1 k2 f trace) pc s) : BusInv r pc s :=
  Reach.induct_inv (fun pc s => BusInv r pc s)
    ⟨by simp [setup_proc], fun c _ => by simp [exec_count, setup_proc],
      fun p hp => by simp [setup_proc] at hp, fun _ p hp => by simp [setup_proc] at hp,
      fun _ => by
        simp only [busy, setup_proc]
        rw [List.countP_eq_zero]
        intro c hc
        rw [List.eq_of_mem_replicate hc]
        simp⟩
    (fun pc s hr ih => busInv_step r pc s (layout_reach hr) ih) h


/-! ## Window capacity -/

/-- The reservation loop marks exactly the first `av` entries of the queue. -/
theorem reserve_fold (l : List Nat) (st : Sim) (av : Int) (hav : 0 ≤ av) (q : Nat) :
    (l.foldl reserve_body (st, av)).1.heap q =
      if q ∈ l.take av.toNat then { st.heap q with reserved := true } else st.heap q := by
  induction l generalizing st av with
  | nil => simp
  | cons p rest ih =>
    simp only [List.foldl_cons]
    by_cases h0 : av = 0
    · have e : reserve_body (st, av) p = (st, av) := by simp [reserve_body, h0]
      rw [e, ih st av hav]
      simp [h0]
    · have e : reserve_body (st, av) p =
          (st.setInst p { st.heap p with reserved := true }, av - 1) := by
        simp [reserve_body, h0]
      have hpos : 0 ≤ av - 1 := by omega
      rw [e, ih _ _ hpos]
      have ek : av.toNat = (av - 1).toNat + 1 := by omega
      rw [ek, List.take_succ_cons]
      simp only [Sim.setInst, List.mem_cons]
      by_cases e2 : q = p
      · subst e2
        simp
      · simp [e2]

theorem dispatch_first_reserved (s : Sim) (L : Nat)
    (hL : s.scheduling_queue_limit = (L : Int)) (hlt : L < 2147483648)
    (hav : s.scheduling_queue.length ≤ L) (q : Nat) :
    (dispatch_first s).heap q =
      if q ∈ s.dispatching_queue.take (L - s.scheduling_queue.length)
      then { s.heap q with reserved := true } else s.heap q := by
  unfold dispatch_first
  simp only []
  have hn : ((s.scheduling_queue_limit - (s.scheduling_queue.length : Int)) %
      18446744073709551616).toNat = L - s.scheduling_queue.length := by
    rw [hL]
    omega
  have hto : to_int ((s.scheduling_queue_limit - (s.scheduling_queue.length : Int)) %
      18446744073709551616).toNat = ((L - s.scheduling_queue.length : Nat) : Int) := by
    rw [hn]
    exact to_int_small _ (by omega)
  rw [hto, reserve_fold _ _ _ (by omega), Int.toNat_ofNat]

/-- The drain loop moves exactly the leading run of reserved entries. -/
theorem drain_reserved (l : List Nat) (s : Sim) :
    ∃ k, k ≤ l.length ∧ (drain s l).dispatching_queue = l.drop k ∧
      (drain s l).scheduling_queue = s.scheduling_queue ++ l.take k ∧
      (∀ q ∈ l.take k, (s.heap q).reserved = true) ∧
      (∀ q, (l.drop k).head? = some q → (s.heap q).reserved = false) := by
  induction l generalizing s with
  | nil => exact ⟨0, by simp [drain]⟩
  | cons p rest ih =>
    unfold drain
    split
    · rename_i hr
      refine ⟨0, by simp, by simp, by simp, by simp, ?_⟩
      intro q hq
      simp at hq
      subst hq
      exact hr
    · rename_i hr
      obtain ⟨k, hk, h1, h2, h3, h4⟩ := ih (dispatch_one s p)
      have hres : ∀ q, ((dispatch_one s p).heap q).reserved = (s.heap q).reserved := by
        intro q
        unfold dispatch_one
        by_cases e : q = p
        · subst e
          simp
        · simp [e]
      refine ⟨k + 1, by simpa using hk, by simpa using h1, ?_, ?_, ?_⟩
      · simpa [dispatch_one] using h2
      · intro q hq
        simp only [List.take_succ_cons, List.mem_cons] at hq
        rcases hq with hq | hq
        · subst hq
          simpa using hr
        · rw [← hres]
          exact h3 q hq
      · intro q hq
        rw [← hres]
        exact h4 q (by simpa using hq)

theorem stage_fn_reserved (pc : Stage) (hpc : pc ≠ .di1) (s : Sim) (q : Nat)
    (hq : q < s.all_instrs.length) :
    ((stage_fn pc s).heap q).reserved = (s.heap q).reserved := by
  refine stage_fn_field (fun i => i.reserved) pc s (fun _ _ _ => by simp)
    (fun e => absurd e hpc) ?_ q (fun _ => hq)
  intro i j hop
  cases hop with
  | retire _ _ _ => rfl
  | exec _ _ _ => rfl
  | sched =>
    show (schedule_first_inst _ i).reserved = _
    unfold schedule_first_inst
    simp only []
    split
    · rfl
    · split <;> split <;> rfl
  | fire _ _ _ => rfl
  | wake t =>
    show (wake t i).reserved = _
    unfold wake
    simp only []
    split <;> split <;> rfl


theorem range_take_min (a n k : Nat) :
    (List.range' a n).take k = List.range' a (min k n) := by
  by_cases h : k ≤ n
  · rw [range_take a n k h, Nat.min_eq_left h]
  · rw [List.take_of_length_le (by simp; omega), Nat.min_eq_right (by omega)]

theorem layout_len {s : Sim} {a : Nat} (h : Layout s a) :
    s.all_instrs.length = s.cpu.read_cnt := by
  obtain ⟨_, hall, _, _, _⟩ := h
  rw [hall]
  simp

theorem stage_fn_limit (pc : Stage) (s : Sim) :
    (stage_fn pc s).scheduling_queue_limit = s.scheduling_queue_limit := by
  cases pc <;> simp only [stage_fn] <;> (try simp)
  split <;> simp

/-- Steps that leave the containers alone keep the window invariant. -/
theorem windowInv_same (L : Nat) (pc pc2 : Stage) (s t : Sim) (a m : Nat)
    (h1 : t.cpu.read_cnt = s.cpu.read_cnt) (h2 : t.all_instrs = s.all_instrs)
    (h3 : t.dispatching_queue = s.dispatching_queue)
    (h4 : t.scheduling_queue = s.scheduling_queue)
    (h5 : t.scheduling_queue_limit = s.scheduling_queue_limit)
    (h6 : ∀ q, q < s.all_instrs.length → (t.heap q).reserved = (s.heap q).reserved)
    (h7 : pc2.holdsReserved = false → pc2 ≠ .halt → pc.holdsReserved = false ∧ pc ≠ .halt)
    (h : WindowInv L pc s a m) : WindowInv L pc2 t a m := by
  obtain ⟨hl, hb, hr, hm⟩ := h
  refine ⟨layout_same s t a h1 h2 h3 h4 hl, by rw [h4, h5]; exact hb, ?_, ?_⟩
  · intro q hq1 hq2
    rw [h1] at hq2
    rw [h6 q (by rw [layout_len hl]; exact hq2)]
    exact hr q hq1 hq2
  · intro e1 e2
    exact hm (h7 e1 e2).1 (h7 e1 e2).2

theorem windowInv_step (L : Nat) (pc : Stage) (s : Sim) (h : ∃ a m, WindowInv L pc s a m) :
    ∃ a m, WindowInv L (next_stage pc s) (stage_fn pc s) a m := by
  obtain ⟨a, m, h⟩ := h
  have same : ∀ pc2 : Stage, pc.isWindow = true →
      (pc2.holdsReserved = false → pc2 ≠ .halt → pc.holdsReserved = false ∧ pc ≠ .halt) →
      ∃ a m, WindowInv L pc2 (stage_fn pc s) a m := by
    intro pc2 hw h7
    have n1 : pc ≠ .di1 := by intro e; subst e; simp [Stage.isWindow] at hw
    have n2 : pc ≠ .fd := by intro e; subst e; simp [Stage.isWindow] at hw
    refine ⟨a, m, windowInv_same L pc pc2 s _ a m ?_ (stage_fn_all_instrs pc n2 s)
      (window_stage_dq pc hw s) ?_ (stage_fn_limit pc s)
      (fun q hq => stage_fn_reserved pc n1 s q hq) h7 h⟩
    · cases pc <;> simp only [Stage.isWindow] at hw <;> (try exact absurd hw (by decide)) <;>
        simp only [stage_fn]
      · split <;> simp
      all_goals simp
    · cases pc <;> simp only [Stage.isWindow] at hw <;> (try exact absurd hw (by decide)) <;>
        simp only [stage_fn]
      · split <;> simp
      all_goals simp
  obtain ⟨hl, ⟨hL, hlt, hb⟩, hr, hm⟩ := h
  cases pc
  case su1 =>
    by_cases hf : s.cpu.finished = true
    · rw [show next_stage .su1 s = .halt from by simp [next_stage, hf]]
      exact same _ rfl (by simp)
    · rw [show next_stage .su1 s = .ex1 from by simp [next_stage, hf]]
      exact same _ rfl (by simp [Stage.holdsReserved])
  case ex1 => exact same _ rfl (by simp [Stage.holdsReserved])
  case sc1 => exact same _ rfl (by simp [Stage.holdsReserved])
  case ex2 => exact same _ rfl (by simp [next_stage, Stage.holdsReserved])
  case sc2 => exact same _ rfl (by simp [next_stage, Stage.holdsReserved])
  case inc =>
    exact ⟨a, m, hl, ⟨hL, hlt, hb⟩, hr, fun _ _ => hm rfl (by decide)⟩
  case halt => exact ⟨a, m, hl, ⟨hL, hlt, hb⟩, hr, fun _ e => absurd rfl e⟩
  case su2 =>
    refine ⟨a, m, layout_su2 s a hl, ?_, ?_, ?_⟩
    · simp only [stage_fn, state_update_second_queue, state_update_second_scheduling_queue_limit]
      have := List.length_filter_le (fun p => decide ((s.heap p).cycle_status_update = 0))
        s.scheduling_queue
      exact ⟨hL, hlt, by omega⟩
    · intro q hq1 hq2
      simp only [stage_fn, state_update_second_heap, state_update_second_read_cnt] at hq2 ⊢
      exact hr q hq1 hq2
    · intro e1 e2
      by_cases hf : (state_update_second s).cpu.finished = true
      · simp [next_stage, hf] at e2
      · simp [next_stage, hf, Stage.holdsReserved] at e1
  case di1 =>
    have hm0 : m = 0 := hm rfl (by decide)
    subst hm0
    have hav : s.scheduling_queue.length ≤ L := by omega
    obtain ⟨ha, hall, hdq, hw, hp⟩ := hl
    refine ⟨a, min (L - s.scheduling_queue.length) (s.cpu.read_cnt - a),
      layout_same s _ a (by simp [stage_fn]) (by simp [stage_fn]) (by simp [stage_fn])
        (by simp [stage_fn]) ⟨ha, hall, hdq, hw, hp⟩, ?_, ?_, ?_⟩
    · simp only [stage_fn, dispatch_first_scheduling_queue,
        dispatch_first_scheduling_queue_limit]
      exact ⟨hL, hlt, by omega⟩
    · intro q hq1 hq2
      simp only [stage_fn, dispatch_first_cpu] at hq2 ⊢
      rw [dispatch_first_reserved s L hL hlt hav q, hdq]
      have hold := hr q hq1 hq2
      by_cases hin : q ∈ List.take (L - s.scheduling_queue.length)
          (List.range' a (s.cpu.read_cnt - a))
      · simp only [hin, if_true, true_iff]
        rw [range_take_min, List.mem_range'_1] at hin
        omega
      · simp only [hin, if_false]
        rw [hold]
        rw [range_take_min, List.mem_range'_1] at hin
        omega
    · intro e1 _
      simp [next_stage, Stage.holdsReserved] at e1
  case di2 =>
    obtain ⟨k, hk, h1, h2, h3, h4⟩ := drain_reserved s.dispatching_queue s
    have hl2 := layout_drain s a k hl hk h1 h2
    obtain ⟨ha, hall, hdq, hw, hp⟩ := hl
    rw [hdq] at hk h3 h4
    simp only [List.length_range'] at hk
    rw [range_take _ _ _ hk] at h3
    rw [range_drop _ _ _ hk] at h4
    have hkm : k ≤ m := by
      by_contra hc
      have hk1 : 1 ≤ k := by omega
      have := h3 (a + k - 1) (by rw [List.mem_range'_1]; omega)
      rw [hr (a + k - 1) (by omega) (by omega)] at this
      omega
    have hmk : k < s.cpu.read_cnt - a → m ≤ k := by
      intro hlt
      by_contra hc
      have := h4 (a + k) (by
        rw [show s.cpu.read_cnt - a - k = (s.cpu.read_cnt - a - k - 1) + 1 from by omega,
          List.range'_succ]
        rfl)
      have h5 := (hr (a + k) (by omega) (by omega)).mpr (by omega)
      rw [this] at h5
      cases h5
    refine ⟨a + k, 0, hl2, ?_, ?_, fun _ _ => rfl⟩
    · simp only [stage_fn, dispatch_second_scheduling_queue_limit]
      rw [show (dispatch_second s).scheduling_queue = _ from h2]
      simp only [List.length_append, List.length_take, hdq, List.length_range']
      exact ⟨hL, hlt, by omega⟩
    · intro q hq1 hq2
      simp only [stage_fn, dispatch_second_cpu] at hq2 ⊢
      have e : ((dispatch_second s).heap q).reserved = (s.heap q).reserved :=
        drain_field (fun i => i.reserved) (fun _ _ => by simp) _ s q
      rw [e, hr q (by omega) hq2]
      have := hmk (by omega)
      omega
  case fd =>
    have hm0 : m = 0 := hm rfl (by decide)
    subst hm0
    refine ⟨a, 0, layout_fetch s a hl, ?_, ?_, fun _ _ => rfl⟩
    · simp only [stage_fn, instr_fetch_and_decode_scheduling_queue,
        instr_fetch_and_decode_scheduling_queue_limit]
      exact ⟨hL, hlt, hb⟩
    · intro q hq1 hq2
      simp only [stage_fn] at hq2 ⊢
      by_cases e : q < s.all_instrs.length
      · rw [instr_fetch_and_decode_heap_local s q e]
        exact hr q hq1 (by rw [← layout_len hl]; exact e)
      · have hl3 := layout_len (layout_fetch s a hl)
        unfold instr_fetch_and_decode at hq2 hl3 ⊢
        split at hq2
        · rename_i hrf
          simp only [hrf, if_true] at hl3 ⊢
          rw [(fetch_loop_new s.cpu.f s q (by omega) (by omega)).2.2.2.2.2.2]
          simpa using hq1
        · rw [← layout_len hl] at hq2
          exact absurd hq2 e

/-- The limit stored by `setup_proc` when `2 * (k0 + k1 + k2)` fits an `int`. -/
theorem setup_limit (r k0 k1 k2 f : Nat) (trace : List trace_line)
    (hk : k0 + k1 + k2 < 1073741824) :
    (setup_proc r k0 k1 k2 f trace).scheduling_queue_limit = ((2 * (k0 + k1 + k2) : Nat) : Int) := by
  simp only [setup_proc]
  rw [Nat.mod_eq_of_lt (by omega)]
  exact to_int_small _ (by omega)

theorem windowInv_reach {r k0 k1 k2 f : Nat} {trace : List trace_line} {pc : Stage} {s : Sim}
    (hk : k0 + k1 + k2 < 1073741824)
    (h : Reach (setup_proc r k0 k1 k2 f trace) pc s) :
    ∃ a m, WindowInv (2 * (k0 + k1 + k2)) pc s a m :=
  Reach.induct_inv (fun pc s => ∃ a m, WindowInv (2 * (k0 + k1 + k2)) pc s a m)
    ⟨0, 0, layout_init r k0 k1 k2 f trace,
      ⟨setup_limit r k0 k1 k2 f trace hk, by omega, by simp [setup_proc]⟩,
      fun q _ hq => by simp [setup_proc] at hq, fun _ _ => rfl⟩
    (fun pc s _ ih => windowInv_step _ pc s ih) h


/-! ## Stage timestamps -/

theorem tsOk_winop (cc : Nat) (hcc : 1 ≤ cc) (pc : Stage) (i j : proc_inst_t)
    (h : WinOp cc pc i j) (hi : TsOk cc cc i) : TsOk cc cc j := by
  obtain ⟨a1, a2, a3, a4, a5, a6, a7, a8, a9, a10, a11⟩ := hi
  cases h with
  | retire _ h1 h2 =>
    refine ⟨a1, a2, a3, a4, a5, a6, a7, a8, a9, a10, ?_⟩
    intro _
    exact ⟨a8 h1, a5⟩
  | exec _ h1 h2 =>
    refine ⟨a1, a2, a3, a4, Nat.le_refl _, a6, a7, ?_, a9, ?_, ?_⟩
    · intro _
      show cc ≠ 0
      omega
    · intro _
      exact ⟨a6 (a7 h1), a4⟩
    · intro h3
      have := (a11 h3).1
      exact absurd h2 this
  | sched =>
    unfold schedule_first_inst
    simp only []
    split
    · exact ⟨a1, a2, a3, a4, a5, a6, a7, a8, a9, a10, a11⟩
    · rename_i hf
      by_cases hs : i.cycle_schedule = 0
      · have hce : i.cycle_execute = 0 := by
          by_contra hne
          exact (a10 hne).1 hs
        simp only [hs, if_true]
        split
        · refine ⟨a1, a2, a3, Nat.le_refl _, a5, ?_, a7, a8, ?_, ?_, a11⟩
          · intro _; show cc ≠ 0; omega
          · intro _; exact a3
          · intro h3; exact absurd hce h3
        · refine ⟨a1, a2, a3, Nat.le_refl _, a5, ?_, ?_, a8, ?_, ?_, a11⟩
          · intro _; show cc ≠ 0; omega
          · intro _; rfl
          · intro _; exact a3
          · intro h3; exact absurd hce h3
      · simp only [hs, if_false]
        split
        · exact ⟨a1, a2, a3, a4, a5, a6, a7, a8, a9, a10, a11⟩
        · exact ⟨a1, a2, a3, a4, a5, fun _ => hs, fun _ => rfl, a8, a9, a10, a11⟩
  | fire _ h1 h2 =>
    exact ⟨a1, a2, a3, a4, a5, a6, fun _ => h1, a8, a9, a10, a11⟩
  | wake t =>
    unfold wake
    simp only []
    split <;> split <;> exact ⟨a1, a2, a3, a4, a5, a6, a7, a8, a9, a10, a11⟩

theorem tsOk_update_instr (cc d : Nat) (rf : Int → register_info_t) (i : proc_inst_t)
    (hi : TsOk cc d i) : TsOk cc d (update_instr rf i) := by
  obtain ⟨a1, a2, a3, a4, a5, a6, a7, a8, a9, a10, a11⟩ := hi
  constructor <;> simp only [update_instr_cycle_fetch_decode, update_instr_cycle_dispatch,
    update_instr_cycle_schedule, update_instr_cycle_execute, update_instr_cycle_status_update,
    update_instr_fire, update_instr_fired, update_instr_executed] <;> assumption

theorem drain_pred (P : proc_inst_t → Prop) (hP : ∀ rf i, P i → P (update_instr rf i))
    (l : List Nat) (s : Sim) (q : Nat) (h : P (s.heap q)) : P ((drain s l).heap q) := by
  induction l generalizing s with
  | nil => exact h
  | cons p rest ih =>
    unfold drain
    split
    · exact h
    · apply ih
      unfold dispatch_one
      by_cases e : q = p
      · subst e
        simp only [if_true]
        exact hP _ _ h
      · simp only [if_neg e]
        exact h

theorem fetch_loop_tsOk (n : Nat) (s : Sim) (hcc : 1 ≤ s.stats.cycle_count)
    (h : ∀ q ∈ s.all_instrs, TsOk s.stats.cycle_count (s.stats.cycle_count + 1) (s.heap q)) :
    ∀ q ∈ (fetch_loop n s).all_instrs,
      TsOk s.stats.cycle_count (s.stats.cycle_count + 1) ((fetch_loop n s).heap q) := by
  induction n generalizing s with
  | zero => exact h
  | succ n ih =>
    unfold fetch_loop
    split
    · exact h
    · rename_i t rest _
      have := ih (fetch_one s t rest) hcc (by
        intro q hq
        show TsOk s.stats.cycle_count (s.stats.cycle_count + 1) ((fetch_one s t rest).heap q)
        unfold fetch_one at hq ⊢
        by_cases e : q = s.all_instrs.length
        · simp only [if_pos e]
          constructor <;> simp [new_inst, blank_inst]
          exact hcc
        · simp only [if_neg e]
          simp only [List.mem_append, List.mem_singleton] at hq
          rcases hq with hq | hq
          · exact h q hq
          · exact absurd hq e)
      exact this

theorem tsOk_mono (cc d cc2 d2 : Nat) (h1 : cc ≤ cc2) (h2 : d ≤ d2) (i : proc_inst_t)
    (hi : TsOk cc d i) : TsOk cc2 d2 i := by
  obtain ⟨a1, a2, a3, a4, a5, a6, a7, a8, a9, a10, a11⟩ := hi
  exact ⟨a1, a2, Nat.le_trans a3 h2, Nat.le_trans a4 h1, Nat.le_trans a5 h1, a6, a7, a8, a9,
    a10, a11⟩

theorem tsOk_step (pc : Stage) (s : Sim) (hl : ∃ a, Layout s a)
    (h : 1 ≤ s.stats.cycle_count ∧ ∀ q ∈ s.all_instrs,
      TsOk s.stats.cycle_count (dispatch_bound pc s.stats.cycle_count) (s.heap q)) :
    1 ≤ (stage_fn pc s).stats.cycle_count ∧ ∀ q ∈ (stage_fn pc s).all_instrs,
      TsOk (stage_fn pc s).stats.cycle_count
        (dispatch_bound (next_stage pc s) (stage_fn pc s).stats.cycle_count)
        ((stage_fn pc s).heap q) := by
  obtain ⟨a, hl⟩ := hl
  obtain ⟨hcc, h⟩ := h
  have win : ∀ pc2 : Stage, pc.isWindow = true → pc2 ≠ .inc →
      1 ≤ (stage_fn pc s).stats.cycle_count ∧ ∀ q ∈ (stage_fn pc s).all_instrs,
        TsOk (stage_fn pc s).stats.cycle_count
          (dispatch_bound pc2 (stage_fn pc s).stats.cycle_count) ((stage_fn pc s).heap q) := by
    intro pc2 hw hne
    have n1 : pc ≠ .inc := by intro e; subst e; simp [Stage.isWindow] at hw
    have n2 : pc ≠ .fd := by intro e; subst e; simp [Stage.isWindow] at hw
    rw [stage_fn_cycle_count pc n1 s, stage_fn_all_instrs pc n2 s]
    refine ⟨hcc, fun q hq => ?_⟩
    have := h q hq
    simp only [dispatch_bound, n1, hne, if_false] at this ⊢
    exact window_stage_inv (TsOk s.stats.cycle_count s.stats.cycle_count) pc hw s
      (tsOk_winop _ hcc pc) q this
  cases pc
  case su1 =>
    by_cases hf : s.cpu.finished = true
    · rw [show next_stage .su1 s = .halt from by simp [next_stage, hf]]
      exact win _ rfl (by decide)
    · rw [show next_stage .su1 s = .ex1 from by simp [next_stage, hf]]
      exact win _ rfl (by decide)
  case ex1 => exact win .sc1 rfl (by decide)
  case sc1 => exact win .di1 rfl (by decide)
  case ex2 => exact win .sc2 rfl (by decide)
  case sc2 => exact win .di2 rfl (by decide)
  case di1 =>
    simp only [stage_fn, dispatch_first_cycle_count, dispatch_first_all_instrs, next_stage]
    refine ⟨hcc, fun q hq => ?_⟩
    have := h q hq
    simp only [dispatch_bound] at this ⊢
    rcases dispatch_first_heap s q with e | ⟨_, e⟩
    · rw [e]; exact this
    · rw [e]
      obtain ⟨a1, a2, a3, a4, a5, a6, a7, a8, a9, a10, a11⟩ := this
      exact ⟨a1, a2, a3, a4, a5, a6, a7, a8, a9, a10, a11⟩
  case su2 =>
    simp only [stage_fn, state_update_second_cycle_count, state_update_second_all_instrs,
      state_update_second_heap]
    refine ⟨hcc, fun q hq => ?_⟩
    have := h q hq
    simp only [dispatch_bound] at this ⊢
    by_cases hf : (state_update_second s).cpu.finished = true
    · simpa [next_stage, hf] using this
    · simpa [next_stage, hf] using this
  case di2 =>
    simp only [stage_fn, dispatch_second_stats, dispatch_second_all_instrs, next_stage]
    refine ⟨hcc, fun q hq => ?_⟩
    have := h q hq
    simp only [dispatch_bound] at this ⊢
    exact drain_pred _ (fun rf i hi => tsOk_update_instr _ _ rf i hi) _ s q this
  case fd =>
    simp only [stage_fn, instr_fetch_and_decode_stats, next_stage]
    refine ⟨hcc, ?_⟩
    simp only [dispatch_bound, if_true]
    have h2 : ∀ q ∈ s.all_instrs,
        TsOk s.stats.cycle_count (s.stats.cycle_count + 1) (s.heap q) := by
      intro q hq
      have := h q hq
      simp only [dispatch_bound] at this
      exact tsOk_mono _ _ _ _ (Nat.le_refl _) (Nat.le_succ _) _ this
    unfold instr_fetch_and_decode
    split
    · exact fetch_loop_tsOk _ s hcc h2
    · exact h2
  case inc =>
    simp only [stage_fn, inc_cycle, next_stage]
    refine ⟨Nat.le_succ_of_le hcc, fun q hq => ?_⟩
    have := h q hq
    simp only [dispatch_bound, if_true] at this ⊢
    exact tsOk_mono _ _ _ _ (Nat.le_succ _) (Nat.le_refl _) _ this
  case halt =>
    simp only [stage_fn, next_stage]
    exact ⟨hcc, h⟩

theorem tsOk_reach {r k0 k1 k2 f : Nat} {trace : List trace_line} {pc : Stage} {s : Sim}
    (h : Reach (setup_proc r k0 k1 k2 f trace) pc s) :
    1 ≤ s.stats.cycle_count ∧ ∀ q ∈ s.all_instrs,
      TsOk s.stats.cycle_count (dispatch_bound pc s.stats.cycle_count) (s.heap q) :=
  Reach.induct_inv
    (fun pc s => 1 ≤ s.stats.cycle_count ∧ ∀ q ∈ s.all_instrs,
      TsOk s.stats.cycle_count (dispatch_bound pc s.stats.cycle_count) (s.heap q))
    ⟨by simp [setup_proc], fun q hq => by simp [setup_proc] at hq⟩
    (fun pc s hr ih => tsOk_step pc s (layout_reach hr) ih) h


/-! ## Fields left alone by a wake-up and by the schedule step -/

@[simp] theorem wake_op_code (t : Nat) (i : proc_inst_t) : (wake t i).op_code = i.op_code := by
  unfold wake
  simp only []
  split <;> split <;> rfl

@[simp] theorem schedule_first_inst_op_code (c : Nat) (i : proc_inst_t) :
    (schedule_first_inst c i).op_code = i.op_code := by
  unfold schedule_first_inst
  simp only []
  split
  · rfl
  · split <;> split <;> rfl

@[simp] theorem wake_src_reg0 (t : Nat) (i : proc_inst_t) : (wake t i).src_reg0 = i.src_reg0 := by
  unfold wake
  simp only []
  split <;> split <;> rfl

@[simp] theorem schedule_first_inst_src_reg0 (c : Nat) (i : proc_inst_t) :
    (schedule_first_inst c i).src_reg0 = i.src_reg0 := by
  unfold schedule_first_inst
  simp only []
  split
  · rfl
  · split <;> split <;> rfl

@[simp] theorem wake_src_reg1 (t : Nat) (i : proc_inst_t) : (wake t i).src_reg1 = i.src_reg1 := by
  unfold wake
  simp only []
  split <;> split <;> rfl

@[simp] theorem schedule_first_inst_src_reg1 (c : Nat) (i : proc_inst_t) :
    (schedule_first_inst c i).src_reg1 = i.src_reg1 := by
  unfold schedule_first_inst
  simp only []
  split
  · rfl
  · split <;> split <;> rfl

@[simp] theorem wake_dest_reg (t : Nat) (i : proc_inst_t) : (wake t i).dest_reg = i.dest_reg := by
  unfold wake
  simp only []
  split <;> split <;> rfl

@[simp] theorem schedule_first_inst_dest_reg (c : Nat) (i : proc_inst_t) :
    (schedule_first_inst c i).dest_reg = i.dest_reg := by
  unfold schedule_first_inst
  simp only []
  split
  · rfl
  · split <;> split <;> rfl

@[simp] theorem wake_id (t : Nat) (i : proc_inst_t) : (wake t i).id = i.id := by
  unfold wake
  simp only []
  split <;> split <;> rfl

@[simp] theorem schedule_first_inst_id (c : Nat) (i : proc_inst_t) :
    (schedule_first_inst c i).id = i.id := by
  unfold schedule_first_inst
  simp only []
  split
  · rfl
  · split <;> split <;> rfl

@[simp] theorem wake_reserved (t : Nat) (i : proc_inst_t) : (wake t i).reserved = i.reserved := by
  unfold wake
  simp only []
  split <;> split <;> rfl

@[simp] theorem schedule_first_inst_reserved (c : Nat) (i : proc_inst_t) :
    (schedule_first_inst c i).reserved = i.reserved := by
  unfold schedule_first_inst
  simp only []
  split
  · rfl
  · split <;> split <;> rfl

@[simp] theorem wake_fire (t : Nat) (i : proc_inst_t) : (wake t i).fire = i.fire := by
  unfold wake
  simp only []
  split <;> split <;> rfl

@[simp] theorem wake_fired (t : Nat) (i : proc_inst_t) : (wake t i).fired = i.fired := by
  unfold wake
  simp only []
  split <;> split <;> rfl

@[simp] theorem schedule_first_inst_fired (c : Nat) (i : proc_inst_t) :
    (schedule_first_inst c i).fired = i.fired := by
  unfold schedule_first_inst
  simp only []
  split
  · rfl
  · split <;> split <;> rfl

@[simp] theorem wake_executed (t : Nat) (i : proc_inst_t) : (wake t i).executed = i.executed := by
  unfold wake
  simp only []
  split <;> split <;> rfl

@[simp] theorem schedule_first_inst_executed (c : Nat) (i : proc_inst_t) :
    (schedule_first_inst c i).executed = i.executed := by
  unfold schedule_first_inst
  simp only []
  split
  · rfl
  · split <;> split <;> rfl

@[simp] theorem schedule_first_inst_src_ready0 (c : Nat) (i : proc_inst_t) :
    (schedule_first_inst c i).src_ready0 = i.src_ready0 := by
  unfold schedule_first_inst
  simp only []
  split
  · rfl
  · split <;> split <;> rfl

@[simp] theorem schedule_first_inst_src_ready1 (c : Nat) (i : proc_inst_t) :
    (schedule_first_inst c i).src_ready1 = i.src_ready1 := by
  unfold schedule_first_inst
  simp only []
  split
  · rfl
  · split <;> split <;> rfl

@[simp] theorem schedule_first_inst_src_tag0 (c : Nat) (i : proc_inst_t) :
    (schedule_first_inst c i).src_tag0 = i.src_tag0 := by
  unfold schedule_first_inst
  simp only []
  split
  · rfl
  · split <;> split <;> rfl

@[simp] theorem schedule_first_inst_src_tag1 (c : Nat) (i : proc_inst_t) :
    (schedule_first_inst c i).src_tag1 = i.src_tag1 := by
  unfold schedule_first_inst
  simp only []
  split
  · rfl
  · split <;> split <;> rfl

@[simp] theorem wake_cycle_fetch_decode (t : Nat) (i : proc_inst_t) : (wake t i).cycle_fetch_decode = i.cycle_fetch_decode := by
  unfold wake
  simp only []
  split <;> split <;> rfl

@[simp] theorem schedule_first_inst_cycle_fetch_decode (c : Nat) (i : proc_inst_t) :
    (schedule_first_inst c i).cycle_fetch_decode = i.cycle_fetch_decode := by
  unfold schedule_first_inst
  simp only []
  split
  · rfl
  · split <;> split <;> rfl

@[simp] theorem wake_cycle_dispatch (t : Nat) (i : proc_inst_t) : (wake t i).cycle_dispatch = i.cycle_dispatch := by
  unfold wake
  simp only []
  split <;> split <;> rfl

@[simp] theorem schedule_first_inst_cycle_dispatch (c : Nat) (i : proc_inst_t) :
    (schedule_first_inst c i).cycle_dispatch = i.cycle_dispatch := by
  unfold schedule_first_inst
  simp only []
  split
  · rfl
  · split <;> split <;> rfl

@[simp] theorem wake_cycle_schedule (t : Nat) (i : proc_inst_t) : (wake t i).cycle_schedule = i.cycle_schedule := by
  unfold wake
  simp only []
  split <;> split <;> rfl

@[simp] theorem wake_cycle_execute (t : Nat) (i : proc_inst_t) : (wake t i).cycle_execute = i.cycle_execute := by
  unfold wake
  simp only []
  split <;> split <;> rfl

@[simp] theorem schedule_first_inst_cycle_execute (c : Nat) (i : proc_inst_t) :
    (schedule_first_inst c i).cycle_execute = i.cycle_execute := by
  unfold schedule_first_inst
  simp only []
  split
  · rfl
  · split <;> split <;> rfl

@[simp] theorem wake_cycle_status_update (t : Nat) (i : proc_inst_t) : (wake t i).cycle_status_update = i.cycle_status_update := by
  unfold wake
  simp only []
  split <;> split <;> rfl

@[simp] theorem schedule_first_inst_cycle_status_update (c : Nat) (i : proc_inst_t) :
    (schedule_first_inst c i).cycle_status_update = i.cycle_status_update := by
  unfold schedule_first_inst
  simp only []
  split
  · rfl
  · split <;> split <;> rfl


/-! ## Properties of single records -/

theorem fetch_loop_pred (P : proc_inst_t → Prop) (hnew : ∀ t id cc, P (new_inst t id cc))
    (n : Nat) (s : Sim) (q : Nat) (h : P (s.heap q)) : P ((fetch_loop n s).heap q) := by
  induction n generalizing s with
  | zero => exact h
  | succ n ih =>
    unfold fetch_loop
    split
    · exact h
    · apply ih
      unfold fetch_one
      by_cases e : q = s.all_instrs.length
      · simp only [if_pos e]
        exact hnew _ _ _
      · simp only [if_neg e]
        exact h

/-- A property of records kept by the reservation, by the operand lookup and
by the set-up of a new record holds after a stage that does not loop over the
window if it held before. -/
theorem nonwindow_stage_inv (P : proc_inst_t → Prop)
    (hres : ∀ i : proc_inst_t, P i → P { i with reserved := true })
    (hupd : ∀ rf i, P i → P (update_instr rf i))
    (hnew : ∀ t id cc, P (new_inst t id cc))
    (pc : Stage) (hw : pc.isWindow = false) (s : Sim) (q : Nat) (h : P (s.heap q)) :
    P ((stage_fn pc s).heap q) := by
  cases pc <;> simp only [Stage.isWindow] at hw <;> (try exact absurd hw (by decide))
  case di1 =>
    simp only [stage_fn]
    rcases dispatch_first_heap s q with e | ⟨_, e⟩
    · rw [e]; exact h
    · rw [e]; exact hres _ h
  case su2 => simpa [stage_fn] using h
  case di2 => exact drain_pred P hupd _ s q h
  case fd =>
    simp only [stage_fn]
    unfold instr_fetch_and_decode
    split
    · exact fetch_loop_pred P hnew _ s q h
    · exact h
  case inc => exact h
  case halt => exact h

/-- A property of records that every write of every stage preserves holds on
the whole heap after a stage if it held before. -/
theorem record_inv_step (P : proc_inst_t → Prop)
    (hwin : ∀ cc pc i j, WinOp cc pc i j → P i → P j)
    (hres : ∀ i : proc_inst_t, P i → P { i with reserved := true })
    (hupd : ∀ rf i, P i → P (update_instr rf i))
    (hnew : ∀ t id cc, P (new_inst t id cc))
    (pc : Stage) (s : Sim) (q : Nat) (h : P (s.heap q)) : P ((stage_fn pc s).heap q) := by
  by_cases hw : pc.isWindow = true
  · exact window_stage_inv P pc hw s (hwin _ _) q h
  · exact nonwindow_stage_inv P hres hupd hnew pc (by simpa using hw) s q h

theorem flagsOk_reach {r k0 k1 k2 f : Nat} {trace : List trace_line} {pc : Stage} {s : Sim}
    (h : Reach (setup_proc r k0 k1 k2 f trace) pc s) (q : Nat) : FlagsOk (s.heap q) := by
  refine Reach.induct_inv (fun _ s => ∀ q, FlagsOk (s.heap q)) ?_ ?_ h q
  · intro q
    simp [setup_proc, FlagsOk, blank_inst]
  · intro pc s _ ih q
    refine record_inv_step FlagsOk ?_ ?_ ?_ ?_ pc s q (ih q)
    · intro cc pc i j hop hi
      cases hop with
      | retire _ h1 _ => exact ⟨fun _ => h1, hi.2⟩
      | exec _ h1 _ => exact ⟨fun _ => rfl, fun _ => h1⟩
      | sched => simpa [FlagsOk] using hi
      | fire _ _ _ => exact ⟨hi.1, fun _ => rfl⟩
      | wake t => simpa [FlagsOk] using hi
    · intro i hi
      exact hi
    · intro rf i hi
      simpa [FlagsOk] using hi
    · intro t id cc
      simp [FlagsOk, new_inst]

/-! ## Conservation of instructions -/

theorem stage_fn_raw (pc : Stage) (s : Sim) (q : Nat) (hq : q < s.all_instrs.length) :
    raw ((stage_fn pc s).heap q) = raw (s.heap q) ∧
    ((stage_fn pc s).heap q).id = (s.heap q).id := by
  have := stage_fn_instLe pc s q hq
  simp only [raw, this.op_code, this.src_reg0, this.src_reg1, this.dest_reg, this.id,
    and_self]

theorem stage_fn_retire_stamp (pc : Stage) (s : Sim) (q : Nat) (hq : q < s.all_instrs.length)
    (h : (s.heap q).cycle_status_update ≠ 0) :
    ((stage_fn pc s).heap q).cycle_status_update ≠ 0 := by
  rw [(stage_fn_instLe pc s q hq).cycle_status_update h]
  exact h

theorem stage_fn_read_cnt (pc : Stage) (hpc : pc ≠ .fd) (s : Sim) :
    (stage_fn pc s).cpu.read_cnt = s.cpu.read_cnt := by
  cases pc <;> simp only [stage_fn] <;> (try simp) <;> (try exact absurd rfl hpc)
  split <;> simp

theorem stage_fn_read_finished (pc : Stage) (hpc : pc ≠ .fd) (s : Sim) :
    (stage_fn pc s).cpu.read_finished = s.cpu.read_finished := by
  cases pc <;> simp only [stage_fn] <;> (try simp) <;> (try exact absurd rfl hpc)
  split <;> simp

theorem stage_fn_trace (pc : Stage) (hpc : pc ≠ .fd) (s : Sim) :
    (stage_fn pc s).trace = s.trace := by
  cases pc <;> simp only [stage_fn] <;> (try simp) <;> (try exact absurd rfl hpc)
  split <;> simp

theorem stage_fn_dispatching_queue (pc : Stage) (hpc : pc ≠ .fd) (hpc2 : pc ≠ .di2) (s : Sim) :
    (stage_fn pc s).dispatching_queue = s.dispatching_queue := by
  cases pc <;> simp only [stage_fn] <;> (try simp) <;> (try exact absurd rfl hpc) <;>
    (try exact absurd rfl hpc2)
  split <;> simp

theorem stage_fn_scheduling_queue (pc : Stage) (hpc : pc ≠ .su2) (hpc2 : pc ≠ .di2) (s : Sim) :
    (stage_fn pc s).scheduling_queue = s.scheduling_queue := by
  cases pc <;> simp only [stage_fn] <;> (try simp) <;> (try exact absurd rfl hpc) <;>
    (try exact absurd rfl hpc2)
  split <;> simp

theorem inc_cycle_retired (s : Sim) :
    (inc_cycle s).stats.retired_instruction = s.stats.retired_instruction := rfl

theorem dispatch_first_retired (s : Sim) :
    (dispatch_first s).stats.retired_instruction = s.stats.retired_instruction := by
  unfold dispatch_first
  refine foldl_frame (fun x : Sim × Int => x.1.stats.retired_instruction) _ _ ?_ _
  intro b a
  unfold reserve_body Sim.setInst
  split <;> rfl

theorem stage_fn_retired (pc : Stage) (hpc : pc ≠ .su2) (s : Sim) :
    (stage_fn pc s).stats.retired_instruction = s.stats.retired_instruction := by
  cases pc <;> simp only [stage_fn] <;> (try simp) <;> (try exact absurd rfl hpc)
  · split <;> simp
  · exact dispatch_first_retired s
  · exact inc_cycle_retired s

theorem map_raw_congr (n : Nat) (h1 h2 : Nat → proc_inst_t)
    (h : ∀ q, q < n → raw (h2 q) = raw (h1 q)) :
    (List.range n).map (fun q => raw (h2 q)) = (List.range n).map (fun q => raw (h1 q)) :=
  List.map_congr_left (fun q hq => h q (List.mem_range.mp hq))

/-- Conservation is kept by every stage that leaves the containers, the
counters and the remaining trace alone. -/
theorem conserve_same (trace0 : List trace_line) (pc : Stage) (s : Sim) (a : Nat)
    (n1 : pc ≠ .fd) (n2 : pc ≠ .di2) (n3 : pc ≠ .su2) (h : Conserve trace0 s a) :
    Conserve trace0 (stage_fn pc s) a := by
  obtain ⟨hl, hc, hg, hln, hid, hx⟩ := h
  have hlen := layout_len hl
  refine ⟨layout_same s _ a (stage_fn_read_cnt pc n1 s) (stage_fn_all_instrs pc n1 s)
    (stage_fn_dispatching_queue pc n1 n2 s) (stage_fn_scheduling_queue pc n3 n2 s) hl,
    ?_, ?_, ?_, ?_, ?_⟩
  · rw [stage_fn_retired pc n3 s, stage_fn_scheduling_queue pc n3 n2 s]
    exact hc
  · intro q hq hq2
    rw [stage_fn_scheduling_queue pc n3 n2 s] at hq2
    have ha := hl.1
    exact stage_fn_retire_stamp pc s q (by omega) (hg q hq hq2)
  · rw [stage_fn_read_cnt pc n1 s, stage_fn_trace pc n1 s, hln]
    congr 1
    exact (map_raw_congr _ _ _ (fun q hq => (stage_fn_raw pc s q (by omega)).1)).symm
  · intro q hq
    rw [stage_fn_read_cnt pc n1 s] at hq
    rw [(stage_fn_raw pc s q (by omega)).2]
    exact hid q hq
  · intro hrf
    rw [stage_fn_read_finished pc n1 s] at hrf
    rw [stage_fn_trace pc n1 s]
    exact hx hrf


theorem fetch_loop_conserve (trace0 : List trace_line) (n : Nat) (s : Sim)
    (hlen : s.all_instrs.length = s.cpu.read_cnt)
    (hln : trace0 = (List.range s.cpu.read_cnt).map (fun q => raw (s.heap q)) ++ s.trace)
    (hid : ∀ q, q < s.cpu.read_cnt → (s.heap q).id = q + 1)
    (hrf : s.cpu.read_finished = false) :
    trace0 = (List.range (fetch_loop n s).cpu.read_cnt).map
        (fun q => raw ((fetch_loop n s).heap q)) ++ (fetch_loop n s).trace ∧
    (∀ q, q < (fetch_loop n s).cpu.read_cnt → ((fetch_loop n s).heap q).id = q + 1) ∧
    ((fetch_loop n s).cpu.read_finished = true → (fetch_loop n s).trace = []) := by
  induction n generalizing s with
  | zero =>
    refine ⟨hln, hid, ?_⟩
    intro h
    simp only [fetch_loop] at h
    rw [hrf] at h
    cases h
  | succ n ih =>
    cases ht : s.trace with
    | nil =>
      have e1 : fetch_loop (n + 1) s = { s with cpu := { s.cpu with read_finished := true } } := by
        conv_lhs => unfold fetch_loop
        rw [ht]
      rw [e1]
      exact ⟨hln, hid, fun _ => ht⟩
    | cons t rest =>
      have e1 : fetch_loop (n + 1) s = fetch_loop n (fetch_one s t rest) := by
        conv_lhs => unfold fetch_loop
        rw [ht]
      rw [e1]
      apply ih
      · simp [fetch_one, hlen]
      · rw [hln, ht]
        simp only [fetch_one, List.range_succ, List.map_append, List.map_cons, List.map_nil,
          List.append_assoc, List.singleton_append, hlen, if_true]
        congr 1
        · refine List.map_congr_left ?_
          intro q hq
          rw [List.mem_range] at hq
          simp only [if_neg (Nat.ne_of_lt hq)]
      · intro q hq
        simp only [fetch_one, hlen] at hq ⊢
        by_cases e : q = s.cpu.read_cnt
        · simp [new_inst, e]
        · simp only [if_neg e]
          exact hid q (by omega)
      · exact hrf

theorem conserve_step (trace0 : List trace_line) (pc : Stage) (s : Sim)
    (h : ∃ a, Conserve trace0 s a) : ∃ a, Conserve trace0 (stage_fn pc s) a := by
  obtain ⟨a, h⟩ := h
  by_cases n1 : pc = .fd
  · subst n1
    obtain ⟨hl, hc, hg, hln, hid, hx⟩ := h
    have hlen := layout_len hl
    have hl2 := layout_fetch s a hl
    have key : trace0 = (List.range (stage_fn .fd s).cpu.read_cnt).map
          (fun q => raw ((stage_fn .fd s).heap q)) ++ (stage_fn .fd s).trace ∧
        (∀ q, q < (stage_fn .fd s).cpu.read_cnt → ((stage_fn .fd s).heap q).id = q + 1) ∧
        ((stage_fn .fd s).cpu.read_finished = true → (stage_fn .fd s).trace = []) := by
      simp only [stage_fn]
      unfold instr_fetch_and_decode
      by_cases hrf : s.cpu.read_finished = false
      · simp only [hrf, if_true]
        exact fetch_loop_conserve trace0 _ s hlen hln hid hrf
      · simp only [hrf, if_false]
        exact ⟨hln, hid, hx⟩
    refine ⟨a, hl2, ?_, ?_, key.1, key.2.1, key.2.2⟩
    · simp only [stage_fn, instr_fetch_and_decode_stats, instr_fetch_and_decode_scheduling_queue]
      exact hc
    · intro q hq hq2
      simp only [stage_fn, instr_fetch_and_decode_scheduling_queue] at hq2 ⊢
      have ha := hl.1
      rw [instr_fetch_and_decode_heap_local s q (by omega)]
      exact hg q hq hq2
  · by_cases n2 : pc = .di2
    · subst n2
      obtain ⟨hl, hc, hg, hln, hid, hx⟩ := h
      have hlen := layout_len hl
      obtain ⟨k, hk, h1, h2⟩ := drain_queues s.dispatching_queue s
      have hl2 := layout_drain s a k hl hk h1 h2
      refine ⟨a + k, hl2, ?_, ?_, ?_, ?_, ?_⟩
      · simp only [stage_fn, dispatch_second_stats]
        rw [show (dispatch_second s).scheduling_queue = _ from h2]
        simp only [List.length_append, List.length_take]
        omega
      · intro q hq hq2
        simp only [stage_fn] at hq2 ⊢
        rw [show (dispatch_second s).scheduling_queue = _ from h2, List.mem_append] at hq2
        have hqa : q < a := by
          by_contra hc2
          apply hq2
          right
          rw [hl.2.2.1] at hk ⊢
          simp only [List.length_range'] at hk
          rw [range_take _ _ _ hk, List.mem_range'_1]
          omega
        have ha := hl.1
        exact stage_fn_retire_stamp .di2 s q (by omega) (hg q hqa (fun hm => hq2 (Or.inl hm)))
      · rw [stage_fn_read_cnt .di2 (by decide) s, stage_fn_trace .di2 (by decide) s, hln]
        congr 1
        exact (map_raw_congr _ _ _ (fun q hq => (stage_fn_raw .di2 s q (by omega)).1)).symm
      · intro q hq
        rw [stage_fn_read_cnt .di2 (by decide) s] at hq
        rw [(stage_fn_raw .di2 s q (by omega)).2]
        exact hid q hq
      · intro hrf
        rw [stage_fn_read_finished .di2 (by decide) s] at hrf
        rw [stage_fn_trace .di2 (by decide) s]
        exact hx hrf
    · by_cases n3 : pc = .su2
      · subst n3
        obtain ⟨hl, hc, hg, hln, hid, hx⟩ := h
        refine ⟨a, layout_su2 s a hl, ?_, ?_, ?_, ?_, ?_⟩
        · simp only [stage_fn]
          rw [state_update_second_retired]
          exact hc
        · intro q hq hq2
          simp only [stage_fn, state_update_second_heap, state_update_second_queue] at hq2 ⊢
          by_cases hm : q ∈ s.scheduling_queue
          · intro h0
            apply hq2
            rw [List.mem_filter]
            exact ⟨hm, by simpa using h0⟩
          · exact hg q hq hm
        · simpa [stage_fn] using hln
        · simpa [stage_fn] using hid
        · simpa [stage_fn] using hx
      · exact ⟨a, conserve_same trace0 pc s a n1 n2 n3 h⟩

theorem conserve_reach {r k0 k1 k2 f : Nat} {trace : List trace_line} {pc : Stage} {s : Sim}
    (h : Reach (setup_proc r k0 k1 k2 f trace) pc s) : ∃ a, Conserve trace s a :=
  Reach.induct_inv (fun _ s => ∃ a, Conserve trace s a)
    ⟨0, layout_init r k0 k1 k2 f trace, rfl, fun q hq => absurd hq (Nat.not_lt_zero _),
      by simp [setup_proc], fun q hq => by simp [setup_proc] at hq,
      fun hrf => by simp [setup_proc] at hrf⟩
    (fun pc s _ ih => conserve_step trace pc s ih) h

/-- When the run has finished, every line of the trace has been read into a
record that carries a retirement stamp. -/
theorem finished_all_stamped {r k0 k1 k2 f : Nat} {trace : List trace_line} {pc : Stage}
    {s : Sim} (h : Reach (setup_proc r k0 k1 k2 f trace) pc s) (hf : s.cpu.finished = true) :
    s.cpu.read_cnt = trace.length ∧ s.scheduling_queue = [] ∧ s.dispatching_queue = [] ∧
    ∀ q, q < trace.length →
      raw (s.heap q) = trace.getD q ⟨0, 0, 0, 0⟩ ∧ (s.heap q).cycle_status_update ≠ 0 := by
  obtain ⟨a, hl, hc, hg, hln, hid, hx⟩ := conserve_reach h
  obtain ⟨hrf, hret⟩ := (finished_inv _ rfl h).2 hf
  have ht := hx hrf
  have ha := hl.1
  have hwl : s.scheduling_queue.length = 0 := by omega
  have hw : s.scheduling_queue = [] := List.length_eq_zero.mp hwl
  have haa : a = s.cpu.read_cnt := by omega
  have hlen : trace.length = s.cpu.read_cnt := by
    rw [hln, ht]
    simp
  refine ⟨hlen.symm, hw, ?_, ?_⟩
  · rw [hl.2.2.1, haa]
    simp
  · intro q hq
    constructor
    · rw [hln, ht, List.append_nil]
      rw [List.getD_eq_getElem?_getD, List.getElem?_map, List.getElem?_range (by omega)]
      rfl
    · exact hg q (by omega) (by rw [hw]; simp)


/-! ## A class without functional units -/

theorem stage_fn_fu_cnt (pc : Stage) (hpc : pc ≠ .ex1) (hpc2 : pc ≠ .sc2) (s : Sim) :
    (stage_fn pc s).fu_cnt = s.fu_cnt := by
  cases pc <;> simp only [stage_fn] <;> (try simp) <;> (try exact absurd rfl hpc) <;>
    (try exact absurd rfl hpc2)
  split <;> simp

theorem execute_first_body_fuZero (c : Int) (s : Sim) (p : Nat) (h : FuZero c s) :
    FuZero c (execute_first_body s p) := by
  unfold execute_first_body
  split
  · rename_i hc
    split
    · exact h
    · have hne : (s.heap p).op_code ≠ c := fun e => by
        rw [h.2 p e] at hc
        exact absurd hc.1 (by decide)
      constructor
      · simp only [mapSet, if_neg (Ne.symm hne)]
        exact h.1
      · intro q hq
        by_cases e : q = p
        · subst e
          simp only [if_true] at hq
          exact absurd hq hne
        · simp only [if_neg e] at hq ⊢
          exact h.2 q hq
  · exact h

theorem schedule_second_body_fuZero (c : Int) (s : Sim) (p : Nat) (h : FuZero c s) :
    FuZero c (schedule_second_body s p) := by
  unfold schedule_second_body
  split
  · split
    · exact h
    · rename_i hfu
      have hne : (s.heap p).op_code ≠ c := fun e => hfu (e ▸ h.1)
      constructor
      · simp only [mapSet, if_neg (Ne.symm hne)]
        exact h.1
      · intro q hq
        by_cases e : q = p
        · subst e
          simp only [if_true] at hq
          exact absurd hq hne
        · simp only [if_neg e] at hq ⊢
          exact h.2 q hq
  · exact h

theorem fuZero_step (c : Int) (pc : Stage) (s : Sim) (h : FuZero c s) :
    FuZero c (stage_fn pc s) := by
  have win : pc.isWindow = true → pc ≠ .ex1 → pc ≠ .sc2 → FuZero c (stage_fn pc s) := by
    intro hw n1 n2
    refine ⟨by rw [stage_fn_fu_cnt pc n1 n2 s]; exact h.1, fun q => ?_⟩
    refine window_stage_inv (fun i => i.op_code = c → i.fired = false) pc hw s ?_ q (h.2 q)
    intro i j hop hi
    cases hop with
    | retire _ _ _ => exact hi
    | exec _ _ _ => exact absurd rfl n1
    | sched => simpa using hi
    | fire _ _ _ => exact absurd rfl n2
    | wake t => simpa using hi
  have non : pc.isWindow = false → FuZero c (stage_fn pc s) := by
    intro hw
    have n1 : pc ≠ .ex1 := by intro e; subst e; simp [Stage.isWindow] at hw
    have n2 : pc ≠ .sc2 := by intro e; subst e; simp [Stage.isWindow] at hw
    refine ⟨by rw [stage_fn_fu_cnt pc n1 n2 s]; exact h.1, fun q => ?_⟩
    refine nonwindow_stage_inv (fun i => i.op_code = c → i.fired = false) ?_ ?_ ?_ pc hw s q
      (h.2 q)
    · intro i hi; exact hi
    · intro rf i hi; simpa using hi
    · intro t id cc; simp [new_inst]
  cases pc
  case su1 => exact win rfl (by decide) (by decide)
  case sc1 => exact win rfl (by decide) (by decide)
  case ex2 => exact win rfl (by decide) (by decide)
  case ex1 =>
    exact foldl_inv (FuZero c) execute_first_body s.scheduling_queue
      (fun st p _ hs => execute_first_body_fuZero c st p hs) s h
  case sc2 =>
    exact foldl_inv (FuZero c) schedule_second_body s.scheduling_queue
      (fun st p _ hs => schedule_second_body_fuZero c st p hs) s h
  case di1 => exact non rfl
  case su2 => exact non rfl
  case di2 => exact non rfl
  case fd => exact non rfl
  case inc => exact non rfl
  case halt => exact non rfl

theorem fuZero_reach {r k0 k1 k2 f : Nat} {trace : List trace_line} {pc : Stage} {s : Sim}
    (c : Int) (hc : (setup_proc r k0 k1 k2 f trace).fu_cnt c = 0)
    (h : Reach (setup_proc r k0 k1 k2 f trace) pc s) : FuZero c s :=
  Reach.induct_inv (fun _ s => FuZero c s)
    ⟨hc, fun q _ => by simp [setup_proc, blank_inst]⟩
    (fun pc s _ ih => fuZero_step c pc s ih) h


/-! ## Source slots after a wake-up and after the operand lookup -/

theorem wake_src_ready0 (t : Nat) (i : proc_inst_t) :
    (wake t i).src_ready0 = (i.src_ready0 || decide (i.src_tag0 = t)) := by
  unfold wake
  by_cases h0 : i.src_ready0 = false ∧ i.src_tag0 = t <;>
    by_cases h1 : i.src_ready1 = false ∧ i.src_tag1 = t <;>
    simp only [h0, h1, if_true, if_false, and_self] <;>
    cases h : i.src_ready0 <;> simp_all

theorem wake_src_ready1 (t : Nat) (i : proc_inst_t) :
    (wake t i).src_ready1 = (i.src_ready1 || decide (i.src_tag1 = t)) := by
  unfold wake
  by_cases h0 : i.src_ready0 = false ∧ i.src_tag0 = t <;>
    by_cases h1 : i.src_ready1 = false ∧ i.src_tag1 = t <;>
    simp only [h0, h1, if_true, if_false, and_self] <;>
    cases h : i.src_ready1 <;> simp_all

theorem wake_src_tag0 (t : Nat) (i : proc_inst_t) :
    (wake t i).src_tag0 = if i.src_ready0 = false ∧ i.src_tag0 = t then 0 else i.src_tag0 := by
  unfold wake
  by_cases h0 : i.src_ready0 = false ∧ i.src_tag0 = t <;>
    by_cases h1 : i.src_ready1 = false ∧ i.src_tag1 = t <;>
    simp only [h0, h1, if_true, if_false, and_self]

theorem wake_src_tag1 (t : Nat) (i : proc_inst_t) :
    (wake t i).src_tag1 = if i.src_ready1 = false ∧ i.src_tag1 = t then 0 else i.src_tag1 := by
  unfold wake
  by_cases h0 : i.src_ready0 = false ∧ i.src_tag0 = t <;>
    by_cases h1 : i.src_ready1 = false ∧ i.src_tag1 = t <;>
    simp only [h0, h1, if_true, if_false, and_self]

theorem update_instr_src_ready0 (rf : Int → register_info_t) (i : proc_inst_t) :
    (update_instr rf i).src_ready0 = if i.src_reg0 ≠ -1 then (rf i.src_reg0).ready else true := by
  unfold update_instr
  by_cases h0 : i.src_reg0 = -1 <;> by_cases h1 : i.src_reg1 = -1 <;>
    by_cases h2 : (rf i.src_reg0).ready = false <;>
    by_cases h3 : (rf i.src_reg1).ready = false <;>
    simp [h0, h1, h2, h3]

theorem update_instr_src_ready1 (rf : Int → register_info_t) (i : proc_inst_t) :
    (update_instr rf i).src_ready1 = if i.src_reg1 ≠ -1 then (rf i.src_reg1).ready else true := by
  unfold update_instr
  by_cases h0 : i.src_reg0 = -1 <;> by_cases h1 : i.src_reg1 = -1 <;>
    by_cases h2 : (rf i.src_reg0).ready = false <;>
    by_cases h3 : (rf i.src_reg1).ready = false <;>
    simp [h0, h1, h2, h3]

theorem update_instr_src_tag0 (rf : Int → register_info_t) (i : proc_inst_t) :
    (update_instr rf i).src_tag0 =
      if i.src_reg0 ≠ -1 ∧ (rf i.src_reg0).ready = false then (rf i.src_reg0).tag else 0 := by
  unfold update_instr
  by_cases h0 : i.src_reg0 = -1 <;> by_cases h1 : i.src_reg1 = -1 <;>
    by_cases h2 : (rf i.src_reg0).ready = false <;>
    by_cases h3 : (rf i.src_reg1).ready = false <;>
    simp [h0, h1, h2, h3]

theorem update_instr_src_tag1 (rf : Int → register_info_t) (i : proc_inst_t) :
    (update_instr rf i).src_tag1 =
      if i.src_reg1 ≠ -1 ∧ (rf i.src_reg1).ready = false then (rf i.src_reg1).tag else 0 := by
  unfold update_instr
  by_cases h0 : i.src_reg0 = -1 <;> by_cases h1 : i.src_reg1 = -1 <;>
    by_cases h2 : (rf i.src_reg0).ready = false <;>
    by_cases h3 : (rf i.src_reg1).ready = false <;>
    simp [h0, h1, h2, h3]


/-! ## A producer and its first consumer -/

theorem slot_update_instr (j : Bool) (rf : Int → register_info_t) (i : proc_inst_t)
    (h : slot_reg j i ≠ -1) :
    slot_ready j (update_instr rf i) = (rf (slot_reg j i)).ready ∧
    ((rf (slot_reg j i)).ready = false →
      slot_tag j (update_instr rf i) = (rf (slot_reg j i)).tag) := by
  cases j
  · simp only [slot_reg, slot_ready, slot_tag, cond_false] at h ⊢
    rw [update_instr_src_ready0, update_instr_src_tag0]
    simp only [h, ne_eq, not_false_eq_true, if_true, true_and, true_and]
    exact fun h2 => by simp [h2]
  · simp only [slot_reg, slot_ready, slot_tag, cond_true] at h ⊢
    rw [update_instr_src_ready1, update_instr_src_tag1]
    simp only [h, ne_eq, not_false_eq_true, if_true, true_and, true_and]
    exact fun h2 => by simp [h2]

theorem slot_wake_hit (j : Bool) (t : Nat) (i : proc_inst_t)
    (h : slot_ready j i = true ∨ slot_tag j i = t) : slot_ready j (wake t i) = true := by
  cases j
  · simp only [slot_ready, slot_tag, cond_false] at h ⊢
    rw [wake_src_ready0]
    rcases h with h | h <;> simp [h]
  · simp only [slot_ready, slot_tag, cond_true] at h ⊢
    rw [wake_src_ready1]
    rcases h with h | h <;> simp [h]

theorem slot_wake_miss (j : Bool) (t T : Nat) (hne : t ≠ T) (i : proc_inst_t)
    (h : slot_ready j i = false ∧ slot_tag j i = T) :
    slot_ready j (wake t i) = false ∧ slot_tag j (wake t i) = T := by
  cases j
  · simp only [slot_ready, slot_tag, cond_false] at h ⊢
    rw [wake_src_ready0, wake_src_tag0]
    simp [h.1, h.2, Ne.symm hne]
  · simp only [slot_ready, slot_tag, cond_true] at h ⊢
    rw [wake_src_ready1, wake_src_tag1]
    simp [h.1, h.2, Ne.symm hne]

theorem slot_wake_keep (j : Bool) (t T : Nat) (i : proc_inst_t)
    (h : slot_ready j i = true ∨ slot_tag j i = T) :
    slot_ready j (wake t i) = true ∨ slot_tag j (wake t i) = T := by
  by_cases hr : slot_ready j i = true
  · exact Or.inl (slot_wake_hit j t i (Or.inl hr))
  · have hT : slot_tag j i = T := h.resolve_left hr
    by_cases e : t = T
    · subst e
      exact Or.inl (slot_wake_hit j t i (Or.inr hT))
    · exact Or.inr (slot_wake_miss j t T e i ⟨by simpa using hr, hT⟩).2

theorem find_free_cdb_loop_mem (i : proc_inst_t) (cdb : List proc_cdb_t) (n : Nat)
    (cdb1 : List proc_cdb_t) (h : find_free_cdb_loop i cdb n = some cdb1) :
    ({ free := false, reg := i.dest_reg, tag := i.id } : proc_cdb_t) ∈ cdb1 ∧
    (∀ b ∈ cdb, b.free = false → b ∈ cdb1) ∧
    (∀ b ∈ cdb1, b.free = false → b ∈ cdb ∨ b.tag = i.id) := by
  induction cdb generalizing n cdb1 with
  | nil => simp [find_free_cdb_loop] at h
  | cons c rest ih =>
    unfold find_free_cdb_loop at h
    split at h
    · cases h
    rename_i hn0
    split at h
    · rename_i hc
      cases h
      refine ⟨List.mem_cons_self _ _, ?_, ?_⟩
      · intro b hb hbf
        rw [List.mem_cons] at hb
        rcases hb with hb | hb
        · subst hb
          rw [hc] at hbf
          cases hbf
        · exact List.mem_cons_of_mem _ hb
      · intro b hb _
        rw [List.mem_cons] at hb
        rcases hb with hb | hb
        · right
          rw [hb]
        · left
          exact List.mem_cons_of_mem _ hb
    · cases hr : find_free_cdb_loop i rest (n - 1) with
      | none => simp [hr] at h
      | some l =>
        simp only [hr, Option.map_some', Option.some.injEq] at h
        subst h
        obtain ⟨h1, h2, h3⟩ := ih (n - 1) l hr
        refine ⟨List.mem_cons_of_mem _ h1, ?_, ?_⟩
        · intro b hb hbf
          rw [List.mem_cons] at hb ⊢
          rcases hb with hb | hb
          · exact Or.inl hb
          · exact Or.inr (h2 b hb hbf)
        · intro b hb hbf
          rw [List.mem_cons] at hb
          rcases hb with hb | hb
          · left
            rw [hb]
            exact List.mem_cons_self _ _
          · rcases h3 b hb hbf with h4 | h4
            · exact Or.inl (List.mem_cons_of_mem _ h4)
            · exact Or.inr h4

theorem find_free_cdb_mem (i : proc_inst_t) (cdb cdb1 : List proc_cdb_t)
    (h : find_free_cdb i cdb = some cdb1) :
    ({ free := false, reg := i.dest_reg, tag := i.id } : proc_cdb_t) ∈ cdb1 ∧
    (∀ b ∈ cdb, b.free = false → b ∈ cdb1) ∧
    (∀ b ∈ cdb1, b.free = false → b ∈ cdb ∨ b.tag = i.id) :=
  find_free_cdb_loop_mem i cdb _ cdb1 h


theorem wake_body_heap (t : Nat) (s : Sim) (p q : Nat) :
    (wake_body t s p).heap q = if q = p then wake t (s.heap q) else s.heap q := by
  unfold wake_body Sim.setInst
  by_cases e : q = p
  · subst e; simp
  · simp [e]

theorem wake_fold_pred (P : proc_inst_t → Prop) (t : Nat) (hP : ∀ i, P i → P (wake t i))
    (l : List Nat) (s : Sim) (q : Nat) (h : P (s.heap q)) :
    P ((l.foldl (wake_body t) s).heap q) :=
  foldl_inv (fun st => P (st.heap q)) (wake_body t) l
    (fun st p _ hs => by
      show P ((wake_body t st p).heap q)
      rw [wake_body_heap]
      split
      · exact hP _ hs
      · exact hs) s h

theorem wake_fold_hit (j : Bool) (t : Nat) (l : List Nat) (s : Sim) (q : Nat) (hq : q ∈ l)
    (h : slot_ready j (s.heap q) = true ∨ slot_tag j (s.heap q) = t) :
    slot_ready j ((l.foldl (wake_body t) s).heap q) = true := by
  induction l generalizing s with
  | nil => cases hq
  | cons p rest ih =>
    simp only [List.foldl_cons]
    by_cases e : q = p
    · subst e
      refine wake_fold_pred (fun i => slot_ready j i = true) t
        (fun i hi => slot_wake_hit j t i (Or.inl hi)) rest _ q ?_
      rw [wake_body_heap, if_pos rfl]
      exact slot_wake_hit j t _ h
    · rw [List.mem_cons] at hq
      refine ih _ (hq.resolve_left e) ?_
      rw [wake_body_heap, if_neg e]
      exact h

theorem broadcast_pred (P : proc_inst_t → Prop) (c : proc_cdb_t)
    (hP : c.free = false → ∀ i, P i → P (wake c.tag i)) (s : Sim) (q : Nat)
    (h : P (s.heap q)) : P ((broadcast s c).heap q) := by
  unfold broadcast
  split
  · rename_i hc
    exact wake_fold_pred P c.tag (hP hc) _ s q h
  · exact h

theorem broadcast_queue (s : Sim) (c : proc_cdb_t) :
    (broadcast s c).scheduling_queue = s.scheduling_queue := by
  unfold broadcast
  split
  · exact foldl_frame (fun x : Sim => x.scheduling_queue) (wake_body c.tag) _
      (fun _ _ => rfl) s
  · rfl

/-- The broadcast leaves alone a pending slot whose tag is on no busy bus. -/
theorem broadcast_miss (j : Bool) (T : Nat) (s : Sim) (q : Nat)
    (hb : ∀ b ∈ s.cdb, b.free = false → b.tag ≠ T)
    (h : slot_ready j (s.heap q) = false ∧ slot_tag j (s.heap q) = T) :
    slot_ready j ((update_instruction_from_cdb s).heap q) = false ∧
    slot_tag j ((update_instruction_from_cdb s).heap q) = T := by
  unfold update_instruction_from_cdb
  refine foldl_inv (fun st : Sim => slot_ready j (st.heap q) = false ∧
    slot_tag j (st.heap q) = T) broadcast s.cdb ?_ s h
  intro st c hc hs
  exact broadcast_pred (fun i => slot_ready j i = false ∧ slot_tag j i = T) c
    (fun hf i hi => slot_wake_miss j c.tag T (hb c hc hf) i hi) st q hs

theorem broadcast_fold_hit (j : Bool) (b : proc_cdb_t) (hbf : b.free = false)
    (l : List proc_cdb_t) (hbl : b ∈ l) (s : Sim) (q : Nat) (hq : q ∈ s.scheduling_queue)
    (h : slot_ready j (s.heap q) = true ∨ slot_tag j (s.heap q) = b.tag) :
    slot_ready j ((l.foldl broadcast s).heap q) = true := by
  induction l generalizing s with
  | nil => cases hbl
  | cons c rest ih =>
    simp only [List.foldl_cons]
    by_cases e : b = c
    · subst e
      refine foldl_inv (fun st : Sim => slot_ready j (st.heap q) = true) broadcast rest ?_ _ ?_
      · intro st c _ hs
        exact broadcast_pred (fun i => slot_ready j i = true) c
          (fun _ i hi => slot_wake_hit j c.tag i (Or.inl hi)) st q hs
      · unfold broadcast
        rw [if_pos hbf]
        exact wake_fold_hit j b.tag _ s q hq h
    · rw [List.mem_cons] at hbl
      refine ih (hbl.resolve_left e) _ (by rw [broadcast_queue]; exact hq) ?_
      exact broadcast_pred (fun i => slot_ready j i = true ∨ slot_tag j i = b.tag) c
        (fun _ i hi => slot_wake_keep j c.tag b.tag i hi) s q h

/-- The broadcast raises every pending slot of the window whose tag is on a
busy bus. -/
theorem broadcast_hit (j : Bool) (s : Sim) (b : proc_cdb_t) (hb : b ∈ s.cdb)
    (hbf : b.free = false) (q : Nat) (hq : q ∈ s.scheduling_queue)
    (h : slot_ready j (s.heap q) = true ∨ slot_tag j (s.heap q) = b.tag) :
    slot_ready j ((update_instruction_from_cdb s).heap q) = true :=
  broadcast_fold_hit j b hbf s.cdb hb s q hq h


theorem depInv_same (R : Int) (j : Bool) (held held2 : Bool) (s t : Sim) (a : Nat)
    (h0 : (t.heap 0).cycle_execute = (s.heap 0).cycle_execute)
    (h1r : slot_ready j (t.heap 1) = slot_ready j (s.heap 1))
    (h1t : slot_tag j (t.heap 1) = slot_tag j (s.heap 1))
    (hrf : t.register_file = s.register_file) (hcdb : t.cdb = s.cdb)
    (hh : held = true → held2 = true) (h : DepInv R j held s a) : DepInv R j held2 t a := by
  obtain ⟨a1, a2, a3, a4, a5, a6⟩ := h
  refine ⟨?_, ?_, ?_, ?_, ?_, ?_⟩
  · rw [h0]; exact a1
  · rw [h0, hrf]; exact a2
  · rw [h0, hrf]; exact a3
  · rw [h0, h1r, h1t]; exact a4
  · rw [h0, h1r, h1t, hcdb]
    intro x y
    rcases a5 x y with z | ⟨z1, z2, z3⟩
    · exact Or.inl z
    · exact Or.inr ⟨hh z1, z2, z3⟩
  · rw [h0, hcdb]; exact a6

theorem execute_first_body_dep (R : Int) (j : Bool) (a rc : Nat) (st : Sim) (p : Nat)
    (hp : p < a) (ha : a ≤ rc)
    (h : 1 ≤ st.stats.cycle_count ∧ (∀ q, q < rc → (st.heap q).id = q + 1) ∧
      (0 < rc → (st.heap 0).dest_reg = R) ∧ DepInv R j true st a) :
    1 ≤ (execute_first_body st p).stats.cycle_count ∧
    (∀ q, q < rc → ((execute_first_body st p).heap q).id = q + 1) ∧
    (0 < rc → ((execute_first_body st p).heap 0).dest_reg = R) ∧
    DepInv R j true (execute_first_body st p) a := by
  obtain ⟨hcc, hid, hw, a1, a2, a3, a4, a5, a6⟩ := h
  unfold execute_first_body
  split
  · rename_i hc
    split
    · exact ⟨hcc, hid, hw, a1, a2, a3, a4, a5, a6⟩
    · rename_i cdb1 hf
      obtain ⟨m1, m2, m3⟩ := find_free_cdb_mem _ _ _ hf
      have hidp : (st.heap p).id = p + 1 := hid p (by omega)
      refine ⟨hcc, ?_, ?_, ?_⟩
      · intro q hq
        by_cases e : q = p
        · subst e
          simp only [if_true]
          exact hid q hq
        · simp only [if_neg e]
          exact hid q hq
      · intro h0
        by_cases e : 0 = p
        · subst e
          simp only [if_true]
          exact hw h0
        · simp only [if_neg e]
          exact hw h0
      · by_cases e : p = 0
        · subst e
          have hcne : st.stats.cycle_count ≠ 0 := by omega
          refine ⟨?_, ?_, ?_, ?_, ?_, ?_⟩
          · intro h0
            omega
          · intro _ h2
            simp only [if_true] at h2
            exact absurd h2 hcne
          · intro _ _
            simp only [mapSet, hw (by omega), if_true]
          · intro _ h2
            simp only [if_true] at h2
            exact absurd h2 hcne
          · intro h2 _
            right
            have hw1 := a4 h2 hc.2
            have e1 : (1 : Nat) ≠ 0 := by decide
            simp only [if_neg e1]
            refine ⟨trivial, hw1.2, _, m1, rfl, ?_⟩
            simpa using hidp
          · intro h2
            simp only [if_true] at h2
            exact absurd h2 hcne
        · have e0 : ¬ (0 = p) := fun x => e x.symm
          refine ⟨?_, ?_, ?_, ?_, ?_, ?_⟩
          · intro h0
            omega
          · intro h1
            omega
          · intro h1
            omega
          · intro h2 h3
            simp only [if_neg e0] at h3
            have hw1 := a4 h2 h3
            by_cases e1 : 1 = p
            · subst e1
              simpa [slot_ready, slot_tag] using hw1
            · simp only [if_neg e1]
              exact hw1
          · intro h2 h3
            simp only [if_neg e0] at h3
            have key : slot_ready j (st.heap 1) = true ∨
                (true = true ∧ slot_tag j (st.heap 1) = 1 ∧
                  ∃ b ∈ cdb1, b.free = false ∧ b.tag = 1) := by
              rcases a5 h2 h3 with z | ⟨_, z2, b, hb, hbf, hbt⟩
              · exact Or.inl z
              · exact Or.inr ⟨rfl, z2, b, m2 b hb hbf, hbf, hbt⟩
            by_cases e1 : 1 = p
            · subst e1
              simpa [slot_ready, slot_tag] using key
            · simp only [if_neg e1]
              simpa using key
          · intro h3 b hb hbf
            simp only [if_neg e0] at h3
            rcases m3 b hb hbf with z | z
            · exact a6 h3 b z hbf
            · rw [z, hidp]
              omega
  · exact ⟨hcc, hid, hw, a1, a2, a3, a4, a5, a6⟩

theorem execute_first_dep (R : Int) (j : Bool) (a : Nat) (s : Sim) (hl : Layout s a)
    (hcc : 1 ≤ s.stats.cycle_count) (hs : DepStatic R j s) (h : DepInv R j true s a) :
    DepInv R j true (execute_first s) a := by
  have key := foldl_inv
    (fun st : Sim => 1 ≤ st.stats.cycle_count ∧
      (∀ q, q < s.cpu.read_cnt → (st.heap q).id = q + 1) ∧
      (0 < s.cpu.read_cnt → (st.heap 0).dest_reg = R) ∧ DepInv R j true st a)
    execute_first_body s.scheduling_queue
    (fun st p hp hst =>
      execute_first_body_dep R j a s.cpu.read_cnt st p (hl.2.2.2.1 p hp) hl.1 hst)
    s ⟨hcc, hs.ids, hs.writer, h⟩
  exact key.2.2.2


theorem stage_fn_slot (j : Bool) (pc : Stage) (n1 : pc ≠ .ex2) (n2 : pc ≠ .di2) (s : Sim)
    (q : Nat) (hq : pc = .fd → q < s.all_instrs.length) :
    slot_ready j ((stage_fn pc s).heap q) = slot_ready j (s.heap q) ∧
    slot_tag j ((stage_fn pc s).heap q) = slot_tag j (s.heap q) := by
  have := stage_fn_field (fun i => (i.src_ready0, i.src_ready1, i.src_tag0, i.src_tag1)) pc s
    (fun e => absurd e n2) (fun _ _ => rfl) ?_ q hq
  · simp only [Prod.mk.injEq] at this
    cases j <;> simp [slot_ready, slot_tag, this]
  · intro i j hop
    cases hop with
    | retire _ _ _ => rfl
    | exec _ _ _ => rfl
    | sched =>
      show ((schedule_first_inst _ i).src_ready0, (schedule_first_inst _ i).src_ready1,
        (schedule_first_inst _ i).src_tag0, (schedule_first_inst _ i).src_tag1) = _
      simp
    | fire _ _ _ => rfl
    | wake t => exact absurd rfl n1

theorem stage_fn_register_file (pc : Stage) (hpc : pc ≠ .ex1) (hpc2 : pc ≠ .di2) (s : Sim) :
    (stage_fn pc s).register_file = s.register_file := by
  cases pc <;> simp only [stage_fn] <;> (try simp) <;> (try exact absurd rfl hpc) <;>
    (try exact absurd rfl hpc2)
  split <;> simp

theorem execute_second_dep (R : Int) (j : Bool) (a : Nat) (s : Sim)
    (h1w : 2 ≤ a → slot_ready j (s.heap 1) = false → 1 ∈ s.scheduling_queue)
    (h : DepInv R j true s a) : DepInv R j false (execute_second s) a := by
  obtain ⟨a1, a2, a3, a4, a5, a6⟩ := h
  have h0 : ((execute_second s).heap 0).cycle_execute = (s.heap 0).cycle_execute :=
    stage_fn_cycle_execute .ex2 (by decide) s 0 (fun e => by cases e)
  have hrf : (execute_second s).register_file = s.register_file := by simp
  have hheap : (execute_second s).heap = (update_instruction_from_cdb s).heap := rfl
  refine ⟨?_, ?_, ?_, ?_, ?_, ?_⟩
  · rw [h0]; exact a1
  · rw [h0, hrf]; exact a2
  · rw [h0, hrf]; exact a3
  · rw [h0, hheap]
    intro x y
    exact broadcast_miss j 1 s 1 (a6 y) (a4 x y)
  · rw [h0, hheap]
    intro x y
    left
    by_cases hr : slot_ready j (s.heap 1) = true
    · unfold update_instruction_from_cdb
      refine foldl_inv (fun st : Sim => slot_ready j (st.heap 1) = true) broadcast s.cdb ?_ s hr
      intro st c _ hs
      exact broadcast_pred (fun i => slot_ready j i = true) c
        (fun _ i hi => slot_wake_hit j c.tag i (Or.inl hi)) st 1 hs
    · rcases a5 x y with z | ⟨_, z2, b, hb, hbf, hbt⟩
      · exact absurd z hr
      · exact broadcast_hit j s b hb hbf 1 (h1w x (by simpa using hr))
          (Or.inr (by rw [z2, hbt]))
  · intro _ b hb hbf
    exfalso
    have hz := (busy_free_cdb (update_instruction_from_cdb s).cdb).1
    unfold busy at hz
    rw [List.countP_eq_zero] at hz
    have := hz b hb
    simp [hbf] at this

theorem fetch_dep (R : Int) (j : Bool) (a : Nat) (s : Sim) (hl : Layout s a)
    (h : DepInv R j false s a) : DepInv R j false (instr_fetch_and_decode s) a := by
  obtain ⟨a1, a2, a3, a4, a5, a6⟩ := h
  have hlen := layout_len hl
  have ha := hl.1
  have loc : ∀ q, q < s.cpu.read_cnt → (instr_fetch_and_decode s).heap q = s.heap q :=
    fun q hq => instr_fetch_and_decode_heap_local s q (by omega)
  have hz : (s.heap 0).cycle_execute = 0 →
      ((instr_fetch_and_decode s).heap 0).cycle_execute = 0 := by
    intro h0
    unfold instr_fetch_and_decode
    split
    · exact fetch_loop_pred (fun i => i.cycle_execute = 0) (fun _ _ _ => rfl) _ s 0 h0
    · exact h0
  refine ⟨fun x => hz (a1 x), ?_, ?_, ?_, ?_, ?_⟩
  · intro x
    rw [loc 0 (by omega), instr_fetch_and_decode_register_file]
    exact a2 x
  · intro x
    rw [loc 0 (by omega), instr_fetch_and_decode_register_file]
    exact a3 x
  · intro x
    rw [loc 0 (by omega), loc 1 (by omega)]
    exact a4 x
  · intro x
    rw [loc 0 (by omega), loc 1 (by omega), instr_fetch_and_decode_cdb]
    exact a5 x
  · intro x
    rw [instr_fetch_and_decode_cdb]
    by_cases h0 : 0 < s.cpu.read_cnt
    · rw [loc 0 h0] at x
      exact a6 x
    · exact a6 (a1 (by omega))

theorem dispatch_one_dep (R : Int) (j : Bool) (hR : R ≠ -1) (a rc : Nat) (s : Sim)
    (ha : a < rc)
    (hs : (∀ q, q < rc → (s.heap q).id = q + 1) ∧ (0 < rc → (s.heap 0).dest_reg = R) ∧
      (1 < rc → slot_reg j (s.heap 1) = R))
    (h : DepInv R j false s a) :
    ((∀ q, q < rc → ((dispatch_one s a).heap q).id = q + 1) ∧
      (0 < rc → ((dispatch_one s a).heap 0).dest_reg = R) ∧
      (1 < rc → slot_reg j ((dispatch_one s a).heap 1) = R)) ∧
    DepInv R j false (dispatch_one s a) (a + 1) := by
  obtain ⟨hid, hw, hrd⟩ := hs
  obtain ⟨a1, a2, a3, a4, a5, a6⟩ := h
  have hheap : ∀ q, (dispatch_one s a).heap q =
      if q = a then update_instr s.register_file (s.heap a) else s.heap q := fun _ => rfl
  have hcdb : (dispatch_one s a).cdb = s.cdb := rfl
  have hrf : (dispatch_one s a).register_file =
      if (s.heap a).dest_reg ≠ -1 then
        mapSet s.register_file (s.heap a).dest_reg { ready := false, tag := (s.heap a).id }
      else s.register_file := by
    simp [dispatch_one]
  refine ⟨⟨?_, ?_, ?_⟩, ?_⟩
  · intro q hq
    rw [hheap]
    split
    · rename_i e
      subst e
      rw [update_instr_id]
      exact hid q hq
    · exact hid q hq
  · intro h0
    rw [hheap]
    split
    · rename_i e
      rw [update_instr_dest_reg, ← e]
      exact hw h0
    · exact hw h0
  · intro h1
    rw [hheap]
    split
    · rename_i e
      have : slot_reg j (update_instr s.register_file (s.heap a)) = slot_reg j (s.heap a) := by
        cases j <;> simp [slot_reg]
      rw [this, ← e]
      exact hrd h1
    · exact hrd h1
  · by_cases e0 : a = 0
    · subst e0
      have hce : ((dispatch_one s 0).heap 0).cycle_execute = 0 := by
        rw [hheap, if_pos rfl, update_instr_cycle_execute]
        exact a1 rfl
      refine ⟨fun x => by omega, ?_, ?_, fun x => by omega, fun x => by omega, ?_⟩
      · intro _ _
        rw [hrf, hw ha, if_pos hR, hid 0 ha]
        simp [mapSet]
      · intro _ x
        exact absurd hce x
      · intro _
        rw [hcdb]
        exact a6 (a1 rfl)
    · have h0 : (dispatch_one s a).heap 0 = s.heap 0 := by
        rw [hheap, if_neg (fun x => e0 x.symm)]
      by_cases e1 : a = 1
      · subst e1
        have hreg : slot_reg j (s.heap 1) ≠ -1 := by rw [hrd ha]; exact hR
        obtain ⟨u1, u2⟩ := slot_update_instr j s.register_file (s.heap 1) hreg
        rw [hrd ha] at u1 u2
        refine ⟨fun x => by omega, fun x => by omega, fun x => by omega, ?_, ?_, ?_⟩
        · intro _ x
          rw [h0] at x
          rw [hheap, if_pos rfl, u1, a2 rfl x]
          refine ⟨rfl, ?_⟩
          rw [u2 (by rw [a2 rfl x]), a2 rfl x]
        · intro _ x
          rw [h0] at x
          left
          rw [hheap, if_pos rfl, u1]
          exact a3 rfl x
        · intro x
          rw [h0] at x
          rw [hcdb]
          exact a6 x
      · have h1 : (dispatch_one s a).heap 1 = s.heap 1 := by
          rw [hheap, if_neg (fun x => e1 x.symm)]
        refine ⟨fun x => by omega, fun x => by omega, fun x => by omega, ?_, ?_, ?_⟩
        · intro _ x
          rw [h0] at x
          rw [h1]
          exact a4 (by omega) x
        · intro _ x
          rw [h0] at x
          rw [h1, hcdb]
          exact a5 (by omega) x
        · intro x
          rw [h0] at x
          rw [hcdb]
          exact a6 x

theorem drain_dep (R : Int) (j : Bool) (hR : R ≠ -1) (rc n : Nat) (a : Nat) (s : Sim)
    (ha : a + n ≤ rc)
    (hs : (∀ q, q < rc → (s.heap q).id = q + 1) ∧ (0 < rc → (s.heap 0).dest_reg = R) ∧
      (1 < rc → slot_reg j (s.heap 1) = R))
    (h : DepInv R j false s a) :
    ∃ k, k ≤ n ∧ DepInv R j false (drain s (List.range' a n)) (a + k) ∧
      (drain s (List.range' a n)).dispatching_queue = (List.range' a n).drop k ∧
      (drain s (List.range' a n)).scheduling_queue =
        s.scheduling_queue ++ (List.range' a n).take k := by
  induction n generalizing a s with
  | zero =>
    refine ⟨0, Nat.le_refl _, ?_, by simp [drain], by simp [drain]⟩
    exact depInv_same R j false false s _ a rfl rfl rfl rfl rfl (fun x => x) h
  | succ n ih =>
    rw [List.range'_succ]
    unfold drain
    split
    · refine ⟨0, Nat.zero_le _, ?_, by simp, by simp⟩
      exact depInv_same R j false false s _ a rfl rfl rfl rfl rfl (fun x => x) h
    · obtain ⟨hs2, h2⟩ := dispatch_one_dep R j hR a rc s (by omega) hs h
      obtain ⟨k, hk, i1, i2, i3⟩ := ih (a + 1) (dispatch_one s a) (by omega) hs2 h2
      refine ⟨k + 1, by omega, ?_, ?_, ?_⟩
      · rw [show a + (k + 1) = a + 1 + k from by omega]
        exact i1
      · rw [i2]
        simp
      · rw [i3]
        simp [dispatch_one]


theorem conserve_line {trace0 : List trace_line} {s : Sim} {a : Nat}
    (h : Conserve trace0 s a) (q : Nat) (hq : q < s.cpu.read_cnt) :
    trace0[q]? = some (raw (s.heap q)) := by
  rw [h.lines, List.getElem?_append_left (by simpa using hq), List.getElem?_map,
    List.getElem?_range hq]
  rfl

theorem layout_unique {s : Sim} {a b : Nat} (h1 : Layout s a) (h2 : Layout s b) : a = b := by
  have e1 := h1.2.2.1
  have e2 := h2.2.2.1
  have l1 : s.dispatching_queue.length = s.cpu.read_cnt - a := by rw [e1]; simp
  have l2 : s.dispatching_queue.length = s.cpu.read_cnt - b := by rw [e2]; simp
  have := h1.1
  have := h2.1
  omega

theorem depStatic_reach {r k0 k1 k2 f : Nat} {t1 t2 : trace_line} {rest : List trace_line}
    {pc : Stage} {s : Sim} (R : Int) (j : Bool) (h1 : t1.dest_reg = R)
    (h2 : line_reg j t2 = R)
    (h : Reach (setup_proc r k0 k1 k2 f (t1 :: t2 :: rest)) pc s) : DepStatic R j s := by
  obtain ⟨a, hc⟩ := conserve_reach h
  refine ⟨hc.ids, ?_, ?_⟩
  · intro h0
    have := conserve_line hc 0 h0
    simp only [List.getElem?_cons_zero, Option.some.injEq] at this
    rw [← h1, this]
    rfl
  · intro h0
    have := conserve_line hc 1 h0
    simp only [List.getElem?_cons_succ, List.getElem?_cons_zero, Option.some.injEq] at this
    rw [← h2, this]
    cases j <;> rfl

/-- A pending source slot belongs to a record that is still in the window. -/
theorem pending_in_window {r k0 k1 k2 f : Nat} {trace : List trace_line} {pc : Stage}
    {s : Sim} (h : Reach (setup_proc r k0 k1 k2 f trace) pc s) (a : Nat) (hl : Layout s a)
    (j : Bool) (q : Nat) (hq : q < a) (hr : slot_ready j (s.heap q) = false) :
    q ∈ s.scheduling_queue := by
  by_contra hn
  obtain ⟨b, hc⟩ := conserve_reach h
  have e := layout_unique hl hc.layout
  subst e
  have hsu := hc.gone q hq hn
  have hfl := flagsOk_reach h q
  have hfo := (fireOk_reach h).1 q
  have := hfo.2 (hfo.1 (hfl.2 (hfl.1 hsu)))
  cases j
  · simp only [slot_ready, cond_false] at hr
    rw [this.1] at hr
    cases hr
  · simp only [slot_ready, cond_true] at hr
    rw [this.2] at hr
    cases hr

theorem depInv_step {r k0 k1 k2 f : Nat} {t1 t2 : trace_line} {rest : List trace_line}
    (R : Int) (j : Bool) (hR : R ≠ -1) (h1 : t1.dest_reg = R) (h2 : line_reg j t2 = R)
    (pc : Stage) (s : Sim) (hr : Reach (setup_proc r k0 k1 k2 f (t1 :: t2 :: rest)) pc s)
    (h : ∃ a, Layout s a ∧ DepInv R j (!pc.busFree) s a) :
    ∃ a, Layout (stage_fn pc s) a ∧
      DepInv R j (!(next_stage pc s).busFree) (stage_fn pc s) a := by
  obtain ⟨a, hl, hd⟩ := h
  have hst := depStatic_reach R j h1 h2 hr
  have same : ∀ pc2 : Stage, pc ≠ .ex1 → pc ≠ .ex2 → pc ≠ .di2 → pc ≠ .fd →
      ((!pc.busFree) = true → (!pc2.busFree) = true) →
      ∃ a, Layout (stage_fn pc s) a ∧ DepInv R j (!pc2.busFree) (stage_fn pc s) a := by
    intro pc2 n1 n2 n3 n4 hh
    refine ⟨a, ?_, depInv_same R j _ _ s _ a
      (stage_fn_cycle_execute pc n1 s 0 (fun e => absurd e n4))
      (stage_fn_slot j pc n2 n3 s 1 (fun e => absurd e n4)).1
      (stage_fn_slot j pc n2 n3 s 1 (fun e => absurd e n4)).2
      (stage_fn_register_file pc n1 n3 s) (stage_fn_cdb pc n1 n2 s) hh hd⟩
    by_cases n5 : pc = .su2
    · subst n5
      exact layout_su2 s a hl
    · exact layout_same s _ a (stage_fn_read_cnt pc n4 s) (stage_fn_all_instrs pc n4 s)
        (stage_fn_dispatching_queue pc n4 n3 s) (stage_fn_scheduling_queue pc n5 n3 s) hl
  cases pc
  case su1 =>
    by_cases hf : s.cpu.finished = true
    · rw [show next_stage .su1 s = .halt from by simp [next_stage, hf]]
      exact same .halt (by decide) (by decide) (by decide) (by decide) (by decide)
    · rw [show next_stage .su1 s = .ex1 from by simp [next_stage, hf]]
      exact same .ex1 (by decide) (by decide) (by decide) (by decide) (by decide)
  case sc1 => exact same .di1 (by decide) (by decide) (by decide) (by decide) (by decide)
  case di1 => exact same .su2 (by decide) (by decide) (by decide) (by decide) (by decide)
  case su2 =>
    by_cases hf : (state_update_second s).cpu.finished = true
    · rw [show next_stage .su2 s = .halt from by simp [next_stage, hf]]
      exact same .halt (by decide) (by decide) (by decide) (by decide) (by decide)
    · rw [show next_stage .su2 s = .ex2 from by simp [next_stage, hf]]
      exact same .ex2 (by decide) (by decide) (by decide) (by decide) (by decide)
  case sc2 => exact same .di2 (by decide) (by decide) (by decide) (by decide) (by decide)
  case inc => exact same .su1 (by decide) (by decide) (by decide) (by decide) (by decide)
  case halt => exact same .halt (by decide) (by decide) (by decide) (by decide) (by decide)
  case ex1 =>
    refine ⟨a, layout_same s _ a (by simp [stage_fn]) (by simp [stage_fn]) (by simp [stage_fn])
      (by simp [stage_fn]) hl, ?_⟩
    have hd2 : DepInv R j true s a :=
      depInv_same R j _ _ s s a rfl rfl rfl rfl rfl (fun _ => rfl) hd
    exact execute_first_dep R j a s hl (tsOk_reach hr).1 hst hd2
  case ex2 =>
    refine ⟨a, layout_same s _ a (by simp [stage_fn]) (by simp [stage_fn]) (by simp [stage_fn])
      (by simp [stage_fn]) hl, ?_⟩
    exact execute_second_dep R j a s
      (fun ha hr1 => pending_in_window hr a hl j 1 (by omega) hr1) hd
  case di2 =>
    have hdq := hl.2.2.1
    obtain ⟨k, hk, i1, i2, i3⟩ := drain_dep R j hR s.cpu.read_cnt (s.cpu.read_cnt - a) a s
      (by have := hl.1; omega) ⟨hst.ids, hst.writer, hst.reader⟩ hd
    rw [← hdq] at i1 i2 i3
    exact ⟨a + k, layout_drain s a k hl (by rw [hdq]; simpa using hk) i2 i3, i1⟩
  case fd => exact ⟨a, layout_fetch s a hl, fetch_dep R j a s hl hd⟩

theorem depInv_reach {r k0 k1 k2 f : Nat} {t1 t2 : trace_line} {rest : List trace_line}
    (R : Int) (j : Bool) (hR : R ≠ -1) (h1 : t1.dest_reg = R) (h2 : line_reg j t2 = R)
    {pc : Stage} {s : Sim} (h : Reach (setup_proc r k0 k1 k2 f (t1 :: t2 :: rest)) pc s) :
    ∃ a, Layout s a ∧ DepInv R j (!pc.busFree) s a := by
  refine Reach.induct_inv (fun pc s => ∃ a, Layout s a ∧ DepInv R j (!pc.busFree) s a) ?_
    (fun pc s hr ih => depInv_step R j hR h1 h2 pc s hr ih) h
  refine ⟨0, layout_init _ _ _ _ _ _, fun _ => rfl, fun x => by omega, fun x => by omega,
    fun x => by omega, fun x => by omega, ?_⟩
  intro _ b hb hbf
  simp only [setup_proc] at hb
  rw [List.eq_of_mem_replicate hb] at hbf
  cases hbf



theorem mapSet_same {β : Type} (m : Int → β) (k : Int) (v : β) : mapSet m k v k = v := by
  simp [mapSet]

theorem mapSet_ne {β : Type} (m : Int → β) (k : Int) (v : β) (x : Int) (h : x ≠ k) :
    mapSet m k v x = m x := by
  simp [mapSet, h]

theorem mapSet_twice {β : Type} (m : Int → β) (k : Int) (v w : β) :
    mapSet (mapSet m k v) k w = mapSet m k w := by
  funext x
  by_cases e : x = k <;> simp [mapSet, e]

theorem mapSet_id {β : Type} (m : Int → β) (k : Int) (v : β) (h : m k = v) :
    mapSet m k v = m := by
  funext x
  by_cases e : x = k <;> simp [mapSet, e, h]

/-- The routine `update_instr` in closed form. -/
theorem update_instr_eq (rf : Int → register_info_t) (i : proc_inst_t) :
    update_instr rf i =
      { i with
        src_ready0 := look_ready rf i.src_reg0, src_tag0 := look_tag rf i.src_reg0,
        src_ready1 := look_ready rf i.src_reg1, src_tag1 := look_tag rf i.src_reg1 } := by
  unfold update_instr look_ready look_tag
  by_cases h0 : i.src_reg0 = -1 <;> by_cases h1 : i.src_reg1 = -1 <;>
    by_cases h2 : (rf i.src_reg0).ready = false <;>
    by_cases h3 : (rf i.src_reg1).ready = false <;>
    simp [h0, h1, h2, h3]

theorem look_ok (rf : Int → register_info_t) (x : Int) (hx : SrcOk x)
    (h : rf x = reg_init x) : look_ready rf x = true ∧ look_tag rf x = 0 := by
  unfold look_ready look_tag
  rcases hx with e | e
  · simp [e]
  · simp [h, reg_init, e.1, e.2]

/-- The routine `find_free_cdb` on a single bus. -/
theorem find_free_cdb_one (i : proc_inst_t) (c : proc_cdb_t) :
    find_free_cdb i [c] =
      if c.free = true then some [{ free := false, reg := i.dest_reg, tag := i.id }]
      else none := by
  have h1 : (to_int ([c] : List proc_cdb_t).length).toNat = 1 := by
    simp [to_int]
  unfold find_free_cdb
  rw [h1]
  simp [find_free_cdb_loop]

theorem fu_init_one (c : Int) (h : c = 0 ∨ c = 1 ∨ c = 2) : fu_init 1 1 1 c = 1 := by
  rcases h with e | e | e <;> simp [fu_init, e]

theorem regOk_dispatch (rf : Int → register_info_t) (D : List Int) (d : Int) (v : register_info_t)
    (h : ∀ x, x ∉ D → rf x = reg_init x) :
    ∀ x, x ∉ D ++ [d] → (if d ≠ -1 then mapSet rf d v else rf) x = reg_init x := by
  intro x hx
  simp at hx
  split
  · rw [mapSet_ne _ _ _ _ hx.2]; exact h x hx.1
  · exact h x hx.1

set_option maxHeartbeats 1000000 in
theorem pipe_cycle1 (t1 t2 t3 : trace_line) (s : Sim)
    (hrf : RegOk s [])
    (h : Snap s 1 0 0 false [] [] [] [t1, t2, t3] (fu_init 1 1 1))
    :
    Snap (cycle s) 2 0 1 false [0] [0] [] [t2, t3] (fu_init 1 1 1) ∧
    (cycle s).heap 0 = staged t1 1 1 ∧
    RegOk (cycle s) [] := by
  obtain ⟨hcc, hret, hcpu, hall, hdq, hw, hlim, hcdb, htr, hfu⟩ := h
  refine ⟨⟨?_, ?_, ?_, ?_, ?_, ?_, ?_, ?_, ?_, ?_⟩, ?_, ?_⟩
  rotate_right
  · intro x hx
    have e : (cycle s).register_file = s.register_file := by
      simp [cycle, state_update_first, execute_first, schedule_first, dispatch_first,
    state_update_second, sweep, execute_second, update_instruction_from_cdb, broadcast, free_cdb,
    schedule_second, dispatch_second, drain, instr_fetch_and_decode, fetch_loop, fetch_one, inc_cycle,
    reserve_body, Sim.setInst, dispatch_one, state_update_first_body, execute_first_body,
    schedule_first_body, schedule_second_body, wake_body, wake, staged, new_inst, blank_inst,
    find_free_cdb_one, to_int, schedule_first_inst, instr_src_available, update_instr_eq,
    hcc, hret, hcpu, hall, hdq, hw, hlim, hcdb, htr, hfu, mapSet_same, mapSet_twice,
    mapSet_id, ]
    rw [e]; exact hrf x hx
  all_goals
    simp [cycle, state_update_first, execute_first, schedule_first, dispatch_first,
    state_update_second, sweep, execute_second, update_instruction_from_cdb, broadcast, free_cdb,
    schedule_second, dispatch_second, drain, instr_fetch_and_decode, fetch_loop, fetch_one, inc_cycle,
    reserve_body, Sim.setInst, dispatch_one, state_update_first_body, execute_first_body,
    schedule_first_body, schedule_second_body, wake_body, wake, staged, new_inst, blank_inst,
    find_free_cdb_one, to_int, schedule_first_inst, instr_src_available, update_instr_eq,
    hcc, hret, hcpu, hall, hdq, hw, hlim, hcdb, htr, hfu, mapSet_same, mapSet_twice,
    mapSet_id, ]

set_option maxHeartbeats 1000000 in
theorem pipe_cycle2 (t1 t2 t3 : trace_line) (s : Sim)
    (hs0 : SrcOk t1.src_reg0) (hs1 : SrcOk t1.src_reg1)
    (hrf : RegOk s [])
    (h : Snap s 2 0 1 false [0] [0] [] [t2, t3] (fu_init 1 1 1))
    (h0 : s.heap 0 = staged t1 1 1)
    :
    Snap (cycle s) 3 0 2 false [0, 1] [1] [0] [t3] (fu_init 1 1 1) ∧
    (cycle s).heap 0 = staged t1 1 2 ∧
    (cycle s).heap 1 = staged t2 2 1 ∧
    RegOk (cycle s) [t1.dest_reg] := by
  obtain ⟨hcc, hret, hcpu, hall, hdq, hw, hlim, hcdb, htr, hfu⟩ := h
  have r0 := look_ok s.register_file t1.src_reg0 hs0 (hrf _ (by simp))
  have r1 := look_ok s.register_file t1.src_reg1 hs1 (hrf _ (by simp))
  refine ⟨⟨?_, ?_, ?_, ?_, ?_, ?_, ?_, ?_, ?_, ?_⟩, ?_, ?_, ?_⟩
  rotate_right
  · have e : (cycle s).register_file = (if t1.dest_reg ≠ -1 then mapSet s.register_file t1.dest_reg { ready := false, tag := 1 } else s.register_file) := by
      simp [cycle, state_update_first, execute_first, schedule_first, dispatch_first,
    state_update_second, sweep, execute_second, update_instruction_from_cdb, broadcast, free_cdb,
    schedule_second, dispatch_second, drain, instr_fetch_and_decode, fetch_loop, fetch_one, inc_cycle,
    reserve_body, Sim.setInst, dispatch_one, state_update_first_body, execute_first_body,
    schedule_first_body, schedule_second_body, wake_body, wake, staged, new_inst, blank_inst,
    find_free_cdb_one, to_int, schedule_first_inst, instr_src_available, update_instr_eq,
    hcc, hret, hcpu, hall, hdq, hw, hlim, hcdb, htr, hfu, mapSet_same, mapSet_twice,
    mapSet_id, h0, r0.1, r0.2, r1.1, r1.2]
    intro x hx
    rw [e]; exact regOk_dispatch s.register_file [] t1.dest_reg _ hrf x hx
  all_goals
    simp [cycle, state_update_first, execute_first, schedule_first, dispatch_first,
    state_update_second, sweep, execute_second, update_instruction_from_cdb, broadcast, free_cdb,
    schedule_second, dispatch_second, drain, instr_fetch_and_decode, fetch_loop, fetch_one, inc_cycle,
    reserve_body, Sim.setInst, dispatch_one, state_update_first_body, execute_first_body,
    schedule_first_body, schedule_second_body, wake_body, wake, staged, new_inst, blank_inst,
    find_free_cdb_one, to_int, schedule_first_inst, instr_src_available, update_instr_eq,
    hcc, hret, hcpu, hall, hdq, hw, hlim, hcdb, htr, hfu, mapSet_same, mapSet_twice,
    mapSet_id, h0, r0.1, r0.2, r1.1, r1.2]

set_option maxHeartbeats 1000000 in
theorem pipe_cycle3 (t1 t2 t3 : trace_line) (s : Sim)
    (hop1 : fu_init 1 1 1 t1.op_code = 1)
    (hs0 : SrcOk t2.src_reg0) (hs1 : SrcOk t2.src_reg1)
    (hn0 : t2.src_reg0 ≠ t1.dest_reg) (hn1 : t2.src_reg1 ≠ t1.dest_reg)
    (hrf : RegOk s [t1.dest_reg])
    (h : Snap s 3 0 2 false [0, 1] [1] [0] [t3] (fu_init 1 1 1))
    (h0 : s.heap 0 = staged t1 1 2)
    (h1 : s.heap 1 = staged t2 2 1)
    :
    Snap (cycle s) 4 0 3 false [0, 1, 2] [2] [0, 1] [] (mapSet (fu_init 1 1 1) t1.op_code 0) ∧
    (cycle s).heap 0 = staged t1 1 3 ∧
    (cycle s).heap 1 = staged t2 2 2 ∧
    (cycle s).heap 2 = staged t3 3 1 ∧
    RegOk (cycle s) [t1.dest_reg, t2.dest_reg] := by
  obtain ⟨hcc, hret, hcpu, hall, hdq, hw, hlim, hcdb, htr, hfu⟩ := h
  have r0 := look_ok s.register_file t2.src_reg0 hs0 (hrf _ (by simp [hn0]))
  have r1 := look_ok s.register_file t2.src_reg1 hs1 (hrf _ (by simp [hn1]))
  refine ⟨⟨?_, ?_, ?_, ?_, ?_, ?_, ?_, ?_, ?_, ?_⟩, ?_, ?_, ?_, ?_⟩
  rotate_right
  · have e : (cycle s).register_file = (if t2.dest_reg ≠ -1 then mapSet s.register_file t2.dest_reg { ready := false, tag := 2 } else s.register_file) := by
      simp [cycle, state_update_first, execute_first, schedule_first, dispatch_first,
    state_update_second, sweep, execute_second, update_instruction_from_cdb, broadcast, free_cdb,
    schedule_second, dispatch_second, drain, instr_fetch_and_decode, fetch_loop, fetch_one, inc_cycle,
    reserve_body, Sim.setInst, dispatch_one, state_update_first_body, execute_first_body,
    schedule_first_body, schedule_second_body, wake_body, wake, staged, new_inst, blank_inst,
    find_free_cdb_one, to_int, schedule_first_inst, instr_src_available, update_instr_eq,
    hcc, hret, hcpu, hall, hdq, hw, hlim, hcdb, htr, hfu, mapSet_same, mapSet_twice,
    mapSet_id, h0, h1, hop1, r0.1, r0.2, r1.1, r1.2]
    intro x hx
    rw [e]; exact regOk_dispatch s.register_file [t1.dest_reg] t2.dest_reg _ hrf x hx
  all_goals
    simp [cycle, state_update_first, execute_first, schedule_first, dispatch_first,
    state_update_second, sweep, execute_second, update_instruction_from_cdb, broadcast, free_cdb,
    schedule_second, dispatch_second, drain, instr_fetch_and_decode, fetch_loop, fetch_one, inc_cycle,
    reserve_body, Sim.setInst, dispatch_one, state_update_first_body, execute_first_body,
    schedule_first_body, schedule_second_body, wake_body, wake, staged, new_inst, blank_inst,
    find_free_cdb_one, to_int, schedule_first_inst, instr_src_available, update_instr_eq,
    hcc, hret, hcpu, hall, hdq, hw, hlim, hcdb, htr, hfu, mapSet_same, mapSet_twice,
    mapSet_id, h0, h1, hop1, r0.1, r0.2, r1.1, r1.2]

set_option maxHeartbeats 1000000 in
theorem pipe_cycle4 (t1 t2 t3 : trace_line) (s : Sim)
    (hop1 : fu_init 1 1 1 t1.op_code = 1) (hop2 : fu_init 1 1 1 t2.op_code = 1)
    (hs0 : SrcOk t3.src_reg0) (hs1 : SrcOk t3.src_reg1)
    (hn0 : t3.src_reg0 ≠ t1.dest_reg) (hn1 : t3.src_reg1 ≠ t1.dest_reg)
    (hm0 : t3.src_reg0 ≠ t2.dest_reg) (hm1 : t3.src_reg1 ≠ t2.dest_reg)
    (hrf : RegOk s [t1.dest_reg, t2.dest_reg])
    (h : Snap s 4 0 3 false [0, 1, 2] [2] [0, 1] [] (mapSet (fu_init 1 1 1) t1.op_code 0))
    (h0 : s.heap 0 = staged t1 1 3)
    (h1 : s.heap 1 = staged t2 2 2)
    (h2 : s.heap 2 = staged t3 3 1)
    :
    Snap (cycle s) 5 0 3 true [0, 1, 2] [] [0, 1, 2] [] (mapSet (fu_init 1 1 1) t2.op_code 0) ∧
    (cycle s).heap 0 = staged t1 1 4 ∧
    (cycle s).heap 1 = staged t2 2 3 ∧
    (cycle s).heap 2 = staged t3 3 2 := by
  obtain ⟨hcc, hret, hcpu, hall, hdq, hw, hlim, hcdb, htr, hfu⟩ := h
  have r0 := look_ok (mapSet s.register_file t1.dest_reg { ready := true, tag := 0 })
    t3.src_reg0 hs0 (by rw [mapSet_ne _ _ _ _ hn0]; exact hrf _ (by simp [hn0, hm0]))
  have r1 := look_ok (mapSet s.register_file t1.dest_reg { ready := true, tag := 0 })
    t3.src_reg1 hs1 (by rw [mapSet_ne _ _ _ _ hn1]; exact hrf _ (by simp [hn1, hm1]))
  refine ⟨⟨?_, ?_, ?_, ?_, ?_, ?_, ?_, ?_, ?_, ?_⟩, ?_, ?_, ?_⟩ <;>
  simp [cycle, state_update_first, execute_first, schedule_first, dispatch_first,
    state_update_second, sweep, execute_second, update_instruction_from_cdb, broadcast, free_cdb,
    schedule_second, dispatch_second, drain, instr_fetch_and_decode, fetch_loop, fetch_one, inc_cycle,
    reserve_body, Sim.setInst, dispatch_one, state_update_first_body, execute_first_body,
    schedule_first_body, schedule_second_body, wake_body, wake, staged, new_inst, blank_inst,
    find_free_cdb_one, to_int, schedule_first_inst, instr_src_available, update_instr_eq,
    hcc, hret, hcpu, hall, hdq, hw, hlim, hcdb, htr, hfu, mapSet_same, mapSet_twice,
    mapSet_id, h0, h1, h2, hop1, hop2, r0.1, r0.2, r1.1, r1.2]

set_option maxHeartbeats 1000000 in
theorem pipe_cycle5 (t1 t2 t3 : trace_line) (s : Sim)
    (hop2 : fu_init 1 1 1 t2.op_code = 1) (hop3 : fu_init 1 1 1 t3.op_code = 1)
    (h : Snap s 5 0 3 true [0, 1, 2] [] [0, 1, 2] [] (mapSet (fu_init 1 1 1) t2.op_code 0))
    (h0 : s.heap 0 = staged t1 1 4)
    (h1 : s.heap 1 = staged t2 2 3)
    (h2 : s.heap 2 = staged t3 3 2)
    :
    Snap (cycle s) 6 1 3 true [0, 1, 2] [] [1, 2] [] (mapSet (fu_init 1 1 1) t3.op_code 0) ∧
    (cycle s).heap 0 = staged t1 1 5 ∧
    (cycle s).heap 1 = staged t2 2 4 ∧
    (cycle s).heap 2 = staged t3 3 3 := by
  obtain ⟨hcc, hret, hcpu, hall, hdq, hw, hlim, hcdb, htr, hfu⟩ := h
  refine ⟨⟨?_, ?_, ?_, ?_, ?_, ?_, ?_, ?_, ?_, ?_⟩, ?_, ?_, ?_⟩ <;>
  simp [cycle, state_update_first, execute_first, schedule_first, dispatch_first,
    state_update_second, sweep, execute_second, update_instruction_from_cdb, broadcast, free_cdb,
    schedule_second, dispatch_second, drain, instr_fetch_and_decode, fetch_loop, fetch_one, inc_cycle,
    reserve_body, Sim.setInst, dispatch_one, state_update_first_body, execute_first_body,
    schedule_first_body, schedule_second_body, wake_body, wake, staged, new_inst, blank_inst,
    find_free_cdb_one, to_int, schedule_first_inst, instr_src_available, update_instr_eq,
    hcc, hret, hcpu, hall, hdq, hw, hlim, hcdb, htr, hfu, mapSet_same, mapSet_twice,
    mapSet_id, h0, h1, h2, hop2, hop3]

set_option maxHeartbeats 1000000 in
theorem pipe_cycle6 (t1 t2 t3 : trace_line) (s : Sim)
    (hop3 : fu_init 1 1 1 t3.op_code = 1)
    (h : Snap s 6 1 3 true [0, 1, 2] [] [1, 2] [] (mapSet (fu_init 1 1 1) t3.op_code 0))
    (h0 : s.heap 0 = staged t1 1 5)
    (h1 : s.heap 1 = staged t2 2 4)
    (h2 : s.heap 2 = staged t3 3 3)
    :
    Snap (cycle s) 7 2 3 true [0, 1, 2] [] [2] [] (fu_init 1 1 1) ∧
    (cycle s).heap 0 = staged t1 1 5 ∧
    (cycle s).heap 1 = staged t2 2 5 ∧
    (cycle s).heap 2 = staged t3 3 4 := by
  obtain ⟨hcc, hret, hcpu, hall, hdq, hw, hlim, hcdb, htr, hfu⟩ := h
  refine ⟨⟨?_, ?_, ?_, ?_, ?_, ?_, ?_, ?_, ?_, ?_⟩, ?_, ?_, ?_⟩ <;>
  simp [cycle, state_update_first, execute_first, schedule_first, dispatch_first,
    state_update_second, sweep, execute_second, update_instruction_from_cdb, broadcast, free_cdb,
    schedule_second, dispatch_second, drain, instr_fetch_and_decode, fetch_loop, fetch_one, inc_cycle,
    reserve_body, Sim.setInst, dispatch_one, state_update_first_body, execute_first_body,
    schedule_first_body, schedule_second_body, wake_body, wake, staged, new_inst, blank_inst,
    find_free_cdb_one, to_int, schedule_first_inst, instr_src_available, update_instr_eq,
    hcc, hret, hcpu, hall, hdq, hw, hlim, hcdb, htr, hfu, mapSet_same, mapSet_twice,
    mapSet_id, h0, h1, h2, hop3]

set_option maxHeartbeats 1000000 in
theorem pipe_cycle7 (t1 t2 t3 : trace_line) (s : Sim)
    (h : Snap s 7 2 3 true [0, 1, 2] [] [2] [] (fu_init 1 1 1))
    (h0 : s.heap 0 = staged t1 1 5) (h1 : s.heap 1 = staged t2 2 5)
    (h2 : s.heap 2 = staged t3 3 4) :
    (cycle s).cpu.finished = true ∧ (cycle s).stats.retired_instruction = 3 ∧
    (cycle s).heap 0 = staged t1 1 5 ∧ (cycle s).heap 1 = staged t2 2 5 ∧
    (cycle s).heap 2 = staged t3 3 5 := by
  obtain ⟨hcc, hret, hcpu, hall, hdq, hw, hlim, hcdb, htr, hfu⟩ := h
  refine ⟨?_, ?_, ?_, ?_, ?_⟩ <;>
  simp [cycle, state_update_first, execute_first, schedule_first, dispatch_first,
    state_update_second, sweep, execute_second, update_instruction_from_cdb, broadcast, free_cdb,
    schedule_second, dispatch_second, drain, instr_fetch_and_decode, fetch_loop, fetch_one, inc_cycle,
    reserve_body, Sim.setInst, dispatch_one, state_update_first_body, execute_first_body,
    schedule_first_body, schedule_second_body, wake_body, wake, staged, new_inst, blank_inst,
    find_free_cdb_one, to_int, schedule_first_inst, instr_src_available, update_instr_eq,
    hcc, hret, hcpu, hall, hdq, hw, hlim, hcdb, htr, hfu, mapSet_same, mapSet_twice,
    mapSet_id, h0, h1, h2]




theorem run_proc_step (n : Nat) (s : Sim) (h : s.cpu.finished = false) :
    run_proc (n + 1) s = run_proc n (cycle s) := by
  simp [run_proc, h]

theorem run_proc_done (n : Nat) (s : Sim) (h : s.cpu.finished = true) :
    run_proc n s = some s := by
  cases n <;> simp [run_proc, h]

/-- A run that returns, and whose first `k` states are unfinished, returns
from the state after `k` loop iterations. -/
theorem run_proc_cycles (k : Nat) (n : Nat) (s fin : Sim)
    (h : ∀ i, i < k → (cycles i s).cpu.finished = false) (hr : run_proc n s = some fin) :
    ∃ m, run_proc m (cycles k s) = some fin := by
  induction k generalizing n s with
  | zero => exact ⟨n, hr⟩
  | succ k ih =>
    have h0 : s.cpu.finished = false := h 0 (Nat.succ_pos k)
    cases n with
    | zero => simp [run_proc, h0] at hr
    | succ n =>
      rw [run_proc_step n s h0] at hr
      exact ih n (cycle s) (fun i hi => h (i + 1) (Nat.succ_lt_succ hi)) hr

/-- From a state whose cycle counter is at least `c0`, a record whose execute
stamp is unset or at least `c0` keeps that property. -/
theorem late_execute_step (c0 : Nat) (q : Nat) (pc : Stage) (s : Sim)
    (h : c0 ≤ s.stats.cycle_count ∧
      ((s.heap q).cycle_execute = 0 ∨ c0 ≤ (s.heap q).cycle_execute)) :
    c0 ≤ (stage_fn pc s).stats.cycle_count ∧
      (((stage_fn pc s).heap q).cycle_execute = 0 ∨
        c0 ≤ ((stage_fn pc s).heap q).cycle_execute) := by
  obtain ⟨hc, hq⟩ := h
  constructor
  · by_cases e : pc = .inc
    · subst e
      simp only [stage_fn, inc_cycle]
      omega
    · rw [stage_fn_cycle_count pc e s]; exact hc
  · by_cases hw : pc.isWindow = true
    · refine window_stage_inv (fun i => i.cycle_execute = 0 ∨ c0 ≤ i.cycle_execute) pc hw s ?_ q hq
      intro i j hop hi
      cases hop with
      | retire _ _ _ => exact hi
      | exec _ _ _ => exact Or.inr hc
      | sched =>
        show (schedule_first_inst _ i).cycle_execute = 0 ∨ c0 ≤ (schedule_first_inst _ i).cycle_execute
        simpa using hi
      | fire _ _ _ => exact hi
      | wake t =>
        show (wake t i).cycle_execute = 0 ∨ c0 ≤ (wake t i).cycle_execute
        simpa using hi
    · refine nonwindow_stage_inv (fun i => i.cycle_execute = 0 ∨ c0 ≤ i.cycle_execute)
        (fun _ hi => hi) ?_ ?_ pc (by simpa using hw) s q hq
      · intro rf i hi
        simpa using hi
      · intro t id cc
        exact Or.inl rfl

theorem late_execute_reach (c0 : Nat) (q : Nat) (s0 : Sim) (h0 : c0 ≤ s0.stats.cycle_count)
    (hq : (s0.heap q).cycle_execute = 0) {pc : Stage} {s : Sim} (h : Reach s0 pc s) :
    (s.heap q).cycle_execute = 0 ∨ c0 ≤ (s.heap q).cycle_execute := by
  refine (Reach.induct_inv (fun _ s => c0 ≤ s.stats.cycle_count ∧
    ((s.heap q).cycle_execute = 0 ∨ c0 ≤ (s.heap q).cycle_execute)) ⟨h0, Or.inl hq⟩ ?_ h).2
  intro pc s _ hI
  exact late_execute_step c0 q pc s hI

theorem snap_setup (t1 t2 t3 : trace_line) :
    Snap (setup_proc 1 1 1 1 1 [t1, t2, t3]) 1 0 0 false [] [] [] [t1, t2, t3] (fu_init 1 1 1) ∧
    RegOk (setup_proc 1 1 1 1 1 [t1, t2, t3]) [] :=
  ⟨⟨rfl, rfl, rfl, rfl, rfl, rfl, rfl, rfl, rfl, rfl⟩, fun _ _ => rfl⟩


/-! ## Claims -/

theorem demo_reach (n : Nat) : Reach (setup_proc 1 1 1 1 1 trace3) (demo n).1 (demo n).2 :=
  reach_run_stages n Reach.init

/-- C1: in every reachable state in which `finished` is set the retired count
equals `read_cnt` and the source is marked exhausted; the loop has stopped
exactly in those states; and only the second half of `state_update` can turn
`finished` from false to true. -/
theorem finished_implies_all_retired (r k0 k1 k2 f : Nat) (trace : List trace_line)
    (pc : Stage) (s : Sim) (h : Reach (setup_proc r k0 k1 k2 f trace) pc s) :
    (s.cpu.finished = true →
      s.stats.retired_instruction = s.cpu.read_cnt ∧ s.cpu.read_finished = true) ∧
    (pc = .halt ↔ s.cpu.finished = true) ∧
    ((stage_fn pc s).cpu.finished = true → s.cpu.finished = true ∨ pc = .su2) := by
  have hi := finished_inv (setup_proc r k0 k1 k2 f trace) rfl h
  refine ⟨fun hf => ⟨(hi.2 hf).2, (hi.2 hf).1⟩, ⟨halt_finished h, ?_⟩, ?_⟩
  · intro hf
    by_contra hne
    rw [hi.1 hne] at hf
    cases hf
  · intro hf
    by_cases e : pc = .su2
    · exact Or.inr e
    · left
      rw [stage_fn_finished pc s e] at hf
      exact hf

theorem finished_implies_all_retired_witness :
    Reach (setup_proc 1 1 1 1 1 trace3) .halt (demo 65).2 ∧
    (demo 65).2.cpu.finished = true ∧
    (demo 65).2.stats.retired_instruction = 3 ∧
    (((demo 65).2.cpu.finished = true →
      (demo 65).2.stats.retired_instruction = (demo 65).2.cpu.read_cnt ∧
        (demo 65).2.cpu.read_finished = true) ∧
    (Stage.halt = .halt ↔ (demo 65).2.cpu.finished = true) ∧
    ((stage_fn .halt (demo 65).2).cpu.finished = true →
      (demo 65).2.cpu.finished = true ∨ Stage.halt = .su2)) :=
  ⟨demo_reach 65, by decide, by decide,
    finished_implies_all_retired 1 1 1 1 1 trace3 .halt (demo 65).2 (demo_reach 65)⟩

/-- C2: in every reachable state every record whose `fired` flag is set has
both source-ready flags set, and no stage lowers a source-ready flag of a
record that is in the window. -/
theorem fired_has_ready_sources (r k0 k1 k2 f : Nat) (trace : List trace_line)
    (pc : Stage) (s : Sim) (h : Reach (setup_proc r k0 k1 k2 f trace) pc s) :
    (∀ p, (s.heap p).fired = true →
      (s.heap p).src_ready0 = true ∧ (s.heap p).src_ready1 = true) ∧
    (∀ p ∈ s.scheduling_queue,
      ((s.heap p).src_ready0 = true → ((stage_fn pc s).heap p).src_ready0 = true) ∧
      ((s.heap p).src_ready1 = true → ((stage_fn pc s).heap p).src_ready1 = true)) := by
  constructor
  · intro p hp
    have := (fireOk_reach h).1 p
    exact this.2 (this.1 hp)
  · intro p hp
    obtain ⟨a, hl⟩ := layout_reach h
    have hd : p ∉ s.dispatching_queue := fun hq => layout_disjoint hl hq hp
    have hlt : p < s.all_instrs.length := by
      obtain ⟨ha, hall, _, hw, _⟩ := hl
      rw [hall, List.length_range]
      have := hw p hp
      omega
    exact stage_fn_readyLe pc s p hlt hd

theorem fired_has_ready_sources_witness :
    Reach (setup_proc 1 1 1 1 1 trace3) .su1 (demo 30).2 ∧
    ((demo 30).2.heap 0).fired = true ∧ 0 ∈ (demo 30).2.scheduling_queue ∧
    ((∀ p, ((demo 30).2.heap p).fired = true →
      ((demo 30).2.heap p).src_ready0 = true ∧ ((demo 30).2.heap p).src_ready1 = true) ∧
    (∀ p ∈ (demo 30).2.scheduling_queue,
      (((demo 30).2.heap p).src_ready0 = true →
        ((stage_fn .su1 (demo 30).2).heap p).src_ready0 = true) ∧
      (((demo 30).2.heap p).src_ready1 = true →
        ((stage_fn .su1 (demo 30).2).heap p).src_ready1 = true))) :=
  ⟨demo_reach 30, by decide, by decide,
    fired_has_ready_sources 1 1 1 1 1 trace3 .su1 (demo 30).2 (demo_reach 30)⟩


/-- C4: in every reachable state, for every cycle number `c ≥ 1`, at most `r`
fetched instructions carry the execute timestamp `c`; the bus pool always has
`r` buses, and all of them are free when the first-half `execute` starts. -/
theorem execute_stamps_bounded_by_buses (r k0 k1 k2 f : Nat) (trace : List trace_line)
    (pc : Stage) (s : Sim) (h : Reach (setup_proc r k0 k1 k2 f trace) pc s)
    (c : Nat) (hc : 1 ≤ c) :
    exec_count s c ≤ r ∧ s.cdb.length = r ∧ (pc = .ex1 → ∀ b ∈ s.cdb, b.free = true) := by
  have hi := busInv_reach h
  refine ⟨hi.bound c hc, hi.len, ?_⟩
  intro hpc b hb
  subst hpc
  have h0 := hi.free rfl
  unfold busy at h0
  rw [List.countP_eq_zero] at h0
  simpa using h0 b hb

theorem execute_stamps_bounded_by_buses_witness :
    Reach (setup_proc 1 1 1 1 1 trace3) .ex1 (demo 41).2 ∧ 1 ≤ 5 ∧
    ((demo 41).2.heap 1).cycle_execute = 0 ∧
    ((demo 42).2.heap 1).cycle_execute = 5 ∧
    (exec_count (demo 41).2 5 ≤ 1 ∧ (demo 41).2.cdb.length = 1 ∧
      (Stage.ex1 = .ex1 → ∀ b ∈ (demo 41).2.cdb, b.free = true)) :=
  ⟨demo_reach 41, by decide, by decide, by decide,
    execute_stamps_bounded_by_buses 1 1 1 1 1 trace3 .ex1 (demo 41).2 (demo_reach 41) 5
      (by decide)⟩


theorem limit_reach {r k0 k1 k2 f : Nat} {trace : List trace_line} {pc : Stage} {s : Sim}
    (hk : k0 + k1 + k2 < 1073741824)
    (h : Reach (setup_proc r k0 k1 k2 f trace) pc s) :
    s.scheduling_queue_limit = ((2 * (k0 + k1 + k2) : Nat) : Int) :=
  Reach.induct_inv (fun _ s => s.scheduling_queue_limit = ((2 * (k0 + k1 + k2) : Nat) : Int))
    (setup_limit r k0 k1 k2 f trace hk)
    (fun pc s _ ih => (stage_fn_limit pc s).trans ih) h

/-- C5 (fails on the code outside the `int` range): with `2^30 + 1 = 1073741825`
units of class 0, `2 * (k0 + k1 + k2) = 2147483650` does not fit the `int`
`scheduling_queue_limit`, which holds `-2147483646`.  The first half of
`dispatch` computes the capacity `-2147483646`, which is not 0, so the queued
record is reserved; after 18 stage transitions (second-half `dispatch` of
cycle 2) the window holds one record, more than the limit, and the capacity
`scheduling_queue_limit - scheduling_queue.size()` is negative. -/
theorem window_limit_wraps :
    (setup_proc 1 1073741825 0 0 1 trace_pair).scheduling_queue_limit = -2147483646 ∧
    (run_stages 18 (.su1, setup_proc 1 1073741825 0 0 1 trace_pair)).1 = .fd ∧
    (run_stages 18 (.su1, setup_proc 1 1073741825 0 0 1 trace_pair)).2.scheduling_queue = [0] ∧
    (run_stages 18 (.su1, setup_proc 1 1073741825 0 0 1 trace_pair)).2.scheduling_queue_limit =
      -2147483646 ∧
    (run_stages 18 (.su1, setup_proc 1 1073741825 0 0 1 trace_pair)).2.scheduling_queue_limit ≠
      ((2 * (1073741825 + 0 + 0) : Nat) : Int) ∧
    ¬ (((run_stages 18 (.su1, setup_proc 1 1073741825 0 0 1 trace_pair)).2.scheduling_queue.length
        : Int) ≤
      (run_stages 18 (.su1, setup_proc 1 1073741825 0 0 1 trace_pair)).2.scheduling_queue_limit) ∧
    to_int (((run_stages 18 (.su1, setup_proc 1 1073741825 0 0 1 trace_pair)).2.scheduling_queue_limit -
      ((run_stages 18 (.su1, setup_proc 1 1073741825 0 0 1 trace_pair)).2.scheduling_queue.length
        : Int)) % 18446744073709551616).toNat = -2147483647 := by
  decide

/-- C5 (amended): for a configuration with `k0 + k1 + k2 < 2^30 = 1073741824`,
so that `2 * (k0 + k1 + k2)` fits the `int` limit, in every reachable state
the window holds at most `scheduling_queue_limit = 2 * (k0 + k1 + k2)`
records, and the capacity that the first half of `dispatch` computes is
`scheduling_queue_limit - scheduling_queue.size()` and is never negative. -/
theorem window_within_limit (r k0 k1 k2 f : Nat) (trace : List trace_line)
    (hk : k0 + k1 + k2 < 1073741824)
    (pc : Stage) (s : Sim) (h : Reach (setup_proc r k0 k1 k2 f trace) pc s) :
    (s.scheduling_queue.length : Int) ≤ s.scheduling_queue_limit ∧
    s.scheduling_queue_limit = ((2 * (k0 + k1 + k2) : Nat) : Int) ∧
    to_int ((s.scheduling_queue_limit - (s.scheduling_queue.length : Int)) %
      18446744073709551616).toNat =
      s.scheduling_queue_limit - (s.scheduling_queue.length : Int) ∧
    (0 : Int) ≤ s.scheduling_queue_limit - (s.scheduling_queue.length : Int) := by
  obtain ⟨a, m, _, ⟨hL, hlt, hb⟩, _, _⟩ := windowInv_reach hk h
  have hn : ((s.scheduling_queue_limit - (s.scheduling_queue.length : Int)) %
      18446744073709551616).toNat = 2 * (k0 + k1 + k2) - s.scheduling_queue.length := by
    rw [hL]
    omega
  refine ⟨by omega, hL, ?_, by omega⟩
  rw [hn, to_int_small _ (by omega), hL]
  omega

theorem window_within_limit_witness :
    (1 + 1 + 1 < 1073741824 ∧ Reach (setup_proc 1 1 1 1 1 trace3) .su1 (demo 40).2 ∧
      (demo 40).2.scheduling_queue = [0, 1, 2]) ∧
    (((demo 40).2.scheduling_queue.length : Int) ≤ (demo 40).2.scheduling_queue_limit ∧
    (demo 40).2.scheduling_queue_limit = ((2 * (1 + 1 + 1) : Nat) : Int) ∧
    to_int (((demo 40).2.scheduling_queue_limit - ((demo 40).2.scheduling_queue.length : Int)) %
      18446744073709551616).toNat =
      (demo 40).2.scheduling_queue_limit - ((demo 40).2.scheduling_queue.length : Int) ∧
    (0 : Int) ≤ (demo 40).2.scheduling_queue_limit -
      ((demo 40).2.scheduling_queue.length : Int)) :=
  ⟨⟨by decide, demo_reach 40, by decide⟩,
    window_within_limit 1 1 1 1 1 trace3 (by decide) .su1 (demo 40).2 (demo_reach 40)⟩

/-- C6: in every reachable state the stage timestamps of every fetched
instruction are ordered: fetch and dispatch are set with fetch ≤ dispatch,
and each later stamp (schedule, execute, state update) is nonzero only if the
stamp before it is nonzero and not larger. -/
theorem timestamps_ordered (r k0 k1 k2 f : Nat) (trace : List trace_line)
    (pc : Stage) (s : Sim) (h : Reach (setup_proc r k0 k1 k2 f trace) pc s)
    (p : Nat) (hp : p ∈ s.all_instrs) :
    1 ≤ (s.heap p).cycle_fetch_decode ∧
    (s.heap p).cycle_fetch_decode ≤ (s.heap p).cycle_dispatch ∧
    ((s.heap p).cycle_schedule ≠ 0 → (s.heap p).cycle_dispatch ≤ (s.heap p).cycle_schedule) ∧
    ((s.heap p).cycle_execute ≠ 0 →
      (s.heap p).cycle_schedule ≠ 0 ∧ (s.heap p).cycle_schedule ≤ (s.heap p).cycle_execute) ∧
    ((s.heap p).cycle_status_update ≠ 0 →
      (s.heap p).cycle_execute ≠ 0 ∧
        (s.heap p).cycle_execute ≤ (s.heap p).cycle_status_update) := by
  have ht := (tsOk_reach h).2 p hp
  refine ⟨ht.fetch_pos, ?_, ht.sched_ge, ht.exec_ge, ht.retire_ge⟩
  rw [ht.dispatch_eq]
  exact Nat.le_succ _

theorem timestamps_ordered_witness :
    Reach (setup_proc 1 1 1 1 1 trace3) .halt (demo 65).2 ∧ 1 ∈ (demo 65).2.all_instrs ∧
    ((demo 65).2.heap 1).cycle_status_update = 6 ∧
    (1 ≤ ((demo 65).2.heap 1).cycle_fetch_decode ∧
    ((demo 65).2.heap 1).cycle_fetch_decode ≤ ((demo 65).2.heap 1).cycle_dispatch ∧
    (((demo 65).2.heap 1).cycle_schedule ≠ 0 →
      ((demo 65).2.heap 1).cycle_dispatch ≤ ((demo 65).2.heap 1).cycle_schedule) ∧
    (((demo 65).2.heap 1).cycle_execute ≠ 0 →
      ((demo 65).2.heap 1).cycle_schedule ≠ 0 ∧
        ((demo 65).2.heap 1).cycle_schedule ≤ ((demo 65).2.heap 1).cycle_execute) ∧
    (((demo 65).2.heap 1).cycle_status_update ≠ 0 →
      ((demo 65).2.heap 1).cycle_execute ≠ 0 ∧
        ((demo 65).2.heap 1).cycle_execute ≤ ((demo 65).2.heap 1).cycle_status_update)) :=
  ⟨demo_reach 65, by decide, by decide,
    timestamps_ordered 1 1 1 1 1 trace3 .halt (demo 65).2 (demo_reach 65) 1 (by decide)⟩


/-- C3 (fails on the code): with two writers of register 5 in flight, the
first-half `execute` of cycle 4 runs for instruction 1 and marks the register
ready with tag 0, although instruction 2, the latest writer of register 5, is in
the window and has not executed.  The state is the one right after that stage
(32 stage transitions from `setup_proc`). -/
theorem older_writer_clears_latest_claim :
    (run_stages 32 (.su1, setup_proc 1 1 1 1 1 trace_waw)).1 = .sc1 ∧
    (run_stages 32 (.su1, setup_proc 1 1 1 1 1 trace_waw)).2.scheduling_queue = [0, 1] ∧
    ((run_stages 32 (.su1, setup_proc 1 1 1 1 1 trace_waw)).2.heap 1).id = 2 ∧
    ((run_stages 32 (.su1, setup_proc 1 1 1 1 1 trace_waw)).2.heap 1).dest_reg = 5 ∧
    ((run_stages 32 (.su1, setup_proc 1 1 1 1 1 trace_waw)).2.heap 1).executed = false ∧
    ((run_stages 32 (.su1, setup_proc 1 1 1 1 1 trace_waw)).2.heap 1).cycle_execute = 0 ∧
    ((run_stages 31 (.su1, setup_proc 1 1 1 1 1 trace_waw)).2.register_file 5) =
      { ready := false, tag := 2 } ∧
    ((run_stages 32 (.su1, setup_proc 1 1 1 1 1 trace_waw)).2.register_file 5) =
      { ready := true, tag := 0 } := by
  decide


/-- C9: if class `c` in {0, 1, 2} is configured with no functional unit, then
in every reachable state no record of class `c` is fired and `fu_cnt[c]` is 0;
and if the trace holds an instruction of class `c`, `finished` is never set. -/
theorem class_without_units_never_fires (r k0 k1 k2 f : Nat) (trace : List trace_line)
    (c : Int) (hc : (c = 0 ∧ k0 = 0) ∨ (c = 1 ∧ k1 = 0) ∨ (c = 2 ∧ k2 = 0))
    (pc : Stage) (s : Sim) (h : Reach (setup_proc r k0 k1 k2 f trace) pc s) :
    (∀ p, (s.heap p).op_code = c → (s.heap p).fired = false) ∧
    s.fu_cnt c = 0 ∧
    ((∃ t ∈ trace, t.op_code = c) → s.cpu.finished = false) := by
  have h0 : (setup_proc r k0 k1 k2 f trace).fu_cnt c = 0 := by
    rcases hc with ⟨e1, e2⟩ | ⟨e1, e2⟩ | ⟨e1, e2⟩ <;> subst e1 <;> subst e2 <;>
      simp [setup_proc, fu_init]
  have hz := fuZero_reach c h0 h
  refine ⟨hz.2, hz.1, ?_⟩
  rintro ⟨t, ht, htc⟩
  by_contra hf
  have hf2 : s.cpu.finished = true := by simpa using hf
  obtain ⟨_, _, _, hall⟩ := finished_all_stamped h hf2
  obtain ⟨q, hq, hqt⟩ := List.getElem_of_mem ht
  obtain ⟨hraw, hsu⟩ := hall q hq
  have hop : (s.heap q).op_code = c := by
    have e : (raw (s.heap q)).op_code = t.op_code := by
      rw [hraw, List.getD_eq_getElem?_getD, List.getElem?_eq_getElem hq]
      simp [hqt]
    rw [← htc, ← e]
    rfl
  have hfl := flagsOk_reach h q
  have := hfl.2 (hfl.1 hsu)
  rw [hz.2 q hop] at this
  cases this

theorem class_without_units_never_fires_witness :
    ((1 : Int) = 1 ∧ 0 = 0) ∧
    Reach (setup_proc 1 1 0 1 1 trace_two_classes) .inc
      (run_stages 99 (.su1, setup_proc 1 1 0 1 1 trace_two_classes)).2 ∧
    ((run_stages 99 (.su1, setup_proc 1 1 0 1 1 trace_two_classes)).2.heap 1).op_code = 1 ∧
    ((run_stages 99 (.su1, setup_proc 1 1 0 1 1 trace_two_classes)).2.heap 0).fired = true ∧
    ((∀ p, ((run_stages 99 (.su1, setup_proc 1 1 0 1 1 trace_two_classes)).2.heap p).op_code
        = 1 →
      ((run_stages 99 (.su1, setup_proc 1 1 0 1 1 trace_two_classes)).2.heap p).fired = false) ∧
    (run_stages 99 (.su1, setup_proc 1 1 0 1 1 trace_two_classes)).2.fu_cnt 1 = 0 ∧
    ((∃ t ∈ trace_two_classes, t.op_code = 1) →
      (run_stages 99 (.su1, setup_proc 1 1 0 1 1 trace_two_classes)).2.cpu.finished = false)) :=
  ⟨⟨rfl, rfl⟩, reach_run_stages 99 Reach.init, by decide, by decide,
    class_without_units_never_fires 1 1 0 1 1 trace_two_classes 1 (Or.inr (Or.inl ⟨rfl, rfl⟩))
      .inc _ (reach_run_stages 99 Reach.init)⟩


/-- C7: for a trace whose first instruction writes register `R` (0 ≤ R < 64)
and whose second instruction reads `R` in source slot `j`: at every cycle
boundary (program point `su1`) at which instruction 2 (record 1) is in the
window, its source-ready flag of slot `j` is set if and only if instruction 1
(record 0) carries an execute timestamp. -/
theorem consumer_ready_iff_producer_executed (r k0 k1 k2 f : Nat) (t1 t2 : trace_line)
    (rest : List trace_line) (R : Int) (j : Bool) (hR : 0 ≤ R ∧ R < 64)
    (h1 : t1.dest_reg = R) (h2 : line_reg j t2 = R) (s : Sim)
    (h : Reach (setup_proc r k0 k1 k2 f (t1 :: t2 :: rest)) .su1 s)
    (hw : 1 ∈ s.scheduling_queue) :
    (slot_ready j (s.heap 1) = true ↔ (s.heap 0).cycle_execute ≠ 0) := by
  obtain ⟨a, hl, hd⟩ := depInv_reach R j (by omega) h1 h2 h
  have ha : 2 ≤ a := by
    have := hl.2.2.2.1 1 hw
    omega
  constructor
  · intro hr he
    rw [(hd.waiting ha he).1] at hr
    cases hr
  · intro he
    rcases hd.woken ha he with z | ⟨z, _⟩
    · exact z
    · simp [Stage.busFree] at z


theorem demo_dep_reach (n : Nat) :
    Reach (setup_proc 1 1 1 1 1 trace_dep) (demo_dep n).1 (demo_dep n).2 :=
  reach_run_stages n Reach.init

theorem consumer_ready_iff_producer_executed_witness :
    ((0 : Int) ≤ 5 ∧ (5 : Int) < 64) ∧
    Reach (setup_proc 1 1 1 1 1 trace_dep) .su1 (demo_dep 40).2 ∧
    1 ∈ (demo_dep 40).2.scheduling_queue ∧
    ((demo_dep 40).2.heap 0).cycle_execute = 4 ∧
    (slot_ready false ((demo_dep 40).2.heap 1) = true ↔
      ((demo_dep 40).2.heap 0).cycle_execute ≠ 0) :=
  ⟨by decide, demo_dep_reach 40, by decide, by decide,
    consumer_ready_iff_producer_executed 1 1 1 1 1 ⟨0, -1, -1, 5⟩ ⟨1, 5, -1, 6⟩ [] 5 false
      (by decide) rfl rfl (demo_dep 40).2 (demo_dep_reach 40) (by decide)⟩



/-- C8, as stated, fails: the three lines (class 0, sources 64 and none,
destination 1), (class 1, no source, destination 2), (class 2, no source,
destination 3) meet every hypothesis of the scenario (classes in {0, 1, 2},
distinct destinations, no source that is another destination), but no run of
`run_proc` with `r = k0 = k1 = k2 = f = 1` returns a state with the pipelined
timestamps: the first record reads `register_file[64]`, which `setup_proc`
never marks ready, and is never executed in cycle 4. -/
theorem three_independent_unready_source_stalls :
    Independent3 ⟨0, 64, -1, 1⟩ ⟨1, -1, -1, 2⟩ ⟨2, -1, -1, 3⟩ ∧
    ¬ ∃ n fin, run_proc n (setup_proc 1 1 1 1 1 trace_src64) = some fin ∧ Pipelined3 fin := by
  constructor
  · simp [Independent3]
  · rintro ⟨n, fin, hr, _, h0, _, _⟩
    have hk : ∀ i, i < 4 → (cycles i (setup_proc 1 1 1 1 1 trace_src64)).cpu.finished = false := by
      decide
    obtain ⟨m, hm⟩ := run_proc_cycles 4 n _ fin hk hr
    have hreach := reach_run_proc m Reach.init hm
    have hc : 5 ≤ (cycles 4 (setup_proc 1 1 1 1 1 trace_src64)).stats.cycle_count := by decide
    have hq : ((cycles 4 (setup_proc 1 1 1 1 1 trace_src64)).heap 0).cycle_execute = 0 := by
      decide
    have := late_execute_reach 5 0 _ hc hq hreach
    have e : (fin.heap 0).cycle_execute = 4 := by
      have := congrArg (fun x => x.2.2.2.1) h0
      simpa [stamps] using this
    omega

/-- C8, amended: with `r = k0 = k1 = k2 = f = 1`, a trace of exactly three
instructions with opcode classes in {0, 1, 2}, pairwise distinct destination
registers, no source that is another instruction's destination, and every
source register either absent (-1) or one of the registers 0..63, the run
loop returns after seven iterations with three retired instructions, and
instruction `i` has the timestamps fetch `i`, dispatch `i + 1`, schedule
`i + 2`, execute `i + 3`, state update `i + 4`. -/
theorem three_independent_fully_pipelined (t1 t2 t3 : trace_line)
    (h : Independent3 t1 t2 t3)
    (hsrc : SrcOk t1.src_reg0 ∧ SrcOk t1.src_reg1 ∧ SrcOk t2.src_reg0 ∧ SrcOk t2.src_reg1 ∧
      SrcOk t3.src_reg0 ∧ SrcOk t3.src_reg1) :
    ∃ fin, run_proc 7 (setup_proc 1 1 1 1 1 [t1, t2, t3]) = some fin ∧ Pipelined3 fin := by
  obtain ⟨o1, o2, o3, _, _, _, _, _, _, _, n20, _, n21, _, n30, m30, n31, m31⟩ := h
  obtain ⟨a0, a1, b0, b1, c0, c1⟩ := hsrc
  have hop1 := fu_init_one _ o1
  have hop2 := fu_init_one _ o2
  have hop3 := fu_init_one _ o3
  obtain ⟨k1, r1⟩ := snap_setup t1 t2 t3
  obtain ⟨k2, g20, r2⟩ := pipe_cycle1 t1 t2 t3 _ r1 k1
  obtain ⟨k3, g30, g31, r3⟩ := pipe_cycle2 t1 t2 t3 _ a0 a1 r2 k2 g20
  obtain ⟨k4, g40, g41, g42, r4⟩ := pipe_cycle3 t1 t2 t3 _ hop1 b0 b1 n20 n21 r3 k3 g30 g31
  obtain ⟨k5, g50, g51, g52⟩ :=
    pipe_cycle4 t1 t2 t3 _ hop1 hop2 c0 c1 n30 n31 m30 m31 r4 k4 g40 g41 g42
  obtain ⟨k6, g60, g61, g62⟩ := pipe_cycle5 t1 t2 t3 _ hop2 hop3 k5 g50 g51 g52
  obtain ⟨k7, g70, g71, g72⟩ := pipe_cycle6 t1 t2 t3 _ hop3 k6 g60 g61 g62
  obtain ⟨hfin, hret, g80, g81, g82⟩ := pipe_cycle7 t1 t2 t3 _ k7 g70 g71 g72
  have f1 := congrArg proc_settings_t.finished k1.cpu
  have f2 := congrArg proc_settings_t.finished k2.cpu
  have f3 := congrArg proc_settings_t.finished k3.cpu
  have f4 := congrArg proc_settings_t.finished k4.cpu
  have f5 := congrArg proc_settings_t.finished k5.cpu
  have f6 := congrArg proc_settings_t.finished k6.cpu
  have f7 := congrArg proc_settings_t.finished k7.cpu
  refine ⟨_, ?_, hret, ?_, ?_, ?_⟩
  · rw [run_proc_step _ _ f1, run_proc_step _ _ f2, run_proc_step _ _ f3, run_proc_step _ _ f4,
      run_proc_step _ _ f5, run_proc_step _ _ f6, run_proc_step _ _ f7]
    exact run_proc_done 0 _ hfin
  · rw [g80]; rfl
  · rw [g81]; rfl
  · rw [g82]; rfl

theorem three_independent_fully_pipelined_witness :
    Independent3 ⟨0, 1, 2, 3⟩ ⟨1, 4, 5, 6⟩ ⟨2, -1, 7, 8⟩ ∧
    ∃ fin, run_proc 7 (setup_proc 1 1 1 1 1 [⟨0, 1, 2, 3⟩, ⟨1, 4, 5, 6⟩, ⟨2, -1, 7, 8⟩]) = some fin ∧
      Pipelined3 fin :=
  ⟨by simp [Independent3],
   three_independent_fully_pipelined ⟨0, 1, 2, 3⟩ ⟨1, 4, 5, 6⟩ ⟨2, -1, 7, 8⟩
    (by simp [Independent3]) (by simp [SrcOk])⟩



/-- C11 (fails on the code): with one class-0 unit (window limit 2), one bus,
fetch width 2 and four independent class-0 instructions, the first-half
`dispatch` of cycle 5 starts (43 stage transitions from `setup_proc`) with the
window holding the records 0 and 1, record 0 already stamped for retirement
in this cycle, and the records 2 and 3 waiting in the dispatch queue.  Only
one windowed record carries no retirement stamp, so one slot of the two is
reusable, yet the stage reserves no entry: `available_size` is computed from
`scheduling_queue.size()`, which still counts record 0. -/
theorem first_half_dispatch_counts_retiring :
    (run_stages 43 (.su1, setup_proc 1 1 0 0 2 trace_four)).1 = .di1 ∧
    (run_stages 43 (.su1, setup_proc 1 1 0 0 2 trace_four)).2.stats.cycle_count = 5 ∧
    (run_stages 43 (.su1, setup_proc 1 1 0 0 2 trace_four)).2.scheduling_queue_limit = 2 ∧
    (run_stages 43 (.su1, setup_proc 1 1 0 0 2 trace_four)).2.scheduling_queue = [0, 1] ∧
    ((run_stages 43 (.su1, setup_proc 1 1 0 0 2 trace_four)).2.heap 0).cycle_status_update = 5 ∧
    ((run_stages 43 (.su1, setup_proc 1 1 0 0 2 trace_four)).2.heap 1).cycle_status_update = 0 ∧
    (run_stages 43 (.su1, setup_proc 1 1 0 0 2 trace_four)).2.dispatching_queue = [2, 3] ∧
    ((run_stages 43 (.su1, setup_proc 1 1 0 0 2 trace_four)).2.heap 2).reserved = false ∧
    ((dispatch_first (run_stages 43 (.su1, setup_proc 1 1 0 0 2 trace_four)).2).heap 2).reserved
      = false ∧
    ((dispatch_first (run_stages 43 (.su1, setup_proc 1 1 0 0 2 trace_four)).2).heap 3).reserved
      = false := by
  decide

/-- C12 (fails on the code): with one bus, one unit for each of the classes 0
and 1, fetch width 2 and the trace `trace_nodest`, both instructions are fired
when the first-half `execute` of cycle 4 starts (31 stage transitions from
`setup_proc`).  Instruction 1 takes the only bus; instruction 2, which has no
destination register, finds no free bus and is neither stamped nor marked
executed in cycle 4.  In cycle 5 (stage transition 41) it executes, and it
does so by taking the bus (`reg = -1`, `tag = 2`) and by marking the
register-file entry of key -1 ready. -/
theorem execute_takes_bus_without_destination :
    (run_stages 31 (.su1, setup_proc 1 1 1 0 2 trace_nodest)).1 = .ex1 ∧
    (run_stages 31 (.su1, setup_proc 1 1 1 0 2 trace_nodest)).2.stats.cycle_count = 4 ∧
    ((run_stages 31 (.su1, setup_proc 1 1 1 0 2 trace_nodest)).2.heap 1).dest_reg = -1 ∧
    ((run_stages 31 (.su1, setup_proc 1 1 1 0 2 trace_nodest)).2.heap 1).fired = true ∧
    ((run_stages 31 (.su1, setup_proc 1 1 1 0 2 trace_nodest)).2.heap 1).cycle_execute = 0 ∧
    ((execute_first (run_stages 31 (.su1, setup_proc 1 1 1 0 2 trace_nodest)).2).heap 1).executed
      = false ∧
    ((execute_first (run_stages 31 (.su1, setup_proc 1 1 1 0 2 trace_nodest)).2).heap 1).cycle_execute
      = 0 ∧
    (run_stages 41 (.su1, setup_proc 1 1 1 0 2 trace_nodest)).1 = .ex1 ∧
    (run_stages 41 (.su1, setup_proc 1 1 1 0 2 trace_nodest)).2.cdb =
      [{ free := true, reg := 0, tag := 0 }] ∧
    (run_stages 41 (.su1, setup_proc 1 1 1 0 2 trace_nodest)).2.register_file (-1) =
      { ready := false, tag := 0 } ∧
    ((execute_first (run_stages 41 (.su1, setup_proc 1 1 1 0 2 trace_nodest)).2).heap 1).cycle_execute
      = 5 ∧
    (execute_first (run_stages 41 (.su1, setup_proc 1 1 1 0 2 trace_nodest)).2).cdb =
      [{ free := false, reg := -1, tag := 2 }] ∧
    (execute_first (run_stages 41 (.su1, setup_proc 1 1 1 0 2 trace_nodest)).2).register_file (-1) =
      { ready := true, tag := 0 } := by
  decide



theorem drain_spec (l : List Nat) (s : Sim) :
    (drain s l).scheduling_queue =
      s.scheduling_queue ++ l.takeWhile (fun p => (s.heap p).reserved) ∧
    (drain s l).dispatching_queue = l.dropWhile (fun p => (s.heap p).reserved) := by
  induction l generalizing s with
  | nil => simp [drain]
  | cons p rest ih =>
    unfold drain
    by_cases h : (s.heap p).reserved = false
    · simp [h]
    · have h1 : (s.heap p).reserved = true := by simpa using h
      have e : (fun q => ((dispatch_one s p).heap q).reserved) = fun q => (s.heap q).reserved := by
        funext q
        simp only [dispatch_one]
        split
        · rename_i hq; subst hq; simp
        · rfl
      rw [if_neg h, (ih (dispatch_one s p)).1, (ih (dispatch_one s p)).2, e]
      simp [dispatch_one, h1, List.takeWhile_cons, List.dropWhile_cons]

/-- C13: the second half of `dispatch` appends the maximal leading run of
reserved entries of the dispatch queue to the window, in queue order, and
leaves the other entries in the queue in their order.  In every reachable
state the ids in the window are strictly increasing, the ids in the dispatch
queue are strictly increasing, and every windowed id is smaller than every
queued id: instructions enter the window in increasing id order, none before
one fetched earlier. -/
theorem dispatch_second_moves_reserved_run (r k0 k1 k2 f : Nat) (trace : List trace_line)
    (pc : Stage) (s : Sim) (h : Reach (setup_proc r k0 k1 k2 f trace) pc s) :
    (dispatch_second s).scheduling_queue =
      s.scheduling_queue ++ s.dispatching_queue.takeWhile (fun p => (s.heap p).reserved) ∧
    (dispatch_second s).dispatching_queue =
      s.dispatching_queue.dropWhile (fun p => (s.heap p).reserved) ∧
    (s.scheduling_queue.map (fun p => (s.heap p).id)).Pairwise (fun x y => x < y) ∧
    (s.dispatching_queue.map (fun p => (s.heap p).id)).Pairwise (fun x y => x < y) ∧
    (∀ p ∈ s.scheduling_queue, ∀ q ∈ s.dispatching_queue, (s.heap p).id < (s.heap q).id) := by
  obtain ⟨a, hc⟩ := conserve_reach h
  obtain ⟨ha, hall, hdq, hw, hp⟩ := hc.layout
  have hid := hc.ids
  refine ⟨(drain_spec _ s).1, (drain_spec _ s).2, ?_, ?_, ?_⟩
  · rw [List.pairwise_map]
    refine List.Pairwise.imp_of_mem ?_ hp
    intro x y hx hy hxy
    rw [hid x (by have := hw x hx; omega), hid y (by have := hw y hy; omega)]
    omega
  · rw [List.pairwise_map, hdq]
    refine List.Pairwise.imp_of_mem ?_ (List.pairwise_lt_range' a (s.cpu.read_cnt - a))
    intro x y hx hy hxy
    rw [List.mem_range'_1] at hx hy
    rw [hid x (by omega), hid y (by omega)]
    omega
  · intro p hpm q hqm
    rw [hdq, List.mem_range'_1] at hqm
    have := hw p hpm
    rw [hid p (by omega), hid q (by omega)]
    omega

theorem dispatch_second_moves_reserved_run_witness :
    ((dispatch_second (demo 17).2).scheduling_queue =
      (demo 17).2.scheduling_queue ++
        (demo 17).2.dispatching_queue.takeWhile (fun p => ((demo 17).2.heap p).reserved) ∧
    (dispatch_second (demo 17).2).dispatching_queue =
      (demo 17).2.dispatching_queue.dropWhile (fun p => ((demo 17).2.heap p).reserved) ∧
    ((demo 17).2.scheduling_queue.map (fun p => ((demo 17).2.heap p).id)).Pairwise
      (fun x y => x < y) ∧
    ((demo 17).2.dispatching_queue.map (fun p => ((demo 17).2.heap p).id)).Pairwise
      (fun x y => x < y) ∧
    (∀ p ∈ (demo 17).2.scheduling_queue, ∀ q ∈ (demo 17).2.dispatching_queue,
      ((demo 17).2.heap p).id < ((demo 17).2.heap q).id)) ∧
    (demo 17).1 = .di2 ∧ (dispatch_second (demo 17).2).scheduling_queue = [0] :=
  ⟨dispatch_second_moves_reserved_run 1 1 1 1 1 trace3 (demo 17).1 (demo 17).2 (demo_reach 17),
    by decide, by decide⟩



theorem update_from_cdb_pred (P : proc_inst_t → Prop) (s : Sim)
    (hP : ∀ b ∈ s.cdb, b.free = false → ∀ i, P i → P (wake b.tag i)) (q : Nat)
    (h : P (s.heap q)) : P ((update_instruction_from_cdb s).heap q) := by
  unfold update_instruction_from_cdb
  refine foldl_inv (fun st : Sim => P (st.heap q)) broadcast s.cdb ?_ s h
  intro st c hc hs
  exact broadcast_pred P c (fun hf i hi => hP c hc hf i hi) st q hs

theorem update_from_cdb_local (s : Sim) (q : Nat) (hq : q ∉ s.scheduling_queue) :
    (update_instruction_from_cdb s).heap q = s.heap q := by
  unfold update_instruction_from_cdb
  have key : ∀ (l : List proc_cdb_t) (st : Sim), q ∉ st.scheduling_queue →
      (l.foldl broadcast st).heap q = st.heap q := by
    intro l
    induction l with
    | nil => intro st _; rfl
    | cons c rest ih =>
      intro st hst
      simp only [List.foldl_cons]
      rw [ih _ (by rw [broadcast_queue]; exact hst)]
      unfold broadcast
      split
      · refine foldl_heap_local (wake_body c.tag) (fun x => x.heap) ?_ _ st q hst
        intro x p q hne
        show (wake_body c.tag x p).heap q = x.heap q
        rw [wake_body_heap, if_neg hne]
      · rfl
  exact key s.cdb s hq

theorem clear_slots_wake (t : Nat) (i : proc_inst_t) : clear_slots (wake t i) = clear_slots i := by
  unfold wake clear_slots
  simp only []
  split <;> split <;> rfl

theorem slot_wake_ready (j : Bool) (t : Nat) (i : proc_inst_t) (T : Nat)
    (h : slot_ready j i = true ∧ slot_tag j i = T) :
    slot_ready j (wake t i) = true ∧ slot_tag j (wake t i) = T := by
  cases j <;> simp only [slot_ready, slot_tag, cond] at h ⊢ <;>
    simp [wake_src_ready0, wake_src_ready1, wake_src_tag0, wake_src_tag1, h.1, h.2]

theorem slot_wake_fresh (j : Bool) (t : Nat) (i : proc_inst_t) (T : Nat)
    (h : (slot_ready j i = false ∧ slot_tag j i = T) ∨ (slot_ready j i = true ∧ slot_tag j i = 0)) :
    (slot_ready j (wake t i) = false ∧ slot_tag j (wake t i) = T) ∨
      (slot_ready j (wake t i) = true ∧ slot_tag j (wake t i) = 0) := by
  rcases h with h | h
  · by_cases e : t = T
    · right
      cases j <;> simp only [slot_ready, slot_tag, cond] at h ⊢ <;>
        simp [wake_src_ready0, wake_src_ready1, wake_src_tag0, wake_src_tag1, h.1, h.2, e]
    · left
      exact slot_wake_miss j t T e i h
  · right
    exact slot_wake_ready j t i 0 h

/-- C14: the second half of `execute`.  For a windowed record and each source
slot `j`, the slot is ready afterwards iff it was ready before or its tag is
the tag of a busy bus; a slot that was ready keeps its tag, a slot that stays
pending keeps its tag, and a slot made ready has tag 0.  Every other field of
every record is unchanged, records outside the window are unchanged, every
bus is free afterwards, and the register file, the unit counts, the window,
the dispatch queue, `all_instrs`, the settings and the statistics are
unchanged. -/
theorem execute_second_broadcasts_and_frees (s : Sim) :
    (∀ p ∈ s.scheduling_queue, ∀ j : Bool,
      (slot_ready j ((execute_second s).heap p) = true ↔
        (slot_ready j (s.heap p) = true ∨
          ∃ b ∈ s.cdb, b.free = false ∧ b.tag = slot_tag j (s.heap p)))) ∧
    (∀ p, ∀ j : Bool,
      (slot_ready j (s.heap p) = true →
        slot_tag j ((execute_second s).heap p) = slot_tag j (s.heap p)) ∧
      (slot_ready j ((execute_second s).heap p) = false →
        slot_tag j ((execute_second s).heap p) = slot_tag j (s.heap p)) ∧
      (slot_ready j (s.heap p) = false → slot_ready j ((execute_second s).heap p) = true →
        slot_tag j ((execute_second s).heap p) = 0)) ∧
    (∀ p, clear_slots ((execute_second s).heap p) = clear_slots (s.heap p)) ∧
    (∀ p, p ∉ s.scheduling_queue → (execute_second s).heap p = s.heap p) ∧
    (∀ b ∈ (execute_second s).cdb, b.free = true) ∧
    (execute_second s).cdb.length = s.cdb.length ∧
    (execute_second s).register_file = s.register_file ∧
    (execute_second s).fu_cnt = s.fu_cnt ∧
    (execute_second s).scheduling_queue = s.scheduling_queue ∧
    (execute_second s).dispatching_queue = s.dispatching_queue ∧
    (execute_second s).all_instrs = s.all_instrs ∧
    (execute_second s).cpu = s.cpu ∧ (execute_second s).stats = s.stats := by
  have hheap : ∀ p, (execute_second s).heap p = (update_instruction_from_cdb s).heap p :=
    fun _ => rfl
  have fresh : ∀ p (j : Bool), slot_ready j (s.heap p) = false →
      (slot_ready j ((update_instruction_from_cdb s).heap p) = false ∧
        slot_tag j ((update_instruction_from_cdb s).heap p) = slot_tag j (s.heap p)) ∨
      (slot_ready j ((update_instruction_from_cdb s).heap p) = true ∧
        slot_tag j ((update_instruction_from_cdb s).heap p) = 0) := by
    intro p j hr
    exact update_from_cdb_pred (fun i => (slot_ready j i = false ∧
      slot_tag j i = slot_tag j (s.heap p)) ∨ (slot_ready j i = true ∧ slot_tag j i = 0)) s
      (fun b _ _ i hi => slot_wake_fresh j b.tag i _ hi) p (Or.inl ⟨hr, rfl⟩)
  have keep : ∀ p (j : Bool), slot_ready j (s.heap p) = true →
      slot_ready j ((update_instruction_from_cdb s).heap p) = true ∧
        slot_tag j ((update_instruction_from_cdb s).heap p) = slot_tag j (s.heap p) := by
    intro p j hr
    exact update_from_cdb_pred (fun i => slot_ready j i = true ∧
      slot_tag j i = slot_tag j (s.heap p)) s
      (fun b _ _ i hi => slot_wake_ready j b.tag i _ hi) p ⟨hr, rfl⟩
  refine ⟨?_, ?_, ?_, ?_, ?_, ?_, ?_, ?_, ?_, ?_, ?_, ?_, ?_⟩
  · intro p hp j
    rw [hheap]
    constructor
    · intro hr
      by_contra hn
      rw [not_or] at hn
      obtain ⟨h1, h2⟩ := hn
      have h1' : slot_ready j (s.heap p) = false := by simpa using h1
      have := broadcast_miss j (slot_tag j (s.heap p)) s p
        (fun b hb hf e => h2 ⟨b, hb, hf, e⟩) ⟨h1', rfl⟩
      rw [this.1] at hr
      cases hr
    · rintro (hr | ⟨b, hb, hf, e⟩)
      · exact (keep p j hr).1
      · exact broadcast_hit j s b hb hf p hp (Or.inr e.symm)
  · intro p j
    rw [hheap]
    refine ⟨fun hr => (keep p j hr).2, ?_, ?_⟩
    · intro hr
      by_cases h0 : slot_ready j (s.heap p) = true
      · rw [(keep p j h0).1] at hr
        cases hr
      · rcases fresh p j (by simpa using h0) with h | h
        · exact h.2
        · rw [h.1] at hr
          cases hr
    · intro h0 hr
      rcases fresh p j h0 with h | h
      · rw [h.1] at hr
        cases hr
      · exact h.2
  · intro p
    rw [hheap]
    exact update_from_cdb_pred (fun i => clear_slots i = clear_slots (s.heap p)) s
      (fun b _ _ i hi => (clear_slots_wake b.tag i).trans hi) p rfl
  · intro p hp
    rw [hheap]
    exact update_from_cdb_local s p hp
  · intro b hb
    simp only [execute_second, free_cdb, List.mem_map] at hb
    obtain ⟨c, _, hc⟩ := hb
    by_cases hf : c.free = false
    · rw [if_pos hf] at hc
      rw [← hc]
    · rw [if_neg hf] at hc
      rw [← hc]
      simpa using hf
  · simp [execute_second, free_cdb]
  · simp
  · simp
  · simp
  · simp
  · simp
  · simp
  · simp



/-- The read loop in closed form: `min n (remaining lines)` records are
appended, in trace order, with consecutive ids. -/
theorem fetch_loop_spec (n : Nat) (s : Sim) :
    (fetch_loop n s).dispatching_queue =
      s.dispatching_queue ++ List.range' s.all_instrs.length (min n s.trace.length) ∧
    (fetch_loop n s).all_instrs =
      s.all_instrs ++ List.range' s.all_instrs.length (min n s.trace.length) ∧
    (∀ k t, k < n → s.trace[k]? = some t →
      (fetch_loop n s).heap (s.all_instrs.length + k) =
        new_inst t (s.cpu.read_cnt + 1 + k) s.stats.cycle_count) ∧
    (∀ q, q < s.all_instrs.length → (fetch_loop n s).heap q = s.heap q) ∧
    (fetch_loop n s).cpu.read_cnt = s.cpu.read_cnt + min n s.trace.length ∧
    (fetch_loop n s).trace = s.trace.drop (min n s.trace.length) ∧
    ((fetch_loop n s).cpu.read_finished = true ↔
      (s.cpu.read_finished = true ∨ s.trace.length < n)) := by
  induction n generalizing s with
  | zero => simp [fetch_loop]
  | succ n ih =>
    cases ht : s.trace with
    | nil =>
      have e : fetch_loop (n + 1) s = { s with cpu := { s.cpu with read_finished := true } } := by
        conv_lhs => unfold fetch_loop
        rw [ht]
      rw [e]
      simp [ht]
    | cons t rest =>
      have e : fetch_loop (n + 1) s = fetch_loop n (fetch_one s t rest) := by
        conv_lhs => unfold fetch_loop
        rw [ht]
      obtain ⟨h1, h2, h3, h4, h5, h6, h7⟩ := ih (fetch_one s t rest)
      have hm : min (n + 1) (rest.length + 1) = min n rest.length + 1 := by omega
      have hr : List.range' s.all_instrs.length (min n rest.length + 1) =
          [s.all_instrs.length] ++ List.range' (s.all_instrs.length + 1) (min n rest.length) := by
        rw [List.range'_succ]
        rfl
      have hlen : (fetch_one s t rest).all_instrs.length = s.all_instrs.length + 1 := by
        simp [fetch_one]
      rw [e]
      refine ⟨?_, ?_, ?_, ?_, ?_, ?_, ?_⟩
      · rw [h1, hlen, List.length_cons, hm, hr]
        simp [fetch_one]
      · rw [h2, hlen, List.length_cons, hm, hr]
        simp [fetch_one]
      · intro k t2 hk hk2
        cases k with
        | zero =>
          simp only [List.getElem?_cons_zero, Option.some.injEq] at hk2
          subst hk2
          rw [h4 _ (by rw [hlen]; omega)]
          simp [fetch_one]
        | succ k =>
          simp only [List.getElem?_cons_succ] at hk2
          have := h3 k t2 (by omega) (by simpa [fetch_one] using hk2)
          rw [hlen] at this
          rw [show s.all_instrs.length + (k + 1) = s.all_instrs.length + 1 + k by omega, this]
          simp only [fetch_one]
          congr 1
          omega
      · intro q hq
        rw [h4 q (by rw [hlen]; omega)]
        simp only [fetch_one]
        rw [if_neg (by omega)]
      · rw [h5, List.length_cons, hm]
        simp only [fetch_one]
        omega
      · rw [h6, List.length_cons, hm]
        simp [fetch_one]
      · rw [h7]
        simp only [fetch_one, List.length_cons]
        constructor
        · rintro (h | h)
          · exact Or.inl h
          · exact Or.inr (by omega)
        · rintro (h | h)
          · exact Or.inl h
          · exact Or.inr (by omega)

theorem fetch_loop_f (n : Nat) (s : Sim) : (fetch_loop n s).cpu.f = s.cpu.f := by
  induction n generalizing s with
  | zero => rfl
  | succ n ih =>
    unfold fetch_loop
    split
    · rfl
    · rw [ih]
      rfl

theorem stage_fn_f (pc : Stage) (s : Sim) : (stage_fn pc s).cpu.f = s.cpu.f := by
  cases pc <;> simp only [stage_fn] <;> (try simp)
  · split <;> simp
  · unfold instr_fetch_and_decode
    split
    · exact fetch_loop_f _ s
    · rfl

theorem f_reach {r k0 k1 k2 f : Nat} {trace : List trace_line} {pc : Stage} {s : Sim}
    (h : Reach (setup_proc r k0 k1 k2 f trace) pc s) : s.cpu.f = f := by
  refine Reach.induct_inv (fun _ s => s.cpu.f = f) rfl ?_ h
  intro pc s _ ih
  rw [stage_fn_f]
  exact ih

/-- C15: while the source is not marked exhausted, `instr_fetch_and_decode`
in a cycle with counter `c` appends `min f n` records (`n` the number of
lines left) to the back of the dispatch queue and of `all_instrs`, in trace
order; the record of the `k`-th remaining line gets the id `read_cnt + 1 + k`,
fetch stamp `c`, dispatch stamp `c + 1` and the other stamps 0 (`new_inst`);
older records are untouched, `read_cnt` grows by `min f n`, the consumed lines
leave the trace, and the source is marked exhausted iff `n < f`.  When the
source is already marked exhausted the state is unchanged.  In every
reachable state the record of the `q`-th line of the trace (counted from 0)
has id `q + 1`. -/
theorem fetch_appends_consecutive_ids (r k0 k1 k2 f : Nat) (trace : List trace_line)
    (pc : Stage) (s : Sim) (h : Reach (setup_proc r k0 k1 k2 f trace) pc s) :
    (s.cpu.read_finished = false →
      (instr_fetch_and_decode s).dispatching_queue =
        s.dispatching_queue ++ List.range' s.cpu.read_cnt (min s.cpu.f s.trace.length) ∧
      (instr_fetch_and_decode s).all_instrs =
        s.all_instrs ++ List.range' s.cpu.read_cnt (min s.cpu.f s.trace.length) ∧
      (∀ k t, k < s.cpu.f → s.trace[k]? = some t →
        (instr_fetch_and_decode s).heap (s.cpu.read_cnt + k) =
          new_inst t (s.cpu.read_cnt + 1 + k) s.stats.cycle_count) ∧
      (∀ q, q < s.cpu.read_cnt → (instr_fetch_and_decode s).heap q = s.heap q) ∧
      (instr_fetch_and_decode s).cpu.read_cnt =
        s.cpu.read_cnt + min s.cpu.f s.trace.length ∧
      (instr_fetch_and_decode s).trace = s.trace.drop (min s.cpu.f s.trace.length) ∧
      ((instr_fetch_and_decode s).cpu.read_finished = true ↔ s.trace.length < s.cpu.f)) ∧
    (s.cpu.read_finished = true → instr_fetch_and_decode s = s) ∧
    s.cpu.f = f ∧
    (∀ q, q < s.cpu.read_cnt →
      (s.heap q).id = q + 1 ∧ (trace)[q]? = some (raw (s.heap q))) := by
  obtain ⟨a, hc⟩ := conserve_reach h
  have hlen : s.all_instrs.length = s.cpu.read_cnt := by
    rw [hc.layout.2.1, List.length_range]
  have hf : s.cpu.f = f := f_reach h
  refine ⟨?_, ?_, hf, fun q hq => ⟨hc.ids q hq, conserve_line hc q hq⟩⟩
  · intro hrf
    have e : instr_fetch_and_decode s = fetch_loop s.cpu.f s := by
      unfold instr_fetch_and_decode
      rw [if_pos hrf]
    obtain ⟨h1, h2, h3, h4, h5, h6, h7⟩ := fetch_loop_spec s.cpu.f s
    rw [hlen] at h1 h2 h3 h4
    rw [e]
    refine ⟨h1, h2, h3, h4, h5, h6, ?_⟩
    rw [h7, hrf]
    simp
  · intro hrf
    unfold instr_fetch_and_decode
    rw [if_neg (by simp [hrf])]

theorem fetch_appends_consecutive_ids_witness :
    (((demo 8).2.cpu.read_finished = false →
      (instr_fetch_and_decode (demo 8).2).dispatching_queue =
        (demo 8).2.dispatching_queue ++
          List.range' (demo 8).2.cpu.read_cnt (min (demo 8).2.cpu.f (demo 8).2.trace.length) ∧
      (instr_fetch_and_decode (demo 8).2).all_instrs =
        (demo 8).2.all_instrs ++
          List.range' (demo 8).2.cpu.read_cnt (min (demo 8).2.cpu.f (demo 8).2.trace.length) ∧
      (∀ k t, k < (demo 8).2.cpu.f → (demo 8).2.trace[k]? = some t →
        (instr_fetch_and_decode (demo 8).2).heap ((demo 8).2.cpu.read_cnt + k) =
          new_inst t ((demo 8).2.cpu.read_cnt + 1 + k) (demo 8).2.stats.cycle_count) ∧
      (∀ q, q < (demo 8).2.cpu.read_cnt →
        (instr_fetch_and_decode (demo 8).2).heap q = (demo 8).2.heap q) ∧
      (instr_fetch_and_decode (demo 8).2).cpu.read_cnt =
        (demo 8).2.cpu.read_cnt + min (demo 8).2.cpu.f (demo 8).2.trace.length ∧
      (instr_fetch_and_decode (demo 8).2).trace =
        (demo 8).2.trace.drop (min (demo 8).2.cpu.f (demo 8).2.trace.length) ∧
      ((instr_fetch_and_decode (demo 8).2).cpu.read_finished = true ↔
        (demo 8).2.trace.length < (demo 8).2.cpu.f)) ∧
    ((demo 8).2.cpu.read_finished = true → instr_fetch_and_decode (demo 8).2 = (demo 8).2) ∧
    (demo 8).2.cpu.f = 1 ∧
    (∀ q, q < (demo 8).2.cpu.read_cnt →
      ((demo 8).2.heap q).id = q + 1 ∧ (trace3)[q]? = some (raw ((demo 8).2.heap q)))) ∧
    (demo 8).1 = .fd ∧ (demo 8).2.cpu.read_finished = false ∧
    (instr_fetch_and_decode (demo 8).2).dispatching_queue = [0] ∧
    ((instr_fetch_and_decode (demo 8).2).heap 0).id = 1 :=
  ⟨fetch_appends_consecutive_ids 1 1 1 1 1 trace3 (demo 8).1 (demo 8).2 (demo_reach 8),
    by decide, by decide, by decide, by decide⟩



theorem stage_fn_cycle_schedule (pc : Stage) (hpc : pc ≠ .sc1) (s : Sim) (q : Nat)
    (hq : pc = .fd → q < s.all_instrs.length) :
    ((stage_fn pc s).heap q).cycle_schedule = (s.heap q).cycle_schedule := by
  refine stage_fn_field (fun i => i.cycle_schedule) pc s (fun _ _ _ => by simp)
    (fun _ _ => rfl) ?_ q hq
  intro i j hop
  cases hop with
  | retire _ _ _ => rfl
  | exec _ _ _ => rfl
  | sched => exact absurd rfl hpc
  | fire _ _ _ => rfl
  | wake t => simp

theorem stage_fn_fire (pc : Stage) (hpc : pc ≠ .sc1) (s : Sim) (q : Nat)
    (hq : pc = .fd → q < s.all_instrs.length) :
    ((stage_fn pc s).heap q).fire = (s.heap q).fire := by
  refine stage_fn_field (fun i => i.fire) pc s (fun _ _ _ => by simp)
    (fun _ _ => rfl) ?_ q hq
  intro i j hop
  cases hop with
  | retire _ _ _ => rfl
  | exec _ _ _ => rfl
  | sched => exact absurd rfl hpc
  | fire _ _ _ => rfl
  | wake t => simp

theorem stage_fn_all_instrs_le (pc : Stage) (s : Sim) :
    s.all_instrs.length ≤ (stage_fn pc s).all_instrs.length := by
  by_cases e : pc = .fd
  · subst e
    simp only [stage_fn, instr_fetch_and_decode]
    split
    · obtain ⟨k, h1, _, _⟩ := fetch_loop_queues s.cpu.f s
      rw [h1, List.length_append]
      omega
    · exact Nat.le_refl _
  · rw [stage_fn_all_instrs pc e s]

theorem run_stages_add (m n : Nat) (c : Stage × Sim) :
    run_stages (m + n) c = run_stages n (run_stages m c) := by
  induction m generalizing c with
  | zero => simp [run_stages]
  | succ m ih =>
    rw [Nat.succ_add]
    exact ih _

/-- Along the stage sequence every allocated record only moves to later
states. -/
theorem run_stages_instLe (n : Nat) (pc : Stage) (s : Sim) (q : Nat)
    (hq : q < s.all_instrs.length) :
    InstLe (s.heap q) ((run_stages n (pc, s)).2.heap q) := by
  induction n generalizing pc s with
  | zero => exact instLe_refl _
  | succ n ih =>
    exact instLe_trans (stage_fn_instLe pc s q hq)
      (ih (next_stage pc s) (stage_fn pc s)
        (Nat.lt_of_lt_of_le hq (stage_fn_all_instrs_le pc s)))

/-- The records of the dispatch queue have never been examined by `schedule`. -/
theorem dq_unscheduled_reach {r k0 k1 k2 f : Nat} {trace : List trace_line} {pc : Stage}
    {s : Sim} (h : Reach (setup_proc r k0 k1 k2 f trace) pc s) :
    ∀ q ∈ s.dispatching_queue, (s.heap q).cycle_schedule = 0 := by
  refine Reach.induct_inv (fun _ s => ∀ q ∈ s.dispatching_queue, (s.heap q).cycle_schedule = 0)
    (fun q hq => by simp [setup_proc] at hq) ?_ h
  intro pc s hr ih q hq
  obtain ⟨a, hl⟩ := layout_reach hr
  have hlen : ∀ x ∈ s.dispatching_queue, x < s.all_instrs.length := by
    intro x hx
    obtain ⟨_, hall, hdq, _, _⟩ := hl
    rw [hdq, List.mem_range'_1] at hx
    rw [hall, List.length_range]
    omega
  by_cases hw : pc.isWindow = true
  · rw [window_stage_dq pc hw s] at hq
    rw [window_stage_local pc hw s q (layout_disjoint hl hq)]
    exact ih q hq
  · have hne : pc ≠ .sc1 := by
      intro e
      subst e
      exact hw rfl
    by_cases hfd : pc = .fd
    · subst hfd
      by_cases hold : q < s.all_instrs.length
      · rw [stage_fn_cycle_schedule .fd hne s q (fun _ => hold)]
        simp only [stage_fn, instr_fetch_and_decode] at hq
        split at hq
        · obtain ⟨k, h1, h2, _⟩ := fetch_loop_queues s.cpu.f s
          rw [h2, List.mem_append] at hq
          rcases hq with hq | hq
          · exact ih q hq
          · rw [List.mem_range'_1] at hq
            omega
        · exact ih q hq
      · simp only [stage_fn, instr_fetch_and_decode] at hq ⊢
        split at hq
        · rename_i hrf
          rw [if_pos hrf]
          obtain ⟨k, h1, h2, _⟩ := fetch_loop_queues s.cpu.f s
          rw [h2, List.mem_append] at hq
          rcases hq with hq | hq
          · exact absurd (hlen q hq) hold
          · rw [List.mem_range'_1] at hq
            exact (fetch_loop_new s.cpu.f s q (by omega)
              (by rw [h1, List.length_append, List.length_range']; omega)).2.1
        · exact absurd (hlen q hq) hold
    · have hmem : q ∈ s.dispatching_queue := by
        by_cases hd : pc = .di2
        · subst hd
          simp only [stage_fn, dispatch_second] at hq
          obtain ⟨k, _, h1, _⟩ := drain_queues s.dispatching_queue s
          rw [h1] at hq
          exact List.mem_of_mem_drop hq
        · rw [stage_fn_dispatching_queue pc hfd hd s] at hq
          exact hq
      rw [stage_fn_cycle_schedule pc hne s q (fun e => absurd e hfd)]
      exact ih q hmem

theorem schedule_first_inst_stamp (cc : Nat) (i : proc_inst_t) :
    (schedule_first_inst cc i).cycle_schedule =
      if i.fire = true then i.cycle_schedule
      else if i.cycle_schedule = 0 then cc else i.cycle_schedule := by
  unfold schedule_first_inst
  cases hf : i.fire
  · by_cases h2 : i.cycle_schedule = 0
    · simp only [h2, if_true, Bool.false_eq_true, if_false]
      split <;> rfl
    · simp only [h2, Bool.false_eq_true, if_false]
      split <;> rfl
  · simp

theorem schedule_first_body_stamp (st : Sim) (x p : Nat) :
    ((schedule_first_body st x).heap p).cycle_schedule =
      if p = x then (schedule_first_inst st.stats.cycle_count (st.heap p)).cycle_schedule
      else (st.heap p).cycle_schedule := by
  simp only [schedule_first_body, Sim.setInst]
  split
  · rename_i e
    subst e
    rfl
  · rfl

theorem schedule_first_keep (cc : Nat) (hcc : cc ≠ 0) (l : List Nat) (s : Sim) (p : Nat)
    (hs : s.stats.cycle_count = cc) (h : (s.heap p).cycle_schedule = cc) :
    ((l.foldl schedule_first_body s).heap p).cycle_schedule = cc := by
  refine (foldl_inv (fun st : Sim => st.stats.cycle_count = cc ∧
    (st.heap p).cycle_schedule = cc) schedule_first_body l ?_ s ⟨hs, h⟩).2
  intro st x _ ⟨h1, h2⟩
  refine ⟨h1, ?_⟩
  rw [schedule_first_body_stamp, schedule_first_inst_stamp, h2]
  split_ifs <;> simp_all

theorem schedule_first_hit (s : Sim) (p : Nat) (hp : p ∈ s.scheduling_queue)
    (h1 : (s.heap p).fire = false) (h2 : (s.heap p).cycle_schedule = 0)
    (hcc : s.stats.cycle_count ≠ 0) :
    ((schedule_first s).heap p).cycle_schedule = s.stats.cycle_count := by
  unfold schedule_first
  have key : ∀ (l : List Nat) (st : Sim), st.stats.cycle_count = s.stats.cycle_count →
      p ∈ l → (st.heap p).fire = false → (st.heap p).cycle_schedule = 0 →
      ((l.foldl schedule_first_body st).heap p).cycle_schedule = s.stats.cycle_count := by
    intro l
    induction l with
    | nil => intro st _ hm; cases hm
    | cons x rest ih =>
      intro st hst hm g1 g2
      simp only [List.foldl_cons]
      by_cases e : p = x
      · subst e
        refine schedule_first_keep _ hcc rest _ p hst ?_
        rw [schedule_first_body_stamp, if_pos rfl, schedule_first_inst_stamp, g1, g2]
        simpa using hst
      · have hm2 : p ∈ rest := (List.mem_cons.mp hm).resolve_left e
        refine ih _ hst hm2 ?_ ?_
        · simp only [schedule_first_body, Sim.setInst, if_neg e]
          exact g1
        · simp only [schedule_first_body, Sim.setInst, if_neg e]
          exact g2
  exact key _ s rfl hp h1 h2

/-- C16: let `p` be moved into the window by the second-half `dispatch` of
cycle `c` (the stage `di2` run in the reachable state `s`).  Five stage
transitions later the run is at the first-half `schedule` of cycle `c + 1`;
up to that point `cycle_schedule` of `p` is 0, that stage writes `c + 1`, and
after any further number of stage transitions the stamp is still `c + 1`. -/
theorem schedule_stamp_written_once (r k0 k1 k2 f : Nat) (trace : List trace_line) (s : Sim)
    (p : Nat) (h : Reach (setup_proc r k0 k1 k2 f trace) .di2 s)
    (hp1 : p ∉ s.scheduling_queue) (hp2 : p ∈ (dispatch_second s).scheduling_queue) :
    (run_stages 5 (.di2, s)).1 = .sc1 ∧
    (run_stages 5 (.di2, s)).2.stats.cycle_count = s.stats.cycle_count + 1 ∧
    ∀ n, ((run_stages n (.di2, s)).2.heap p).cycle_schedule =
      if n ≤ 5 then 0 else s.stats.cycle_count + 1 := by
  have hfin : ∀ {pc : Stage} {t : Sim}, Reach (setup_proc r k0 k1 k2 f trace) pc t →
      pc ≠ .halt → t.cpu.finished = false :=
    fun ht => (finished_inv _ rfl ht).1
  obtain ⟨a, hl⟩ := layout_reach h
  -- the record comes from the dispatch queue
  have hdq : p ∈ s.dispatching_queue := by
    have e := (drain_spec s.dispatching_queue s).1
    unfold dispatch_second at hp2
    rw [e, List.mem_append] at hp2
    exact (List.takeWhile_sublist _).subset (hp2.resolve_left hp1)
  have hlen : p < s.all_instrs.length := by
    obtain ⟨_, hall, hd, _, _⟩ := hl
    rw [hd, List.mem_range'_1] at hdq
    rw [hall, List.length_range]
    omega
  have z0 : (s.heap p).cycle_schedule = 0 := dq_unscheduled_reach h p hdq
  have g0 : (s.heap p).fire = false := (fireOk_reach h).2 p hdq
  -- the six states that follow
  have r1 : Reach (setup_proc r k0 k1 k2 f trace) .fd (stage_fn .di2 s) := Reach.step h
  have r2 : Reach (setup_proc r k0 k1 k2 f trace) .inc (stage_fn .fd (stage_fn .di2 s)) :=
    Reach.step r1
  have r3 : Reach (setup_proc r k0 k1 k2 f trace) .su1
      (stage_fn .inc (stage_fn .fd (stage_fn .di2 s))) := Reach.step r2
  have f3 := hfin r3 (by decide)
  have n3 : next_stage .su1 (stage_fn .inc (stage_fn .fd (stage_fn .di2 s))) = .ex1 := by
    simp [next_stage, f3]
  have e4 : run_stages 4 (.di2, s) =
      (.ex1, stage_fn .su1 (stage_fn .inc (stage_fn .fd (stage_fn .di2 s)))) := by
    simp only [run_stages, next_stage, f3]
    simp
  have e5 : run_stages 5 (.di2, s) =
      (.sc1, stage_fn .ex1 (stage_fn .su1 (stage_fn .inc (stage_fn .fd (stage_fn .di2 s))))) := by
    rw [show 5 = 4 + 1 from rfl, run_stages_add, e4]
    rfl
  have e6 : run_stages 6 (.di2, s) =
      (.di1, stage_fn .sc1 (stage_fn .ex1 (stage_fn .su1 (stage_fn .inc (stage_fn .fd
        (stage_fn .di2 s)))))) := by
    rw [show 6 = 5 + 1 from rfl, run_stages_add, e5]
    rfl
  -- allocation bounds
  have l1 := Nat.lt_of_lt_of_le hlen (stage_fn_all_instrs_le .di2 s)
  have l2 := Nat.lt_of_lt_of_le l1 (stage_fn_all_instrs_le .fd _)
  have l3 := Nat.lt_of_lt_of_le l2 (stage_fn_all_instrs_le .inc _)
  have l4 := Nat.lt_of_lt_of_le l3 (stage_fn_all_instrs_le .su1 _)
  have l5 := Nat.lt_of_lt_of_le l4 (stage_fn_all_instrs_le .ex1 _)
  have l6 := Nat.lt_of_lt_of_le l5 (stage_fn_all_instrs_le .sc1 _)
  -- the stamp and the fire flag up to the first-half schedule
  have z1 := (stage_fn_cycle_schedule .di2 (by decide) s p (fun e => by cases e)).trans z0
  have z2 := (stage_fn_cycle_schedule .fd (by decide) _ p (fun _ => l1)).trans z1
  have z3 := (stage_fn_cycle_schedule .inc (by decide) _ p (fun e => by cases e)).trans z2
  have z4 := (stage_fn_cycle_schedule .su1 (by decide) _ p (fun e => by cases e)).trans z3
  have z5 := (stage_fn_cycle_schedule .ex1 (by decide) _ p (fun e => by cases e)).trans z4
  have g1 := (stage_fn_fire .di2 (by decide) s p (fun e => by cases e)).trans g0
  have g2 := (stage_fn_fire .fd (by decide) _ p (fun _ => l1)).trans g1
  have g3 := (stage_fn_fire .inc (by decide) _ p (fun e => by cases e)).trans g2
  have g4 := (stage_fn_fire .su1 (by decide) _ p (fun e => by cases e)).trans g3
  have g5 := (stage_fn_fire .ex1 (by decide) _ p (fun e => by cases e)).trans g4
  -- the record stays in the window, and the counter advances once
  have w1 : p ∈ (stage_fn .di2 s).scheduling_queue := hp2
  have w2 : p ∈ (stage_fn .fd (stage_fn .di2 s)).scheduling_queue := by
    rw [stage_fn_scheduling_queue .fd (by decide) (by decide)]; exact w1
  have w3 : p ∈ (stage_fn .inc (stage_fn .fd (stage_fn .di2 s))).scheduling_queue := by
    rw [stage_fn_scheduling_queue .inc (by decide) (by decide)]; exact w2
  have w4 : p ∈ (stage_fn .su1 (stage_fn .inc (stage_fn .fd (stage_fn .di2 s)))).scheduling_queue := by
    rw [stage_fn_scheduling_queue .su1 (by decide) (by decide)]; exact w3
  have w5 : p ∈ (stage_fn .ex1 (stage_fn .su1 (stage_fn .inc (stage_fn .fd
      (stage_fn .di2 s))))).scheduling_queue := by
    rw [stage_fn_scheduling_queue .ex1 (by decide) (by decide)]; exact w4
  have c5 : (stage_fn .ex1 (stage_fn .su1 (stage_fn .inc (stage_fn .fd
      (stage_fn .di2 s))))).stats.cycle_count = s.stats.cycle_count + 1 := by
    rw [stage_fn_cycle_count .ex1 (by decide), stage_fn_cycle_count .su1 (by decide)]
    show (inc_cycle _).stats.cycle_count = _
    simp only [inc_cycle]
    rw [stage_fn_cycle_count .fd (by decide), stage_fn_cycle_count .di2 (by decide)]
  have z6 : ((stage_fn .sc1 (stage_fn .ex1 (stage_fn .su1 (stage_fn .inc (stage_fn .fd
      (stage_fn .di2 s)))))).heap p).cycle_schedule = s.stats.cycle_count + 1 := by
    show ((schedule_first _).heap p).cycle_schedule = _
    rw [schedule_first_hit _ p w5 g5 z5 (by rw [c5]; omega), c5]
  refine ⟨by rw [e5], by rw [e5]; exact c5, ?_⟩
  intro n
  by_cases hn : n ≤ 5
  · rw [if_pos hn]
    have : n = 0 ∨ n = 1 ∨ n = 2 ∨ n = 3 ∨ n = 4 ∨ n = 5 := by omega
    rcases this with e | e | e | e | e | e <;> subst e
    · exact z0
    · exact z1
    · exact z2
    · exact z3
    · rw [e4]; exact z4
    · rw [e5]; exact z5
  · rw [if_neg hn]
    obtain ⟨m, rfl⟩ : ∃ m, n = 6 + m := ⟨n - 6, by omega⟩
    rw [run_stages_add, e6]
    have le := run_stages_instLe m .di1 _ p l6
    rw [le.cycle_schedule (by rw [z6]; omega), z6]

theorem schedule_stamp_written_once_witness :
    (demo 17).2.scheduling_queue = [] ∧ (dispatch_second (demo 17).2).scheduling_queue = [0] ∧
    (demo 17).2.stats.cycle_count = 2 ∧
    (run_stages 5 (.di2, (demo 17).2)).1 = .sc1 ∧
    (run_stages 5 (.di2, (demo 17).2)).2.stats.cycle_count = (demo 17).2.stats.cycle_count + 1 ∧
    ∀ n, ((run_stages n (.di2, (demo 17).2)).2.heap 0).cycle_schedule =
      if n ≤ 5 then 0 else (demo 17).2.stats.cycle_count + 1 :=
  ⟨by decide, by decide, by decide,
    schedule_stamp_written_once 1 1 1 1 1 trace3 (demo 17).2 0
      (reach_run_stages 17 Reach.init) (by decide) (by decide)⟩



theorem countP_update_notin (g : proc_inst_t → Bool) (heap : Nat → proc_inst_t) (p : Nat)
    (i : proc_inst_t) (l : List Nat) (hp : p ∉ l) :
    l.countP (fun q => g (if q = p then i else heap q)) = l.countP (fun q => g (heap q)) := by
  refine List.countP_congr ?_
  intro q hq
  have : q ≠ p := fun e => hp (e ▸ hq)
  simp [this]

theorem countP_update_in (g : proc_inst_t → Bool) (heap : Nat → proc_inst_t) (p : Nat)
    (i : proc_inst_t) (l : List Nat) (hn : l.Nodup) (hp : p ∈ l) :
    l.countP (fun q => g (if q = p then i else heap q)) + (if g (heap p) = true then 1 else 0) =
      l.countP (fun q => g (heap q)) + (if g i = true then 1 else 0) := by
  induction l with
  | nil => cases hp
  | cons x rest ih =>
    rw [List.nodup_cons] at hn
    by_cases e : x = p
    · subst e
      rw [List.countP_cons, List.countP_cons, countP_update_notin g heap x i rest hn.1]
      simp only [if_true]
      omega
    · have hp2 : p ∈ rest := (List.mem_cons.mp hp).resolve_left (Ne.symm e)
      have := ih hn.2 hp2
      rw [List.countP_cons, List.countP_cons]
      simp only [if_neg e]
      omega

theorem stage_fn_flight (c : Int) (pc : Stage) (h1 : pc ≠ .ex1) (h2 : pc ≠ .sc2) (s : Sim)
    (q : Nat) (hq : pc = .fd → q < s.all_instrs.length) :
    flight c ((stage_fn pc s).heap q) = flight c (s.heap q) := by
  refine stage_fn_field (flight c) pc s (fun _ _ _ => by simp [flight])
    (fun _ _ => rfl) ?_ q hq
  intro i j hop
  cases hop with
  | retire _ _ _ => rfl
  | exec _ _ _ => exact absurd rfl h1
  | sched => simp [flight]
  | fire _ _ _ => exact absurd rfl h2
  | wake t => simp [flight]

theorem execute_first_body_flight (K : Int → Nat) (W : List Nat) (hW : W.Nodup) (st : Sim)
    (p : Nat) (hp : p ∈ W)
    (h : (∀ c, st.fu_cnt c + W.countP (fun q => flight c (st.heap q)) = K c) ∧
      (∀ q ∈ W, (st.heap q).executed = true → (st.heap q).cycle_execute ≠ 0) ∧
      st.stats.cycle_count ≠ 0) :
    (∀ c, (execute_first_body st p).fu_cnt c +
        W.countP (fun q => flight c ((execute_first_body st p).heap q)) = K c) ∧
      (∀ q ∈ W, ((execute_first_body st p).heap q).executed = true →
        ((execute_first_body st p).heap q).cycle_execute ≠ 0) ∧
      (execute_first_body st p).stats.cycle_count ≠ 0 := by
  obtain ⟨hfu, hex, hcc⟩ := h
  unfold execute_first_body
  split
  · rename_i hc
    split
    · exact ⟨hfu, hex, hcc⟩
    · refine ⟨?_, ?_, hcc⟩
      · intro c
        have hnot : (st.heap p).executed = false := by
          by_contra hn
          exact hex p hp (by simpa using hn) hc.2
        have key := countP_update_in (flight c) st.heap p
          { st.heap p with cycle_execute := st.stats.cycle_count, executed := true } W hW hp
        have hnew : flight c
            { st.heap p with cycle_execute := st.stats.cycle_count, executed := true } = false := by
          simp [flight]
        rw [hnew] at key
        have hold : flight c (st.heap p) = decide ((st.heap p).op_code = c) := by
          simp [flight, hc.1, hnot]
        rw [hold] at key
        have := hfu c
        by_cases e : (st.heap p).op_code = c
        · subst e
          simp only [decide_True, if_true] at key
          simp only [mapSet, if_true]
          simp only [Bool.false_eq_true, if_false] at key
          omega
        · simp only [e, decide_False, Bool.false_eq_true, if_false] at key
          simp only [mapSet, if_neg (Ne.symm e)]
          omega
      · intro q hq
        by_cases e : q = p
        · subst e
          simp only [if_true]
          intro _
          exact hcc
        · simp only [if_neg e]
          exact hex q hq
  · exact ⟨hfu, hex, hcc⟩

theorem schedule_second_body_flight (K : Int → Nat) (W : List Nat) (hW : W.Nodup) (st : Sim)
    (p : Nat) (hp : p ∈ W)
    (h : (∀ c, st.fu_cnt c + W.countP (fun q => flight c (st.heap q)) = K c) ∧
      (∀ q, (st.heap q).executed = true → (st.heap q).fired = true)) :
    (∀ c, (schedule_second_body st p).fu_cnt c +
        W.countP (fun q => flight c ((schedule_second_body st p).heap q)) = K c) ∧
      (∀ q, ((schedule_second_body st p).heap q).executed = true →
        ((schedule_second_body st p).heap q).fired = true) := by
  obtain ⟨hfu, hex⟩ := h
  unfold schedule_second_body
  split
  · rename_i hc
    split
    · exact ⟨hfu, hex⟩
    · rename_i hne
      refine ⟨?_, ?_⟩
      · intro c
        have hnot : (st.heap p).executed = false := by
          by_contra hn
          have := hex p (by simpa using hn)
          rw [hc.2] at this
          cases this
        have key := countP_update_in (flight c) st.heap p
          { st.heap p with fired := true } W hW hp
        have hnew : flight c { st.heap p with fired := true } =
            decide ((st.heap p).op_code = c) := by
          simp [flight, hnot]
        have hold : flight c (st.heap p) = false := by
          simp [flight, hc.2]
        rw [hnew, hold] at key
        have := hfu c
        by_cases e : (st.heap p).op_code = c
        · subst e
          simp only [decide_True, if_true, Bool.false_eq_true, if_false] at key
          simp only [mapSet, if_true]
          omega
        · simp only [e, decide_False, Bool.false_eq_true, if_false] at key
          simp only [mapSet, if_neg (Ne.symm e)]
          omega
      · intro q
        by_cases e : q = p
        · subst e
          simp only [if_true]
          intro _
          trivial
        · simp only [if_neg e]
          exact hex q
  · exact ⟨hfu, hex⟩

theorem fu_conserve_step (K : Int → Nat) {r k0 k1 k2 f : Nat} {trace : List trace_line}
    (pc : Stage) (s : Sim) (hr : Reach (setup_proc r k0 k1 k2 f trace) pc s)
    (h : ∀ c, s.fu_cnt c + in_flight s c = K c) :
    ∀ c, (stage_fn pc s).fu_cnt c + in_flight (stage_fn pc s) c = K c := by
  obtain ⟨a, hl⟩ := layout_reach hr
  have hnd : s.scheduling_queue.Nodup :=
    hl.2.2.2.2.imp (fun hxy => Nat.ne_of_lt hxy)
  have hlen : ∀ q ∈ s.scheduling_queue, q < s.all_instrs.length := by
    intro q hq
    have := hl.2.2.2.1 q hq
    rw [hl.2.1, List.length_range]
    have := hl.1
    omega
  have hts := tsOk_reach hr
  have hmem : ∀ q ∈ s.scheduling_queue, q ∈ s.all_instrs := by
    intro q hq
    rw [hl.2.1, List.mem_range]
    have := hlen q hq
    rw [hl.2.1, List.length_range] at this
    exact this
  -- stages that touch neither the counts nor the flags
  have same : pc ≠ .ex1 → pc ≠ .sc2 → pc ≠ .su2 → pc ≠ .di2 →
      ∀ c, (stage_fn pc s).fu_cnt c + in_flight (stage_fn pc s) c = K c := by
    intro n1 n2 n3 n4 c
    rw [stage_fn_fu_cnt pc n1 n2 s, ← h c]
    congr 1
    unfold in_flight
    rw [stage_fn_scheduling_queue pc n3 n4 s]
    refine List.countP_congr ?_
    intro q hq
    rw [stage_fn_flight c pc n1 n2 s q (fun _ => hlen q hq)]
  cases pc
  case su1 => exact same (by decide) (by decide) (by decide) (by decide)
  case sc1 => exact same (by decide) (by decide) (by decide) (by decide)
  case di1 => exact same (by decide) (by decide) (by decide) (by decide)
  case ex2 => exact same (by decide) (by decide) (by decide) (by decide)
  case fd => exact same (by decide) (by decide) (by decide) (by decide)
  case inc => exact same (by decide) (by decide) (by decide) (by decide)
  case halt => exact same (by decide) (by decide) (by decide) (by decide)
  case ex1 =>
    intro c
    have key := foldl_inv
      (fun st : Sim => (∀ c, st.fu_cnt c +
          s.scheduling_queue.countP (fun q => flight c (st.heap q)) = K c) ∧
        (∀ q ∈ s.scheduling_queue, (st.heap q).executed = true →
          (st.heap q).cycle_execute ≠ 0) ∧
        st.stats.cycle_count ≠ 0)
      execute_first_body s.scheduling_queue
      (fun st p hp hs => execute_first_body_flight K s.scheduling_queue hnd st p hp hs) s
      ⟨h, ?_, by have := hts.1; omega⟩
    · have := key.1 c
      simp only [stage_fn, in_flight, execute_first_scheduling_queue]
      exact this
    · intro q hq
      exact (hts.2 q (hmem q hq)).executed_stamp
  case sc2 =>
    intro c
    have key := foldl_inv
      (fun st : Sim => (∀ c, st.fu_cnt c +
          s.scheduling_queue.countP (fun q => flight c (st.heap q)) = K c) ∧
        (∀ q, (st.heap q).executed = true → (st.heap q).fired = true))
      schedule_second_body s.scheduling_queue
      (fun st p hp hs => schedule_second_body_flight K s.scheduling_queue hnd st p hp hs) s
      ⟨h, fun q => (flagsOk_reach hr q).2⟩
    have := key.1 c
    simp only [stage_fn, in_flight, schedule_second_scheduling_queue]
    exact this
  case su2 =>
    intro c
    have e1 : (stage_fn .su2 s).fu_cnt = s.fu_cnt := stage_fn_fu_cnt .su2 (by decide) (by decide) s
    rw [e1, ← h c]
    congr 1
    simp only [stage_fn, in_flight, state_update_second_heap, state_update_second_queue]
    rw [List.countP_filter]
    refine List.countP_congr ?_
    intro q _
    have hfl := flagsOk_reach hr q
    by_cases hz : (s.heap q).cycle_status_update = 0
    · simp [hz]
    · have := hfl.1 hz
      simp [hz, flight, this]
  case di2 =>
    intro c
    have e1 : (stage_fn .di2 s).fu_cnt = s.fu_cnt := stage_fn_fu_cnt .di2 (by decide) (by decide) s
    rw [e1, ← h c]
    congr 1
    obtain ⟨k, hk, _, h2⟩ := drain_queues s.dispatching_queue s
    have hw : (stage_fn .di2 s).scheduling_queue =
        s.scheduling_queue ++ s.dispatching_queue.take k := h2
    unfold in_flight
    rw [hw, List.countP_append]
    have hz : (s.dispatching_queue.take k).countP
        (fun p => flight c ((stage_fn .di2 s).heap p)) = 0 := by
      rw [List.countP_eq_zero]
      intro q hq
      have hq2 : q ∈ s.dispatching_queue := List.mem_of_mem_take hq
      rw [stage_fn_flight c .di2 (by decide) (by decide) s q (fun e => by cases e)]
      have hfire := (fireOk_reach hr).2 q hq2
      have hfo := (fireOk_reach hr).1 q
      have : (s.heap q).fired = false := by
        by_contra hn
        have := hfo.1 (by simpa using hn)
        rw [hfire] at this
        cases this
      simp [flight, this]
    rw [hz, Nat.add_zero]
    refine List.countP_congr ?_
    intro q hq
    rw [stage_fn_flight c .di2 (by decide) (by decide) s q (fun e => by cases e)]

theorem fu_conserve_reach {r k0 k1 k2 f : Nat} {trace : List trace_line} {pc : Stage}
    {s : Sim} (h : Reach (setup_proc r k0 k1 k2 f trace) pc s) :
    ∀ c, s.fu_cnt c + in_flight s c = fu_init k0 k1 k2 c := by
  refine Reach.induct_inv
    (fun _ s => ∀ c, s.fu_cnt c + in_flight s c = fu_init k0 k1 k2 c) ?_ ?_ h
  · intro c
    simp [setup_proc, in_flight]
  · intro pc s hr ih
    exact fu_conserve_step (fu_init k0 k1 k2) pc s hr ih

/-- C20 (fails on the code outside the `uint32_t` range): with
`k0 = 2^32 + 1 = 4294967297` the `uint32_t` counter `fu_cnt[0]` is set to 1.
After 27 stage transitions (second-half `schedule` of cycle 3) instruction 1 is
fired and not yet executed and `fu_cnt[0]` is 0: the sum is 1, not the
configured count. -/
theorem unit_count_narrowed :
    (setup_proc 1 4294967297 0 0 1 trace_pair).fu_cnt 0 = 1 ∧
    (run_stages 27 (.su1, setup_proc 1 4294967297 0 0 1 trace_pair)).1 = .di2 ∧
    (run_stages 27 (.su1, setup_proc 1 4294967297 0 0 1 trace_pair)).2.fu_cnt 0 = 0 ∧
    in_flight (run_stages 27 (.su1, setup_proc 1 4294967297 0 0 1 trace_pair)).2 0 = 1 ∧
    (run_stages 27 (.su1, setup_proc 1 4294967297 0 0 1 trace_pair)).2.fu_cnt 0 +
      in_flight (run_stages 27 (.su1, setup_proc 1 4294967297 0 0 1 trace_pair)).2 0 ≠
      4294967297 := by
  decide

/-- C20 (amended): for configured counts `k0, k1, k2 < 2^32 = 4294967296`, in
every reachable state and for each opcode class `c` in {0, 1, 2}, `fu_cnt[c]`
plus the number of windowed records of class `c` that are fired and not yet
executed equals the configured count `k_c`; so at most `k_c` records of class
`c` hold a unit, and the counter, which is decremented only when it is not 0,
never wraps. -/
theorem functional_units_conserved (r k0 k1 k2 f : Nat) (trace : List trace_line)
    (hk0 : k0 < 4294967296) (hk1 : k1 < 4294967296) (hk2 : k2 < 4294967296)
    (pc : Stage) (s : Sim) (h : Reach (setup_proc r k0 k1 k2 f trace) pc s) :
    (s.fu_cnt 0 + in_flight s 0 = k0 ∧ s.fu_cnt 1 + in_flight s 1 = k1 ∧
      s.fu_cnt 2 + in_flight s 2 = k2) ∧
    (in_flight s 0 ≤ k0 ∧ in_flight s 1 ≤ k1 ∧ in_flight s 2 ≤ k2) ∧
    (s.fu_cnt 0 ≤ k0 ∧ s.fu_cnt 1 ≤ k1 ∧ s.fu_cnt 2 ≤ k2) := by
  have key := fu_conserve_reach h
  have h0 := key 0
  have h1 := key 1
  have h2 := key 2
  simp only [fu_init] at h0 h1 h2
  norm_num at h0 h1 h2
  rw [Nat.mod_eq_of_lt hk0] at h0
  rw [Nat.mod_eq_of_lt hk1] at h1
  rw [Nat.mod_eq_of_lt hk2] at h2
  omega

theorem functional_units_conserved_witness :
    ((1 : Nat) < 4294967296 ∧ in_flight (demo 37).2 1 = 1 ∧ (demo 37).2.fu_cnt 1 = 0) ∧
    ((((demo 37).2.fu_cnt 0 + in_flight (demo 37).2 0 = 1 ∧
      (demo 37).2.fu_cnt 1 + in_flight (demo 37).2 1 = 1 ∧
      (demo 37).2.fu_cnt 2 + in_flight (demo 37).2 2 = 1) ∧
    (in_flight (demo 37).2 0 ≤ 1 ∧ in_flight (demo 37).2 1 ≤ 1 ∧ in_flight (demo 37).2 2 ≤ 1) ∧
    ((demo 37).2.fu_cnt 0 ≤ 1 ∧ (demo 37).2.fu_cnt 1 ≤ 1 ∧ (demo 37).2.fu_cnt 2 ≤ 1))) :=
  ⟨⟨by decide, by decide, by decide⟩,
    functional_units_conserved 1 1 1 1 1 trace3 (by decide) (by decide) (by decide)
      (demo 37).1 (demo 37).2 (demo_reach 37)⟩



theorem tag_view_fields {i j : proc_inst_t} (h : tag_view i = tag_view j) :
    i.id = j.id ∧ i.dest_reg = j.dest_reg ∧ i.executed = j.executed ∧
    ∀ k : Bool, slot_ready k i = slot_ready k j ∧ slot_tag k i = slot_tag k j ∧
      slot_reg k i = slot_reg k j := by
  simp only [tag_view, Prod.mk.injEq] at h
  obtain ⟨h1, h2, h3, h4, h5, h6, h7, h8, h9⟩ := h
  refine ⟨h1, h2, h3, fun k => ?_⟩
  cases k <;> simp [slot_ready, slot_tag, slot_reg, *]

theorem stage_fn_tag_view (pc : Stage) (n1 : pc ≠ .ex1) (n2 : pc ≠ .ex2) (n3 : pc ≠ .di2)
    (s : Sim) (q : Nat) (hq : pc = .fd → q < s.all_instrs.length) :
    tag_view ((stage_fn pc s).heap q) = tag_view (s.heap q) := by
  refine stage_fn_field tag_view pc s (fun e => absurd e n3) (fun _ _ => rfl) ?_ q hq
  intro i j hop
  cases hop with
  | retire _ _ _ => rfl
  | exec _ _ _ => exact absurd rfl n1
  | sched => simp [tag_view]
  | fire _ _ _ => rfl
  | wake t => exact absurd rfl n2

/-- The invariant moves from `s` to `t` when `t` keeps the register file and
the watched fields, loses from the window only records that carry a
retirement stamp, and either no bus of `s` is busy or the buses, the cycle
counter and the two stamps are kept as well. -/
theorem tagInv_transfer (s t : Sim)
    (hsub : ∀ q ∈ t.scheduling_queue, q ∈ s.scheduling_queue)
    (hkeep : ∀ q ∈ s.scheduling_queue, (s.heap q).cycle_status_update = 0 →
      q ∈ t.scheduling_queue)
    (hfl : ∀ q, FlagsOk (s.heap q))
    (hrf : t.register_file = s.register_file)
    (hv : ∀ q ∈ s.scheduling_queue, tag_view (t.heap q) = tag_view (s.heap q))
    (hx : (∀ b ∈ s.cdb, b.free = true) ∨
      (t.cdb = s.cdb ∧ t.stats.cycle_count = s.stats.cycle_count ∧
        ∀ q ∈ s.scheduling_queue, (t.heap q).cycle_execute = (s.heap q).cycle_execute ∧
          (t.heap q).cycle_status_update = (s.heap q).cycle_status_update))
    (h : TagInv s) : TagInv t := by
  have unexec : ∀ q, (s.heap q).executed = false → (s.heap q).cycle_status_update = 0 := by
    intro q hq
    by_contra hn
    have := (hfl q).1 hn
    rw [hq] at this
    cases this
  constructor
  · intro R h0 h1 hr
    rw [hrf] at hr ⊢
    obtain ⟨q, hq, e1, e2, e3⟩ := h.reg R h0 h1 hr
    obtain ⟨v1, v2, v3, _⟩ := tag_view_fields (hv q hq)
    exact ⟨q, hkeep q hq (unexec q e3), by rw [v1, e1], by rw [v2, e2], by rw [v3, e3]⟩
  · intro p hp j hr h0 h1
    have hps := hsub p hp
    obtain ⟨_, _, _, vp⟩ := tag_view_fields (hv p hps)
    rw [(vp j).1] at hr
    rw [(vp j).2.2] at h0 h1
    rw [(vp j).2.1]
    obtain ⟨q, hq, e1, e2⟩ := h.slot p hps j hr h0 h1
    obtain ⟨v1, v2, v3, _⟩ := tag_view_fields (hv q hq)
    rcases e2 with e2 | ⟨c1, c2, b, hb, hbf, hbt⟩
    · exact ⟨q, hkeep q hq (unexec q e2), by rw [v1, e1], Or.inl (by rw [v3, e2])⟩
    · rcases hx with hx | ⟨x1, x2, x3⟩
      · rw [hx b hb] at hbf
        cases hbf
      · refine ⟨q, hkeep q hq c2, by rw [v1, e1], Or.inr ⟨?_, ?_, b, ?_, hbf, hbt⟩⟩
        · rw [(x3 q hq).1, x2, c1]
        · rw [(x3 q hq).2, c2]
        · rw [x1]; exact hb

theorem execute_first_body_tag (st : Sim) (x : Nat) (hx : x ∈ st.scheduling_queue)
    (h : TagInv st ∧
      (∀ q ∈ st.scheduling_queue, (st.heap q).cycle_status_update ≠ 0 →
        (st.heap q).cycle_execute ≠ 0)) :
    TagInv (execute_first_body st x) ∧
      (∀ q ∈ (execute_first_body st x).scheduling_queue,
        ((execute_first_body st x).heap q).cycle_status_update ≠ 0 →
        ((execute_first_body st x).heap q).cycle_execute ≠ 0) := by
  obtain ⟨ht, h2⟩ := h
  unfold execute_first_body
  split
  · rename_i hc
    split
    · exact ⟨ht, h2⟩
    · rename_i cdb1 hfind
      obtain ⟨m1, m2, _⟩ := find_free_cdb_mem _ _ _ hfind
      have hsu : (st.heap x).cycle_status_update = 0 := by
        by_contra hn
        exact h2 x hx hn hc.2
      refine ⟨⟨?_, ?_⟩, ?_⟩
      · intro R h0 h1 hr
        have hne : R ≠ (st.heap x).dest_reg := by
          intro e
          simp [mapSet, e] at hr
        simp only [mapSet, if_neg hne] at hr ⊢
        obtain ⟨q, hq, e1, e2, e3⟩ := ht.reg R h0 h1 hr
        have hqx : q ≠ x := by
          intro e
          subst e
          exact hne e2.symm
        exact ⟨q, hq, by simp only [if_neg hqx]; exact ⟨e1, e2, e3⟩⟩
      · intro p hp j hr h0 h1
        have sp : ∀ k : Bool,
            slot_ready k (if p = x then
              { st.heap x with cycle_execute := st.stats.cycle_count, executed := true }
              else st.heap p) = slot_ready k (st.heap p) ∧
            slot_tag k (if p = x then
              { st.heap x with cycle_execute := st.stats.cycle_count, executed := true }
              else st.heap p) = slot_tag k (st.heap p) ∧
            slot_reg k (if p = x then
              { st.heap x with cycle_execute := st.stats.cycle_count, executed := true }
              else st.heap p) = slot_reg k (st.heap p) := by
          intro k
          by_cases e : p = x
          · subst e
            cases k <;> simp [slot_ready, slot_tag, slot_reg]
          · simp only [if_neg e, and_self]
        simp only [] at hr h0 h1 ⊢
        rw [(sp j).1] at hr
        rw [(sp j).2.2] at h0 h1
        rw [(sp j).2.1]
        obtain ⟨q, hq, e1, e2⟩ := ht.slot p hp j hr h0 h1
        refine ⟨q, hq, ?_⟩
        by_cases hqx : q = x
        · subst hqx
          simp only [if_true]
          exact ⟨e1, Or.inr ⟨trivial, hsu, _, m1, rfl, e1⟩⟩
        · simp only [if_neg hqx]
          refine ⟨e1, ?_⟩
          rcases e2 with e2 | ⟨c1, c2, b, hb, hbf, hbt⟩
          · exact Or.inl e2
          · exact Or.inr ⟨c1, c2, b, m2 b hb hbf, hbf, hbt⟩
      · intro q hq
        by_cases hqx : q = x
        · subst hqx
          simp only [if_true]
          intro hn
          exact absurd hsu hn
        · simp only [if_neg hqx]
          exact h2 q hq
  · exact ⟨ht, h2⟩

theorem clear_slots_fields {i j : proc_inst_t} (h : clear_slots i = clear_slots j) :
    i.id = j.id ∧ i.dest_reg = j.dest_reg ∧ i.executed = j.executed ∧
    i.src_reg0 = j.src_reg0 ∧ i.src_reg1 = j.src_reg1 := by
  have h1 : (clear_slots i).id = (clear_slots j).id := by rw [h]
  have h2 : (clear_slots i).dest_reg = (clear_slots j).dest_reg := by rw [h]
  have h3 : (clear_slots i).executed = (clear_slots j).executed := by rw [h]
  have h4 : (clear_slots i).src_reg0 = (clear_slots j).src_reg0 := by rw [h]
  have h5 : (clear_slots i).src_reg1 = (clear_slots j).src_reg1 := by rw [h]
  exact ⟨h1, h2, h3, h4, h5⟩

theorem execute_second_tag (s : Sim) (h : TagInv s) : TagInv (execute_second s) := by
  have hheap : ∀ p, (execute_second s).heap p = (update_instruction_from_cdb s).heap p :=
    fun _ => rfl
  have other : ∀ p, clear_slots ((execute_second s).heap p) = clear_slots (s.heap p) := by
    intro p
    rw [hheap]
    exact update_from_cdb_pred (fun i => clear_slots i = clear_slots (s.heap p)) s
      (fun b _ _ i hi => (clear_slots_wake b.tag i).trans hi) p rfl
  have pend : ∀ p (j : Bool), slot_ready j ((execute_second s).heap p) = false →
      slot_ready j (s.heap p) = false ∧
      slot_tag j ((execute_second s).heap p) = slot_tag j (s.heap p) := by
    intro p j hr
    rw [hheap] at hr ⊢
    by_cases h0 : slot_ready j (s.heap p) = true
    · have := update_from_cdb_pred (fun i => slot_ready j i = true ∧
        slot_tag j i = slot_tag j (s.heap p)) s
        (fun b _ _ i hi => slot_wake_ready j b.tag i _ hi) p ⟨h0, rfl⟩
      rw [this.1] at hr
      cases hr
    · have h0' : slot_ready j (s.heap p) = false := by simpa using h0
      have := update_from_cdb_pred (fun i => (slot_ready j i = false ∧
        slot_tag j i = slot_tag j (s.heap p)) ∨ (slot_ready j i = true ∧ slot_tag j i = 0)) s
        (fun b _ _ i hi => slot_wake_fresh j b.tag i _ hi) p (Or.inl ⟨h0', rfl⟩)
      rcases this with g | g
      · exact ⟨h0', g.2⟩
      · rw [g.1] at hr
        cases hr
  constructor
  · intro R h0 h1 hr
    simp only [execute_second_register_file] at hr ⊢
    obtain ⟨q, hq, e1, e2, e3⟩ := h.reg R h0 h1 hr
    obtain ⟨v1, v2, v3, _, _⟩ := clear_slots_fields (other q)
    exact ⟨q, by simpa using hq, by rw [v1, e1], by rw [v2, e2], by rw [v3, e3]⟩
  · intro p hp j hr h0 h1
    have hp' : p ∈ s.scheduling_queue := by simpa using hp
    obtain ⟨g1, g2⟩ := pend p j hr
    obtain ⟨_, _, _, w0, w1⟩ := clear_slots_fields (other p)
    have hreg : slot_reg j ((execute_second s).heap p) = slot_reg j (s.heap p) := by
      cases j
      · exact w0
      · exact w1
    rw [hreg] at h0 h1
    rw [g2]
    obtain ⟨q, hq, e1, e2⟩ := h.slot p hp' j g1 h0 h1
    obtain ⟨v1, _, v3, _, _⟩ := clear_slots_fields (other q)
    rcases e2 with e2 | ⟨_, _, b, hb, hbf, hbt⟩
    · exact ⟨q, by simpa using hq, by rw [v1, e1], Or.inl (by rw [v3, e2])⟩
    · have := broadcast_hit j s b hb hbf p hp' (Or.inr hbt.symm)
      rw [← hheap, hr] at this
      cases this

theorem dispatch_one_tag (s : Sim) (x : Nat) (h : TagInv s) (hx1 : x ∉ s.scheduling_queue)
    (hx2 : (s.heap x).executed = false) : TagInv (dispatch_one s x) := by
  have hne : ∀ q ∈ s.scheduling_queue, q ≠ x := fun q hq e => hx1 (e ▸ hq)
  constructor
  · intro R h0 h1 hr
    simp only [dispatch_one, update_instr_dest_reg, update_instr_id] at hr ⊢
    by_cases hd : (s.heap x).dest_reg ≠ -1 ∧ R = (s.heap x).dest_reg
    · obtain ⟨d1, d2⟩ := hd
      refine ⟨x, by simp, ?_⟩
      simp only [if_true, update_instr_id, update_instr_dest_reg, update_instr_executed]
      rw [if_pos d1]
      simp [mapSet, d2, hx2]
    · have e : (if (s.heap x).dest_reg ≠ -1 then
          mapSet s.register_file (s.heap x).dest_reg
            { ready := false, tag := (s.heap x).id } else s.register_file) R =
          s.register_file R := by
        split
        · rename_i d1
          have : R ≠ (s.heap x).dest_reg := fun e => hd ⟨d1, e⟩
          simp [mapSet, this]
        · rfl
      rw [e] at hr ⊢
      obtain ⟨q, hq, e1, e2, e3⟩ := h.reg R h0 h1 hr
      exact ⟨q, by simp [hq], by simp only [if_neg (hne q hq)]; exact ⟨e1, e2, e3⟩⟩
  · intro p hp j hr h0 h1
    simp only [dispatch_one, List.mem_append, List.mem_singleton] at hp
    simp only [dispatch_one] at hr h0 h1 ⊢
    by_cases hpx : p = x
    · subst hpx
      simp only [if_true] at hr h0 h1 ⊢
      have hreg : slot_reg j (update_instr s.register_file (s.heap p)) =
          slot_reg j (s.heap p) := by
        cases j <;> simp [slot_reg]
      rw [hreg] at h0 h1
      have hm1 : slot_reg j (s.heap p) ≠ -1 := by omega
      obtain ⟨u1, u2⟩ := slot_update_instr j s.register_file (s.heap p) hm1
      rw [u1] at hr
      rw [u2 hr]
      obtain ⟨q, hq, e1, e2, e3⟩ := h.reg _ h0 h1 hr
      refine ⟨q, by simp [hq], ?_⟩
      simp only [if_neg (hne q hq)]
      exact ⟨e1, Or.inl e3⟩
    · have hp' : p ∈ s.scheduling_queue := hp.resolve_right hpx
      simp only [if_neg hpx] at hr h0 h1 ⊢
      obtain ⟨q, hq, e1, e2⟩ := h.slot p hp' j hr h0 h1
      refine ⟨q, by simp [hq], ?_⟩
      simp only [if_neg (hne q hq)]
      exact ⟨e1, e2⟩

theorem drain_tag (l : List Nat) (s : Sim) (hn : l.Nodup) (h : TagInv s)
    (hl : ∀ y ∈ l, y ∉ s.scheduling_queue ∧ (s.heap y).executed = false) :
    TagInv (drain s l) := by
  induction l generalizing s with
  | nil => exact ⟨h.reg, h.slot⟩
  | cons x rest ih =>
    unfold drain
    split
    · exact ⟨h.reg, h.slot⟩
    · rw [List.nodup_cons] at hn
      obtain ⟨hx1, hx2⟩ := hl x (List.mem_cons_self _ _)
      refine ih (dispatch_one s x) hn.2 (dispatch_one_tag s x h hx1 hx2) ?_
      intro y hy
      have hyx : y ≠ x := fun e => hn.1 (e ▸ hy)
      obtain ⟨hy1, hy2⟩ := hl y (List.mem_cons_of_mem _ hy)
      constructor
      · simp only [dispatch_one, List.mem_append, List.mem_singleton, not_or]
        exact ⟨hy1, hyx⟩
      · simp only [dispatch_one, if_neg hyx]
        exact hy2

theorem stage_fn_su_stamp (pc : Stage) (hpc : pc ≠ .su1) (s : Sim) (q : Nat)
    (hq : pc = .fd → q < s.all_instrs.length) :
    ((stage_fn pc s).heap q).cycle_status_update = (s.heap q).cycle_status_update := by
  refine stage_fn_field (fun i => i.cycle_status_update) pc s (fun _ _ _ => by simp)
    (fun _ _ => rfl) ?_ q hq
  intro i j hop
  cases hop with
  | retire _ _ _ => exact absurd rfl hpc
  | exec _ _ _ => rfl
  | sched => simp
  | fire _ _ _ => rfl
  | wake t => simp

theorem busy_zero_free (cdb : List proc_cdb_t) (h : busy cdb = 0) :
    ∀ b ∈ cdb, b.free = true := by
  intro b hb
  unfold busy at h
  rw [List.countP_eq_zero] at h
  have := h b hb
  simpa using this

theorem execute_first_body_queue (st : Sim) (p : Nat) :
    (execute_first_body st p).scheduling_queue = st.scheduling_queue := by
  unfold execute_first_body
  split
  · split <;> rfl
  · rfl

theorem tagInv_step {r k0 k1 k2 f : Nat} {trace : List trace_line} (pc : Stage) (s : Sim)
    (hr : Reach (setup_proc r k0 k1 k2 f trace) pc s) (h : TagInv s) :
    TagInv (stage_fn pc s) := by
  obtain ⟨a, hl⟩ := layout_reach hr
  have hlen : ∀ q ∈ s.scheduling_queue, q < s.all_instrs.length := by
    intro q hq
    have := hl.2.2.2.1 q hq
    rw [hl.2.1, List.length_range]
    have := hl.1
    omega
  have hfl := flagsOk_reach hr
  have hbus := busInv_reach hr
  have hts := tsOk_reach hr
  by_cases e1 : pc = .ex1
  · subst e1
    have key := foldl_inv
      (fun st : Sim => st.scheduling_queue = s.scheduling_queue ∧ TagInv st ∧
        (∀ q ∈ st.scheduling_queue, (st.heap q).cycle_status_update ≠ 0 →
          (st.heap q).cycle_execute ≠ 0))
      execute_first_body s.scheduling_queue
      (fun st p hp hs => by
        have := execute_first_body_tag st p (by rw [hs.1]; exact hp) hs.2
        exact ⟨(execute_first_body_queue st p).trans hs.1, this⟩) s
      ⟨rfl, h, fun q hq hn => ((hts.2 q (by
        rw [hl.2.1, List.mem_range]
        have := hlen q hq
        rw [hl.2.1, List.length_range] at this
        exact this)).retire_ge hn).1⟩
    exact key.2.1
  by_cases e2 : pc = .ex2
  · subst e2
    exact execute_second_tag s h
  by_cases e3 : pc = .di2
  · subst e3
    refine drain_tag s.dispatching_queue s ?_ h ?_
    · rw [hl.2.2.1]
      exact List.nodup_range' _ _
    · intro y hy
      refine ⟨layout_disjoint hl hy, ?_⟩
      have hfire := (fireOk_reach hr).2 y hy
      have hfo := (fireOk_reach hr).1 y
      by_contra hn
      have h1 := (hfl y).2 (by simpa using hn)
      have h2 := hfo.1 h1
      rw [hfire] at h2
      cases h2
  -- the other stages keep the watched fields
  have hsub : ∀ q ∈ (stage_fn pc s).scheduling_queue, q ∈ s.scheduling_queue := by
    intro q hq
    by_cases e4 : pc = .su2
    · subst e4
      simp only [stage_fn, state_update_second_queue] at hq
      exact List.mem_of_mem_filter hq
    · rw [stage_fn_scheduling_queue pc e4 e3 s] at hq
      exact hq
  have hkeep : ∀ q ∈ s.scheduling_queue, (s.heap q).cycle_status_update = 0 →
      q ∈ (stage_fn pc s).scheduling_queue := by
    intro q hq hz
    by_cases e4 : pc = .su2
    · subst e4
      simp only [stage_fn, state_update_second_queue]
      exact List.mem_filter.mpr ⟨hq, by simpa using hz⟩
    · rw [stage_fn_scheduling_queue pc e4 e3 s]
      exact hq
  refine tagInv_transfer s (stage_fn pc s) hsub hkeep hfl
    (stage_fn_register_file pc e1 e3 s)
    (fun q hq => stage_fn_tag_view pc e1 e2 e3 s q (fun _ => hlen q hq)) ?_ h
  by_cases hb : pc.busFree = true
  · exact Or.inl (busy_zero_free _ (hbus.free hb))
  · have n1 : pc ≠ .su1 := by intro e; subst e; exact hb rfl
    have n2 : pc ≠ .inc := by intro e; subst e; exact hb rfl
    exact Or.inr ⟨stage_fn_cdb pc e1 e2 s, stage_fn_cycle_count pc n2 s,
      fun q hq => ⟨stage_fn_cycle_execute pc e1 s q (fun _ => hlen q hq),
        stage_fn_su_stamp pc n1 s q (fun _ => hlen q hq)⟩⟩

theorem tagInv_reach {r k0 k1 k2 f : Nat} {trace : List trace_line} {pc : Stage} {s : Sim}
    (h : Reach (setup_proc r k0 k1 k2 f trace) pc s) : TagInv s := by
  refine Reach.induct_inv (fun _ s => TagInv s) ⟨?_, ?_⟩ (fun pc s hr ih => tagInv_step pc s hr ih) h
  · intro R h0 h1 hr
    simp [setup_proc, reg_init, h0, h1] at hr
  · intro p hp
    simp [setup_proc] at hp

/-- C19, as stated, fails: in the run on `trace_src64` (one bus, one unit per
class, fetch width 1), at the start of cycle 4 (30 stage transitions from
`setup_proc`) the windowed record 0 has a source slot that is not ready and
holds tag 0, the value-initialised tag of the never written
`register_file[64]`, and no windowed record has id 0. -/
theorem pending_tag_of_unwritten_register :
    (0 ∈ (run_stages 30 (.su1, setup_proc 1 1 1 1 1 trace_src64)).2.scheduling_queue ∧
      slot_ready false ((run_stages 30 (.su1, setup_proc 1 1 1 1 1 trace_src64)).2.heap 0)
        = false ∧
      slot_tag false ((run_stages 30 (.su1, setup_proc 1 1 1 1 1 trace_src64)).2.heap 0) = 0 ∧
      slot_reg false ((run_stages 30 (.su1, setup_proc 1 1 1 1 1 trace_src64)).2.heap 0) = 64) ∧
    ¬ ∃ q ∈ (run_stages 30 (.su1, setup_proc 1 1 1 1 1 trace_src64)).2.scheduling_queue,
      ((run_stages 30 (.su1, setup_proc 1 1 1 1 1 trace_src64)).2.heap q).id =
        slot_tag false ((run_stages 30 (.su1, setup_proc 1 1 1 1 1 trace_src64)).2.heap 0) := by
  decide

/-- C19, amended: in every reachable state, (1) if `register_file[R]` is not
ready with tag `T` for a register `R` in 0..63, then the window holds a
record with id `T` and destination `R` that has not executed; (2) if a
windowed record has a source slot that is not ready, reads a register in
0..63 and holds tag `T`, then the window holds a record with id `T` that has
not executed, or that received its execute stamp in the current cycle while
the run is between the first-half and the second-half `execute` of that
cycle (at `sc1`, `di1`, `su2` or `ex2`). -/
theorem no_dangling_tag (r k0 k1 k2 f : Nat) (trace : List trace_line) (pc : Stage) (s : Sim)
    (h : Reach (setup_proc r k0 k1 k2 f trace) pc s) :
    (∀ R : Int, 0 ≤ R → R < 64 → (s.register_file R).ready = false →
      ∃ q ∈ s.scheduling_queue, (s.heap q).id = (s.register_file R).tag ∧
        (s.heap q).dest_reg = R ∧ (s.heap q).executed = false) ∧
    (∀ p ∈ s.scheduling_queue, ∀ j : Bool, slot_ready j (s.heap p) = false →
      0 ≤ slot_reg j (s.heap p) → slot_reg j (s.heap p) < 64 →
      ∃ q ∈ s.scheduling_queue, (s.heap q).id = slot_tag j (s.heap p) ∧
        ((s.heap q).executed = false ∨
          ((s.heap q).cycle_execute = s.stats.cycle_count ∧
            (pc = .sc1 ∨ pc = .di1 ∨ pc = .su2 ∨ pc = .ex2)))) := by
  have ht := tagInv_reach h
  refine ⟨ht.reg, ?_⟩
  intro p hp j hr h0 h1
  obtain ⟨q, hq, e1, e2⟩ := ht.slot p hp j hr h0 h1
  refine ⟨q, hq, e1, ?_⟩
  rcases e2 with e2 | ⟨c1, _, b, hb, hbf, _⟩
  · exact Or.inl e2
  · refine Or.inr ⟨c1, ?_⟩
    have hfree := (busInv_reach h).free
    have hnb : pc.busFree ≠ true := by
      intro hbf2
      have := busy_zero_free _ (hfree hbf2) b hb
      rw [hbf] at this
      cases this
    have hnh : pc ≠ .halt := by
      intro e
      subst e
      have hfin := halt_finished h rfl
      obtain ⟨_, hret⟩ := (finished_inv _ rfl h).2 hfin
      obtain ⟨a, hc⟩ := conserve_reach h
      have hcount := hc.count
      have ha := hc.layout.1
      have hz : s.scheduling_queue.length = 0 := by omega
      rw [List.length_eq_zero] at hz
      rw [hz] at hq
      cases hq
    cases pc <;> simp [Stage.busFree] at hnb hnh ⊢

theorem no_dangling_tag_witness :
    ((∀ R : Int, 0 ≤ R → R < 64 → ((demo_dep 33).2.register_file R).ready = false →
      ∃ q ∈ (demo_dep 33).2.scheduling_queue,
        ((demo_dep 33).2.heap q).id = ((demo_dep 33).2.register_file R).tag ∧
        ((demo_dep 33).2.heap q).dest_reg = R ∧ ((demo_dep 33).2.heap q).executed = false) ∧
    (∀ p ∈ (demo_dep 33).2.scheduling_queue, ∀ j : Bool,
      slot_ready j ((demo_dep 33).2.heap p) = false →
      0 ≤ slot_reg j ((demo_dep 33).2.heap p) → slot_reg j ((demo_dep 33).2.heap p) < 64 →
      ∃ q ∈ (demo_dep 33).2.scheduling_queue,
        ((demo_dep 33).2.heap q).id = slot_tag j ((demo_dep 33).2.heap p) ∧
        (((demo_dep 33).2.heap q).executed = false ∨
          (((demo_dep 33).2.heap q).cycle_execute = (demo_dep 33).2.stats.cycle_count ∧
            ((demo_dep 33).1 = .sc1 ∨ (demo_dep 33).1 = .di1 ∨ (demo_dep 33).1 = .su2 ∨
              (demo_dep 33).1 = .ex2))))) ∧
    (demo_dep 33).1 = .di1 ∧ (demo_dep 33).2.scheduling_queue = [0, 1] ∧
    slot_ready false ((demo_dep 33).2.heap 1) = false ∧
    slot_tag false ((demo_dep 33).2.heap 1) = 1 ∧
    ((demo_dep 33).2.heap 0).executed = true ∧
    ((demo_dep 33).2.register_file 6) = { ready := false, tag := 2 } :=
  ⟨no_dangling_tag 1 1 1 1 1 trace_dep (demo_dep 33).1 (demo_dep 33).2 (demo_dep_reach 33),
    by decide, by decide, by decide, by decide, by decide, by decide⟩



/-- C17 (fails on the code): in the backup variant with one result bus, one
class-0 unit and fetch width 2, the two instructions of `trace_pair`, which
both write a register, both receive the execute timestamp 4.  The first-half
`execute` of cycle 4 (run on the state after three loop iterations) leaves the
only bus free: `find_free_cdb` marks a copy of the bus, not the bus. -/
theorem backup_two_writers_share_one_bus :
    (Bk.run_proc 20 (Bk.setup_proc 1 1 0 0 2 trace_pair)).map
      (fun s => ((s.heap 0).dest_reg, (s.heap 0).cycle_execute,
        (s.heap 1).dest_reg, (s.heap 1).cycle_execute, s.cdb.length)) = some (1, 4, 2, 4, 1) ∧
    (Bk.cycles 3 (Bk.setup_proc 1 1 0 0 2 trace_pair)).stats.cycle_count = 4 ∧
    (Bk.execute_first (Bk.state_update_first
      (Bk.cycles 3 (Bk.setup_proc 1 1 0 0 2 trace_pair)))).cdb =
      [{ free := true, reg := 0, tag := 0 }] ∧
    ((Bk.execute_first (Bk.state_update_first
      (Bk.cycles 3 (Bk.setup_proc 1 1 0 0 2 trace_pair)))).heap 0).cycle_execute = 4 ∧
    ((Bk.execute_first (Bk.state_update_first
      (Bk.cycles 3 (Bk.setup_proc 1 1 0 0 2 trace_pair)))).heap 1).cycle_execute = 4 := by
  decide

/-- C18: the two variants are not equivalent.  With `r = 1`, `k0 = 1`,
`k1 = k2 = 0`, `f = 2` and the two independent class-0 instructions of
`trace_pair`, both runs finish, and the second instruction (id 2) has the
execute timestamp 5 in the main variant and 4 in the backup variant. -/
theorem variants_differ_on_execute_stamp :
    ∃ (r k0 k1 k2 f : Nat) (trace : List trace_line) (n p id e1 e2 : Nat),
      (run_proc n (setup_proc r k0 k1 k2 f trace)).map
        (fun s => ((s.heap p).id, (s.heap p).cycle_execute)) = some (id, e1) ∧
      (Bk.run_proc n (Bk.setup_proc r k0 k1 k2 f trace)).map
        (fun s => ((s.heap p).id, (s.heap p).cycle_execute)) = some (id, e2) ∧
      e1 ≠ e2 :=
  ⟨1, 1, 0, 0, 2, trace_pair, 20, 1, 2, 5, 4, by decide, by decide, by decide⟩



/-! ## Termination: the progress measure -/

theorem stage_fn_all_instrs_ext (pc : Stage) (s : Sim) :
    ∃ ext, (stage_fn pc s).all_instrs = s.all_instrs ++ ext := by
  by_cases e : pc = .fd
  · subst e
    simp only [stage_fn, instr_fetch_and_decode]
    split
    · obtain ⟨k, h1, _, _⟩ := fetch_loop_queues s.cpu.f s
      exact ⟨_, h1⟩
    · exact ⟨[], by simp⟩
  · exact ⟨[], by rw [stage_fn_all_instrs pc e s]; simp⟩

theorem flag_count_mono (g : proc_inst_t → Bool)
    (hg : ∀ i j, InstLe i j → g i = true → g j = true) (pc : Stage) (s : Sim) (a : Nat)
    (hl : Layout s a) : flag_count s g ≤ flag_count (stage_fn pc s) g := by
  obtain ⟨ext, he⟩ := stage_fn_all_instrs_ext pc s
  unfold flag_count
  rw [he, List.countP_append]
  refine Nat.le_trans (List.countP_mono_left ?_) (Nat.le_add_right _ _)
  intro q hq hgq
  exact hg _ _ (stage_fn_instLe pc s q ((layout_mem_all hl q).mp hq)) hgq

theorem stage_fn_read_cnt_le (pc : Stage) (s : Sim) :
    s.cpu.read_cnt ≤ (stage_fn pc s).cpu.read_cnt := by
  by_cases e : pc = .fd
  · subst e
    simp only [stage_fn, instr_fetch_and_decode]
    split
    · obtain ⟨k, _, _, h3⟩ := fetch_loop_queues s.cpu.f s
      rw [h3]
      omega
    · exact Nat.le_refl _
  · rw [stage_fn_read_cnt pc e s]

theorem fetch_loop_read_finished (n : Nat) (s : Sim) (h : s.cpu.read_finished = true) :
    (fetch_loop n s).cpu.read_finished = true := by
  induction n generalizing s with
  | zero => exact h
  | succ n ih =>
    unfold fetch_loop
    split
    · rfl
    · exact ih _ h

theorem stage_fn_read_finished_le (pc : Stage) (s : Sim) (h : s.cpu.read_finished = true) :
    (stage_fn pc s).cpu.read_finished = true := by
  by_cases e : pc = .fd
  · subst e
    simp only [stage_fn, instr_fetch_and_decode]
    split
    · exact fetch_loop_read_finished _ s h
    · exact h
  · rw [stage_fn_read_finished pc e s]
    exact h

theorem stage_fn_window_le (pc : Stage) (s : Sim) :
    s.scheduling_queue.length + 2 * s.stats.retired_instruction ≤
      (stage_fn pc s).scheduling_queue.length +
        2 * (stage_fn pc s).stats.retired_instruction := by
  by_cases e1 : pc = .su2
  · subst e1
    have h1 := state_update_second_retired s
    have h2 : (state_update_second s).scheduling_queue.length ≤ s.scheduling_queue.length := by
      rw [state_update_second_queue]
      exact List.length_filter_le _ _
    simp only [stage_fn]
    omega
  · by_cases e2 : pc = .di2
    · subst e2
      obtain ⟨k, _, _, h2⟩ := drain_queues s.dispatching_queue s
      have h3 : (stage_fn .di2 s).scheduling_queue = s.scheduling_queue ++ _ := h2
      rw [stage_fn_retired .di2 (by decide) s, h3, List.length_append]
      omega
    · rw [stage_fn_retired pc e1 s, stage_fn_scheduling_queue pc e1 e2 s]

/-- No stage lowers the progress measure. -/
theorem progress_mono (pc : Stage) (s : Sim) (a : Nat) (hl : Layout s a) :
    progress s ≤ progress (stage_fn pc s) := by
  have h1 := stage_fn_read_cnt_le pc s
  have h2 := stage_fn_window_le pc s
  have h3 : (if s.cpu.read_finished = true then 1 else 0) ≤
      (if (stage_fn pc s).cpu.read_finished = true then 1 else 0) := by
    by_cases hf : s.cpu.read_finished = true
    · rw [if_pos hf, if_pos (stage_fn_read_finished_le pc s hf)]
    · rw [if_neg hf]
      exact Nat.zero_le _
  have h4 := flag_count_mono (fun i => i.fire) (fun _ _ hij => hij.fire) pc s a hl
  have h5 := flag_count_mono (fun i => i.fired) (fun _ _ hij => hij.fired) pc s a hl
  have h6 := flag_count_mono (fun i => i.executed) (fun _ _ hij => hij.executed) pc s a hl
  unfold progress
  omega

/-- A loop over a list makes progress if the body never lowers the measure
and the body run on the element `q` of the list, in a state that still
satisfies the condition `C`, raises the measure above `n`; the body run on
another element keeps `C` or raises the measure above `n` itself. -/
theorem foldl_progress {σ : Type} (Φ : σ → Nat) (body : σ → Nat → σ) (I C : σ → Prop)
    (n q : Nat) (l0 : List Nat)
    (hI : ∀ st p, p ∈ l0 → I st → I (body st p))
    (mono : ∀ st p, p ∈ l0 → I st → Φ st ≤ Φ (body st p))
    (hC : ∀ st p, p ∈ l0 → I st → C st → p ≠ q → C (body st p) ∨ n + 1 ≤ Φ (body st p))
    (hq : ∀ st, I st → C st → n + 1 ≤ Φ (body st q))
    (l : List Nat) (hl : ∀ p ∈ l, p ∈ l0) (hql : q ∈ l) (s : σ) (hs : I s)
    (hc : C s ∨ n + 1 ≤ Φ s) : n + 1 ≤ Φ (l.foldl body s) := by
  have keep : ∀ (l : List Nat), (∀ p ∈ l, p ∈ l0) → ∀ st, I st → n + 1 ≤ Φ st →
      n + 1 ≤ Φ (l.foldl body st) := by
    intro l hl st h1 h2
    exact (foldl_inv (fun x => I x ∧ n + 1 ≤ Φ x) body l
      (fun x p hp hx => ⟨hI x p (hl p hp) hx.1,
        Nat.le_trans hx.2 (mono x p (hl p hp) hx.1)⟩) st ⟨h1, h2⟩).2
  induction l generalizing s with
  | nil => cases hql
  | cons p rest ih =>
    simp only [List.foldl_cons]
    have hp0 := hl p (List.mem_cons_self _ _)
    have hrest : ∀ x ∈ rest, x ∈ l0 := fun x hx => hl x (List.mem_cons_of_mem _ hx)
    rcases hc with hc | hc
    · by_cases e : p = q
      · subst e
        exact keep rest hrest _ (hI s p hp0 hs) (hq s hs hc)
      · rcases hC s p hp0 hs hc e with h1 | h1
        · exact ih hrest ((List.mem_cons.mp hql).resolve_left (Ne.symm e)) _
            (hI s p hp0 hs) (Or.inl h1)
        · exact keep rest hrest _ (hI s p hp0 hs) h1
    · exact keep rest hrest _ (hI s p hp0 hs) (Nat.le_trans hc (mono s p hp0 hs))

theorem countP_set_true (g : proc_inst_t → Bool) (heap : Nat → proc_inst_t) (p : Nat)
    (i : proc_inst_t) (L : List Nat) (hn : L.Nodup) (hi : g i = true) :
    L.countP (fun q => g (heap q)) ≤ L.countP (fun q => g (if q = p then i else heap q)) ∧
    (p ∈ L → g (heap p) = false →
      L.countP (fun q => g (heap q)) + 1 = L.countP (fun q => g (if q = p then i else heap q))) := by
  by_cases hp : p ∈ L
  · have key := countP_update_in g heap p i L hn hp
    rw [hi] at key
    simp only [if_true] at key
    constructor
    · split at key <;> omega
    · intro _ hf
      rw [hf] at key
      simp only [Bool.false_eq_true, if_false] at key
      omega
  · rw [countP_update_notin g heap p i L hp]
    exact ⟨Nat.le_refl _, fun h => absurd h hp⟩

/-- With at least as many iterations as buses, the loop of `find_free_cdb`
finds a free bus if there is one. -/
theorem find_free_cdb_loop_finds (i : proc_inst_t) (cdb : List proc_cdb_t) (n : Nat)
    (hn : cdb.length ≤ n) (h : ∃ b ∈ cdb, b.free = true) :
    ∃ cdb1, find_free_cdb_loop i cdb n = some cdb1 := by
  induction cdb generalizing n with
  | nil =>
    obtain ⟨b, hb, _⟩ := h
    cases hb
  | cons c rest ih =>
    have hn0 : n ≠ 0 := by
      simp only [List.length_cons] at hn
      omega
    unfold find_free_cdb_loop
    rw [if_neg hn0]
    by_cases hc : c.free = true
    · exact ⟨_, by rw [if_pos hc]⟩
    · rw [if_neg hc]
      obtain ⟨b, hb, hbf⟩ := h
      have hb2 : b ∈ rest := by
        rcases List.mem_cons.mp hb with e | e
        · subst e
          exact absurd hbf hc
        · exact e
      obtain ⟨cdb1, h1⟩ := ih (n - 1) (by simp only [List.length_cons] at hn; omega)
        ⟨b, hb2, hbf⟩
      exact ⟨_, by rw [h1]; rfl⟩

/-- The iteration count of `find_free_cdb` for fewer than 2^31 buses. -/
theorem to_int_length (cdb : List proc_cdb_t) (hlen : cdb.length < 2147483648) :
    (to_int cdb.length).toNat = cdb.length := by
  rw [to_int_small _ hlen, Int.toNat_ofNat]

theorem find_free_cdb_finds (i : proc_inst_t) (cdb : List proc_cdb_t)
    (hlen : cdb.length < 2147483648)
    (h : ∃ b ∈ cdb, b.free = true) : ∃ cdb1, find_free_cdb i cdb = some cdb1 := by
  unfold find_free_cdb
  rw [to_int_length cdb hlen]
  exact find_free_cdb_loop_finds i cdb _ (Nat.le_refl _) h

theorem find_free_cdb_loop_zero (i : proc_inst_t) (cdb : List proc_cdb_t) :
    find_free_cdb_loop i cdb 0 = none := by
  cases cdb with
  | nil => rfl
  | cons c rest =>
    unfold find_free_cdb_loop
    rw [if_pos rfl]

/-- With 2^31 buses the narrowed size is negative and `find_free_cdb` finds no
bus. -/
theorem find_free_cdb_out_of_range (i : proc_inst_t) (cdb : List proc_cdb_t)
    (hlen : cdb.length = 2147483648) : find_free_cdb i cdb = none := by
  have h0 : (to_int 2147483648).toNat = 0 := by decide
  unfold find_free_cdb
  rw [hlen, h0]
  exact find_free_cdb_loop_zero i cdb

/-- The first-half `execute` changes nothing when `find_free_cdb` finds no
bus. -/
theorem execute_first_no_bus (s : Sim) (h : ∀ i, find_free_cdb i s.cdb = none) :
    execute_first s = s := by
  unfold execute_first
  refine foldl_inv (fun st => st = s) execute_first_body s.scheduling_queue ?_ s rfl
  intro st p _ hst
  subst hst
  unfold execute_first_body
  split
  · rw [h]
  · rfl

/-- The first-half `execute` executes at least one record when a windowed
record is fired and unexecuted and a bus is free. -/
theorem execute_first_progress (s : Sim) (q : Nat) (hq : q ∈ s.scheduling_queue)
    (hnd : s.all_instrs.Nodup) (hw : ∀ p ∈ s.scheduling_queue, p ∈ s.all_instrs)
    (hex : ∀ p ∈ s.scheduling_queue, (s.heap p).executed = true →
      (s.heap p).cycle_execute ≠ 0)
    (hcc : s.stats.cycle_count ≠ 0)
    (h1 : (s.heap q).fired = true) (h2 : (s.heap q).cycle_execute = 0)
    (hlen : s.cdb.length < 2147483648)
    (hbus : ∃ b ∈ s.cdb, b.free = true) :
    flag_count s (fun i => i.executed) + 1 ≤ flag_count (execute_first s) (fun i => i.executed) := by
  have key := foldl_progress
    (fun st : Sim => s.all_instrs.countP (fun x => (st.heap x).executed))
    execute_first_body
    (fun st => st.stats.cycle_count ≠ 0 ∧ (∀ p ∈ s.scheduling_queue,
      (st.heap p).executed = true → (st.heap p).cycle_execute ≠ 0) ∧
      st.cdb.length < 2147483648)
    (fun st => flag_count s (fun i => i.executed) ≤
        s.all_instrs.countP (fun x => (st.heap x).executed) ∧
      (st.heap q).fired = true ∧ (st.heap q).cycle_execute = 0 ∧ ∃ b ∈ st.cdb, b.free = true)
    (flag_count s (fun i => i.executed)) q s.scheduling_queue ?_ ?_ ?_ ?_
    s.scheduling_queue (fun _ hp => hp) hq s ⟨hcc, hex, hlen⟩
    (Or.inl ⟨Nat.le_refl _, h1, h2, hbus⟩)
  · simpa [flag_count] using key
  · intro st p _ hI
    unfold execute_first_body
    split
    · split
      · exact hI
      · rename_i cdb1 hfind
        refine ⟨hI.1, fun x hx => ?_, ?_⟩
        · by_cases e : x = p
          · subst e
            simp only [if_true]
            exact fun _ => hI.1
          · simp only [if_neg e]
            exact hI.2.1 x hx
        · show cdb1.length < 2147483648
          rw [(find_free_cdb_some _ _ _ hfind).1]
          exact hI.2.2
    · exact hI
  · intro st p _ _
    unfold execute_first_body
    split
    · split
      · exact Nat.le_refl _
      · exact (countP_set_true (fun i => i.executed) st.heap p _ s.all_instrs hnd rfl).1
    · exact Nat.le_refl _
  · intro st p hp hI hC hne
    unfold execute_first_body
    split
    · rename_i hc
      split
      · exact Or.inl hC
      · right
        have hnot : (st.heap p).executed = false := by
          by_contra hn
          exact hI.2.1 p hp (by simpa using hn) hc.2
        have := (countP_set_true (fun i => i.executed) st.heap p
          { st.heap p with cycle_execute := st.stats.cycle_count, executed := true }
          s.all_instrs hnd rfl).2 (hw p hp) hnot
        exact Nat.le_trans (Nat.succ_le_succ hC.1) (Nat.le_of_eq this)
    · exact Or.inl hC
  · intro st hI hC
    obtain ⟨c1, c2, c3, c4⟩ := hC
    obtain ⟨cdb1, hfind⟩ := find_free_cdb_finds (st.heap q) st.cdb hI.2.2 c4
    have hnot : (st.heap q).executed = false := by
      by_contra hn
      exact hI.2.1 q hq (by simpa using hn) c3
    have := (countP_set_true (fun i => i.executed) st.heap q
      { st.heap q with cycle_execute := st.stats.cycle_count, executed := true }
      s.all_instrs hnd rfl).2 (hw q hq) hnot
    unfold execute_first_body
    rw [if_pos ⟨c2, c3⟩, hfind]
    exact Nat.le_trans (Nat.succ_le_succ c1) (Nat.le_of_eq this)

theorem schedule_first_inst_fire (cc : Nat) (i : proc_inst_t) :
    (schedule_first_inst cc i).fire = (i.fire || instr_src_available i) := by
  unfold schedule_first_inst instr_src_available
  cases hf : i.fire <;> cases h0 : i.src_ready0 <;> cases h1 : i.src_ready1 <;>
    by_cases h2 : i.cycle_schedule = 0 <;> simp [h2, h0, h1, hf]

/-- The first-half `schedule` marks at least one record eligible when a
windowed record is not yet marked and has both sources ready. -/
theorem schedule_first_progress (s : Sim) (q : Nat) (hq : q ∈ s.scheduling_queue)
    (hnd : s.all_instrs.Nodup) (hw : ∀ p ∈ s.scheduling_queue, p ∈ s.all_instrs)
    (h1 : (s.heap q).fire = false) (h2 : (s.heap q).src_ready0 = true)
    (h3 : (s.heap q).src_ready1 = true) :
    flag_count s (fun i => i.fire) + 1 ≤ flag_count (schedule_first s) (fun i => i.fire) := by
  have key := foldl_progress
    (fun st : Sim => s.all_instrs.countP (fun x => (st.heap x).fire))
    schedule_first_body (fun _ => True)
    (fun st => flag_count s (fun i => i.fire) ≤
        s.all_instrs.countP (fun x => (st.heap x).fire) ∧
      (st.heap q).fire = false ∧ (st.heap q).src_ready0 = true ∧
      (st.heap q).src_ready1 = true)
    (flag_count s (fun i => i.fire)) q s.scheduling_queue ?_ ?_ ?_ ?_
    s.scheduling_queue (fun _ hp => hp) hq s trivial
    (Or.inl ⟨Nat.le_refl _, h1, h2, h3⟩)
  · unfold flag_count
    rw [schedule_first_all_instrs]
    exact key
  · intro _ _ _ _
    trivial
  · intro st p _ _
    refine List.countP_mono_left ?_
    intro x _ hx
    simp only [schedule_first_body, Sim.setInst]
    split
    · rename_i e
      subst e
      rw [schedule_first_inst_fire, hx]
      rfl
    · exact hx
  · intro st p _ _ hC hne
    left
    refine ⟨Nat.le_trans hC.1 (List.countP_mono_left ?_), ?_⟩
    · intro x _ hx
      simp only [schedule_first_body, Sim.setInst]
      split
      · rename_i e
        subst e
        rw [schedule_first_inst_fire, hx]
        rfl
      · exact hx
    · simp only [schedule_first_body, Sim.setInst, if_neg (Ne.symm hne)]
      exact hC.2
  · intro st _ hC
    obtain ⟨c1, c2, c3, c4⟩ := hC
    have hi : (schedule_first_inst st.stats.cycle_count (st.heap q)).fire = true := by
      rw [schedule_first_inst_fire]
      simp [instr_src_available, c3, c4]
    have := (countP_set_true (fun i => i.fire) st.heap q
      (schedule_first_inst st.stats.cycle_count (st.heap q)) s.all_instrs hnd hi).2
      (hw q hq) c2
    exact Nat.le_trans (Nat.succ_le_succ c1) (Nat.le_of_eq this)

/-- The second-half `schedule` fires at least one record when a windowed
record is eligible, not yet fired, and a unit of its class is free. -/
theorem schedule_second_progress (s : Sim) (q : Nat) (hq : q ∈ s.scheduling_queue)
    (hnd : s.all_instrs.Nodup) (hw : ∀ p ∈ s.scheduling_queue, p ∈ s.all_instrs)
    (h1 : (s.heap q).fire = true) (h2 : (s.heap q).fired = false)
    (h3 : s.fu_cnt (s.heap q).op_code ≠ 0) :
    flag_count s (fun i => i.fired) + 1 ≤ flag_count (schedule_second s) (fun i => i.fired) := by
  have key := foldl_progress
    (fun st : Sim => s.all_instrs.countP (fun x => (st.heap x).fired))
    schedule_second_body (fun _ => True)
    (fun st => flag_count s (fun i => i.fired) ≤
        s.all_instrs.countP (fun x => (st.heap x).fired) ∧
      (st.heap q).fire = true ∧ (st.heap q).fired = false ∧
      st.fu_cnt (st.heap q).op_code ≠ 0)
    (flag_count s (fun i => i.fired)) q s.scheduling_queue ?_ ?_ ?_ ?_
    s.scheduling_queue (fun _ hp => hp) hq s trivial
    (Or.inl ⟨Nat.le_refl _, h1, h2, h3⟩)
  · unfold flag_count
    rw [schedule_second_all_instrs]
    exact key
  · intro _ _ _ _
    trivial
  · intro st p _ _
    unfold schedule_second_body
    split
    · split
      · exact Nat.le_refl _
      · exact (countP_set_true (fun i => i.fired) st.heap p _ s.all_instrs hnd rfl).1
    · exact Nat.le_refl _
  · intro st p hp _ hC hne
    unfold schedule_second_body
    split
    · rename_i hc
      split
      · exact Or.inl hC
      · right
        have := (countP_set_true (fun i => i.fired) st.heap p
          { st.heap p with fired := true } s.all_instrs hnd rfl).2 (hw p hp) hc.2
        exact Nat.le_trans (Nat.succ_le_succ hC.1) (Nat.le_of_eq this)
    · exact Or.inl hC
  · intro st _ hC
    obtain ⟨c1, c2, c3, c4⟩ := hC
    have := (countP_set_true (fun i => i.fired) st.heap q
      { st.heap q with fired := true } s.all_instrs hnd rfl).2 (hw q hq) c3
    unfold schedule_second_body
    rw [if_pos ⟨c2, c3⟩, if_neg c4]
    exact Nat.le_trans (Nat.succ_le_succ c1) (Nat.le_of_eq this)

/-! ## Pending slots wait for older records -/

theorem execute_second_pending (s : Sim) (p : Nat) (j : Bool)
    (hr : slot_ready j ((execute_second s).heap p) = false) :
    slot_ready j (s.heap p) = false ∧
    slot_tag j ((execute_second s).heap p) = slot_tag j (s.heap p) ∧
    slot_reg j ((execute_second s).heap p) = slot_reg j (s.heap p) := by
  have hheap : (execute_second s).heap p = (update_instruction_from_cdb s).heap p := rfl
  have other : clear_slots ((execute_second s).heap p) = clear_slots (s.heap p) := by
    rw [hheap]
    exact update_from_cdb_pred (fun i => clear_slots i = clear_slots (s.heap p)) s
      (fun b _ _ i hi => (clear_slots_wake b.tag i).trans hi) p rfl
  obtain ⟨_, _, _, w0, w1⟩ := clear_slots_fields other
  have hreg : slot_reg j ((execute_second s).heap p) = slot_reg j (s.heap p) := by
    cases j
    · exact w0
    · exact w1
  rw [hheap] at hr ⊢
  by_cases h0 : slot_ready j (s.heap p) = true
  · have := update_from_cdb_pred (fun i => slot_ready j i = true ∧
      slot_tag j i = slot_tag j (s.heap p)) s
      (fun b _ _ i hi => slot_wake_ready j b.tag i _ hi) p ⟨h0, rfl⟩
    rw [this.1] at hr
    cases hr
  · have h0' : slot_ready j (s.heap p) = false := by simpa using h0
    have := update_from_cdb_pred (fun i => (slot_ready j i = false ∧
      slot_tag j i = slot_tag j (s.heap p)) ∨ (slot_ready j i = true ∧ slot_tag j i = 0)) s
      (fun b _ _ i hi => slot_wake_fresh j b.tag i _ hi) p (Or.inl ⟨h0', rfl⟩)
    rcases this with g | g
    · exact ⟨h0', g.2, hreg⟩
    · rw [g.1] at hr
      cases hr

theorem slot_update_instr_absent (j : Bool) (rf : Int → register_info_t) (i : proc_inst_t)
    (h : slot_reg j i = -1) : slot_ready j (update_instr rf i) = true := by
  cases j
  · simp only [slot_reg, slot_ready, cond_false] at h ⊢
    rw [update_instr_src_ready0]
    simp [h]
  · simp only [slot_reg, slot_ready, cond_true] at h ⊢
    rw [update_instr_src_ready1]
    simp [h]

theorem dispatch_one_older (s : Sim) (x : Nat) (ht : TagInv s) (h : SlotOlder s)
    (hx : ∀ q ∈ s.scheduling_queue, q < x)
    (hid : ∀ q ∈ s.scheduling_queue, (s.heap q).id = q + 1) :
    SlotOlder (dispatch_one s x) := by
  intro p hp j hr
  simp only [dispatch_one, List.mem_append, List.mem_singleton] at hp
  simp only [dispatch_one] at hr ⊢
  by_cases hpx : p = x
  · subst hpx
    simp only [if_true] at hr ⊢
    have hreg : slot_reg j (update_instr s.register_file (s.heap p)) =
        slot_reg j (s.heap p) := by
      cases j <;> simp [slot_reg]
    rw [hreg]
    have hm1 : slot_reg j (s.heap p) ≠ -1 := by
      intro e
      rw [slot_update_instr_absent j s.register_file (s.heap p) e] at hr
      cases hr
    refine ⟨hm1, fun h0 h1 => ?_⟩
    obtain ⟨u1, u2⟩ := slot_update_instr j s.register_file (s.heap p) hm1
    rw [u1] at hr
    rw [u2 hr]
    obtain ⟨q, hq, e1, _, _⟩ := ht.reg _ h0 h1 hr
    rw [← e1, hid q hq]
    have := hx q hq
    omega
  · have hp' : p ∈ s.scheduling_queue := hp.resolve_right hpx
    simp only [if_neg hpx] at hr ⊢
    exact h p hp' j hr

theorem drain_older (l : List Nat) (s : Sim) (hn : l.Pairwise (fun x y => x < y))
    (ht : TagInv s) (h : SlotOlder s)
    (hl : ∀ y ∈ l, (∀ q ∈ s.scheduling_queue, q < y) ∧ (s.heap y).executed = false ∧
      (s.heap y).id = y + 1)
    (hid : ∀ q ∈ s.scheduling_queue, (s.heap q).id = q + 1) :
    SlotOlder (drain s l) := by
  induction l generalizing s with
  | nil => exact h
  | cons x rest ih =>
    unfold drain
    split
    · exact h
    · rw [List.pairwise_cons] at hn
      obtain ⟨hx1, hx2, hx3⟩ := hl x (List.mem_cons_self _ _)
      have hxw : x ∉ s.scheduling_queue := fun e => Nat.lt_irrefl _ (hx1 x e)
      refine ih (dispatch_one s x) hn.2 (dispatch_one_tag s x ht hxw hx2)
        (dispatch_one_older s x ht h hx1 hid) ?_ ?_
      · intro y hy
        have hxy : x < y := hn.1 y hy
        have hyx : y ≠ x := by omega
        obtain ⟨hy1, hy2, hy3⟩ := hl y (List.mem_cons_of_mem _ hy)
        refine ⟨?_, ?_, ?_⟩
        · intro q hq
          simp only [dispatch_one, List.mem_append, List.mem_singleton] at hq
          rcases hq with hq | hq
          · exact hy1 q hq
          · rw [hq]; exact hxy
        · simp only [dispatch_one, if_neg hyx]
          exact hy2
        · simp only [dispatch_one, if_neg hyx]
          exact hy3
      · intro q hq
        simp only [dispatch_one, List.mem_append, List.mem_singleton] at hq
        simp only [dispatch_one]
        rcases hq with hq | hq
        · have : q ≠ x := fun e => hxw (e ▸ hq)
          simp only [if_neg this]
          exact hid q hq
        · subst hq
          simp only [if_true, update_instr_id]
          exact hx3

theorem slotOlder_step {r k0 k1 k2 f : Nat} {trace : List trace_line} (pc : Stage) (s : Sim)
    (hr : Reach (setup_proc r k0 k1 k2 f trace) pc s) (h : SlotOlder s) :
    SlotOlder (stage_fn pc s) := by
  obtain ⟨a, hc⟩ := conserve_reach hr
  have hl := hc.layout
  have hlen : ∀ q ∈ s.scheduling_queue, q < s.all_instrs.length := by
    intro q hq
    have := hl.2.2.2.1 q hq
    rw [hl.2.1, List.length_range]
    have := hl.1
    omega
  by_cases e2 : pc = .ex2
  · subst e2
    intro p hp j hr1
    have hp' : p ∈ s.scheduling_queue := by simpa [stage_fn] using hp
    obtain ⟨g1, g2, g3⟩ := execute_second_pending s p j hr1
    have g2' : slot_tag j ((stage_fn .ex2 s).heap p) = slot_tag j (s.heap p) := g2
    have g3' : slot_reg j ((stage_fn .ex2 s).heap p) = slot_reg j (s.heap p) := g3
    rw [g3', g2']
    exact h p hp' j g1
  by_cases e3 : pc = .di2
  · subst e3
    refine drain_older s.dispatching_queue s ?_ (tagInv_reach hr) h ?_ ?_
    · rw [hl.2.2.1]
      exact List.pairwise_lt_range' _ _
    · intro y hy
      have hy' := hy
      rw [hl.2.2.1, List.mem_range'_1] at hy'
      refine ⟨fun q hq => by have := hl.2.2.2.1 q hq; omega, ?_, hc.ids y (by omega)⟩
      have hfire := (fireOk_reach hr).2 y hy
      have hfo := (fireOk_reach hr).1 y
      by_contra hn
      have h1 := (flagsOk_reach hr y).2 (by simpa using hn)
      have h2 := hfo.1 h1
      rw [hfire] at h2
      cases h2
    · intro q hq
      have := hl.2.2.2.1 q hq
      exact hc.ids q (by have := hl.1; omega)
  intro p hp j hr1
  have hp' : p ∈ s.scheduling_queue := by
    by_cases e4 : pc = .su2
    · subst e4
      simp only [stage_fn, state_update_second_queue] at hp
      exact List.mem_of_mem_filter hp
    · rw [stage_fn_scheduling_queue pc e4 e3 s] at hp
      exact hp
  obtain ⟨v1, v2⟩ := stage_fn_slot j pc e2 e3 s p (fun _ => hlen p hp')
  have v3 : slot_reg j ((stage_fn pc s).heap p) = slot_reg j (s.heap p) := by
    have := (stage_fn_raw pc s p (hlen p hp')).1
    simp only [raw, trace_line.mk.injEq] at this
    cases j
    · exact this.2.1
    · exact this.2.2.1
  rw [v1] at hr1
  rw [v3, v2]
  exact h p hp' j hr1

theorem slotOlder_reach {r k0 k1 k2 f : Nat} {trace : List trace_line} {pc : Stage} {s : Sim}
    (h : Reach (setup_proc r k0 k1 k2 f trace) pc s) : SlotOlder s :=
  Reach.induct_inv (fun _ s => SlotOlder s)
    (fun p hp => by simp [setup_proc] at hp)
    (fun pc s hr ih => slotOlder_step pc s hr ih) h

/-! ## Progress of single stages -/

theorem execStamp_reach {r k0 k1 k2 f : Nat} {trace : List trace_line} {pc : Stage} {s : Sim}
    (h : Reach (setup_proc r k0 k1 k2 f trace) pc s) (q : Nat) :
    (s.heap q).cycle_execute ≠ 0 → (s.heap q).executed = true := by
  refine Reach.induct_inv
    (fun _ s => ∀ q, (s.heap q).cycle_execute ≠ 0 → (s.heap q).executed = true) ?_ ?_ h q
  · intro q
    simp [setup_proc, blank_inst]
  · intro pc s _ ih q
    refine record_inv_step (fun i => i.cycle_execute ≠ 0 → i.executed = true) ?_ ?_ ?_ ?_
      pc s q (ih q)
    · intro cc pc i j hop hi
      cases hop with
      | retire _ _ _ => exact hi
      | exec _ _ _ => exact fun _ => rfl
      | sched => simpa using hi
      | fire _ _ _ => exact hi
      | wake t => simpa using hi
    · intro i hi
      exact hi
    · intro rf i hi
      simpa using hi
    · intro t id cc
      simp [new_inst]

theorem stage_fn_fired (pc : Stage) (hpc : pc ≠ .sc2) (s : Sim) (q : Nat)
    (hq : pc = .fd → q < s.all_instrs.length) :
    ((stage_fn pc s).heap q).fired = (s.heap q).fired := by
  refine stage_fn_field (fun i => i.fired) pc s (fun _ _ _ => by simp)
    (fun _ _ => rfl) ?_ q hq
  intro i j hop
  cases hop with
  | retire _ _ _ => rfl
  | exec _ _ _ => rfl
  | sched => simp
  | fire _ _ _ => exact absurd rfl hpc
  | wake t => simp

theorem stage_fn_executed (pc : Stage) (hpc : pc ≠ .ex1) (s : Sim) (q : Nat)
    (hq : pc = .fd → q < s.all_instrs.length) :
    ((stage_fn pc s).heap q).executed = (s.heap q).executed := by
  refine stage_fn_field (fun i => i.executed) pc s (fun _ _ _ => by simp)
    (fun _ _ => rfl) ?_ q hq
  intro i j hop
  cases hop with
  | retire _ _ _ => rfl
  | exec _ _ _ => exact absurd rfl hpc
  | sched => simp
  | fire _ _ _ => rfl
  | wake t => simp

theorem state_update_first_body_stamp (st : Sim) (x p : Nat) :
    ((state_update_first_body st x).heap p).cycle_status_update =
      if p = x ∧ (st.heap p).executed = true ∧ (st.heap p).cycle_status_update = 0
      then st.stats.cycle_count else (st.heap p).cycle_status_update := by
  unfold state_update_first_body Sim.setInst
  by_cases e : p = x
  · subst e
    by_cases hc : (st.heap p).executed = true ∧ (st.heap p).cycle_status_update = 0
    · rw [if_pos hc, if_pos ⟨rfl, hc⟩]
      simp
    · rw [if_neg hc, if_neg (fun h => hc h.2)]
  · have hr : ¬ (p = x ∧ (st.heap p).executed = true ∧
        (st.heap p).cycle_status_update = 0) := fun h => e h.1
    by_cases hc : (st.heap x).executed = true ∧ (st.heap x).cycle_status_update = 0
    · simp only [if_pos hc, if_neg e, if_neg hr]
    · simp only [if_neg hc, if_neg hr]

/-- The first-half `state_update` stamps every executed record of the window. -/
theorem state_update_first_hit (s : Sim) (p : Nat) (hp : p ∈ s.scheduling_queue)
    (hex : (s.heap p).executed = true) (hcc : s.stats.cycle_count ≠ 0) :
    ((state_update_first s).heap p).cycle_status_update ≠ 0 := by
  unfold state_update_first
  have keep : ∀ (l : List Nat) (st : Sim), st.stats.cycle_count = s.stats.cycle_count →
      (st.heap p).cycle_status_update ≠ 0 →
      ((l.foldl state_update_first_body st).heap p).cycle_status_update ≠ 0 := by
    intro l st h1 h2
    refine (foldl_inv (fun x : Sim => x.stats.cycle_count = s.stats.cycle_count ∧
      (x.heap p).cycle_status_update ≠ 0) state_update_first_body l ?_ st ⟨h1, h2⟩).2
    intro x y _ hx
    refine ⟨(state_update_first_body_cc x y).trans hx.1, ?_⟩
    rw [state_update_first_body_stamp]
    split
    · rw [hx.1]; exact hcc
    · exact hx.2
  have key : ∀ (l : List Nat) (st : Sim), st.stats.cycle_count = s.stats.cycle_count →
      p ∈ l → (st.heap p).executed = true →
      ((l.foldl state_update_first_body st).heap p).cycle_status_update ≠ 0 := by
    intro l
    induction l with
    | nil => intro st _ hm; cases hm
    | cons x rest ih =>
      intro st hst hm g
      simp only [List.foldl_cons]
      by_cases e : p = x
      · subst e
        refine keep rest _ ((state_update_first_body_cc st p).trans hst) ?_
        rw [state_update_first_body_stamp]
        split
        · rw [hst]; exact hcc
        · rename_i hn
          intro hz
          exact hn ⟨rfl, g, hz⟩
      · refine ih _ ((state_update_first_body_cc st x).trans hst)
          ((List.mem_cons.mp hm).resolve_left e) ?_
        have : (state_update_first_body st x).heap p = st.heap p := by
          unfold state_update_first_body Sim.setInst
          split
          · simp only [if_neg e]
          · rfl
        rw [this]
        exact g
  exact key _ s rfl hp hex

theorem progress_parts (pc : Stage) (s : Sim) (a : Nat) (hl : Layout s a) :
    s.cpu.read_cnt ≤ (stage_fn pc s).cpu.read_cnt ∧
    s.scheduling_queue.length + 2 * s.stats.retired_instruction ≤
      (stage_fn pc s).scheduling_queue.length +
        2 * (stage_fn pc s).stats.retired_instruction ∧
    (if s.cpu.read_finished = true then 1 else 0) ≤
      (if (stage_fn pc s).cpu.read_finished = true then 1 else 0) ∧
    flag_count s (fun i => i.fire) ≤ flag_count (stage_fn pc s) (fun i => i.fire) ∧
    flag_count s (fun i => i.fired) ≤ flag_count (stage_fn pc s) (fun i => i.fired) ∧
    flag_count s (fun i => i.executed) ≤ flag_count (stage_fn pc s) (fun i => i.executed) := by
  refine ⟨stage_fn_read_cnt_le pc s, stage_fn_window_le pc s, ?_,
    flag_count_mono (fun i => i.fire) (fun _ _ hij => hij.fire) pc s a hl,
    flag_count_mono (fun i => i.fired) (fun _ _ hij => hij.fired) pc s a hl,
    flag_count_mono (fun i => i.executed) (fun _ _ hij => hij.executed) pc s a hl⟩
  by_cases hf : s.cpu.read_finished = true
  · rw [if_pos hf, if_pos (stage_fn_read_finished_le pc s hf)]
  · rw [if_neg hf]
    exact Nat.zero_le _

theorem retire_progress (s : Sim) (a : Nat) (hl : Layout s a) (q : Nat)
    (hq : q ∈ s.scheduling_queue) (hsu : (s.heap q).cycle_status_update ≠ 0) :
    progress s + 1 ≤ progress (stage_fn .su2 s) := by
  obtain ⟨p1, _, p3, p4, p5, p6⟩ := progress_parts .su2 s a hl
  have h1 := state_update_second_retired s
  have h2 : (state_update_second s).scheduling_queue.length < s.scheduling_queue.length := by
    rw [state_update_second_queue, List.length_filter_lt_length_iff_exists]
    exact ⟨q, hq, by simpa using hsu⟩
  unfold progress
  simp only [stage_fn] at p1 p3 p4 p5 p6 ⊢
  omega

theorem move_progress (s : Sim) (a : Nat) (hl : Layout s a) (p : Nat) (rest : List Nat)
    (hdq : s.dispatching_queue = p :: rest) (hres : (s.heap p).reserved = true) :
    progress s + 1 ≤ progress (stage_fn .di2 s) := by
  obtain ⟨p1, _, p3, p4, p5, p6⟩ := progress_parts .di2 s a hl
  have h1 := (drain_spec s.dispatching_queue s).1
  have h2 : (stage_fn .di2 s).scheduling_queue.length ≥ s.scheduling_queue.length + 1 := by
    show (drain s s.dispatching_queue).scheduling_queue.length ≥ _
    rw [h1, hdq, List.takeWhile_cons, if_pos hres, List.length_append, List.length_cons]
    omega
  have h3 := stage_fn_retired .di2 (by decide) s
  unfold progress
  omega

theorem fetch_progress (s : Sim) (a : Nat) (hl : Layout s a)
    (hrf : s.cpu.read_finished = false) (hf : 1 ≤ s.cpu.f) :
    progress s + 1 ≤ progress (stage_fn .fd s) := by
  obtain ⟨p1, p2, p3, p4, p5, p6⟩ := progress_parts .fd s a hl
  have e : stage_fn .fd s = fetch_loop s.cpu.f s := by
    simp only [stage_fn, instr_fetch_and_decode, hrf, if_true]
  obtain ⟨_, _, _, _, h5, _, h7⟩ := fetch_loop_spec s.cpu.f s
  rw [← e] at h5 h7
  unfold progress
  by_cases ht : s.trace.length = 0
  · have : (stage_fn .fd s).cpu.read_finished = true := h7.mpr (Or.inr (by omega))
    rw [this, hrf]
    simp only [if_true, Bool.false_eq_true, if_false]
    omega
  · have : 1 ≤ min s.cpu.f s.trace.length := by omega
    omega

theorem execute_progress {r k0 k1 k2 f : Nat} {trace : List trace_line} (hr : 1 ≤ r)
    (hr2 : r < 2147483648) (s : Sim)
    (h : Reach (setup_proc r k0 k1 k2 f trace) .ex1 s) (q : Nat)
    (hq : q ∈ s.scheduling_queue) (h1 : (s.heap q).fired = true)
    (h2 : (s.heap q).cycle_execute = 0) :
    progress s + 1 ≤ progress (stage_fn .ex1 s) := by
  obtain ⟨a, hl⟩ := layout_reach h
  obtain ⟨p1, p2, p3, p4, p5, _⟩ := progress_parts .ex1 s a hl
  have hts := tsOk_reach h
  have hb := busInv_reach h
  have hw : ∀ p ∈ s.scheduling_queue, p ∈ s.all_instrs := by
    intro p hp
    rw [hl.2.1, List.mem_range]
    have := hl.2.2.2.1 p hp
    have := hl.1
    omega
  have hbus : ∃ b ∈ s.cdb, b.free = true := by
    have hlen := hb.len
    cases hc : s.cdb with
    | nil => rw [hc] at hlen; simp at hlen; omega
    | cons b rest =>
      exact ⟨b, List.mem_cons_self _ _,
        busy_zero_free _ (hb.free rfl) b (by rw [hc]; exact List.mem_cons_self _ _)⟩
  have key := execute_first_progress s q hq (layout_nodup hl) hw
    (fun p hp => (hts.2 p (hw p hp)).executed_stamp) (by have := hts.1; omega) h1 h2
    (by rw [hb.len]; exact hr2) hbus
  have key2 : flag_count s (fun i => i.executed) + 1 ≤
      flag_count (stage_fn .ex1 s) (fun i => i.executed) := key
  unfold progress
  omega

theorem sched_progress {r k0 k1 k2 f : Nat} {trace : List trace_line} (s : Sim)
    (h : Reach (setup_proc r k0 k1 k2 f trace) .sc1 s) (q : Nat)
    (hq : q ∈ s.scheduling_queue) (h1 : (s.heap q).fire = false)
    (h2 : (s.heap q).src_ready0 = true) (h3 : (s.heap q).src_ready1 = true) :
    progress s + 1 ≤ progress (stage_fn .sc1 s) := by
  obtain ⟨a, hl⟩ := layout_reach h
  obtain ⟨p1, p2, p3, _, p5, p6⟩ := progress_parts .sc1 s a hl
  have hw : ∀ p ∈ s.scheduling_queue, p ∈ s.all_instrs := by
    intro p hp
    rw [hl.2.1, List.mem_range]
    have := hl.2.2.2.1 p hp
    have := hl.1
    omega
  have key : flag_count s (fun i => i.fire) + 1 ≤
      flag_count (stage_fn .sc1 s) (fun i => i.fire) :=
    schedule_first_progress s q hq (layout_nodup hl) hw h1 h2 h3
  unfold progress
  omega

theorem fire_progress {r k0 k1 k2 f : Nat} {trace : List trace_line} (s : Sim)
    (h : Reach (setup_proc r k0 k1 k2 f trace) .sc2 s) (q : Nat)
    (hq : q ∈ s.scheduling_queue) (h1 : (s.heap q).fire = true)
    (h2 : (s.heap q).fired = false) (h3 : s.fu_cnt (s.heap q).op_code ≠ 0) :
    progress s + 1 ≤ progress (stage_fn .sc2 s) := by
  obtain ⟨a, hl⟩ := layout_reach h
  obtain ⟨p1, p2, p3, p4, _, p6⟩ := progress_parts .sc2 s a hl
  have hw : ∀ p ∈ s.scheduling_queue, p ∈ s.all_instrs := by
    intro p hp
    rw [hl.2.1, List.mem_range]
    have := hl.2.2.2.1 p hp
    have := hl.1
    omega
  have key : flag_count s (fun i => i.fired) + 1 ≤
      flag_count (stage_fn .sc2 s) (fun i => i.fired) :=
    schedule_second_progress s q hq (layout_nodup hl) hw h1 h2 h3
  unfold progress
  omega

/-! ## Fields kept along a sequence of stages -/

theorem stages_keep {γ : Type} (g : Sim → γ) (pcs : List Stage)
    (hg : ∀ pc ∈ pcs, ∀ s, g (stage_fn pc s) = g s) (s : Sim) :
    g (pcs.foldl (fun st pc => stage_fn pc st) s) = g s := by
  induction pcs generalizing s with
  | nil => rfl
  | cons pc rest ih =>
    simp only [List.foldl_cons]
    rw [ih (fun pc2 h2 => hg pc2 (List.mem_cons_of_mem _ h2)), hg pc (List.mem_cons_self _ _)]

theorem stages_window (pcs : List Stage) (h1 : Stage.su2 ∉ pcs) (h2 : Stage.di2 ∉ pcs) (s : Sim) :
    (pcs.foldl (fun st pc => stage_fn pc st) s).scheduling_queue = s.scheduling_queue :=
  stages_keep (fun x => x.scheduling_queue) pcs
    (fun pc hpc s => stage_fn_scheduling_queue pc (fun e => h1 (e ▸ hpc))
      (fun e => h2 (e ▸ hpc)) s) s

theorem stages_dq (pcs : List Stage) (h1 : Stage.fd ∉ pcs) (h2 : Stage.di2 ∉ pcs) (s : Sim) :
    (pcs.foldl (fun st pc => stage_fn pc st) s).dispatching_queue = s.dispatching_queue :=
  stages_keep (fun x => x.dispatching_queue) pcs
    (fun pc hpc s => stage_fn_dispatching_queue pc (fun e => h1 (e ▸ hpc))
      (fun e => h2 (e ▸ hpc)) s) s

theorem stages_read_finished (pcs : List Stage) (h1 : Stage.fd ∉ pcs) (s : Sim) :
    (pcs.foldl (fun st pc => stage_fn pc st) s).cpu.read_finished = s.cpu.read_finished :=
  stages_keep (fun x => x.cpu.read_finished) pcs
    (fun pc hpc s => stage_fn_read_finished pc (fun e => h1 (e ▸ hpc)) s) s

theorem stages_fired (pcs : List Stage) (h1 : Stage.fd ∉ pcs) (h2 : Stage.sc2 ∉ pcs) (q : Nat)
    (s : Sim) :
    ((pcs.foldl (fun st pc => stage_fn pc st) s).heap q).fired = (s.heap q).fired :=
  stages_keep (fun x => (x.heap q).fired) pcs
    (fun pc hpc s => stage_fn_fired pc (fun e => h2 (e ▸ hpc)) s q
      (fun e => absurd (e ▸ hpc) h1)) s

theorem stages_fire (pcs : List Stage) (h1 : Stage.fd ∉ pcs) (h2 : Stage.sc1 ∉ pcs) (q : Nat)
    (s : Sim) :
    ((pcs.foldl (fun st pc => stage_fn pc st) s).heap q).fire = (s.heap q).fire :=
  stages_keep (fun x => (x.heap q).fire) pcs
    (fun pc hpc s => stage_fn_fire pc (fun e => h2 (e ▸ hpc)) s q
      (fun e => absurd (e ▸ hpc) h1)) s

theorem stages_executed (pcs : List Stage) (h1 : Stage.fd ∉ pcs) (h2 : Stage.ex1 ∉ pcs)
    (q : Nat) (s : Sim) :
    ((pcs.foldl (fun st pc => stage_fn pc st) s).heap q).executed = (s.heap q).executed :=
  stages_keep (fun x => (x.heap q).executed) pcs
    (fun pc hpc s => stage_fn_executed pc (fun e => h2 (e ▸ hpc)) s q
      (fun e => absurd (e ▸ hpc) h1)) s

theorem stages_cycle_execute (pcs : List Stage) (h1 : Stage.fd ∉ pcs) (h2 : Stage.ex1 ∉ pcs)
    (q : Nat) (s : Sim) :
    ((pcs.foldl (fun st pc => stage_fn pc st) s).heap q).cycle_execute =
      (s.heap q).cycle_execute :=
  stages_keep (fun x => (x.heap q).cycle_execute) pcs
    (fun pc hpc s => stage_fn_cycle_execute pc (fun e => h2 (e ▸ hpc)) s q
      (fun e => absurd (e ▸ hpc) h1)) s

theorem stages_su_stamp (pcs : List Stage) (h1 : Stage.fd ∉ pcs) (h2 : Stage.su1 ∉ pcs)
    (q : Nat) (s : Sim) :
    ((pcs.foldl (fun st pc => stage_fn pc st) s).heap q).cycle_status_update =
      (s.heap q).cycle_status_update :=
  stages_keep (fun x => (x.heap q).cycle_status_update) pcs
    (fun pc hpc s => stage_fn_su_stamp pc (fun e => h2 (e ▸ hpc)) s q
      (fun e => absurd (e ▸ hpc) h1)) s

theorem stages_op_code (pcs : List Stage) (h1 : Stage.fd ∉ pcs) (q : Nat) (s : Sim) :
    ((pcs.foldl (fun st pc => stage_fn pc st) s).heap q).op_code = (s.heap q).op_code :=
  stages_keep (fun x => (x.heap q).op_code) pcs
    (fun pc hpc s => by
      refine stage_fn_field (fun i => i.op_code) pc s (fun _ _ _ => by simp) (fun _ _ => rfl)
        ?_ q (fun e => absurd (e ▸ hpc) h1)
      intro i j hop
      cases hop with
      | retire _ _ _ => rfl
      | exec _ _ _ => rfl
      | sched => simp
      | fire _ _ _ => rfl
      | wake t => simp) s

theorem stages_reserved (pcs : List Stage) (h1 : Stage.fd ∉ pcs) (h2 : Stage.di1 ∉ pcs)
    (q : Nat) (s : Sim) :
    ((pcs.foldl (fun st pc => stage_fn pc st) s).heap q).reserved = (s.heap q).reserved :=
  stages_keep (fun x => (x.heap q).reserved) pcs
    (fun pc hpc s => by
      refine stage_fn_field (fun i => i.reserved) pc s (fun _ _ _ => by simp)
        (fun e => absurd (e ▸ hpc) h2) ?_ q (fun e => absurd (e ▸ hpc) h1)
      intro i j hop
      cases hop with
      | retire _ _ _ => rfl
      | exec _ _ _ => rfl
      | sched => simp
      | fire _ _ _ => rfl
      | wake t => simp) s

theorem stages_slots (pcs : List Stage) (h1 : Stage.fd ∉ pcs) (h2 : Stage.ex2 ∉ pcs)
    (h3 : Stage.di2 ∉ pcs) (q : Nat) (s : Sim) :
    ((pcs.foldl (fun st pc => stage_fn pc st) s).heap q).src_ready0 = (s.heap q).src_ready0 ∧
    ((pcs.foldl (fun st pc => stage_fn pc st) s).heap q).src_ready1 = (s.heap q).src_ready1 := by
  have := stages_keep (fun x => ((x.heap q).src_ready0, (x.heap q).src_ready1)) pcs
    (fun pc hpc s => by
      have g0 := (stage_fn_slot false pc (fun e => h2 (e ▸ hpc)) (fun e => h3 (e ▸ hpc)) s q
        (fun e => absurd (e ▸ hpc) h1)).1
      have g1 := (stage_fn_slot true pc (fun e => h2 (e ▸ hpc)) (fun e => h3 (e ▸ hpc)) s q
        (fun e => absurd (e ▸ hpc) h1)).1
      simp only [slot_ready, cond_false, cond_true] at g0 g1
      exact Prod.ext g0 g1) s
  simp only [Prod.mk.injEq] at this
  exact this

theorem stages_progress {r k0 k1 k2 f : Nat} {trace : List trace_line} (pc : Stage) (s : Sim)
    (h : Reach (setup_proc r k0 k1 k2 f trace) pc s) :
    progress s ≤ progress (stage_fn pc s) := by
  obtain ⟨a, hl⟩ := layout_reach h
  exact progress_mono pc s a hl

theorem stages_instLe (pcs : List Stage) (h1 : Stage.fd ∉ pcs) (q : Nat) (s : Sim)
    (hq : q < s.all_instrs.length) :
    InstLe (s.heap q) ((pcs.foldl (fun st pc => stage_fn pc st) s).heap q) := by
  induction pcs generalizing s with
  | nil => exact instLe_refl _
  | cons pc rest ih =>
    simp only [List.foldl_cons]
    have hpc : pc ≠ .fd := fun e => h1 (e ▸ List.mem_cons_self _ _)
    refine instLe_trans (stage_fn_instLe pc s q hq)
      (ih (fun e => h1 (List.mem_cons_of_mem _ e)) _ ?_)
    rw [stage_fn_all_instrs pc hpc s]
    exact hq

theorem state_update_second_finishes (s : Sim) (hw : s.scheduling_queue = [])
    (hrf : s.cpu.read_finished = true)
    (hret : s.stats.retired_instruction = s.cpu.read_cnt) :
    (state_update_second s).cpu.finished = true := by
  simp [state_update_second, sweep, hw, hrf, hret]

theorem cycle_stages (s : Sim) (hfin : s.cpu.finished = false) :
    cycle s = if (stage_fn .su2 (stage_fn .di1 (stage_fn .sc1 (stage_fn .ex1 (stage_fn .su1 s))))).cpu.finished = true then (stage_fn .su2 (stage_fn .di1 (stage_fn .sc1 (stage_fn .ex1 (stage_fn .su1 s))))) else (stage_fn .inc (stage_fn .fd (stage_fn .di2 (stage_fn .sc2 (stage_fn .ex2 (stage_fn .su2 (stage_fn .di1 (stage_fn .sc1 (stage_fn .ex1 (stage_fn .su1 s)))))))))) := by
  simp [cycle, stage_fn, hfin]


/-- In an unfinished cycle of a run with at least one bus, fetch width at
least 1, at least one unit per class, a configuration within the `int` range
and a well-formed trace, the loop exits or the progress measure grows. -/
theorem cycle_progress {r k0 k1 k2 f : Nat} {trace : List trace_line} (hr : 1 ≤ r)
    (hr2 : r < 2147483648)
    (hf : 1 ≤ f) (hk0 : 1 ≤ k0) (hk1 : 1 ≤ k1) (hk2 : 1 ≤ k2)
    (hk : k0 + k1 + k2 < 1073741824)
    (hwf : ∀ t ∈ trace, WellFormed t) (s : Sim)
    (h : Reach (setup_proc r k0 k1 k2 f trace) .su1 s) (hfin : s.cpu.finished = false) :
    (cycle s).cpu.finished = true ∨ progress s + 1 ≤ progress (cycle s) := by
  rw [cycle_stages s hfin]
  by_cases h5 : (stage_fn .su2 (stage_fn .di1 (stage_fn .sc1 (stage_fn .ex1 (stage_fn .su1 s))))).cpu.finished = true
  · rw [if_pos h5]
    exact Or.inl h5
  rw [if_neg h5]
  right
  have h5f : (stage_fn .su2 (stage_fn .di1 (stage_fn .sc1 (stage_fn .ex1 (stage_fn .su1 s))))).cpu.finished = false := by simpa using h5
  have e1 : stage_fn .su1 s = state_update_first s := by simp [stage_fn, hfin]
  -- the states of the cycle are reachable
  have R1 : Reach (setup_proc r k0 k1 k2 f trace) .ex1 (stage_fn .su1 s) := by
    have := Reach.step h
    simpa [next_stage, hfin] using this
  have R2 : Reach (setup_proc r k0 k1 k2 f trace) .sc1 (stage_fn .ex1 (stage_fn .su1 s)) := Reach.step R1
  have R3 : Reach (setup_proc r k0 k1 k2 f trace) .di1 (stage_fn .sc1 (stage_fn .ex1 (stage_fn .su1 s))) := Reach.step R2
  have R4 : Reach (setup_proc r k0 k1 k2 f trace) .su2 (stage_fn .di1 (stage_fn .sc1 (stage_fn .ex1 (stage_fn .su1 s)))) := Reach.step R3
  have R5 : Reach (setup_proc r k0 k1 k2 f trace) .ex2 (stage_fn .su2 (stage_fn .di1 (stage_fn .sc1 (stage_fn .ex1 (stage_fn .su1 s))))) := by
    have := Reach.step R4
    have h5' : (state_update_second (stage_fn .di1 (stage_fn .sc1 (stage_fn .ex1 (stage_fn .su1 s))))).cpu.finished = false := h5f
    simpa [next_stage, h5'] using this
  have R6 : Reach (setup_proc r k0 k1 k2 f trace) .sc2 (stage_fn .ex2 (stage_fn .su2 (stage_fn .di1 (stage_fn .sc1 (stage_fn .ex1 (stage_fn .su1 s)))))) := Reach.step R5
  have R7 : Reach (setup_proc r k0 k1 k2 f trace) .di2 (stage_fn .sc2 (stage_fn .ex2 (stage_fn .su2 (stage_fn .di1 (stage_fn .sc1 (stage_fn .ex1 (stage_fn .su1 s))))))) := Reach.step R6
  have R8 : Reach (setup_proc r k0 k1 k2 f trace) .fd (stage_fn .di2 (stage_fn .sc2 (stage_fn .ex2 (stage_fn .su2 (stage_fn .di1 (stage_fn .sc1 (stage_fn .ex1 (stage_fn .su1 s)))))))) := Reach.step R7
  have R9 : Reach (setup_proc r k0 k1 k2 f trace) .inc (stage_fn .fd (stage_fn .di2 (stage_fn .sc2 (stage_fn .ex2 (stage_fn .su2 (stage_fn .di1 (stage_fn .sc1 (stage_fn .ex1 (stage_fn .su1 s))))))))) := Reach.step R8
  -- no stage lowers the measure
  have M1 := stages_progress .su1 s h
  have M2 := stages_progress .ex1 _ R1
  have M3 := stages_progress .sc1 _ R2
  have M4 := stages_progress .di1 _ R3
  have M5 := stages_progress .su2 _ R4
  have M6 := stages_progress .ex2 _ R5
  have M7 := stages_progress .sc2 _ R6
  have M8 := stages_progress .di2 _ R7
  have M9 := stages_progress .fd _ R8
  have M10 := stages_progress .inc _ R9
  obtain ⟨a, hc⟩ := conserve_reach h
  have hl := hc.layout
  have hcc : s.stats.cycle_count ≠ 0 := by
    have := (tsOk_reach h).1
    omega
  have hlt : ∀ q ∈ s.scheduling_queue, q < s.cpu.read_cnt := by
    intro q hq
    have := hl.2.2.2.1 q hq
    have := hl.1
    omega
  have hlen : ∀ q ∈ s.scheduling_queue, q < s.all_instrs.length := by
    intro q hq
    rw [layout_len hl]
    exact hlt q hq
  have w1 : (stage_fn .su1 s).scheduling_queue = s.scheduling_queue :=
    stages_window [.su1] (by decide) (by decide) s
  have w2 : (stage_fn .ex1 (stage_fn .su1 s)).scheduling_queue = s.scheduling_queue :=
    stages_window [.su1, .ex1] (by decide) (by decide) s
  have w3 : (stage_fn .sc1 (stage_fn .ex1 (stage_fn .su1 s))).scheduling_queue = s.scheduling_queue :=
    stages_window [.su1, .ex1, .sc1] (by decide) (by decide) s
  have w4 : (stage_fn .di1 (stage_fn .sc1 (stage_fn .ex1 (stage_fn .su1 s)))).scheduling_queue = s.scheduling_queue :=
    stages_window [.su1, .ex1, .sc1, .di1] (by decide) (by decide) s
  have w5 : (stage_fn .su2 (stage_fn .di1 (stage_fn .sc1 (stage_fn .ex1 (stage_fn .su1 s))))).scheduling_queue = s.scheduling_queue.filter
      (fun p => decide (((stage_fn .di1 (stage_fn .sc1 (stage_fn .ex1 (stage_fn .su1 s)))).heap p).cycle_status_update = 0)) := by
    show (state_update_second (stage_fn .di1 (stage_fn .sc1 (stage_fn .ex1 (stage_fn .su1 s))))).scheduling_queue = _
    rw [state_update_second_queue, w4]
  have w6 : (stage_fn .ex2 (stage_fn .su2 (stage_fn .di1 (stage_fn .sc1 (stage_fn .ex1 (stage_fn .su1 s)))))).scheduling_queue = (stage_fn .su2 (stage_fn .di1 (stage_fn .sc1 (stage_fn .ex1 (stage_fn .su1 s))))).scheduling_queue :=
    stages_window [.ex2] (by decide) (by decide) (stage_fn .su2 (stage_fn .di1 (stage_fn .sc1 (stage_fn .ex1 (stage_fn .su1 s)))))
  by_cases hC1 : ∃ q ∈ s.scheduling_queue,
      (s.heap q).fired = true ∧ (s.heap q).cycle_execute = 0
  · -- a fired record is waiting for a bus: the first-half execute serves one
    obtain ⟨q, hq, q1, q2⟩ := hC1
    have S2 := execute_progress hr hr2 (stage_fn .su1 s) R1 q (by rw [w1]; exact hq)
      ((stages_fired [.su1] (by decide) (by decide) q s).trans q1)
      ((stages_cycle_execute [.su1] (by decide) (by decide) q s).trans q2)
    omega
  cases hW : s.scheduling_queue with
  | nil =>
    cases hD : s.dispatching_queue with
    | nil =>
      by_cases hrf : s.cpu.read_finished = true
      · -- nothing is left: the second-half state_update ends the run
        exfalso
        obtain ⟨a4, hc4⟩ := conserve_reach R4
        have d4 : (stage_fn .di1 (stage_fn .sc1 (stage_fn .ex1 (stage_fn .su1 s)))).dispatching_queue = s.dispatching_queue :=
          stages_dq [.su1, .ex1, .sc1, .di1] (by decide) (by decide) s
        have rf4 : (stage_fn .di1 (stage_fn .sc1 (stage_fn .ex1 (stage_fn .su1 s)))).cpu.read_finished = s.cpu.read_finished :=
          stages_read_finished [.su1, .ex1, .sc1, .di1] (by decide) s
        have hcount := hc4.count
        have hdq4 := hc4.layout.2.2.1
        have ha4 := hc4.layout.1
        rw [d4, hD] at hdq4
        have hz : (stage_fn .di1 (stage_fn .sc1 (stage_fn .ex1 (stage_fn .su1 s)))).cpu.read_cnt - a4 = 0 := by
          have := congrArg List.length hdq4
          simpa using this.symm
        rw [w4, hW] at hcount
        simp only [List.length_nil, Nat.add_zero] at hcount
        have := state_update_second_finishes (stage_fn .di1 (stage_fn .sc1 (stage_fn .ex1 (stage_fn .su1 s)))) (by rw [w4, hW]) (by rw [rf4, hrf])
          (by omega)
        exact h5 this
      · -- the trace is read, or its end is detected
        obtain ⟨a8, hl8⟩ := layout_reach R8
        have rf8 : (stage_fn .di2 (stage_fn .sc2 (stage_fn .ex2 (stage_fn .su2 (stage_fn .di1 (stage_fn .sc1 (stage_fn .ex1 (stage_fn .su1 s)))))))).cpu.read_finished = s.cpu.read_finished :=
          stages_read_finished [.su1, .ex1, .sc1, .di1, .su2, .ex2, .sc2, .di2] (by decide) s
        have S9 := fetch_progress (stage_fn .di2 (stage_fn .sc2 (stage_fn .ex2 (stage_fn .su2 (stage_fn .di1 (stage_fn .sc1 (stage_fn .ex1 (stage_fn .su1 s)))))))) a8 hl8 (by rw [rf8]; simpa using hrf)
          (by rw [f_reach R8]; exact hf)
        omega
    | cons p rest =>
      -- the window is empty: the head of the dispatch queue is reserved and moved
      obtain ⟨a7, hl7⟩ := layout_reach R7
      have d3 : (stage_fn .sc1 (stage_fn .ex1 (stage_fn .su1 s))).dispatching_queue = s.dispatching_queue :=
        stages_dq [.su1, .ex1, .sc1] (by decide) (by decide) s
      have d7 : (stage_fn .sc2 (stage_fn .ex2 (stage_fn .su2 (stage_fn .di1 (stage_fn .sc1 (stage_fn .ex1 (stage_fn .su1 s))))))).dispatching_queue = s.dispatching_queue :=
        stages_dq [.su1, .ex1, .sc1, .di1, .su2, .ex2, .sc2] (by decide) (by decide) s
      have hlim := limit_reach hk R3
      have hres4 : ((stage_fn .di1 (stage_fn .sc1 (stage_fn .ex1 (stage_fn .su1 s)))).heap p).reserved = true := by
        have := dispatch_first_reserved (stage_fn .sc1 (stage_fn .ex1 (stage_fn .su1 s))) (2 * (k0 + k1 + k2)) hlim (by omega)
          (by rw [w3, hW]; exact Nat.zero_le _) p
        have e : (stage_fn .di1 (stage_fn .sc1 (stage_fn .ex1 (stage_fn .su1 s)))).heap p = (dispatch_first (stage_fn .sc1 (stage_fn .ex1 (stage_fn .su1 s)))).heap p := rfl
        rw [e, this, w3, hW, d3, hD]
        have : p ∈ (p :: rest).take (2 * (k0 + k1 + k2) - ([] : List Nat).length) := by
          have : 2 * (k0 + k1 + k2) - ([] : List Nat).length =
              (2 * (k0 + k1 + k2) - 1) + 1 := by
            simp only [List.length_nil]
            omega
          rw [this, List.take_succ_cons]
          exact List.mem_cons_self _ _
        rw [if_pos this]
      have hres7 : ((stage_fn .sc2 (stage_fn .ex2 (stage_fn .su2 (stage_fn .di1 (stage_fn .sc1 (stage_fn .ex1 (stage_fn .su1 s))))))).heap p).reserved = true :=
        (stages_reserved [.su2, .ex2, .sc2] (by decide) (by decide) p (stage_fn .di1 (stage_fn .sc1 (stage_fn .ex1 (stage_fn .su1 s))))).trans hres4
      have S8 := move_progress (stage_fn .sc2 (stage_fn .ex2 (stage_fn .su2 (stage_fn .di1 (stage_fn .sc1 (stage_fn .ex1 (stage_fn .su1 s))))))) a7 hl7 p rest (by rw [d7, hD]) hres7
      omega
  | cons p0 rest =>
    have hp0 : p0 ∈ s.scheduling_queue := by rw [hW]; exact List.mem_cons_self _ _
    have hmin : ∀ q ∈ s.scheduling_queue, p0 ≤ q := by
      intro q hq
      have hp := hl.2.2.2.2
      rw [hW] at hp hq
      rw [List.pairwise_cons] at hp
      rcases List.mem_cons.mp hq with e | e
      · omega
      · exact Nat.le_of_lt (hp.1 q e)
    by_cases hex : (s.heap p0).executed = true
    · -- the oldest record is executed: it is stamped and retired
      obtain ⟨a4, hl4⟩ := layout_reach R4
      have su1 : ((stage_fn .su1 s).heap p0).cycle_status_update ≠ 0 := by
        rw [e1]
        exact state_update_first_hit s p0 hp0 hex hcc
      have su4 : ((stage_fn .di1 (stage_fn .sc1 (stage_fn .ex1 (stage_fn .su1 s)))).heap p0).cycle_status_update ≠ 0 := by
        intro e
        exact su1 ((stages_su_stamp [.ex1, .sc1, .di1] (by decide) (by decide) p0 (stage_fn .su1 s)).symm.trans e)
      have S5 := retire_progress (stage_fn .di1 (stage_fn .sc1 (stage_fn .ex1 (stage_fn .su1 s)))) a4 hl4 p0 (by rw [w4]; exact hp0) su4
      omega
    have hfd : (s.heap p0).fired = false := by
      by_contra hn
      have hfd : (s.heap p0).fired = true := by simpa using hn
      refine hC1 ⟨p0, hp0, hfd, ?_⟩
      by_contra hz
      exact hex (execStamp_reach h p0 hz)
    by_cases hfi : (s.heap p0).fire = true
    · -- the oldest record is eligible and every unit of its class is free
      have fd6 : ∀ q, ((stage_fn .ex2 (stage_fn .su2 (stage_fn .di1 (stage_fn .sc1 (stage_fn .ex1 (stage_fn .su1 s)))))).heap q).fired = (s.heap q).fired :=
        fun q => stages_fired [.su1, .ex1, .sc1, .di1, .su2, .ex2] (by decide) (by decide) q s
      have fd4 : ((stage_fn .di1 (stage_fn .sc1 (stage_fn .ex1 (stage_fn .su1 s)))).heap p0).fired = false :=
        (stages_fired [.su1, .ex1, .sc1, .di1] (by decide) (by decide) p0 s).trans hfd
      have su4 : ((stage_fn .di1 (stage_fn .sc1 (stage_fn .ex1 (stage_fn .su1 s)))).heap p0).cycle_status_update = 0 := by
        by_contra hn
        have h1 := (flagsOk_reach R4 p0).2 ((flagsOk_reach R4 p0).1 hn)
        rw [fd4] at h1
        cases h1
      have hin6 : p0 ∈ (stage_fn .ex2 (stage_fn .su2 (stage_fn .di1 (stage_fn .sc1 (stage_fn .ex1 (stage_fn .su1 s)))))).scheduling_queue := by
        rw [w6, w5]
        exact List.mem_filter.mpr ⟨hp0, by simpa using su4⟩
      have hsub6 : ∀ q ∈ (stage_fn .ex2 (stage_fn .su2 (stage_fn .di1 (stage_fn .sc1 (stage_fn .ex1 (stage_fn .su1 s)))))).scheduling_queue, q ∈ s.scheduling_queue := by
        intro q hq
        rw [w6, w5] at hq
        exact List.mem_of_mem_filter hq
      have fi6 : ((stage_fn .ex2 (stage_fn .su2 (stage_fn .di1 (stage_fn .sc1 (stage_fn .ex1 (stage_fn .su1 s)))))).heap p0).fire = true :=
        (stages_instLe [.su1, .ex1, .sc1, .di1, .su2, .ex2] (by decide) p0 s (hlen p0 hp0)).fire hfi
      have hzero : in_flight (stage_fn .ex2 (stage_fn .su2 (stage_fn .di1 (stage_fn .sc1 (stage_fn .ex1 (stage_fn .su1 s)))))) ((stage_fn .ex2 (stage_fn .su2 (stage_fn .di1 (stage_fn .sc1 (stage_fn .ex1 (stage_fn .su1 s)))))).heap p0).op_code = 0 := by
        unfold in_flight
        rw [List.countP_eq_zero]
        intro q hq
        have hqs := hsub6 q hq
        have hq6 := fd6 q
        by_cases hqf : (s.heap q).fired = true
        · have hce : (s.heap q).cycle_execute ≠ 0 := fun hz => hC1 ⟨q, hqs, hqf, hz⟩
          have hxe := execStamp_reach h q hce
          have hx6 : ((stage_fn .ex2 (stage_fn .su2 (stage_fn .di1 (stage_fn .sc1 (stage_fn .ex1 (stage_fn .su1 s)))))).heap q).executed = true :=
            (stages_instLe [.su1, .ex1, .sc1, .di1, .su2, .ex2] (by decide) q s (hlen q hqs)).executed hxe
          simp [flight, hx6]
        · have : ((stage_fn .ex2 (stage_fn .su2 (stage_fn .di1 (stage_fn .sc1 (stage_fn .ex1 (stage_fn .su1 s)))))).heap q).fired = false := by
            rw [hq6]
            simpa using hqf
          simp [flight, this]
      have hop : ((stage_fn .ex2 (stage_fn .su2 (stage_fn .di1 (stage_fn .sc1 (stage_fn .ex1 (stage_fn .su1 s)))))).heap p0).op_code = (s.heap p0).op_code :=
        stages_op_code [.su1, .ex1, .sc1, .di1, .su2, .ex2] (by decide) p0 s
      have hline := conserve_line hc p0 (hlt p0 hp0)
      have hwf0 := hwf _ (List.getElem?_mem hline)
      have hfu := fu_conserve_reach R6 ((stage_fn .ex2 (stage_fn .su2 (stage_fn .di1 (stage_fn .sc1 (stage_fn .ex1 (stage_fn .su1 s)))))).heap p0).op_code
      rw [hzero, Nat.add_zero] at hfu
      have hne : (stage_fn .ex2 (stage_fn .su2 (stage_fn .di1 (stage_fn .sc1 (stage_fn .ex1 (stage_fn .su1 s)))))).fu_cnt ((stage_fn .ex2 (stage_fn .su2 (stage_fn .di1 (stage_fn .sc1 (stage_fn .ex1 (stage_fn .su1 s)))))).heap p0).op_code ≠ 0 := by
        rw [hfu, hop]
        have hopc : (s.heap p0).op_code = 0 ∨ (s.heap p0).op_code = 1 ∨
            (s.heap p0).op_code = 2 := hwf0.1
        rcases hopc with e | e | e <;> rw [e] <;> simp [fu_init] <;> omega
      have S7 := fire_progress (stage_fn .ex2 (stage_fn .su2 (stage_fn .di1 (stage_fn .sc1 (stage_fn .ex1 (stage_fn .su1 s)))))) R6 p0 hin6 fi6 ((fd6 p0).trans hfd) hne
      omega
    · -- the oldest record has no pending source: it becomes eligible
      have hfi' : (s.heap p0).fire = false := by simpa using hfi
      have hline := conserve_line hc p0 (hlt p0 hp0)
      have hwf0 := hwf _ (List.getElem?_mem hline)
      have hbus := busy_zero_free _ ((busInv_reach h).free rfl)
      have ready : ∀ j : Bool, slot_ready j (s.heap p0) = true := by
        intro j
        by_contra hn
        have hpen : slot_ready j (s.heap p0) = false := by simpa using hn
        obtain ⟨o1, o2⟩ := slotOlder_reach h p0 hp0 j hpen
        have hsrc : SrcOk (slot_reg j (s.heap p0)) := by
          cases j
          · exact hwf0.2.1
          · exact hwf0.2.2.1
        have hrange : 0 ≤ slot_reg j (s.heap p0) ∧ slot_reg j (s.heap p0) < 64 :=
          hsrc.resolve_left o1
        have htag := o2 hrange.1 hrange.2
        obtain ⟨q, hq, e1, _⟩ := (tagInv_reach h).slot p0 hp0 j hpen hrange.1 hrange.2
        have hidq := hc.ids q (hlt q hq)
        have := hmin q hq
        omega
      have r0 : (s.heap p0).src_ready0 = true := ready false
      have r1 : (s.heap p0).src_ready1 = true := ready true
      obtain ⟨sl0, sl1⟩ := stages_slots [.su1, .ex1] (by decide) (by decide) (by decide) p0 s
      have S3 := sched_progress (stage_fn .ex1 (stage_fn .su1 s)) R2 p0 (by rw [w2]; exact hp0)
        ((stages_fire [.su1, .ex1] (by decide) (by decide) p0 s).trans hfi')
        (sl0.trans r0) (sl1.trans r1)
      omega


theorem flag_count_le (s : Sim) (g : proc_inst_t → Bool) :
    flag_count s g ≤ s.all_instrs.length :=
  List.countP_le_length _

/-- The progress measure of a reachable state is at most `6 * N + 1`, with `N`
the length of the trace. -/
theorem progress_bound {r k0 k1 k2 f : Nat} {trace : List trace_line} {pc : Stage} {s : Sim}
    (h : Reach (setup_proc r k0 k1 k2 f trace) pc s) :
    progress s ≤ 6 * trace.length + 1 := by
  obtain ⟨a, hc⟩ := conserve_reach h
  have hlen := layout_len hc.layout
  have ha := hc.layout.1
  have hcount := hc.count
  have hN : s.cpu.read_cnt ≤ trace.length := by
    have := congrArg List.length hc.lines
    simp only [List.length_append, List.length_map, List.length_range] at this
    omega
  have g1 := flag_count_le s (fun i => i.fire)
  have g2 := flag_count_le s (fun i => i.fired)
  have g3 := flag_count_le s (fun i => i.executed)
  unfold progress
  split_ifs <;> omega

/-- From an unfinished reachable loop head whose measure is within `n` of the
bound, `n` loop iterations suffice for `run_proc` to return. -/
theorem run_proc_fuel {r k0 k1 k2 f : Nat} {trace : List trace_line} (hr : 1 ≤ r)
    (hr2 : r < 2147483648)
    (hf : 1 ≤ f) (hk0 : 1 ≤ k0) (hk1 : 1 ≤ k1) (hk2 : 1 ≤ k2)
    (hk : k0 + k1 + k2 < 1073741824)
    (hwf : ∀ t ∈ trace, WellFormed t) (n : Nat) (s : Sim)
    (h : Reach (setup_proc r k0 k1 k2 f trace) .su1 s) (hfin : s.cpu.finished = false)
    (hn : 6 * trace.length + 2 ≤ progress s + n) :
    ∃ fin, run_proc n s = some fin ∧ fin.cpu.finished = true := by
  induction n generalizing s with
  | zero =>
    have := progress_bound h
    omega
  | succ n ih =>
    rw [run_proc_step n s hfin]
    by_cases hc : (cycle s).cpu.finished = true
    · exact ⟨cycle s, run_proc_done n _ hc, hc⟩
    · have hc' : (cycle s).cpu.finished = false := by simpa using hc
      have hreach := reach_cycle h hfin
      rw [if_neg hc] at hreach
      rcases cycle_progress hr hr2 hf hk0 hk1 hk2 hk hwf s h hfin with h1 | h1
      · exact absurd h1 hc
      · exact ih (cycle s) hreach hc' (by omega)

/-- With a window limit of 0 nothing is ever reserved: the window stays empty
and no instruction retires. -/
theorem zero_limit_reach {r k0 k1 k2 f : Nat} {trace : List trace_line} {pc : Stage}
    {s : Sim} (h0 : (setup_proc r k0 k1 k2 f trace).scheduling_queue_limit = 0)
    (h : Reach (setup_proc r k0 k1 k2 f trace) pc s) :
    s.scheduling_queue = [] ∧ s.stats.retired_instruction = 0 := by
  have key : (∃ a m, WindowInv 0 pc s a m) ∧ s.stats.retired_instruction = 0 := by
    refine Reach.induct_inv
      (fun pc s => (∃ a m, WindowInv 0 pc s a m) ∧ s.stats.retired_instruction = 0) ?_ ?_ h
    · refine ⟨⟨0, 0, layout_init r k0 k1 k2 f trace, ⟨?_, by decide, by simp [setup_proc]⟩,
        fun q _ hq => by simp [setup_proc] at hq, fun _ _ => rfl⟩, rfl⟩
      rw [h0]
      rfl
    · intro pc s _ ih
      have hstep := windowInv_step 0 pc s ih.1
      refine ⟨hstep, ?_⟩
      by_cases hpc : pc = .su2
      · subst hpc
        obtain ⟨a, m, _, ⟨_, _, hb⟩, _, _⟩ := ih.1
        obtain ⟨a2, m2, _, ⟨_, _, hb2⟩, _, _⟩ := hstep
        have := state_update_second_retired s
        have e : stage_fn .su2 s = state_update_second s := rfl
        rw [e] at hb2 ⊢
        omega
      · rw [stage_fn_retired pc hpc s]
        exact ih.2
  obtain ⟨⟨a, m, _, ⟨_, _, hb⟩, _, _⟩, hret⟩ := key
  exact ⟨List.length_eq_zero.mp (by omega), hret⟩

/-- With a window limit of 0 and a trace that is not empty the run never
finishes. -/
theorem zero_limit_unfinished {r k0 k1 k2 f : Nat} {trace : List trace_line} {pc : Stage}
    {s : Sim} (h0 : (setup_proc r k0 k1 k2 f trace).scheduling_queue_limit = 0)
    (ht : trace ≠ []) (h : Reach (setup_proc r k0 k1 k2 f trace) pc s) :
    s.cpu.finished = false := by
  by_contra hf
  have hf2 : s.cpu.finished = true := by simpa using hf
  have hcnt := (finished_all_stamped h hf2).1
  have hret := ((finished_inv _ rfl h).2 hf2).2
  have hz := (zero_limit_reach h0 h).2
  have : trace.length = 0 := by omega
  exact ht (List.length_eq_zero.mp this)

/-- With 2^31 buses `find_free_cdb` never finds one, and no fetched record is
ever executed. -/
theorem no_bus_reach {r k0 k1 k2 f : Nat} {trace : List trace_line} {pc : Stage}
    {s : Sim} (hr2 : r = 2147483648) (h : Reach (setup_proc r k0 k1 k2 f trace) pc s) :
    ∀ q, q < s.all_instrs.length → (s.heap q).executed = false := by
  refine Reach.induct_inv
    (fun _ s => ∀ q, q < s.all_instrs.length → (s.heap q).executed = false) ?_ ?_ h
  · intro q hq
    simp [setup_proc] at hq
  · intro pc s hr ih q hq
    by_cases hex : pc = .ex1
    · subst hex
      have hlen := (busInv_reach hr).len
      rw [hr2] at hlen
      have e : stage_fn .ex1 s = s :=
        execute_first_no_bus s (fun i => find_free_cdb_out_of_range i s.cdb hlen)
      rw [e] at hq ⊢
      exact ih q hq
    · by_cases hfd : pc = .fd
      · subst hfd
        by_cases hold : q < s.all_instrs.length
        · rw [stage_fn_executed .fd (by decide) s q (fun _ => hold)]
          exact ih q hold
        · have e : stage_fn .fd s = instr_fetch_and_decode s := rfl
          rw [e] at hq ⊢
          unfold instr_fetch_and_decode at hq ⊢
          split at hq
          · rename_i hrf
            rw [if_pos hrf]
            exact (fetch_loop_new s.cpu.f s q (by omega) hq).2.2.2.2.2.1
          · exact absurd hq hold
      · rw [stage_fn_all_instrs pc hfd s] at hq
        rw [stage_fn_executed pc hex s q (fun e => absurd e hfd)]
        exact ih q hq

/-- With 2^31 buses and a trace that is not empty the run never finishes. -/
theorem no_bus_unfinished {r k0 k1 k2 f : Nat} {trace : List trace_line} {pc : Stage}
    {s : Sim} (hr2 : r = 2147483648) (ht : trace ≠ [])
    (h : Reach (setup_proc r k0 k1 k2 f trace) pc s) :
    s.cpu.finished = false := by
  by_contra hf
  have hf2 : s.cpu.finished = true := by simpa using hf
  obtain ⟨hcnt, _, _, hall⟩ := finished_all_stamped h hf2
  obtain ⟨a, hl⟩ := layout_reach h
  have hpos : 0 < trace.length := List.length_pos.mpr ht
  have hsu := (hall 0 hpos).2
  have hx := (flagsOk_reach h 0).1 hsu
  rw [no_bus_reach hr2 h 0 (by rw [layout_len hl, hcnt]; exact hpos)] at hx
  cases hx

/-- Claim C10 (fails on the code outside the `int` range), in two runs that
meet every hypothesis of the claim.  With `k0 = 2^30 = 1073741824`,
`k1 = 2^30 - 1` and `k2 = 1` units, `2 * (k0 + k1 + k2) = 2^32` is stored in the
`int` `scheduling_queue_limit` as 0: the capacity computed by the first half of
`dispatch` is 0 in every cycle, no record is ever reserved and the window stays
empty.  With `r = 2^31 = 2147483648` buses, `int size = cdb.size()` is negative
and `find_free_cdb` never finds a bus, so no instruction is ever executed.  In
both runs the loop of `run_proc` never reaches `cpu.finished`. -/
theorem wrapped_limit_never_finishes :
    ((1 ≤ 1 ∧ 1 ≤ 1073741824 ∧ 1 ≤ 1073741823 ∧ 1 ≤ 2147483648) ∧
      ∀ t ∈ trace_pair, WellFormed t) ∧
    (setup_proc 1 1073741824 1073741823 1 1 trace_pair).scheduling_queue_limit = 0 ∧
    (∀ pc s, Reach (setup_proc 1 1073741824 1073741823 1 1 trace_pair) pc s →
      s.scheduling_queue = [] ∧ s.cpu.finished = false) ∧
    (∀ n, run_proc n (setup_proc 1 1073741824 1073741823 1 1 trace_pair) = none) ∧
    (∀ pc s, Reach (setup_proc 2147483648 1 1 1 1 trace_pair) pc s →
      (∀ q, q < s.all_instrs.length → (s.heap q).executed = false) ∧
      s.cpu.finished = false) ∧
    ∀ n, run_proc n (setup_proc 2147483648 1 1 1 1 trace_pair) = none := by
  have h0 : (setup_proc 1 1073741824 1073741823 1 1 trace_pair).scheduling_queue_limit = 0 := by
    decide
  have ht : trace_pair ≠ [] := by decide
  refine ⟨⟨by decide, by simp [trace_pair, WellFormed, SrcOk]⟩, h0,
    fun pc s h => ⟨(zero_limit_reach h0 h).1, zero_limit_unfinished h0 ht h⟩, ?_,
    fun pc s h => ⟨no_bus_reach rfl h, no_bus_unfinished rfl ht h⟩, ?_⟩
  · intro n
    cases hr : run_proc n (setup_proc 1 1073741824 1073741823 1 1 trace_pair) with
    | none => rfl
    | some fin =>
      have hreach := reach_run_proc n Reach.init hr
      have h1 := halt_finished hreach rfl
      rw [zero_limit_unfinished h0 ht hreach] at h1
      cases h1
  · intro n
    cases hr : run_proc n (setup_proc 2147483648 1 1 1 1 trace_pair) with
    | none => rfl
    | some fin =>
      have hreach := reach_run_proc n Reach.init hr
      have h1 := halt_finished hreach rfl
      rw [no_bus_unfinished rfl ht hreach] at h1
      cases h1

/-- Claim C10 (amended): for every finite trace whose opcode classes are in
{0, 1, 2} and whose register ids are -1 or in 0..63, and every configuration
with `1 ≤ r < 2^31 = 2147483648` result buses, fetch width at least 1, at least
one functional unit of each class and `k0 + k1 + k2 < 2^30 = 1073741824`, the
loop of `run_proc` reaches `cpu.finished`: it returns within `6 * N + 2`
iterations, `N` being the number of trace lines. -/
theorem run_proc_terminates (r k0 k1 k2 f : Nat) (trace : List trace_line) (hr : 1 ≤ r)
    (hr2 : r < 2147483648)
    (hf : 1 ≤ f) (hk0 : 1 ≤ k0) (hk1 : 1 ≤ k1) (hk2 : 1 ≤ k2)
    (hk : k0 + k1 + k2 < 1073741824)
    (hwf : ∀ t ∈ trace, WellFormed t) :
    ∃ fin, run_proc (6 * trace.length + 2) (setup_proc r k0 k1 k2 f trace) = some fin ∧
      fin.cpu.finished = true :=
  run_proc_fuel hr hr2 hf hk0 hk1 hk2 hk hwf (6 * trace.length + 2) _ Reach.init rfl
    (Nat.le_add_left _ _)

theorem run_proc_terminates_witness :
    ((1 ≤ 1 ∧ 1 < 2147483648 ∧ 1 + 1 + 1 < 1073741824) ∧ ∀ t ∈ trace3, WellFormed t) ∧
    ∃ fin, run_proc (6 * trace3.length + 2) (setup_proc 1 1 1 1 1 trace3) = some fin ∧
      fin.cpu.finished = true :=
  ⟨⟨by decide, by simp [trace3, WellFormed, SrcOk]⟩,
    run_proc_terminates 1 1 1 1 1 trace3 (Nat.le_refl 1) (by decide) (Nat.le_refl 1)
      (Nat.le_refl 1) (Nat.le_refl 1) (Nat.le_refl 1) (by decide)
      (by simp [trace3, WellFormed, SrcOk])⟩



/-- A record of the dispatch queue carries no retirement stamp. -/
theorem dq_unstamped_reach {r k0 k1 k2 f : Nat} {trace : List trace_line} {pc : Stage}
    {s : Sim} (h : Reach (setup_proc r k0 k1 k2 f trace) pc s) :
    ∀ q ∈ s.dispatching_queue, (s.heap q).cycle_status_update = 0 := by
  intro q hq
  obtain ⟨a, hl⟩ := layout_reach h
  have hall : q ∈ s.all_instrs := by
    obtain ⟨_, hall, hdq, _, _⟩ := hl
    rw [hdq, List.mem_range'_1] at hq
    rw [hall, List.mem_range]
    omega
  have hts := (tsOk_reach h).2 q hall
  have hz := dq_unscheduled_reach h q hq
  by_contra hne
  exact (hts.exec_ge (hts.retire_ge hne).1).1 hz

/-- With the containers laid out around `a`, the retired records are the
pointers below `a` that are not in the window. -/
theorem retired_records_mem {r k0 k1 k2 f : Nat} {trace : List trace_line} {pc : Stage}
    {s : Sim} (h : Reach (setup_proc r k0 k1 k2 f trace) pc s) {a : Nat}
    (hc : Conserve trace s a) (q : Nat) :
    q ∈ retired_records s ↔ q < a ∧ q ∉ s.scheduling_queue := by
  obtain ⟨ha, hall, hdq, hw, _⟩ := hc.layout
  unfold retired_records
  rw [List.mem_filter, hall, List.mem_range]
  simp only [Bool.and_eq_true, decide_eq_true_eq]
  constructor
  · rintro ⟨hq, hst, hnw⟩
    refine ⟨?_, hnw⟩
    by_contra hge
    have : q ∈ s.dispatching_queue := by
      rw [hdq, List.mem_range'_1]
      omega
    exact hst (dq_unstamped_reach h q this)
  · rintro ⟨hq, hnw⟩
    exact ⟨by omega, hc.gone q hq hnw, hnw⟩

/-- The retired records, the window and the dispatch queue together hold each
fetched pointer once. -/
theorem partition_perm {r k0 k1 k2 f : Nat} {trace : List trace_line} {pc : Stage}
    {s : Sim} (h : Reach (setup_proc r k0 k1 k2 f trace) pc s) :
    (retired_records s ++ s.scheduling_queue ++ s.dispatching_queue).Perm
      (List.range s.cpu.read_cnt) := by
  obtain ⟨a, hc⟩ := conserve_reach h
  obtain ⟨ha, hall, hdq, hw, hpw⟩ := hc.layout
  have hmem := retired_records_mem h hc
  have nd1 : (retired_records s).Nodup := by
    unfold retired_records
    rw [hall]
    exact (List.nodup_range _).filter _
  have nd2 : s.scheduling_queue.Nodup :=
    hpw.imp (fun hxy => Nat.ne_of_lt hxy)
  have nd3 : s.dispatching_queue.Nodup := by
    rw [hdq]
    exact List.nodup_range' _ _
  rw [List.perm_ext_iff_of_nodup ?_ (List.nodup_range _)]
  · intro q
    simp only [List.mem_append, List.mem_range, hmem q]
    rw [hdq, List.mem_range'_1]
    constructor
    · rintro ((⟨h1, _⟩ | h1) | h1)
      · omega
      · have := hw q h1
        omega
      · omega
    · intro hq
      by_cases h1 : q < a
      · by_cases h2 : q ∈ s.scheduling_queue
        · exact Or.inl (Or.inr h2)
        · exact Or.inl (Or.inl ⟨h1, h2⟩)
      · exact Or.inr (by omega)
  · rw [List.nodup_append]
    refine ⟨?_, nd3, ?_⟩
    · rw [List.nodup_append]
      refine ⟨nd1, nd2, ?_⟩
      intro q h1 h2
      exact ((hmem q).mp h1).2 h2
    · intro q h1 h2
      rw [hdq, List.mem_range'_1] at h2
      rcases List.mem_append.mp h1 with h3 | h3
      · have := ((hmem q).mp h3).1
        omega
      · have := hw q h3
        omega

/-- The ids of fetched pointers are the pointers plus one. -/
theorem ids_eq_succ {r k0 k1 k2 f : Nat} {trace : List trace_line} {pc : Stage}
    {s : Sim} (h : Reach (setup_proc r k0 k1 k2 f trace) pc s) (l : List Nat)
    (hl : ∀ q ∈ l, q < s.cpu.read_cnt) : ids s l = l.map (fun q => q + 1) := by
  obtain ⟨a, hc⟩ := conserve_reach h
  unfold ids
  exact List.map_congr_left (fun q hq => hc.ids q (hl q hq))

theorem range_succ_map (n : Nat) : (List.range n).map (fun q => q + 1) = List.range' 1 n := by
  rw [List.range'_eq_map_range]
  exact List.map_congr_left (fun q _ => Nat.add_comm q 1)

/-- Claim C21: instructions are conserved.  At every stage boundary `read_cnt`
equals the retired count plus the lengths of the window and of the dispatch
queue; `all_instrs` holds exactly `read_cnt` records, with the ids
`1 .. read_cnt`; the retired count is the number of retired records; every id
in `1 .. read_cnt` occurs exactly once among the retired records, the window
and the dispatch queue, and no other id occurs there; and when the run has
finished the window and the dispatch queue are empty. -/
theorem instructions_conserved (r k0 k1 k2 f : Nat) (trace : List trace_line)
    (pc : Stage) (s : Sim) (h : Reach (setup_proc r k0 k1 k2 f trace) pc s) :
    s.cpu.read_cnt = s.stats.retired_instruction + s.scheduling_queue.length +
      s.dispatching_queue.length ∧
    s.all_instrs.length = s.cpu.read_cnt ∧
    ids s s.all_instrs = List.range' 1 s.cpu.read_cnt ∧
    (retired_records s).length = s.stats.retired_instruction ∧
    (∀ n, (ids s (retired_records s)).count n + (ids s s.scheduling_queue).count n +
        (ids s s.dispatching_queue).count n =
      if 1 ≤ n ∧ n ≤ s.cpu.read_cnt then 1 else 0) ∧
    (s.cpu.finished = true → s.scheduling_queue = [] ∧ s.dispatching_queue = []) := by
  obtain ⟨a, hc⟩ := conserve_reach h
  obtain ⟨ha, hall, hdq, hw, hpw⟩ := hc.layout
  have hperm := partition_perm h
  have hlen := hperm.length_eq
  simp only [List.length_append, List.length_range] at hlen
  have hdl : s.dispatching_queue.length = s.cpu.read_cnt - a := by
    rw [hdq, List.length_range']
  have hcount := hc.count
  have hsum : s.cpu.read_cnt = s.stats.retired_instruction + s.scheduling_queue.length +
      s.dispatching_queue.length := by omega
  refine ⟨hsum, layout_len hc.layout, ?_, by omega, ?_, ?_⟩
  · rw [ids_eq_succ h _ (fun q hq => by rw [hall] at hq; exact List.mem_range.mp hq), hall,
      range_succ_map]
  · intro n
    have hlt : ∀ q ∈ retired_records s ++ s.scheduling_queue ++ s.dispatching_queue,
        q < s.cpu.read_cnt := fun q hq => List.mem_range.mp (hperm.subset hq)
    have hids : ids s (retired_records s ++ s.scheduling_queue ++ s.dispatching_queue) =
        ids s (retired_records s) ++ ids s s.scheduling_queue ++ ids s s.dispatching_queue := by
      simp [ids]
    have hp2 : (ids s (retired_records s) ++ ids s s.scheduling_queue ++
        ids s s.dispatching_queue).Perm (List.range' 1 s.cpu.read_cnt) := by
      rw [← hids, ids_eq_succ h _ hlt, ← range_succ_map]
      exact hperm.map _
    have hcnt := hp2.count_eq n
    rw [List.count_append, List.count_append] at hcnt
    rw [hcnt]
    by_cases hn : 1 ≤ n ∧ n ≤ s.cpu.read_cnt
    · rw [if_pos hn]
      exact List.count_eq_one_of_mem (List.nodup_range' _ _)
        (by rw [List.mem_range'_1]; omega)
    · rw [if_neg hn]
      exact List.count_eq_zero_of_not_mem (by rw [List.mem_range'_1]; omega)
  · intro hf
    obtain ⟨hrf, hret⟩ := (finished_inv _ rfl h).2 hf
    have h1 : s.scheduling_queue.length = 0 := by omega
    have h2 : s.dispatching_queue.length = 0 := by omega
    exact ⟨List.length_eq_zero.mp h1, List.length_eq_zero.mp h2⟩

theorem instructions_conserved_witness :
    (Reach (setup_proc 1 1 0 0 2 trace_four)
        (run_stages 58 (.su1, setup_proc 1 1 0 0 2 trace_four)).1
        (run_stages 58 (.su1, setup_proc 1 1 0 0 2 trace_four)).2 ∧
      retired_records (run_stages 58 (.su1, setup_proc 1 1 0 0 2 trace_four)).2 = [0, 1] ∧
      (run_stages 58 (.su1, setup_proc 1 1 0 0 2 trace_four)).2.scheduling_queue = [2] ∧
      (run_stages 58 (.su1, setup_proc 1 1 0 0 2 trace_four)).2.dispatching_queue = [3]) ∧
    ((run_stages 58 (.su1, setup_proc 1 1 0 0 2 trace_four)).2.cpu.read_cnt =
      (run_stages 58 (.su1, setup_proc 1 1 0 0 2 trace_four)).2.stats.retired_instruction +
        (run_stages 58 (.su1, setup_proc 1 1 0 0 2 trace_four)).2.scheduling_queue.length +
        (run_stages 58 (.su1, setup_proc 1 1 0 0 2 trace_four)).2.dispatching_queue.length ∧
    (run_stages 58 (.su1, setup_proc 1 1 0 0 2 trace_four)).2.all_instrs.length =
      (run_stages 58 (.su1, setup_proc 1 1 0 0 2 trace_four)).2.cpu.read_cnt ∧
    ids (run_stages 58 (.su1, setup_proc 1 1 0 0 2 trace_four)).2
        (run_stages 58 (.su1, setup_proc 1 1 0 0 2 trace_four)).2.all_instrs =
      List.range' 1 (run_stages 58 (.su1, setup_proc 1 1 0 0 2 trace_four)).2.cpu.read_cnt ∧
    (retired_records (run_stages 58 (.su1, setup_proc 1 1 0 0 2 trace_four)).2).length =
      (run_stages 58 (.su1, setup_proc 1 1 0 0 2 trace_four)).2.stats.retired_instruction ∧
    (∀ n, (ids (run_stages 58 (.su1, setup_proc 1 1 0 0 2 trace_four)).2
          (retired_records (run_stages 58 (.su1, setup_proc 1 1 0 0 2 trace_four)).2)).count n +
        (ids (run_stages 58 (.su1, setup_proc 1 1 0 0 2 trace_four)).2
          (run_stages 58 (.su1, setup_proc 1 1 0 0 2 trace_four)).2.scheduling_queue).count n +
        (ids (run_stages 58 (.su1, setup_proc 1 1 0 0 2 trace_four)).2
          (run_stages 58 (.su1, setup_proc 1 1 0 0 2 trace_four)).2.dispatching_queue).count n =
      if 1 ≤ n ∧ n ≤ (run_stages 58 (.su1, setup_proc 1 1 0 0 2 trace_four)).2.cpu.read_cnt
      then 1 else 0) ∧
    ((run_stages 58 (.su1, setup_proc 1 1 0 0 2 trace_four)).2.cpu.finished = true →
      (run_stages 58 (.su1, setup_proc 1 1 0 0 2 trace_four)).2.scheduling_queue = [] ∧
      (run_stages 58 (.su1, setup_proc 1 1 0 0 2 trace_four)).2.dispatching_queue = [])) :=
  ⟨⟨reach_run_stages 58 Reach.init, by decide, by decide, by decide⟩,
    instructions_conserved 1 1 0 0 2 trace_four _ _ (reach_run_stages 58 Reach.init)⟩



/-- With at least as many iterations as buses, the loop of `find_free_cdb`
fails only when every bus is busy. -/
theorem find_free_cdb_loop_none (i : proc_inst_t) (cdb : List proc_cdb_t) (n : Nat)
    (hn : cdb.length ≤ n) (h : find_free_cdb_loop i cdb n = none) :
    busy cdb = cdb.length := by
  induction cdb generalizing n with
  | nil => rfl
  | cons c rest ih =>
    have hn0 : n ≠ 0 := by
      simp only [List.length_cons] at hn
      omega
    unfold find_free_cdb_loop at h
    rw [if_neg hn0] at h
    by_cases hc : c.free = true
    · rw [if_pos hc] at h
      cases h
    · rw [if_neg hc] at h
      have hr : find_free_cdb_loop i rest (n - 1) = none := by
        cases hx : find_free_cdb_loop i rest (n - 1) with
        | none => rfl
        | some l => rw [hx] at h; cases h
      have hcf : c.free = false := by simpa using hc
      have := ih (n - 1) (by simp only [List.length_cons] at hn; omega) hr
      simp only [busy] at this ⊢
      rw [List.countP_cons, this]
      simp [hcf]

theorem find_free_cdb_none (i : proc_inst_t) (cdb : List proc_cdb_t)
    (hlen : cdb.length < 2147483648)
    (h : find_free_cdb i cdb = none) : busy cdb = cdb.length := by
  unfold find_free_cdb at h
  rw [to_int_length cdb hlen] at h
  exact find_free_cdb_loop_none i cdb _ (Nat.le_refl _) h

theorem take_min_length {α : Type} (l : List α) (r : Nat) :
    l.take (min r l.length) = l.take r := by
  rcases Nat.le_total r l.length with h | h
  · rw [Nat.min_eq_left h]
  · rw [Nat.min_eq_right h, List.take_length, List.take_of_length_le h]

/-- The first-half `execute` loop over a duplicate-free list, with fewer than
2^31 buses of which `k` are free: the first `k` records of the list that are
fired and carry no execute stamp are stamped and marked executed; no other
record changes. -/
theorem execute_first_fold (l : List Nat) (hnd : l.Nodup) (st : Sim)
    (hlen : st.cdb.length < 2147483648) (q : Nat) :
    (l.foldl execute_first_body st).heap q =
      if q ∈ (l.filter (fun p => decide ((st.heap p).fired = true ∧
          (st.heap p).cycle_execute = 0))).take (st.cdb.length - busy st.cdb)
      then { st.heap q with cycle_execute := st.stats.cycle_count, executed := true }
      else st.heap q := by
  induction l generalizing st with
  | nil => simp
  | cons p t ih =>
    rw [List.nodup_cons] at hnd
    simp only [List.foldl_cons]
    by_cases hc : (st.heap p).fired = true ∧ (st.heap p).cycle_execute = 0
    · cases hfc : find_free_cdb (st.heap p) st.cdb with
      | none =>
        have hb : (execute_first_body st p) = st := by
          unfold execute_first_body
          rw [if_pos hc, hfc]
        have hz : st.cdb.length - busy st.cdb = 0 := by
          rw [find_free_cdb_none _ _ hlen hfc]
          exact Nat.sub_self _
        rw [hb, ih hnd.2 st hlen, hz]
        simp
      | some cdb1 =>
        obtain ⟨hlen2, hbusy⟩ := find_free_cdb_some _ _ _ hfc
        have hble := busy_le_length cdb1
        have hheap : ∀ x, (execute_first_body st p).heap x =
            if x = p then
              { st.heap p with cycle_execute := st.stats.cycle_count, executed := true }
            else st.heap x := by
          intro x
          unfold execute_first_body
          rw [if_pos hc, hfc]
        have hcdb : (execute_first_body st p).cdb = cdb1 := by
          unfold execute_first_body
          rw [if_pos hc, hfc]
        have hstats : (execute_first_body st p).stats = st.stats := by
          unfold execute_first_body
          rw [if_pos hc, hfc]
        have hfil : t.filter (fun x => decide (((execute_first_body st p).heap x).fired = true ∧
            ((execute_first_body st p).heap x).cycle_execute = 0)) =
            t.filter (fun x => decide ((st.heap x).fired = true ∧
              (st.heap x).cycle_execute = 0)) := by
          refine List.filter_congr (fun x hx => ?_)
          have hxp : x ≠ p := fun e => hnd.1 (e ▸ hx)
          rw [hheap x, if_neg hxp]
        have hk : st.cdb.length - busy st.cdb = (cdb1.length - busy cdb1) + 1 := by omega
        rw [ih hnd.2 (execute_first_body st p) (by rw [hcdb, hlen2]; exact hlen), hfil, hcdb,
          hstats, hk,
          List.filter_cons_of_pos (by simpa using hc), List.take_succ_cons, hheap q]
        by_cases hqp : q = p
        · subst hqp
          have hnot : q ∉ (t.filter (fun x => decide ((st.heap x).fired = true ∧
              (st.heap x).cycle_execute = 0))).take (cdb1.length - busy cdb1) :=
            fun hm => hnd.1 (List.mem_of_mem_filter (List.mem_of_mem_take hm))
          rw [if_neg hnot, if_pos rfl, if_pos (List.mem_cons_self _ _)]
        · rw [if_neg hqp]
          simp only [List.mem_cons, hqp, false_or]
    · have hb : (execute_first_body st p) = st := by
        unfold execute_first_body
        rw [if_neg hc]
      rw [hb, ih hnd.2 st hlen, List.filter_cons_of_neg (by simpa using hc)]

/-- On the window of a reachable state the test of the first-half `execute`,
fired and without execute stamp, selects the records that wait for a bus. -/
theorem bus_waiting_eq {r k0 k1 k2 f : Nat} {trace : List trace_line} {pc : Stage}
    {s : Sim} (h : Reach (setup_proc r k0 k1 k2 f trace) pc s) :
    s.scheduling_queue.filter (fun p => decide ((s.heap p).fired = true ∧
      (s.heap p).cycle_execute = 0)) = bus_waiting s := by
  obtain ⟨a, hl⟩ := layout_reach h
  unfold bus_waiting
  refine List.filter_congr (fun p hp => ?_)
  have hall : p ∈ s.all_instrs := by
    rw [hl.2.1, List.mem_range]
    have := hl.2.2.2.1 p hp
    have := hl.1
    omega
  have hts := (tsOk_reach h).2 p hall
  have hx := execStamp_reach h p
  cases hfd : (s.heap p).fired <;> cases hex : (s.heap p).executed
  · simp
  · simp
  · have : (s.heap p).cycle_execute = 0 := by
      by_contra hne
      rw [hx hne] at hex
      cases hex
    simp [this]
  · have := hts.executed_stamp hex
    simp [this]

/-- The window is ordered by strictly increasing id. -/
theorem window_ids_sorted {r k0 k1 k2 f : Nat} {trace : List trace_line} {pc : Stage}
    {s : Sim} (h : Reach (setup_proc r k0 k1 k2 f trace) pc s) :
    (ids s s.scheduling_queue).Pairwise (fun x y => x < y) := by
  obtain ⟨a, hc⟩ := conserve_reach h
  obtain ⟨ha, _, _, hw, hpw⟩ := hc.layout
  unfold ids
  rw [List.pairwise_map]
  refine hpw.imp_of_mem ?_
  intro x y hx hy hxy
  rw [hc.ids x (by have := hw x hx; omega), hc.ids y (by have := hw y hy; omega)]
  omega

/-- Claim C22 (amended): result buses are granted oldest first, for fewer than
`2^31 = 2147483648` buses.  In every reachable state the window is ordered by
strictly increasing instruction id.  In the first-half `execute` of any cycle,
with `r < 2^31` buses and `m` windowed records that are fired and not yet
executed, the records whose executed flag the stage raises are exactly the
first `min r m` of those records in window order; each of them is stamped with
the current cycle, and each has a lower id than every waiting record that is
passed over. -/
theorem buses_granted_oldest_first (r k0 k1 k2 f : Nat) (trace : List trace_line)
    (hr2 : r < 2147483648)
    (pc : Stage) (s : Sim) (h : Reach (setup_proc r k0 k1 k2 f trace) pc s) :
    (ids s s.scheduling_queue).Pairwise (fun x y => x < y) ∧
    (pc = .ex1 →
      ((bus_waiting s).take (min r (bus_waiting s).length)).length =
        min r (bus_waiting s).length ∧
      (∀ q, (((execute_first s).heap q).executed = true ∧ (s.heap q).executed = false) ↔
        q ∈ (bus_waiting s).take (min r (bus_waiting s).length)) ∧
      (∀ q ∈ (bus_waiting s).take (min r (bus_waiting s).length),
        ((execute_first s).heap q).cycle_execute = s.stats.cycle_count) ∧
      (∀ p ∈ (bus_waiting s).take (min r (bus_waiting s).length), ∀ q ∈ bus_waiting s,
        q ∉ (bus_waiting s).take (min r (bus_waiting s).length) →
        (s.heap p).id < (s.heap q).id)) := by
  refine ⟨window_ids_sorted h, ?_⟩
  intro hpc
  subst hpc
  obtain ⟨a, hc⟩ := conserve_reach h
  obtain ⟨ha, _, _, hw, hpw⟩ := hc.layout
  have hbus := busInv_reach h
  have hnd : s.scheduling_queue.Nodup := hpw.imp (fun hxy => Nat.ne_of_lt hxy)
  have hfold : ∀ q, (execute_first s).heap q =
      if q ∈ (bus_waiting s).take (min r (bus_waiting s).length)
      then { s.heap q with cycle_execute := s.stats.cycle_count, executed := true }
      else s.heap q := by
    intro q
    have := execute_first_fold s.scheduling_queue hnd s (by rw [hbus.len]; exact hr2) q
    rw [bus_waiting_eq h, hbus.len, hbus.free rfl, Nat.sub_zero] at this
    rw [take_min_length]
    exact this
  have hsorted : (bus_waiting s).Pairwise (fun x y => x < y) :=
    hpw.sublist (List.filter_sublist _)
  have hwait : ∀ q ∈ bus_waiting s, q ∈ s.scheduling_queue ∧ (s.heap q).executed = false := by
    intro q hq
    unfold bus_waiting at hq
    rw [List.mem_filter] at hq
    refine ⟨hq.1, ?_⟩
    have := hq.2
    simp only [Bool.and_eq_true, Bool.not_eq_true'] at this
    exact this.2
  refine ⟨?_, ?_, ?_, ?_⟩
  · rw [List.length_take]
    exact Nat.min_eq_left (Nat.min_le_right _ _)
  · intro q
    rw [hfold q]
    by_cases hq : q ∈ (bus_waiting s).take (min r (bus_waiting s).length)
    · rw [if_pos hq]
      exact ⟨fun _ => hq, fun _ => ⟨rfl, (hwait q (List.mem_of_mem_take hq)).2⟩⟩
    · rw [if_neg hq]
      constructor
      · rintro ⟨h1, h2⟩
        rw [h1] at h2
        cases h2
      · intro h1
        exact absurd h1 hq
  · intro q hq
    rw [hfold q, if_pos hq]
  · intro p hp q hq hnq
    have hsplit := List.take_append_drop (min r (bus_waiting s).length) (bus_waiting s)
    have hqd : q ∈ (bus_waiting s).drop (min r (bus_waiting s).length) := by
      rw [← hsplit] at hq
      rcases List.mem_append.mp hq with h1 | h1
      · exact absurd h1 hnq
      · exact h1
    rw [← hsplit, List.pairwise_append] at hsorted
    have hlt := hsorted.2.2 p hp q hqd
    have hpw1 := hw p (hwait p (List.mem_of_mem_take hp)).1
    have hqw1 := hw q (hwait q (List.mem_of_mem_drop hqd)).1
    rw [hc.ids p (by omega), hc.ids q (by omega)]
    omega

theorem buses_granted_oldest_first_witness :
    (Reach (setup_proc 1 1 1 0 2 trace_nodest)
        (run_stages 31 (.su1, setup_proc 1 1 1 0 2 trace_nodest)).1
        (run_stages 31 (.su1, setup_proc 1 1 1 0 2 trace_nodest)).2 ∧
      (1 : Nat) < 2147483648 ∧
      (run_stages 31 (.su1, setup_proc 1 1 1 0 2 trace_nodest)).1 = .ex1 ∧
      bus_waiting (run_stages 31 (.su1, setup_proc 1 1 1 0 2 trace_nodest)).2 = [0, 1] ∧
      ((execute_first (run_stages 31 (.su1, setup_proc 1 1 1 0 2 trace_nodest)).2).heap 0).executed
        = true ∧
      ((execute_first (run_stages 31 (.su1, setup_proc 1 1 1 0 2 trace_nodest)).2).heap 1).executed
        = false) ∧
    ((ids (run_stages 31 (.su1, setup_proc 1 1 1 0 2 trace_nodest)).2
        (run_stages 31 (.su1, setup_proc 1 1 1 0 2 trace_nodest)).2.scheduling_queue).Pairwise
        (fun x y => x < y) ∧
    ((run_stages 31 (.su1, setup_proc 1 1 1 0 2 trace_nodest)).1 = .ex1 →
      ((bus_waiting (run_stages 31 (.su1, setup_proc 1 1 1 0 2 trace_nodest)).2).take
        (min 1 (bus_waiting (run_stages 31 (.su1, setup_proc 1 1 1 0 2 trace_nodest)).2).length)).length =
        min 1 (bus_waiting (run_stages 31 (.su1, setup_proc 1 1 1 0 2 trace_nodest)).2).length ∧
      (∀ q, (((execute_first (run_stages 31 (.su1, setup_proc 1 1 1 0 2 trace_nodest)).2).heap q).executed
            = true ∧
          ((run_stages 31 (.su1, setup_proc 1 1 1 0 2 trace_nodest)).2.heap q).executed = false) ↔
        q ∈ (bus_waiting (run_stages 31 (.su1, setup_proc 1 1 1 0 2 trace_nodest)).2).take
          (min 1 (bus_waiting (run_stages 31 (.su1, setup_proc 1 1 1 0 2 trace_nodest)).2).length)) ∧
      (∀ q ∈ (bus_waiting (run_stages 31 (.su1, setup_proc 1 1 1 0 2 trace_nodest)).2).take
          (min 1 (bus_waiting (run_stages 31 (.su1, setup_proc 1 1 1 0 2 trace_nodest)).2).length),
        ((execute_first (run_stages 31 (.su1, setup_proc 1 1 1 0 2 trace_nodest)).2).heap q).cycle_execute
          = (run_stages 31 (.su1, setup_proc 1 1 1 0 2 trace_nodest)).2.stats.cycle_count) ∧
      (∀ p ∈ (bus_waiting (run_stages 31 (.su1, setup_proc 1 1 1 0 2 trace_nodest)).2).take
          (min 1 (bus_waiting (run_stages 31 (.su1, setup_proc 1 1 1 0 2 trace_nodest)).2).length),
        ∀ q ∈ bus_waiting (run_stages 31 (.su1, setup_proc 1 1 1 0 2 trace_nodest)).2,
        q ∉ (bus_waiting (run_stages 31 (.su1, setup_proc 1 1 1 0 2 trace_nodest)).2).take
          (min 1 (bus_waiting (run_stages 31 (.su1, setup_proc 1 1 1 0 2 trace_nodest)).2).length) →
        ((run_stages 31 (.su1, setup_proc 1 1 1 0 2 trace_nodest)).2.heap p).id <
          ((run_stages 31 (.su1, setup_proc 1 1 1 0 2 trace_nodest)).2.heap q).id))) :=
  ⟨⟨reach_run_stages 31 Reach.init, by decide, by decide, by decide, by decide, by decide⟩,
    buses_granted_oldest_first 1 1 1 0 2 trace_nodest (by decide) _ _
      (reach_run_stages 31 Reach.init)⟩

/-! ### Runs whose buses are out of the reach of `find_free_cdb`

When `int size = cdb.size()` is not positive, `find_free_cdb` has no
iteration and no bus is ever claimed.  Such a run goes through the same states
as the run without any bus, apart from the content of `cdb`. -/

theorem foldl_with_cdb {α : Type} (C : List proc_cdb_t) (body : Sim → α → Sim)
    (hb : ∀ st p, body (with_cdb st C) p = with_cdb (body st p) C) (l : List α) (s : Sim) :
    l.foldl body (with_cdb s C) = with_cdb (l.foldl body s) C := by
  induction l generalizing s with
  | nil => rfl
  | cons p rest ih =>
    simp only [List.foldl_cons]
    rw [hb, ih]

theorem state_update_first_with_cdb (C : List proc_cdb_t) (s : Sim) :
    state_update_first (with_cdb s C) = with_cdb (state_update_first s) C := by
  unfold state_update_first
  refine foldl_with_cdb C _ (fun st p => ?_) s.scheduling_queue s
  unfold state_update_first_body
  by_cases h : (st.heap p).executed = true ∧ (st.heap p).cycle_status_update = 0
  · have h2 : ((with_cdb st C).heap p).executed = true ∧
        ((with_cdb st C).heap p).cycle_status_update = 0 := h
    rw [if_pos h, if_pos h2]
    rfl
  · have h2 : ¬ (((with_cdb st C).heap p).executed = true ∧
        ((with_cdb st C).heap p).cycle_status_update = 0) := h
    rw [if_neg h, if_neg h2]

theorem schedule_first_with_cdb (C : List proc_cdb_t) (s : Sim) :
    schedule_first (with_cdb s C) = with_cdb (schedule_first s) C := by
  unfold schedule_first
  exact foldl_with_cdb C _ (fun st p => rfl) s.scheduling_queue s

theorem schedule_second_with_cdb (C : List proc_cdb_t) (s : Sim) :
    schedule_second (with_cdb s C) = with_cdb (schedule_second s) C := by
  unfold schedule_second
  refine foldl_with_cdb C _ (fun st p => ?_) s.scheduling_queue s
  unfold schedule_second_body
  by_cases h : (st.heap p).fire = true ∧ (st.heap p).fired = false
  · have h2 : ((with_cdb st C).heap p).fire = true ∧ ((with_cdb st C).heap p).fired = false := h
    rw [if_pos h, if_pos h2]
    by_cases hz : st.fu_cnt (st.heap p).op_code = 0
    · have hz2 : (with_cdb st C).fu_cnt ((with_cdb st C).heap p).op_code = 0 := hz
      rw [if_pos hz, if_pos hz2]
    · have hz2 : ¬ (with_cdb st C).fu_cnt ((with_cdb st C).heap p).op_code = 0 := hz
      rw [if_neg hz, if_neg hz2]
      rfl
  · have h2 : ¬ (((with_cdb st C).heap p).fire = true ∧
        ((with_cdb st C).heap p).fired = false) := h
    rw [if_neg h, if_neg h2]

theorem reserve_fold_with_cdb (C : List proc_cdb_t) (l : List Nat) (s : Sim) (av : Int) :
    l.foldl reserve_body (with_cdb s C, av) =
      (with_cdb (l.foldl reserve_body (s, av)).1 C, (l.foldl reserve_body (s, av)).2) := by
  induction l generalizing s av with
  | nil => rfl
  | cons p rest ih =>
    simp only [List.foldl_cons]
    by_cases h0 : av = 0
    · have e1 : reserve_body (with_cdb s C, av) p = (with_cdb s C, av) := by
        simp [reserve_body, h0]
      have e2 : reserve_body (s, av) p = (s, av) := by simp [reserve_body, h0]
      rw [e1, e2, ih]
    · have e1 : reserve_body (with_cdb s C, av) p =
          (with_cdb (s.setInst p { s.heap p with reserved := true }) C, av - 1) := by
        simp only [reserve_body, ne_eq, h0, not_false_eq_true, if_true]
        rfl
      have e2 : reserve_body (s, av) p =
          (s.setInst p { s.heap p with reserved := true }, av - 1) := by
        simp [reserve_body, h0]
      rw [e1, e2, ih]

theorem dispatch_first_with_cdb (C : List proc_cdb_t) (s : Sim) :
    dispatch_first (with_cdb s C) = with_cdb (dispatch_first s) C := by
  unfold dispatch_first
  simp only []
  exact congrArg Prod.fst (reserve_fold_with_cdb C s.dispatching_queue
    { s with stats :=
        { s.stats with
          max_disp_size :=
            if s.stats.max_disp_size < s.dispatching_queue.length then s.dispatching_queue.length
            else s.stats.max_disp_size
          sum_disp_size := s.stats.sum_disp_size + s.dispatching_queue.length } }
    (to_int ((s.scheduling_queue_limit - (s.scheduling_queue.length : Int)) %
      18446744073709551616).toNat))

theorem state_update_second_with_cdb (C : List proc_cdb_t) (s : Sim) :
    state_update_second (with_cdb s C) = with_cdb (state_update_second s) C := by
  unfold state_update_second
  simp only []
  by_cases h : s.cpu.read_finished = true ∧
      (sweep s.heap s.scheduling_queue s.stats.retired_instruction).2 = s.cpu.read_cnt
  · have h2 : (with_cdb s C).cpu.read_finished = true ∧
        (sweep (with_cdb s C).heap (with_cdb s C).scheduling_queue
          (with_cdb s C).stats.retired_instruction).2 = (with_cdb s C).cpu.read_cnt := h
    rw [if_pos h, if_pos h2]
    rfl
  · have h2 : ¬ ((with_cdb s C).cpu.read_finished = true ∧
        (sweep (with_cdb s C).heap (with_cdb s C).scheduling_queue
          (with_cdb s C).stats.retired_instruction).2 = (with_cdb s C).cpu.read_cnt) := h
    rw [if_neg h, if_neg h2]
    rfl

theorem drain_with_cdb (C : List proc_cdb_t) (l : List Nat) (s : Sim) :
    drain (with_cdb s C) l = with_cdb (drain s l) C := by
  induction l generalizing s with
  | nil => rfl
  | cons p rest ih =>
    unfold drain
    by_cases hr : (s.heap p).reserved = false
    · have hr2 : ((with_cdb s C).heap p).reserved = false := hr
      rw [if_pos hr, if_pos hr2]
      rfl
    · have hr2 : ¬ ((with_cdb s C).heap p).reserved = false := hr
      rw [if_neg hr, if_neg hr2]
      exact ih (dispatch_one s p)

theorem fetch_loop_with_cdb (C : List proc_cdb_t) (n : Nat) (s : Sim) :
    fetch_loop n (with_cdb s C) = with_cdb (fetch_loop n s) C := by
  induction n generalizing s with
  | zero => rfl
  | succ n ih =>
    unfold fetch_loop
    cases ht : s.trace with
    | nil =>
      have ht2 : (with_cdb s C).trace = [] := ht
      rw [ht2]
      rfl
    | cons t rest =>
      have ht2 : (with_cdb s C).trace = t :: rest := ht
      rw [ht2]
      exact ih (fetch_one s t rest)

theorem instr_fetch_and_decode_with_cdb (C : List proc_cdb_t) (s : Sim) :
    instr_fetch_and_decode (with_cdb s C) = with_cdb (instr_fetch_and_decode s) C := by
  unfold instr_fetch_and_decode
  by_cases h : s.cpu.read_finished = false
  · have h2 : (with_cdb s C).cpu.read_finished = false := h
    rw [if_pos h, if_pos h2]
    exact fetch_loop_with_cdb C _ s
  · have h2 : ¬ (with_cdb s C).cpu.read_finished = false := h
    rw [if_neg h, if_neg h2]

/-- The second-half `execute` changes nothing when every bus is free. -/
theorem execute_second_all_free (s : Sim) (h : ∀ c ∈ s.cdb, c.free = true) :
    execute_second s = s := by
  have h1 : update_instruction_from_cdb s = s := by
    unfold update_instruction_from_cdb
    refine foldl_inv (fun st => st = s) broadcast s.cdb ?_ s rfl
    intro st c hc hst
    subst hst
    unfold broadcast
    rw [if_neg (by rw [h c hc]; decide)]
  have h2 : free_cdb s.cdb = s.cdb := by
    unfold free_cdb
    conv_rhs => rw [← List.map_id s.cdb]
    refine List.map_congr_left (fun c hc => ?_)
    rw [if_neg (by rw [h c hc]; decide)]
    rfl
  unfold execute_second
  simp only [h1, h2]

/-- One stage of a run with 2^31 free buses, against the same stage of the
run without buses. -/
theorem stage_fn_with_cdb (C : List proc_cdb_t) (hlen : C.length = 2147483648)
    (hfree : ∀ c ∈ C, c.free = true) (pc : Stage) (s : Sim) (hs : s.cdb = []) :
    stage_fn pc (with_cdb s C) = with_cdb (stage_fn pc s) C ∧ (stage_fn pc s).cdb = [] ∧
    next_stage pc (with_cdb s C) = next_stage pc s := by
  have hes : ∀ c ∈ s.cdb, c.free = true := by
    rw [hs]
    intro c hc
    cases hc
  have hno : ∀ i, find_free_cdb i s.cdb = none := by
    intro i
    rw [hs]
    rfl
  cases pc
  case su1 =>
    refine ⟨?_, ?_, rfl⟩
    · simp only [stage_fn]
      by_cases hf : s.cpu.finished = true
      · have hf2 : (with_cdb s C).cpu.finished = true := hf
        rw [if_pos hf, if_pos hf2]
      · have hf2 : ¬ (with_cdb s C).cpu.finished = true := hf
        rw [if_neg hf, if_neg hf2]
        exact state_update_first_with_cdb C s
    · simp only [stage_fn]
      split
      · exact hs
      · rw [state_update_first_cdb]
        exact hs
  case ex1 =>
    have e1 : stage_fn .ex1 (with_cdb s C) = with_cdb s C :=
      execute_first_no_bus _ (fun i => find_free_cdb_out_of_range i C hlen)
    have e2 : stage_fn .ex1 s = s := execute_first_no_bus s hno
    exact ⟨by rw [e1, e2], by rw [e2]; exact hs, rfl⟩
  case sc1 =>
    exact ⟨schedule_first_with_cdb C s, by simp only [stage_fn, schedule_first_cdb]; exact hs,
      rfl⟩
  case di1 =>
    exact ⟨dispatch_first_with_cdb C s, by simp only [stage_fn, dispatch_first_cdb]; exact hs,
      rfl⟩
  case su2 =>
    refine ⟨state_update_second_with_cdb C s,
      by simp only [stage_fn, state_update_second_cdb]; exact hs, ?_⟩
    simp only [next_stage]
    rw [state_update_second_with_cdb]
    rfl
  case ex2 =>
    have e1 : stage_fn .ex2 (with_cdb s C) = with_cdb s C :=
      execute_second_all_free _ hfree
    have e2 : stage_fn .ex2 s = s := execute_second_all_free s hes
    exact ⟨by rw [e1, e2], by rw [e2]; exact hs, rfl⟩
  case sc2 =>
    exact ⟨schedule_second_with_cdb C s,
      by simp only [stage_fn, schedule_second_cdb]; exact hs, rfl⟩
  case di2 =>
    exact ⟨drain_with_cdb C s.dispatching_queue s,
      by simp only [stage_fn, dispatch_second_cdb]; exact hs, rfl⟩
  case fd =>
    exact ⟨instr_fetch_and_decode_with_cdb C s,
      by simp only [stage_fn, instr_fetch_and_decode_cdb]; exact hs, rfl⟩
  case inc => exact ⟨rfl, hs, rfl⟩
  case halt => exact ⟨rfl, hs, rfl⟩

/-- The run with 2^31 free buses goes through the states of the run without
buses, apart from the content of `cdb`. -/
theorem run_stages_with_cdb (C : List proc_cdb_t) (hlen : C.length = 2147483648)
    (hfree : ∀ c ∈ C, c.free = true) (n : Nat) (pc : Stage) (s : Sim) (hs : s.cdb = []) :
    run_stages n (pc, with_cdb s C) =
      ((run_stages n (pc, s)).1, with_cdb (run_stages n (pc, s)).2 C) := by
  induction n generalizing pc s with
  | zero => rfl
  | succ n ih =>
    obtain ⟨h1, h2, h3⟩ := stage_fn_with_cdb C hlen hfree pc s hs
    simp only [run_stages]
    rw [h1, h3]
    exact ih _ _ h2

/-- Claim C22 (fails on the code outside the `int` range): with
`r = 2^31 = 2147483648` buses, `int size = cdb.size()` is negative and the loop
of `find_free_cdb` has no iteration.  At the first-half `execute` of cycle 4
(31 stage transitions from `setup_proc`, one unit for each of the classes 0
and 1, fetch width 2, trace `trace_nodest`) the window holds two fired,
not-yet-executed instructions, so `m = 2` and `min r m = 2`; the stage stamps
none of them and changes nothing. -/
theorem no_bus_beyond_int_range :
    (run_stages 31 (.su1, setup_proc 2147483648 1 1 0 2 trace_nodest)).1 = .ex1 ∧
    (run_stages 31 (.su1, setup_proc 2147483648 1 1 0 2 trace_nodest)).2.cdb.length =
      2147483648 ∧
    bus_waiting (run_stages 31 (.su1, setup_proc 2147483648 1 1 0 2 trace_nodest)).2 = [0, 1] ∧
    min 2147483648
      (bus_waiting (run_stages 31 (.su1, setup_proc 2147483648 1 1 0 2 trace_nodest)).2).length
      = 2 ∧
    execute_first (run_stages 31 (.su1, setup_proc 2147483648 1 1 0 2 trace_nodest)).2 =
      (run_stages 31 (.su1, setup_proc 2147483648 1 1 0 2 trace_nodest)).2 ∧
    ¬ (((execute_first
        (run_stages 31 (.su1, setup_proc 2147483648 1 1 0 2 trace_nodest)).2).heap 0).executed
      = true) := by
  have hlen : (List.replicate 2147483648
      ({ free := true, reg := 0, tag := 0 } : proc_cdb_t)).length = 2147483648 :=
    List.length_replicate _ _
  have hfree : ∀ c ∈ List.replicate 2147483648
      ({ free := true, reg := 0, tag := 0 } : proc_cdb_t), c.free = true := by
    intro c hc
    rw [List.eq_of_mem_replicate hc]
  have hsim := run_stages_with_cdb _ hlen hfree 31 .su1 (setup_proc 0 1 1 0 2 trace_nodest) rfl
  have hinit : with_cdb (setup_proc 0 1 1 0 2 trace_nodest)
      (List.replicate 2147483648 { free := true, reg := 0, tag := 0 }) =
      setup_proc 2147483648 1 1 0 2 trace_nodest := rfl
  rw [hinit] at hsim
  have hpc : (run_stages 31 (.su1, setup_proc 0 1 1 0 2 trace_nodest)).1 = .ex1 := by decide
  have hwait : bus_waiting (run_stages 31 (.su1, setup_proc 0 1 1 0 2 trace_nodest)).2 =
      [0, 1] := by decide
  have hex : ((run_stages 31 (.su1, setup_proc 0 1 1 0 2 trace_nodest)).2.heap 0).executed =
      false := by decide
  have hstay : execute_first
      (run_stages 31 (.su1, setup_proc 2147483648 1 1 0 2 trace_nodest)).2 =
      (run_stages 31 (.su1, setup_proc 2147483648 1 1 0 2 trace_nodest)).2 := by
    refine execute_first_no_bus _ (fun i => find_free_cdb_out_of_range i _ ?_)
    rw [hsim]
    exact hlen
  rw [hstay, hsim]
  refine ⟨hpc, hlen, hwait, ?_, rfl, ?_⟩
  · have e : bus_waiting (with_cdb (run_stages 31 (.su1, setup_proc 0 1 1 0 2 trace_nodest)).2
        (List.replicate 2147483648 { free := true, reg := 0, tag := 0 })) = [0, 1] := hwait
    rw [e]
    decide
  · have e : ((with_cdb (run_stages 31 (.su1, setup_proc 0 1 1 0 2 trace_nodest)).2
        (List.replicate 2147483648 { free := true, reg := 0, tag := 0 })).heap 0).executed =
        false := hex
    rw [e]
    decide


end Procsim
